import Mathlib

/-!
# Corlib: I/O manager, timer set, fd table and hooked calls

A shallow embedding of `src/corlib/ioscheduler.cpp`, `src/corlib/timer.cpp`,
`src/corlib/scheduler.cpp` (`stopping`, the task scan of `run`),
`src/corlib/fd_manager.cpp` and `src/corlib/hook.cpp` (`fcntl`, `do_io`,
`connect_with_timeout`, `sleep`, `usleep`, `nanosleep`).

Conventions of the embedding:

* a member function becomes a function from the state before the call (and its
  arguments) to `Option (result × state after the call)`; `none` is an aborted
  run (a failed `assert`, a null dereference or an out-of-bounds index);
* the outcome of each `epoll_ctl` call is an argument `ok : Bool`;
* callables, coroutines and schedulers are opaque identifiers (`Nat`), a null
  `std::function` / `shared_ptr` / pointer is `none`;
* the locks are not modelled: every member function runs atomically;
* objects behind a `shared_ptr` (`Timer`, `FdCtx`, `timer_info`) live in a list
  and the pointer is the index;
* what the kernel and the original functions answer is an argument of the call
  (`Probe`, `RawResult`, `SockOpt`, `Env`); a hooked call that yields returns
  its live locals (`IoFrame`) and a second function continues from the resume.
-/

namespace corlib

/-! ## Constants of `<sys/epoll.h>` and of `ioscheduler.h` -/

def EPOLLIN : Nat := 0x001
def EPOLLOUT : Nat := 0x004
def EPOLLERR : Nat := 0x008
def EPOLLHUP : Nat := 0x010
def EPOLLET : Nat := 0x80000000

def EPOLL_CTL_ADD : Nat := 1
def EPOLL_CTL_DEL : Nat := 2
def EPOLL_CTL_MOD : Nat := 3

/-- The value `IOManager::NONE = 0x0`, the empty mask. -/
def NONE : Nat := 0x0

/-- The directions `IOManager::READ` and `IOManager::WRITE`: the two values of
`enum Event` on which `getEventContext` does not assert. A registered mask is a
`Nat` built from their bits. -/
inductive Event where
  | READ
  | WRITE
deriving DecidableEq, Repr

/-- The enumerator values: `READ = 0x1`, `WRITE = 0x4`. -/
def Event.toNat : Event → Nat
  | .READ => 0x1
  | .WRITE => 0x4

/-- The other direction. -/
def Event.other : Event → Event
  | .READ => .WRITE
  | .WRITE => .READ

/-- The C expression `a & ~b` on 32-bit `int` operands. -/
def andNot (a b : Nat) : Nat := a &&& (b ^^^ 0xFFFFFFFF)

/-- The cast `(int)v.size()` of a `size_t` to a 32-bit `int`. -/
def toInt (n : Nat) : Int :=
  if n % 2 ^ 32 < 2 ^ 31 then ((n % 2 ^ 32 : Nat) : Int) else ((n % 2 ^ 32 : Nat) : Int) - 2 ^ 32

/-- The conversion of an `int` return value to `bool` (`return -1;` in a
function returning `bool`). -/
def intToBool (i : Int) : Bool := i != 0

/-- Pre-increment `++x` of a `size_t`. -/
def incr (n : Nat) : Nat := (n + 1) % 2 ^ 64

/-- Pre-decrement `--x` of a `size_t`. -/
def decr (n : Nat) : Nat := (n + (2 ^ 64 - 1)) % 2 ^ 64

/-! ## Data model -/

/-- The struct `FdContext::EventContext`. -/
structure EventContext where
  scheduler : Option Nat := none
  fiber : Option Nat := none
  cb : Option Nat := none
deriving DecidableEq, Repr

/-- The scheduler's work item (`ScheduleTask` in `scheduler.cpp`): a coroutine
or a callable, and a thread affinity (`-1` for any thread). -/
structure ScheduleTask where
  fiber : Option Nat := none
  cb : Option Nat := none
  thread : Int := -1
deriving DecidableEq, Repr

/-- One call `scheduler->scheduleLock(...)` made by `triggerEvent`.
`fd` and `event` record which `triggerEvent` call made it; they are not part of
the task. -/
structure Scheduled where
  scheduler : Nat
  task : ScheduleTask
  fd : Int
  event : Event
deriving DecidableEq, Repr

/-- The struct `IOManager::FdContext` (without its mutex). -/
structure FdContext where
  read : EventContext := {}
  write : EventContext := {}
  fd : Int := 0
  events : Nat := NONE
deriving DecidableEq, Repr

/-- One call of `epoll_ctl(m_epfd, op, fd, &epevent)`. -/
structure EpollCtl where
  op : Nat
  fd : Nat
  events : Nat
deriving DecidableEq, Repr

/-- The I/O manager's state (`ioscheduler.h`), the kernel's interest list of
`m_epfd`, the `epoll_ctl` calls made so far and the tasks scheduled so far by
`triggerEvent`. -/
structure IOManager where
  m_pendingEventCount : Nat := 0
  m_fdContexts : List (Option FdContext) := []
  interest : Nat → Option Nat := fun _ => none
  ctl_calls : List EpollCtl := []
  scheduled : List Scheduled := []

/-! ## `FdContext` member functions -/

/-- The function `FdContext::getEventContext`. -/
def FdContext.getEventContext (c : FdContext) : Event → EventContext
  | .READ => c.read
  | .WRITE => c.write

/-- Assignment through the reference returned by `getEventContext`. -/
def FdContext.setEventContext (c : FdContext) (event : Event) (ctx : EventContext) : FdContext :=
  match event with
  | .READ => { c with read := ctx }
  | .WRITE => { c with write := ctx }

/-- The function `FdContext::resetEventContext`: all three members null. -/
def resetEventContext (_ctx : EventContext) : EventContext :=
  { scheduler := none, fiber := none, cb := none }

/-- Modelled from the spec: `Scheduler::scheduleLock` (declared in `scheduler.h`,
which is not among the sources) enqueues the given callable or coroutine as a
task with affinity `-1`. The task handed over by `triggerEvent`: the callable
if `ctx.cb` is set, the coroutine otherwise. -/
def taskOf (ctx : EventContext) : ScheduleTask :=
  if ctx.cb.isSome then { cb := ctx.cb } else { fiber := ctx.fiber }

/-- The function `FdContext::triggerEvent`: returns the context after the call
and the task it scheduled. Aborts when `events & event` is zero (the `assert`)
or when the recorded scheduler is null. -/
def FdContext.triggerEvent (c : FdContext) (event : Event) : Option (FdContext × Scheduled) :=
  if c.events &&& event.toNat = 0 then none
  else
    let c1 : FdContext := { c with events := andNot c.events event.toNat }
    let ctx := c1.getEventContext event
    match ctx.scheduler with
    | none => none
    | some sch =>
      some (c1.setEventContext event (resetEventContext ctx),
            { scheduler := sch, task := taskOf ctx, fd := c.fd, event := event })

/-! ## The kernel's readiness notifier -/

/-- The call `epoll_ctl(m_epfd, op, fd, &epevent)` with outcome `ok`: a
successful `ADD`/`MOD` subscribes `fd` to `events`, a successful `DEL` removes
it, a failed call changes nothing. Returns `0` or `-1`. -/
def epoll_ctl (interest : Nat → Option Nat) (op fd events : Nat) (ok : Bool) :
    Int × (Nat → Option Nat) :=
  if ok then
    (0, fun x => if x = fd then (if op = EPOLL_CTL_DEL then none else some events) else interest x)
  else (-1, interest)

/-! ## `IOManager` member functions -/

/-- The function `IOManager::contextResize`: `resize(size)` (truncate, or pad
with null pointers), then a fresh `FdContext` with `fd = i` in every null slot. -/
def contextResize (tbl : List (Option FdContext)) (size : Nat) : List (Option FdContext) :=
  let resized := tbl.take size ++ List.replicate (size - tbl.length) none
  resized.enum.map fun p =>
    match p.2 with
    | none => some { fd := (p.1 : Int) }
    | some c => some c

/-- The access `m_fdContexts[fd]` followed by a dereference: `none` when the
index is out of bounds or the slot holds a null pointer. -/
def fdCtxAt (tbl : List (Option FdContext)) (fd : Nat) : Option FdContext :=
  tbl[fd]?.join

/-- The state after the constructor body: the read end of the self-pipe is
subscribed, the table has 32 contexts. -/
def IOManager.init (tickleFd : Nat) : IOManager :=
  { m_fdContexts := contextResize [] 32
    interest := (epoll_ctl (fun _ => none) EPOLL_CTL_ADD tickleFd (EPOLLIN ||| EPOLLET) true).2
    ctl_calls := [{ op := EPOLL_CTL_ADD, fd := tickleFd, events := EPOLLIN ||| EPOLLET }] }

/-- The lookup at the head of `addEvent`: the table it works on, grown by
`contextResize(fd * 1.5)` when `fd` is not below the current size. -/
def grown (s : IOManager) (fd : Nat) : List (Option FdContext) :=
  if toInt s.m_fdContexts.length > (fd : Int) then s.m_fdContexts
  else contextResize s.m_fdContexts (fd * 3 / 2)

/-- The function `IOManager::addEvent(fd, event, cb)`. `cur` is
`Scheduler::GetThis()`, `curFiber` is `Fiber::GetThis()` (the running
coroutine, so the final `assert` on its state holds). Returns `0` or `-1`. -/
def addEvent (s : IOManager) (fd : Nat) (event : Event) (cb : Option Nat)
    (cur : Option Nat) (curFiber : Nat) (ok : Bool) : Option (Int × IOManager) :=
  let tbl := grown s fd
  match fdCtxAt tbl fd with
  | none => none
  | some fd_ctx =>
    if fd_ctx.events &&& event.toNat ≠ 0 then
      some (-1, { s with m_fdContexts := tbl })
    else
      let op := if fd_ctx.events ≠ 0 then EPOLL_CTL_MOD else EPOLL_CTL_ADD
      let epevents := EPOLLET ||| fd_ctx.events ||| event.toNat
      let r := epoll_ctl s.interest op fd epevents ok
      let calls := s.ctl_calls ++ [{ op := op, fd := fd, events := epevents }]
      if r.1 ≠ 0 then
        some (-1, { s with m_fdContexts := tbl, interest := r.2, ctl_calls := calls })
      else
        let c1 : FdContext := { fd_ctx with events := fd_ctx.events ||| event.toNat }
        let event_ctx := c1.getEventContext event
        if event_ctx.scheduler.isSome ∨ event_ctx.fiber.isSome ∨ event_ctx.cb.isSome then none
        else
          let ctx1 : EventContext := { event_ctx with scheduler := cur }
          let ctx2 : EventContext :=
            if cb.isSome then { ctx1 with cb := cb } else { ctx1 with fiber := some curFiber }
          some (0, { s with
            m_pendingEventCount := incr s.m_pendingEventCount
            m_fdContexts := tbl.set fd (some (c1.setEventContext event ctx2))
            interest := r.2
            ctl_calls := calls })

/-- The function `IOManager::delEvent(fd, event)`. -/
def delEvent (s : IOManager) (fd : Nat) (event : Event) (ok : Bool) : Option (Bool × IOManager) :=
  if toInt s.m_fdContexts.length > (fd : Int) then
    match fdCtxAt s.m_fdContexts fd with
    | none => none
    | some fd_ctx =>
      if fd_ctx.events &&& event.toNat = 0 then some (false, s)
      else
        let new_events := andNot fd_ctx.events event.toNat
        let op := if new_events ≠ 0 then EPOLL_CTL_MOD else EPOLL_CTL_DEL
        let epevents := EPOLLET ||| new_events
        let r := epoll_ctl s.interest op fd epevents ok
        let calls := s.ctl_calls ++ [{ op := op, fd := fd, events := epevents }]
        if r.1 ≠ 0 then
          some (intToBool (-1), { s with interest := r.2, ctl_calls := calls })
        else
          let c1 : FdContext := { fd_ctx with events := new_events }
          let event_ctx := c1.getEventContext event
          some (true, { s with
            m_pendingEventCount := decr s.m_pendingEventCount
            m_fdContexts := s.m_fdContexts.set fd
              (some (c1.setEventContext event (resetEventContext event_ctx)))
            interest := r.2
            ctl_calls := calls })
  else some (false, s)

/-- The function `IOManager::cancelEvent(fd, event)`. -/
def cancelEvent (s : IOManager) (fd : Nat) (event : Event) (ok : Bool) :
    Option (Bool × IOManager) :=
  if toInt s.m_fdContexts.length > (fd : Int) then
    match fdCtxAt s.m_fdContexts fd with
    | none => none
    | some fd_ctx =>
      if fd_ctx.events &&& event.toNat = 0 then some (false, s)
      else
        let new_events := andNot fd_ctx.events event.toNat
        let op := if new_events ≠ 0 then EPOLL_CTL_MOD else EPOLL_CTL_DEL
        let epevents := EPOLLET ||| new_events
        let r := epoll_ctl s.interest op fd epevents ok
        let calls := s.ctl_calls ++ [{ op := op, fd := fd, events := epevents }]
        if r.1 ≠ 0 then
          some (intToBool (-1), { s with interest := r.2, ctl_calls := calls })
        else
          match fd_ctx.triggerEvent event with
          | none => none
          | some (c1, t) =>
            some (true, { s with
              m_pendingEventCount := decr s.m_pendingEventCount
              m_fdContexts := s.m_fdContexts.set fd (some c1)
              interest := r.2
              ctl_calls := calls
              scheduled := s.scheduled ++ [t] })
  else some (false, s)

/-- The two statements `if (mask & event) { fd_ctx->triggerEvent(event);
--m_pendingEventCount; }` shared by `cancelAll` and `idle`: the context, the
counter and the tasks scheduled, before and after. -/
def fireIf (mask : Nat) (event : Event) (st : FdContext × Nat × List Scheduled) :
    Option (FdContext × Nat × List Scheduled) :=
  if mask &&& event.toNat ≠ 0 then
    match st.1.triggerEvent event with
    | none => none
    | some (c1, t) => some (c1, decr st.2.1, st.2.2 ++ [t])
  else some st

/-- The function `IOManager::cancelAll(fd)`. -/
def cancelAll (s : IOManager) (fd : Nat) (ok : Bool) : Option (Bool × IOManager) :=
  if toInt s.m_fdContexts.length > (fd : Int) then
    match fdCtxAt s.m_fdContexts fd with
    | none => none
    | some fd_ctx =>
      if fd_ctx.events = 0 then some (false, s)
      else
        let op := EPOLL_CTL_DEL
        let r := epoll_ctl s.interest op fd 0 ok
        let calls := s.ctl_calls ++ [{ op := op, fd := fd, events := 0 }]
        if r.1 ≠ 0 then
          some (intToBool (-1), { s with interest := r.2, ctl_calls := calls })
        else
          match fireIf fd_ctx.events .READ (fd_ctx, s.m_pendingEventCount, s.scheduled) with
          | none => none
          | some st1 =>
            match fireIf st1.1.events .WRITE st1 with
            | none => none
            | some st2 =>
              if st2.1.events ≠ 0 then none
              else
                some (true, { s with
                  m_pendingEventCount := st2.2.1
                  m_fdContexts := s.m_fdContexts.set fd (some st2.1)
                  interest := r.2
                  ctl_calls := calls
                  scheduled := st2.2.2 })
  else some (false, s)

/-- The directions `real_events` that `IOManager::idle` computes from the ready
word `event.events` of `epoll_wait` and the registered mask: `EPOLLERR` and
`EPOLLHUP` are first turned into the registered ones of `EPOLLIN | EPOLLOUT`. -/
def realEvents (ready : Nat) (events : Nat) : Nat :=
  let ev := if ready &&& (EPOLLERR ||| EPOLLHUP) ≠ 0
            then ready ||| ((EPOLLIN ||| EPOLLOUT) &&& events) else ready
  let real0 := if ev &&& EPOLLIN ≠ 0 then NONE ||| Event.READ.toNat else NONE
  if ev &&& EPOLLOUT ≠ 0 then real0 ||| Event.WRITE.toNat else real0

/-- The body of the `for` loop of `IOManager::idle` for one ready event that is
not the self-pipe: `idx` is the table slot `event.data.ptr` points to, `ready`
is `event.events` as reported by `epoll_wait`. -/
def idleDispatch (s : IOManager) (idx : Nat) (ready : Nat) (ok : Bool) : Option IOManager :=
  match fdCtxAt s.m_fdContexts idx with
  | none => none
  | some fd_ctx =>
    let real_events := realEvents ready fd_ctx.events
    if fd_ctx.events &&& real_events = NONE then some s
    else
      let left_events := andNot fd_ctx.events real_events
      let op := if left_events ≠ 0 then EPOLL_CTL_MOD else EPOLL_CTL_DEL
      let epevents := EPOLLET ||| left_events
      let r := epoll_ctl s.interest op fd_ctx.fd.toNat epevents ok
      let calls := s.ctl_calls ++ [{ op := op, fd := fd_ctx.fd.toNat, events := epevents }]
      if r.1 ≠ 0 then some { s with interest := r.2, ctl_calls := calls }
      else
        match fireIf real_events .READ (fd_ctx, s.m_pendingEventCount, s.scheduled) with
        | none => none
        | some st1 =>
          match fireIf real_events .WRITE st1 with
          | none => none
          | some st2 =>
            some { s with
              m_pendingEventCount := st2.2.1
              m_fdContexts := s.m_fdContexts.set idx (some st2.1)
              interest := r.2
              ctl_calls := calls
              scheduled := st2.2.2 }

/-! ## Sequences of operations -/

/-- One call into the I/O manager, with the outcome of its `epoll_ctl` call. -/
inductive Op where
  | addEvent (fd : Nat) (event : Event) (cb : Option Nat) (cur : Option Nat) (curFiber : Nat)
      (ok : Bool)
  | delEvent (fd : Nat) (event : Event) (ok : Bool)
  | cancelEvent (fd : Nat) (event : Event) (ok : Bool)
  | cancelAll (fd : Nat) (ok : Bool)
  | idleDispatch (idx : Nat) (ready : Nat) (ok : Bool)

/-- The state after one call; `none` when the call aborts. -/
def step (s : IOManager) : Op → Option IOManager
  | .addEvent fd event cb cur curFiber ok => (addEvent s fd event cb cur curFiber ok).map Prod.snd
  | .delEvent fd event ok => (delEvent s fd event ok).map Prod.snd
  | .cancelEvent fd event ok => (cancelEvent s fd event ok).map Prod.snd
  | .cancelAll fd ok => (cancelAll s fd ok).map Prod.snd
  | .idleDispatch idx ready ok => idleDispatch s idx ready ok

/-- The descriptor passed to `addEvent` is small enough for the grown table
size `fd * 1.5` to fit the `int` that `(int)m_fdContexts.size()` casts to. -/
def Op.inRange : Op → Prop
  | .addEvent fd _ _ _ _ _ => fd * 3 / 2 < 2 ^ 31
  | _ => True

instance (op : Op) : Decidable op.inRange := by
  cases op <;> unfold Op.inRange <;> infer_instance

/-- The states the I/O manager reaches from its constructor by calls that do not
abort. -/
inductive Reachable (tickleFd : Nat) : IOManager → Prop where
  | init : Reachable tickleFd (IOManager.init tickleFd)
  | step (s s1 : IOManager) (op : Op) :
      Reachable tickleFd s → op.inRange → step s op = some s1 → Reachable tickleFd s1

/-- The state after a sequence of calls; `none` when one of them aborts. -/
def run (s : IOManager) : List Op → Option IOManager
  | [] => some s
  | op :: ops => (step s op).bind fun s1 => run s1 ops

/-! ## Registered masks and the pending-event count -/

/-- The number of direction bits (`READ`, `WRITE`) set in a mask. -/
def popcount (m : Nat) : Nat :=
  (if m &&& Event.READ.toNat ≠ 0 then 1 else 0) + (if m &&& Event.WRITE.toNat ≠ 0 then 1 else 0)

/-- The direction bits registered in one table slot. -/
def slotCount : Option FdContext → Nat
  | some c => popcount c.events
  | none => 0

/-- The sum over the table of the number of registered directions. -/
def pendingSum (tbl : List (Option FdContext)) : Nat := (tbl.map slotCount).sum

/-- A mask that is a subset of `{READ, WRITE}`. -/
def ValidMask (m : Nat) : Prop := m = 0 ∨ m = 1 ∨ m = 4 ∨ m = 5

instance (m : Nat) : Decidable (ValidMask m) := by unfold ValidMask; infer_instance

/-- Slot `i` holds a context whose stored fd is `i` and whose mask is a subset
of `{READ, WRITE}`. -/
def SlotOk (i : Nat) : Option (Option FdContext) → Prop
  | some (some c) => c.fd = (i : Int) ∧ ValidMask c.events
  | _ => False

instance (i : Nat) (o : Option (Option FdContext)) : Decidable (SlotOk i o) := by
  unfold SlotOk; split <;> infer_instance

/-- The structural invariant of the I/O manager: the table has between 2 and
`2^31 - 1` slots, every slot is well formed, and the pending-event counter is
the number of registered directions. -/
def Inv (s : IOManager) : Prop :=
  2 ≤ s.m_fdContexts.length ∧ s.m_fdContexts.length < 2 ^ 31 ∧
  (∀ i, i < s.m_fdContexts.length → SlotOk i s.m_fdContexts[i]?) ∧
  s.m_pendingEventCount = pendingSum s.m_fdContexts

instance (s : IOManager) : Decidable (Inv s) := by unfold Inv; infer_instance

/-- The context of `fd`: the one in the table, or the one `contextResize` would
construct for it. -/
def ctxOf (s : IOManager) (fd : Nat) : FdContext :=
  (fdCtxAt s.m_fdContexts fd).getD { fd := (fd : Int) }

/-- Direction `event` is registered on `fd`. -/
def registered (s : IOManager) (fd : Nat) (event : Event) : Prop :=
  (ctxOf s fd).events &&& event.toNat ≠ 0

instance (s : IOManager) (fd : Nat) (event : Event) : Decidable (registered s fd event) := by
  unfold registered; infer_instance

/-! ## The timer set (`timer.cpp`)

Time points are `std::chrono::system_clock` tick counts in nanoseconds; their
arithmetic is exact (signed overflow of the 64-bit tick counts is undefined
behaviour and has no counterpart here), while the conversion of a `uint64_t`
delay to a signed count of milliseconds wraps as it does in the source. Every
reading of `std::chrono::system_clock::now()` is an argument `now`. A
`shared_ptr<Timer>` is the index of the `Timer` object in `heap`. -/

/-- The members of `Timer` (without the back-pointer to its manager). -/
structure Timer where
  m_recurring : Bool := false
  m_ms : Nat := 0
  m_next : Int := 0
  m_cb : Option Nat := none
deriving DecidableEq, Repr

/-- The members of `TimerManager`, the `Timer` objects constructed so far, and
the number of calls of `onTimerInsertedAtFront` made so far. `m_timers` is the
`std::set` of timers ordered by `Timer::Comparator`, listed in iteration order:
`timer.cpp` uses its `insert(...).first`, `find`, `erase(it)` and `begin()`. -/
structure TimerManager where
  heap : List Timer := []
  m_timers : List Nat := []
  m_tickled : Bool := false
  m_previouseTime : Int := 0
  frontCalls : Nat := 0
deriving DecidableEq, Repr

/-- The `Timer` object a pointer refers to. -/
def timerAt (heap : List Timer) (t : Nat) : Timer := heap.getD t {}

/-- The conversion of a `uint64_t` to the signed 64-bit `rep` of a
`std::chrono` duration. -/
def toInt64 (n : Nat) : Int :=
  if n % 2 ^ 64 < 2 ^ 63 then ((n % 2 ^ 64 : Nat) : Int) else ((n % 2 ^ 64 : Nat) : Int) - 2 ^ 64

/-- The duration `std::chrono::milliseconds(ms)` of a `uint64_t ms`, in clock
ticks: the constructor converts `ms` to the signed 64-bit count of
milliseconds, so a delay of `2^63` or more is a negative duration. -/
def msToTicks (ms : Nat) : Int := toInt64 ms * 1000000

/-- The function `Timer::Comparator::operator()`: `lhs->m_next < rhs->m_next`. -/
def Comparator (heap : List Timer) (lhs rhs : Nat) : Bool :=
  decide ((timerAt heap lhs).m_next < (timerAt heap rhs).m_next)

/-- The call `m_timers.insert(t)` of `std::set`: the set afterwards and the
position of the returned iterator. When an element equivalent to `t` under the
comparator is present nothing is inserted and the iterator is at that element. -/
def setInsert (heap : List Timer) : List Nat → Nat → List Nat × Nat
  | [], t => ([t], 0)
  | x :: xs, t =>
    if Comparator heap t x then (t :: x :: xs, 0)
    else if Comparator heap x t then
      let r := setInsert heap xs t
      (x :: r.1, r.2 + 1)
    else (x :: xs, 0)

/-- The call `m_timers.find(t)` of `std::set`: the element equivalent to `t`
under the comparator, or `none` for `end()`. -/
def setFind (heap : List Timer) : List Nat → Nat → Option Nat
  | [], _ => none
  | x :: xs, t =>
    if Comparator heap x t then setFind heap xs t
    else if Comparator heap t x then none
    else some x

/-- The function `Timer::cancel()` on timer `t`. -/
def Timer.cancel (tm : TimerManager) (t : Nat) : Option (Bool × TimerManager) :=
  match tm.heap[t]? with
  | none => none
  | some self =>
    if self.m_cb = none then some (false, tm)
    else
      let heap1 := tm.heap.set t { self with m_cb := none }
      match setFind heap1 tm.m_timers t with
      | some it => some (true, { tm with heap := heap1, m_timers := tm.m_timers.erase it })
      | none => some (true, { tm with heap := heap1 })

/-- The function `Timer::refresh()` on timer `t`. -/
def Timer.refresh (tm : TimerManager) (t : Nat) (now : Int) : Option (Bool × TimerManager) :=
  match tm.heap[t]? with
  | none => none
  | some self =>
    if self.m_cb = none then some (false, tm)
    else
      match setFind tm.heap tm.m_timers t with
      | none => some (false, tm)
      | some it =>
        let timers1 := tm.m_timers.erase it
        let heap1 := tm.heap.set t { self with m_next := now + msToTicks self.m_ms }
        some (true, { tm with heap := heap1, m_timers := (setInsert heap1 timers1 t).1 })

/-- The function `TimerManager::addTimer(std::shared_ptr<Timer>)`. -/
def addTimerPtr (tm : TimerManager) (timer : Nat) : TimerManager :=
  let r := setInsert tm.heap tm.m_timers timer
  let at_front := decide (r.2 = 0) && !tm.m_tickled
  if at_front then
    { tm with m_timers := r.1, m_tickled := true, frontCalls := tm.frontCalls + 1 }
  else { tm with m_timers := r.1 }

/-- The function `Timer::reset(ms, from_now)` on timer `t`. -/
def Timer.reset (tm : TimerManager) (t : Nat) (ms : Nat) (from_now : Bool) (now : Int) :
    Option (Bool × TimerManager) :=
  match tm.heap[t]? with
  | none => none
  | some self =>
    if ms = self.m_ms ∧ from_now = false then some (true, tm)
    else if self.m_cb = none then some (false, tm)
    else
      match setFind tm.heap tm.m_timers t with
      | none => some (false, tm)
      | some it =>
        let timers1 := tm.m_timers.erase it
        let start := if from_now then now else self.m_next - msToTicks self.m_ms
        let heap1 := tm.heap.set t { self with m_ms := ms, m_next := start + msToTicks ms }
        some (true, addTimerPtr { tm with heap := heap1, m_timers := timers1 } t)

/-- The function `TimerManager::addTimer(ms, cb, recurring)`: the `Timer`
constructor, then `addTimer(timer)`. Returns the new timer. -/
def addTimer (tm : TimerManager) (ms : Nat) (cb : Option Nat) (recurring : Bool) (now : Int) :
    Nat × TimerManager :=
  let timer := tm.heap.length
  let obj : Timer := { m_recurring := recurring, m_ms := ms, m_next := now + msToTicks ms, m_cb := cb }
  (timer, addTimerPtr { tm with heap := tm.heap ++ [obj] } timer)

/-- The function `TimerManager::getNextTimer()`. -/
def getNextTimer (tm : TimerManager) (now : Int) : Nat × TimerManager :=
  let tm1 := { tm with m_tickled := false }
  match tm.m_timers with
  | [] => (2 ^ 64 - 1, tm1)
  | head :: _ =>
    let time := (timerAt tm.heap head).m_next
    if now ≥ time then (0, tm1)
    else (((time - now).tdiv 1000000).toNat % 2 ^ 64, tm1)

/-- The function `TimerManager::detectClockRollover()`. -/
def detectClockRollover (tm : TimerManager) (now : Int) : Bool × TimerManager :=
  (decide (now < tm.m_previouseTime - msToTicks (60 * 60 * 1000)), { tm with m_previouseTime := now })

/-- The state of the loop of `listExpiredCb`: the manager, the vector `cbs`, and
the timers whose callable was appended to `cbs` (in order). -/
structure Drain where
  tm : TimerManager
  cbs : List (Option Nat)
  fired : List Nat
deriving DecidableEq, Repr

/-- One iteration of the `while` loop of `listExpiredCb`; `none` when the loop
condition is false. -/
def expireStep (now : Int) (rollover : Bool) (d : Drain) : Option Drain :=
  match d.tm.m_timers with
  | [] => none
  | head :: rest =>
    if rollover = true ∨ (timerAt d.tm.heap head).m_next ≤ now then
      let temp := timerAt d.tm.heap head
      let cbs := d.cbs ++ [temp.m_cb]
      if temp.m_recurring then
        let heap1 := d.tm.heap.set head { temp with m_next := now + msToTicks temp.m_ms }
        some { tm := { d.tm with heap := heap1, m_timers := (setInsert heap1 rest head).1 }
               cbs := cbs, fired := d.fired ++ [head] }
      else
        let heap1 := d.tm.heap.set head { temp with m_cb := none }
        some { tm := { d.tm with heap := heap1, m_timers := rest }
               cbs := cbs, fired := d.fired ++ [head] }
    else none

/-- The first `n` iterations of the loop (fewer when the condition becomes
false earlier). -/
def expireIter (now : Int) (rollover : Bool) : Nat → Drain → Drain
  | 0, d => d
  | n + 1, d =>
    match expireStep now rollover d with
    | none => d
    | some d1 => expireIter now rollover n d1

/-- The state in which `listExpiredCb` enters its loop: `now1` is the clock
reading taken inside `detectClockRollover`. -/
def drainStart (tm : TimerManager) (cbs : List (Option Nat)) (now1 : Int) : Drain :=
  { tm := (detectClockRollover tm now1).2, cbs := cbs, fired := [] }

/-- The function `TimerManager::listExpiredCb(cbs)`, with clock reading `now`
(and `now1` inside `detectClockRollover`): the result when the loop exits within
`fuel` iterations, `none` otherwise. -/
def listExpiredCb (tm : TimerManager) (cbs : List (Option Nat)) (now now1 : Int) (fuel : Nat) :
    Option Drain :=
  let rollover := (detectClockRollover tm now1).1
  let d := expireIter now rollover fuel (drainStart tm cbs now1)
  if (expireStep now rollover d).isNone then some d else none

/-- One call into the timer set. -/
inductive TimerOp where
  | addTimer (ms : Nat) (cb : Option Nat) (recurring : Bool) (now : Int)
  | cancel (t : Nat)
  | refresh (t : Nat) (now : Int)
  | reset (t : Nat) (ms : Nat) (from_now : Bool) (now : Int)
  | getNextTimer (now : Int)
  | listExpiredCb (now now1 : Int) (iterations : Nat)

/-- The manager after one call, and the timers whose callable the call appended
to its output vector. For `listExpiredCb` this is the state after the given
number of loop iterations, so that runs of the loop that never exit are
covered as well. -/
def timerStep (tm : TimerManager) : TimerOp → Option (TimerManager × List Nat)
  | .addTimer ms cb recurring now => some ((addTimer tm ms cb recurring now).2, [])
  | .cancel t => (Timer.cancel tm t).map fun r => (r.2, [])
  | .refresh t now => (Timer.refresh tm t now).map fun r => (r.2, [])
  | .reset t ms from_now now => (Timer.reset tm t ms from_now now).map fun r => (r.2, [])
  | .getNextTimer now => some ((getNextTimer tm now).2, [])
  | .listExpiredCb now now1 n =>
    let d := expireIter now (detectClockRollover tm now1).1 n (drainStart tm [] now1)
    some (d.tm, d.fired)

/-- The manager after a sequence of calls and all the timers fired by them. -/
def timerRun (tm : TimerManager) : List TimerOp → Option (TimerManager × List Nat)
  | [] => some (tm, [])
  | op :: ops =>
    match timerStep tm op with
    | none => none
    | some (tm1, f1) =>
      match timerRun tm1 ops with
      | none => none
      | some (tm2, f2) => some (tm2, f1 ++ f2)

/-! ## Vocabulary for the claims about the I/O manager -/

/-- The tasks scheduled so far by `triggerEvent(event)` on the context of `fd`,
in order. -/
def firedBy (s : IOManager) (fd : Nat) (event : Event) : List Scheduled :=
  s.scheduled.filter fun t => decide (t.fd = (fd : Int) ∧ t.event = event)

/-- The call is `addEvent(fd, event, ..)` and its kernel call succeeds. -/
def Op.registers (fd : Nat) (event : Event) : Op → Bool
  | .addEvent fd1 event1 _ _ _ ok => decide (fd1 = fd) && decide (event1 = event) && ok
  | _ => false

/-- The registration of `event` on `fd` in state `s` has been consumed in state
`s1`: exactly one more task was scheduled for it, namely the stored callable or
coroutine on the recorded scheduler `sch`, the direction is cleared, and after
any further calls that contain no successful `addEvent(fd, event)` no other
task has been scheduled for it and it is still cleared. -/
def ConsumedOnce (s : IOManager) (fd : Nat) (event : Event) (sch : Nat) (s1 : IOManager) : Prop :=
  firedBy s1 fd event = firedBy s fd event ++
    [⟨sch, taskOf ((ctxOf s fd).getEventContext event), (fd : Int), event⟩] ∧
  ¬ registered s1 fd event ∧
  ∀ ops : List Op, (∀ op ∈ ops, op.inRange ∧ op.registers fd event = false) →
    ∀ s2, run s1 ops = some s2 →
      firedBy s2 fd event = firedBy s1 fd event ∧ ¬ registered s2 fd event

/-! ## Vocabulary for the claims about the timer set -/

/-- The timer set is strictly ordered by `Timer::Comparator`, as a `std::set`
is. -/
def TimerManager.Sorted (tm : TimerManager) : Prop :=
  tm.m_timers.Pairwise fun a b => (timerAt tm.heap a).m_next < (timerAt tm.heap b).m_next

instance (tm : TimerManager) : Decidable tm.Sorted := by
  unfold TimerManager.Sorted; infer_instance

/-- The timer set is sorted and holds only pointers to constructed timers. -/
def TimerManager.WellFormed (tm : TimerManager) : Prop :=
  tm.Sorted ∧ ∀ x ∈ tm.m_timers, x < tm.heap.length

/-- Timer `t` exists, its callable is null and it is not in the timer set. -/
def Dead (tm : TimerManager) (t : Nat) : Prop :=
  t < tm.heap.length ∧ (timerAt tm.heap t).m_cb = none ∧ t ∉ tm.m_timers

/-! ## Concrete states -/

/-- A two-slot I/O manager in which fd 1 waits for `READ` with callable 7 and
for `WRITE` with coroutine 9, both recorded on scheduler 3. -/
def sampleIOManager : IOManager :=
  { m_pendingEventCount := 2
    m_fdContexts := [some { fd := 0 },
      some { fd := 1, events := 5, read := { scheduler := some 3, cb := some 7 },
             write := { scheduler := some 3, fiber := some 9 } }]
    interest := fun x => if x = 1 then some (EPOLLET ||| 5) else none }

/-- The state the constructor with self-pipe fd 3 reaches by registering on fd 5
`READ` with callable 7 and `WRITE` with coroutine 9, on scheduler 1. -/
def sampleArmed : IOManager :=
  (run (IOManager.init 3)
    [.addEvent 5 .READ (some 7) (some 1) 9 true, .addEvent 5 .WRITE none (some 1) 9 true]).getD
    (IOManager.init 3)

/-- The state of `sampleIOManager` after `addEvent(0, READ, cb 5)` on scheduler 3. -/
def sampleAdded : IOManager :=
  ((addEvent sampleIOManager 0 .READ (some 5) (some 3) 9 true).map Prod.snd).getD sampleIOManager

/-- A sequence of calls: register `WRITE` then `READ` on fd 40 (which grows the
table), dispatch a ready `EPOLLIN`, and a `cancelAll` whose kernel call fails. -/
def sampleOps : List Op :=
  [.addEvent 40 .WRITE none (some 1) 9 true, .addEvent 40 .READ (some 7) (some 1) 9 true,
   .idleDispatch 40 EPOLLIN true, .cancelAll 40 false]

/-- The state the constructor with self-pipe fd 3 reaches by `sampleOps`. -/
def sampleReached : IOManager := (run (IOManager.init 3) sampleOps).getD (IOManager.init 3)

/-- A manager with a one-shot timer 0 (7 ms, callable 1) and a recurring timer
1 (5 ms, callable 2), both added at clock value 0. -/
def sampleTimers : TimerManager :=
  (addTimer (addTimer {} 7 (some 1) false 0).2 5 (some 2) true 0).2

/-- A sequence of calls on the timer set after the cancellation of timer 0. -/
def sampleTimerOps : List TimerOp :=
  [.refresh 0 1000000, .reset 0 3 true 1000000, .addTimer 1 (some 4) false 2000000,
   .listExpiredCb 9000000 9000000 3, .listExpiredCb (-4000000000000) (-4000000000000) 4]

/-- The manager `sampleTimers` after `cancel()` on timer 0. -/
def sampleCancelled : TimerManager :=
  ((Timer.cancel sampleTimers 0).map Prod.snd).getD sampleTimers

/-- Two one-shot timers of 5 ms added at the same clock value 0. -/
def tiedOneShot : TimerManager :=
  (addTimer (addTimer {} 5 (some 1) false 0).2 5 (some 2) false 0).2

/-- Two recurring timers of 10 ms, added one tick apart. -/
def tiedRecurring : TimerManager :=
  (addTimer (addTimer {} 10 (some 1) true 0).2 10 (some 2) true 1).2

/-- A recurring timer 0 (5 ms, callable 1) and a one-shot timer 1 (1000 ms,
callable 2), both added at clock value 0, which is also the previous
observation of the clock. -/
def mixedTimers : TimerManager :=
  (addTimer (addTimer {} 5 (some 1) true 0).2 1000 (some 2) false 0).2

/-- A clock value more than one hour before the clock value 0. -/
def rolledBackNow : Int := -4000000000000

/-- The timer set `mixedTimers` after one iteration of the loop of
`listExpiredCb` under the rollover at `rolledBackNow`. -/
def mixedTimersFlushing : TimerManager :=
  { heap := [{ m_recurring := true, m_ms := 5, m_next := -3999995000000, m_cb := some 1 },
             { m_recurring := false, m_ms := 1000, m_next := 1000000000, m_cb := some 2 }]
    m_timers := [0, 1]
    m_tickled := true
    m_previouseTime := -4000000000000
    frontCalls := 1 }

/-! ## `Scheduler::stopping` and `IOManager::stopping` -/

/-- The members of `Scheduler` read by `Scheduler::stopping()` (scheduler.cpp):
the flag `m_stopping` (set by `stop()`), the task queue `m_tasks`, and the
counter `m_activeThreadCount` of workers running a task. -/
structure Scheduler where
  m_stopping : Bool := false
  m_tasks : List ScheduleTask := []
  m_activeThreadCount : Nat := 0
deriving DecidableEq, Repr

/-- The function `Scheduler::stopping()`:
`return m_stopping && m_tasks.empty() && m_activeThreadCount == 0;`. -/
def Scheduler.stopping (sc : Scheduler) : Bool :=
  sc.m_stopping && sc.m_tasks.isEmpty && (sc.m_activeThreadCount == 0)

/-- The function `IOManager::stopping()` (ioscheduler.cpp): an `IOManager` is a
`Scheduler` and a `TimerManager`, given here as `sc` and `tm` next to the event
table `io`. `getNextTimer()` runs first (it clears `m_tickled`), then
`timeout == ~0ull && m_pendingEventCount == 0 && Scheduler::stopping()`. -/
def IOManager.stopping (sc : Scheduler) (io : IOManager) (tm : TimerManager) (now : Int) :
    Bool × TimerManager :=
  let r := getNextTimer tm now
  (r.1 == 2 ^ 64 - 1 && io.m_pendingEventCount == 0 && sc.stopping, r.2)

/-! ## fd_manager.cpp: `FdCtx` and `FdManager` -/

/-- The flag `O_NONBLOCK` of `<fcntl.h>` (octal 04000). -/
def O_NONBLOCK : Nat := 2048

/-- The socket option `SO_RCVTIMEO` of `<sys/socket.h>`. -/
def SO_RCVTIMEO : Nat := 20

/-- The socket option `SO_SNDTIMEO` of `<sys/socket.h>`. -/
def SO_SNDTIMEO : Nat := 21

/-- The class `FdCtx` (fd_manager.h) with its member initialisers;
`(uint64_t)-1` is `2 ^ 64 - 1`. -/
structure FdCtx where
  m_isInit : Bool := false
  m_isSocket : Bool := false
  m_sysNonblock : Bool := false
  m_userNonblock : Bool := false
  m_isClosed : Bool := false
  m_fd : Int := 0
  m_recvTimeout : Nat := 2 ^ 64 - 1
  m_sendTimeout : Nat := 2 ^ 64 - 1
deriving DecidableEq, Repr

/-- What the kernel answers to the constructor of an `FdCtx`: whether `fstat`
succeeds, `S_ISSOCK(statbuf.st_mode)`, and the value of
`fcntl_f(m_fd, F_GETFL, 0)` as a 32-bit pattern. -/
structure Probe where
  fstatOk : Bool := true
  isSock : Bool := true
  flags : Nat := 0
deriving DecidableEq, Repr

/-- The function `FdCtx::init()`. Returns the result, the object, and the flag
word passed to `fcntl_f(m_fd, F_SETFL, ...)` when that call is made. -/
def FdCtx.init (c : FdCtx) (p : Probe) : Bool × FdCtx × Option Nat :=
  if c.m_isInit then (true, c, none)
  else
    let c1 : FdCtx :=
      if p.fstatOk = false then { c with m_isInit := false, m_isSocket := false }
      else { c with m_isInit := true, m_isSocket := p.isSock }
    if c1.m_isSocket then
      (c1.m_isInit, { c1 with m_sysNonblock := true },
        if p.flags &&& O_NONBLOCK = 0 then some (p.flags ||| O_NONBLOCK) else none)
    else (c1.m_isInit, { c1 with m_sysNonblock := false }, none)

/-- The constructor `FdCtx::FdCtx(int fd)`: `m_fd(fd)`, then `init()`. -/
def FdCtx.create (fd : Int) (p : Probe) : FdCtx :=
  (FdCtx.init { m_fd := fd } p).2.1

/-- The function `FdCtx::setTimeout(type, v)`. -/
def FdCtx.setTimeout (c : FdCtx) (type v : Nat) : FdCtx :=
  if type = SO_RCVTIMEO then { c with m_recvTimeout := v } else { c with m_sendTimeout := v }

/-- The function `FdCtx::setUserNonblock(v)`. -/
def FdCtx.setUserNonblock (c : FdCtx) (v : Bool) : FdCtx := { c with m_userNonblock := v }

/-- The function `FdCtx::getTimeout(type)`. -/
def FdCtx.getTimeout (c : FdCtx) (type : Nat) : Nat :=
  if type = SO_RCVTIMEO then c.m_recvTimeout else c.m_sendTimeout

/-- The class `FdManager`: `heap` holds the `FdCtx` objects made by
`make_shared`, a `shared_ptr<FdCtx>` is an index into it (`none` is the null
pointer), and `m_datas` is the vector of pointers. -/
structure FdManager where
  heap : List FdCtx := []
  m_datas : List (Option Nat) := []
deriving DecidableEq, Repr

/-- The constructor `FdManager::FdManager()`: `m_datas.resize(64)`. -/
def FdManager.init : FdManager := { m_datas := List.replicate 64 none }

/-- The conversion of an `int` to `size_t` (in `m_datas.size() <= fd` and in
`m_datas[fd]`). -/
def toSizeT (i : Int) : Nat := (i % 2 ^ 64).toNat

/-- The call `m_datas.resize(n)`: truncate, or pad with null pointers. -/
def resize (l : List (Option Nat)) (n : Nat) : List (Option Nat) :=
  l.take n ++ List.replicate (n - l.length) none

/-- The `FdCtx` object a pointer refers to. -/
def fdCtxOf (m : FdManager) (ptr : Nat) : FdCtx := m.heap.getD ptr {}

/-- A write to the `FdCtx` object a pointer refers to. -/
def FdManager.store (m : FdManager) (ptr : Nat) (c : FdCtx) : FdManager :=
  { m with heap := m.heap.set ptr c }

/-- The function `FdManager::get(fd, auto_create)`; `p` is what the kernel
answers if an `FdCtx` is constructed. Returns the pointer and the manager;
`none` when the call has no defined result: `resize(fd * 1.5)` of a negative
`fd`, or `m_datas[fd]` out of bounds. For `0 ≤ fd < 2 ^ 31` the product
`fd * 1.5` is exact in a `double` and its conversion to `size_t` is
`fd * 3 / 2`. -/
def FdManager.get (m : FdManager) (fd : Int) (auto_create : Bool) (p : Probe) :
    Option (Option Nat × FdManager) :=
  if fd = -1 then some (none, m)
  else if m.m_datas.length ≤ toSizeT fd ∧ auto_create = false then some (none, m)
  else if toSizeT fd < m.m_datas.length ∧
      ((m.m_datas.getD (toSizeT fd) none).isSome ∨ auto_create = false) then
    some (m.m_datas.getD (toSizeT fd) none, m)
  else
    let datas : Option (List (Option Nat)) :=
      if m.m_datas.length ≤ toSizeT fd then
        if fd < 0 then none else some (resize m.m_datas (fd.toNat * 3 / 2))
      else some m.m_datas
    match datas with
    | none => none
    | some d =>
      if toSizeT fd < d.length then
        some (some m.heap.length,
          { heap := m.heap ++ [FdCtx.create fd p], m_datas := d.set (toSizeT fd) (some m.heap.length) })
      else none

/-- The pointer stored for `fd`: `m_datas[fd]`, null beyond the end of the
vector. -/
def FdManager.lookup (m : FdManager) (fd : Int) : Option Nat :=
  m.m_datas.getD (toSizeT fd) none

/-- The function `FdManager::del(fd)`. -/
def FdManager.del (m : FdManager) (fd : Int) : FdManager :=
  if m.m_datas.length ≤ toSizeT fd then m
  else { m with m_datas := m.m_datas.set (toSizeT fd) none }

/-- One call on the fd table. -/
inductive FdOp where
  | get (fd : Int) (auto_create : Bool) (p : Probe)
  | del (fd : Int)
deriving DecidableEq, Repr

/-- The fd an operation names. -/
def FdOp.fd : FdOp → Int
  | .get fd _ _ => fd
  | .del fd => fd

/-- Whether the operation is a `get` with `auto_create`. -/
def FdOp.creates : FdOp → Bool
  | .get _ auto_create _ => auto_create
  | .del _ => false

/-- The manager after one call. -/
def fdStep (m : FdManager) : FdOp → Option FdManager
  | .get fd auto_create p => (m.get fd auto_create p).map Prod.snd
  | .del fd => some (m.del fd)

/-- The manager after a sequence of calls. -/
def fdRun (m : FdManager) : List FdOp → Option FdManager
  | [] => some m
  | op :: ops => (fdStep m op).bind fun m1 => fdRun m1 ops

/-- The fd of an operation is an `int`, and a creating `get` is not given an fd
below `-1` (for which `resize(fd * 1.5)` has no defined result). -/
def FdOp.InRange (op : FdOp) : Prop :=
  -(2 : Int) ^ 31 ≤ op.fd ∧ op.fd < (2 : Int) ^ 31 ∧ (op.creates = true → -1 ≤ op.fd)

instance (op : FdOp) : Decidable op.InRange := by
  unfold FdOp.InRange
  infer_instance

/-- The calls `get(3, true)`, `get(70, true)` (which grows the table to 105
slots), `del(3)` and `get(3, true)`, all on sockets. -/
def sampleFdOps : List FdOp :=
  [.get 3 true {}, .get 70 true {}, .del 3, .get 3 true {}]

/-- The table keeps at least the 64 slots of the constructor. -/
def FdInv (m : FdManager) : Prop := 64 ≤ m.m_datas.length

/-! ## hook.cpp: `fcntl` -/

/-- The `F_SETFL` case of the hooked `fcntl(fd, cmd, arg)` (hook.cpp). `arg` is
the `int` argument as a 32-bit pattern, `kret` is what `fcntl_f` returns.
Returns the result, the flag word passed to `fcntl_f`, and the manager. -/
def fcntl_SETFL (m : FdManager) (fd : Int) (arg kret : Nat) :
    Option (Nat × Nat × FdManager) :=
  match m.get fd false {} with
  | none => none
  | some (none, m1) => some (kret, arg, m1)
  | some (some ptr, m1) =>
    let ctx := fdCtxOf m1 ptr
    if ctx.m_isClosed || !ctx.m_isSocket then some (kret, arg, m1)
    else
      let ctx1 : FdCtx := ctx.setUserNonblock ((arg &&& O_NONBLOCK) != 0)
      let arg1 := if ctx1.m_sysNonblock then arg ||| O_NONBLOCK else andNot arg O_NONBLOCK
      some (kret, arg1, m1.store ptr ctx1)

/-- The `F_GETFL` case of the hooked `fcntl(fd, cmd)`. `kret` is what
`fcntl_f(fd, cmd)` returns, as a 32-bit pattern. -/
def fcntl_GETFL (m : FdManager) (fd : Int) (kret : Nat) : Option (Nat × FdManager) :=
  match m.get fd false {} with
  | none => none
  | some (none, m1) => some (kret, m1)
  | some (some ptr, m1) =>
    let ctx := fdCtxOf m1 ptr
    if ctx.m_isClosed || !ctx.m_isSocket then some (kret, m1)
    else if ctx.m_userNonblock then some (kret ||| O_NONBLOCK, m1)
    else some (andNot kret O_NONBLOCK, m1)

/-- The fd table after `get(3, true)` on a socket whose kernel flags are 2
(`O_RDWR`). -/
def sampleFdManager : FdManager :=
  { heap := [FdCtx.create 3 { flags := 2 }]
    m_datas := (List.replicate 64 none).set 3 (some 0) }

/-! ## hook.cpp: `do_io` and `connect_with_timeout` -/

/-- The error number `EINTR` of `<errno.h>`. -/
def EINTR : Nat := 4

/-- The error number `EBADF`. -/
def EBADF : Nat := 9

/-- The error number `EAGAIN`. -/
def EAGAIN : Nat := 11

/-- The error number `ETIMEDOUT`. -/
def ETIMEDOUT : Nat := 110

/-- The error number `ECONNREFUSED`. -/
def ECONNREFUSED : Nat := 111

/-- The error number `EINPROGRESS`. -/
def EINPROGRESS : Nat := 115

/-- The `struct timer_info` of hook.cpp. -/
structure timer_info where
  cancelled : Nat := 0
deriving DecidableEq, Repr

/-- The callable that `do_io` and `connect_with_timeout` hand to
`addConditionTimer`: the lambda capturing `winfo`, `fd` and `event` (`iom` is
the one I/O manager), bound by `OnTimer` to the condition `winfo`. `winfo` is a
`weak_ptr<timer_info>`: an index into `World.tinfos`. -/
structure TimeoutClosure where
  winfo : Nat
  fd : Int
  event : Event
deriving DecidableEq, Repr

/-- What one call of the original function (`read_f`, `connect_f`, ...) returns,
and the `errno` it leaves when it returns `-1`. -/
structure RawResult where
  n : Int
  err : Nat := 0
deriving DecidableEq, Repr

/-- What `getsockopt(fd, SOL_SOCKET, SO_ERROR, &error, &len)` does: its return
value, the value it stores in `error`, and the `errno` it leaves when it
returns `-1`. -/
structure SockOpt where
  ret : Int := 0
  error : Nat := 0
  err : Nat := 0
deriving DecidableEq, Repr

/-- The state the hooked calls work on: the thread's `t_hook_enable`, the
`FdMgr` singleton, the thread's I/O manager (event table and timer set) and
`errno`; the `timer_info` objects allocated so far (`none` once the last
`shared_ptr` is gone) and the callables handed to `addConditionTimer` (the
`m_cb` of their timers is the index here); the number of calls of the original
function and the `cancelEvent` calls made by timeout callables so far. -/
structure World where
  t_hook_enable : Bool := false
  fdm : FdManager := FdManager.init
  iom : IOManager := {}
  tm : TimerManager := {}
  errno : Nat := 0
  tinfos : List (Option timer_info) := []
  closures : List TimeoutClosure := []
  raw_calls : Nat := 0
  cancelEvent_calls : List (Int × Event) := []

/-- What the surroundings answer during one hooked call: the clock, the outcome
of `epoll_ctl`, `IOManager::GetThis()` (null when the thread has no I/O
manager) and `Fiber::GetThis()`. -/
structure Env where
  now : Int := 0
  ok : Bool := true
  cur : Option Nat := some 1
  curFiber : Nat := 0
deriving DecidableEq, Repr

/-- The locals of `do_io` (or `connect_with_timeout`) that are live across
`Fiber::GetThis()->yield()`. -/
structure IoFrame where
  fd : Int
  event : Event
  timeout : Nat
  tinfo : Nat
  timer : Option Nat
deriving DecidableEq, Repr

/-- How a hooked call leaves the running coroutine: it returns `n`, or it
yields inside the call. -/
inductive IoOutcome where
  | returned (n : Int)
  | yielded (frame : IoFrame)
deriving DecidableEq, Repr

/-- The end of the scope of the `shared_ptr<timer_info> tinfo`: the object is
destroyed (the callable holds only a `weak_ptr`). -/
def World.release (w : World) (tinfo : Nat) : World :=
  { w with tinfos := w.tinfos.set tinfo none }

/-- One call `fun(fd, args...)` of the original function: it returns the next
scripted result and sets `errno` when that is `-1`. `none` when the script has
no further result. -/
def rawCall (w : World) : List RawResult → Option (Int × World × List RawResult)
  | [] => none
  | r :: rest =>
    some (r.n, { w with errno := if r.n = -1 then r.err else w.errno,
                        raw_calls := w.raw_calls + 1 }, rest)

/-- The statement `return fun(fd, args...);`. -/
def rawReturn (w : World) (script : List RawResult) :
    Option (IoOutcome × World × List RawResult) :=
  (rawCall w script).map fun r => (.returned r.1, r.2)

/-- The function `TimerManager::addConditionTimer(ms, cb, weak_cond)` with the
callable `cl`: `addTimer(ms, std::bind(&OnTimer, weak_cond, cb), false)`. -/
def addConditionTimer (w : World) (ms : Nat) (cl : TimeoutClosure) (now : Int) : Nat × World :=
  let r := addTimer w.tm ms (some w.closures.length) false now
  (r.1, { w with closures := w.closures ++ [cl], tm := r.2 })

/-- The statement `if (timer) timer->cancel();`. -/
def cancelTimer (w : World) : Option Nat → Option World
  | none => some w
  | some t => (Timer.cancel w.tm t).map fun r => { w with tm := r.2 }

/-- A call of the callable `c` of a timeout timer (`OnTimer`, then the lambda):
nothing if the `timer_info` is gone or `cancelled` is set; otherwise
`t->cancelled = ETIMEDOUT; iom->cancelEvent(fd, event);`. `ok` is the outcome of
`epoll_ctl` in `cancelEvent`. -/
def runTimeout (w : World) (c : Nat) (ok : Bool) : Option World :=
  match w.closures[c]? with
  | none => none
  | some cl =>
    match w.tinfos.getD cl.winfo none with
    | none => some w
    | some t =>
      if t.cancelled ≠ 0 then some w
      else
        match cancelEvent w.iom cl.fd.toNat cl.event ok with
        | none => none
        | some r =>
          some { w with
            tinfos := w.tinfos.set cl.winfo (some { cancelled := ETIMEDOUT })
            iom := r.2
            cancelEvent_calls := w.cancelEvent_calls ++ [(cl.fd, cl.event)] }

/-- The block `if (n == -1 && errno == EAGAIN) { ... }` of `do_io` up to its
`return -1` or its `yield()`. -/
def do_io_wait (w : World) (fd : Int) (event : Event) (timeout tinfo : Nat) (env : Env)
    (rest : List RawResult) : Option (IoOutcome × World × List RawResult) :=
  match env.cur with
  | none => none
  | some _ =>
    let r : Option Nat × World :=
      if timeout ≠ 2 ^ 64 - 1 then
        let a := addConditionTimer w timeout ⟨tinfo, fd, event⟩ env.now
        (some a.1, a.2)
      else (none, w)
    match addEvent r.2.iom fd.toNat event none env.cur env.curFiber env.ok with
    | none => none
    | some (rt, iom1) =>
      let w2 : World := { r.2 with iom := iom1 }
      if rt ≠ 0 then
        match cancelTimer w2 r.1 with
        | none => none
        | some w3 => some (.returned (-1), w3.release tinfo, rest)
      else some (.yielded ⟨fd, event, timeout, tinfo, r.1⟩, w2, rest)

/-- The function `do_io` from the label `retry:` to its next `return` or
`yield()`: the original call, repeated while it fails with `EINTR`; then the
wait on `EAGAIN`, or `return n`. -/
def do_io_retry (fd : Int) (event : Event) (timeout tinfo : Nat) (env : Env) :
    World → List RawResult → Option (IoOutcome × World × List RawResult)
  | _, [] => none
  | w, r :: rest =>
    let w1 : World := { w with errno := if r.n = -1 then r.err else w.errno,
                               raw_calls := w.raw_calls + 1 }
    if r.n = -1 ∧ w1.errno = EINTR then do_io_retry fd event timeout tinfo env w1 rest
    else if r.n = -1 ∧ w1.errno = EAGAIN then do_io_wait w1 fd event timeout tinfo env rest
    else some (.returned r.n, w1.release tinfo, rest)

/-- The function `do_io(fd, fun, name, event, timeout_so, args...)` up to its
first `return` or `yield()`. -/
def do_io (w : World) (fd : Int) (event : Event) (timeout_so : Nat) (env : Env)
    (script : List RawResult) : Option (IoOutcome × World × List RawResult) :=
  if w.t_hook_enable = false then rawReturn w script
  else
    match w.fdm.get fd false {} with
    | none => none
    | some (none, fdm1) => rawReturn { w with fdm := fdm1 } script
    | some (some ptr, fdm1) =>
      let w1 : World := { w with fdm := fdm1 }
      let ctx := fdCtxOf fdm1 ptr
      if ctx.m_isClosed then some (.returned (-1), { w1 with errno := EBADF }, script)
      else if !ctx.m_isSocket || ctx.m_userNonblock then rawReturn w1 script
      else
        let timeout := ctx.getTimeout timeout_so
        let tinfo := w1.tinfos.length
        do_io_retry fd event timeout tinfo env
          { w1 with tinfos := w1.tinfos ++ [some {}] } script

/-- The function `do_io` from the return of `yield()` to its next `return` or
`yield()`. -/
def do_io_resume (w : World) (frame : IoFrame) (env : Env) (script : List RawResult) :
    Option (IoOutcome × World × List RawResult) :=
  match cancelTimer w frame.timer with
  | none => none
  | some w1 =>
    match w1.tinfos.getD frame.tinfo none with
    | none => none
    | some ti =>
      if ti.cancelled = ETIMEDOUT then
        some (.returned (-1), World.release { w1 with errno := ti.cancelled } frame.tinfo, script)
      else do_io_retry frame.fd frame.event frame.timeout frame.tinfo env w1 script

/-- The end of `connect_with_timeout`: the probe
`getsockopt(fd, SOL_SOCKET, SO_ERROR, &error, &len)` and the three returns
after it. -/
def connect_probe (w : World) (tinfo : Nat) (so : SockOpt) : Int × World :=
  if so.ret = -1 then (-1, World.release { w with errno := so.err } tinfo)
  else if so.error = 0 then (0, w.release tinfo)
  else (-1, World.release { w with errno := so.error } tinfo)

/-- The function `connect_with_timeout(fd, addr, addrlen, timeout_ms)` up to
its first `return` or `yield()`. The script holds the result of `connect_f`;
`so` is what the probe answers if it is reached without a `yield()`. -/
def connect_with_timeout (w : World) (fd : Int) (timeout_ms : Nat) (env : Env)
    (so : SockOpt) (script : List RawResult) : Option (IoOutcome × World × List RawResult) :=
  if w.t_hook_enable = false then rawReturn w script
  else
    match w.fdm.get fd false {} with
    | none => none
    | some (none, fdm1) => some (.returned (-1), { w with fdm := fdm1, errno := EBADF }, script)
    | some (some ptr, fdm1) =>
      let w1 : World := { w with fdm := fdm1 }
      let ctx := fdCtxOf fdm1 ptr
      if ctx.m_isClosed then some (.returned (-1), { w1 with errno := EBADF }, script)
      else if !ctx.m_isSocket then rawReturn w1 script
      else if ctx.m_userNonblock then rawReturn w1 script
      else
        match rawCall w1 script with
        | none => none
        | some (n, w2, rest) =>
          if n = 0 then some (.returned 0, w2, rest)
          else if n ≠ -1 ∧ w2.errno ≠ EINPROGRESS then some (.returned n, w2, rest)
          else
            match env.cur with
            | none => none
            | some _ =>
              let tinfo := w2.tinfos.length
              let w3 : World := { w2 with tinfos := w2.tinfos ++ [some {}] }
              let r : Option Nat × World :=
                if timeout_ms ≠ 2 ^ 64 - 1 then
                  let a := addConditionTimer w3 timeout_ms ⟨tinfo, fd, .WRITE⟩ env.now
                  (some a.1, a.2)
                else (none, w3)
              match addEvent r.2.iom fd.toNat .WRITE none env.cur env.curFiber env.ok with
              | none => none
              | some (rt, iom1) =>
                let w4 : World := { r.2 with iom := iom1 }
                if rt = 0 then some (.yielded ⟨fd, .WRITE, timeout_ms, tinfo, r.1⟩, w4, rest)
                else
                  match cancelTimer w4 r.1 with
                  | none => none
                  | some w5 =>
                    let e := connect_probe w5 tinfo so
                    some (.returned e.1, e.2, rest)

/-- The function `connect_with_timeout` from the return of `yield()` to its
`return`. -/
def connect_resume (w : World) (frame : IoFrame) (so : SockOpt) : Option (Int × World) :=
  match cancelTimer w frame.timer with
  | none => none
  | some w1 =>
    match w1.tinfos.getD frame.tinfo none with
    | none => none
    | some ti =>
      if ti.cancelled ≠ 0 then
        some (-1, World.release { w1 with errno := ti.cancelled } frame.tinfo)
      else some (connect_probe w1 frame.tinfo so)

/-- The default `s_connect_timeout = -1` of `connect`. -/
def s_connect_timeout : Nat := 2 ^ 64 - 1

/-- A thread with hooks enabled whose fd table holds a socket record for fd 3
(`sampleFdManager`) and whose I/O manager is the one constructed with
self-pipe fd 5. -/
def sampleWorld : World :=
  { t_hook_enable := true, fdm := sampleFdManager, iom := IOManager.init 5 }

/-- The state of `sampleWorld` with a receive timeout of 50 ms on fd 3
(`setsockopt(3, SOL_SOCKET, SO_RCVTIMEO, ...)`). -/
def sampleWorldTimeout : World :=
  { sampleWorld with
    fdm := sampleFdManager.store 0 ((fdCtxOf sampleFdManager 0).setTimeout SO_RCVTIMEO 50) }

/-! ## States and conversions for the later timer and dispatch facts -/

/-- A manager with one recurring timer of period 0, added at clock value 0. -/
def zeroPeriodTimers : TimerManager := (addTimer {} 0 (some 1) true 0).2

/-- The state the constructor with self-pipe fd 3 reaches by registering `READ`
(and nothing else) on fd 5, with callable 7 on scheduler 1. -/
def sampleReadOnly : IOManager :=
  (run (IOManager.init 3) [.addEvent 5 .READ (some 7) (some 1) 9 true]).getD (IOManager.init 3)

/-- The conversion of a `long` to `int` (`int timeout_ms = ...` in `nanosleep`). -/
def intOfLong (v : Int) : Int := toInt (toSizeT v)

/-- The argument `seconds * 1000` of `addTimer` in `sleep`: the product of an
`unsigned int` and an `int` is an `unsigned int` (32 bits), converted to the
`uint64_t` parameter afterwards. -/
def sleep_ms (seconds : Nat) : Nat := (seconds * 1000) % 2 ^ 32

/-- The argument `usec / 1000` of `addTimer` in `usleep` (`useconds_t` is an
`unsigned int`). -/
def usleep_ms (usec : Nat) : Nat := usec / 1000

/-- The argument of `addTimer` in `nanosleep`: `int timeout_ms = req->tv_sec *
1000 + req->tv_nsec / 1000 / 1000;` is computed in `long`, converted to `int`,
and converted to the `uint64_t` parameter. -/
def nanosleep_ms (tv_sec tv_nsec : Int) : Nat :=
  toSizeT (intOfLong (tv_sec * 1000 + (tv_nsec.tdiv 1000).tdiv 1000))

/-- The hooked `sleep(seconds)`, `usleep(usec)` and `nanosleep(req, rem)` up to
`fiber->yield()`, all of the shape `iom->addTimer(ms, wake)`: `ms` is the
converted argument, `wake` the callable that schedules the sleeping coroutine,
`cur` is `IOManager::GetThis()`. Returns the timer added, or no timer when the
hook is disabled and the original function is called; `none` when `iom` is
null. -/
def hookedSleep (t_hook_enable : Bool) (cur : Option Nat) (tm : TimerManager) (ms : Nat)
    (wake : Nat) (now : Int) : Option (Option Nat × TimerManager) :=
  if t_hook_enable = false then some (none, tm)
  else
    match cur with
    | none => none
    | some _ =>
      let r := addTimer tm ms (some wake) false now
      some (some r.1, r.2)

/-- The hooked `sleep(seconds)`. -/
def sleep (t_hook_enable : Bool) (cur : Option Nat) (tm : TimerManager) (seconds : Nat)
    (wake : Nat) (now : Int) : Option (Option Nat × TimerManager) :=
  hookedSleep t_hook_enable cur tm (sleep_ms seconds) wake now

/-- The hooked `usleep(usec)`. -/
def usleep (t_hook_enable : Bool) (cur : Option Nat) (tm : TimerManager) (usec : Nat)
    (wake : Nat) (now : Int) : Option (Option Nat × TimerManager) :=
  hookedSleep t_hook_enable cur tm (usleep_ms usec) wake now

/-- The hooked `nanosleep(req, rem)` with `req = {tv_sec, tv_nsec}`. -/
def nanosleep (t_hook_enable : Bool) (cur : Option Nat) (tm : TimerManager)
    (tv_sec tv_nsec : Int) (wake : Nat) (now : Int) : Option (Option Nat × TimerManager) :=
  hookedSleep t_hook_enable cur tm (nanosleep_ms tv_sec tv_nsec) wake now

/-! ## scheduler.cpp: the worker loop takes a task -/

/-- The scan of `m_tasks` at the head of the loop of `Scheduler::run` on the
worker `thread_id`: a task with `thread != -1 && thread != thread_id` is
skipped; the first other task is taken (`assert(it->fiber || it->cb)`, then
`task = *it; m_tasks.erase(it);`). Returns the task taken, if any, and the
queue afterwards; `none` when the `assert` fails. The flag `tickle_me`, which
only decides whether `tickle()` is called afterwards, is left out. -/
def scanTasks (thread_id : Int) : List ScheduleTask → Option (Option ScheduleTask × List ScheduleTask)
  | [] => some (none, [])
  | t :: ts =>
    if t.thread ≠ -1 ∧ t.thread ≠ thread_id then
      (scanTasks thread_id ts).map fun r => (r.1, t :: r.2)
    else if t.fiber.isSome ∨ t.cb.isSome then some (some t, ts)
    else none

/-- The block of `Scheduler::run` under the queue lock: the scan, and
`m_activeThreadCount++` when a task is taken. -/
def Scheduler.takeTask (sc : Scheduler) (thread_id : Int) :
    Option (Option ScheduleTask × Scheduler) :=
  match scanTasks thread_id sc.m_tasks with
  | none => none
  | some (none, _) => some (none, sc)
  | some (some t, tasks) =>
    some (some t, { sc with m_tasks := tasks, m_activeThreadCount := incr sc.m_activeThreadCount })

/-- A queue of four tasks: for thread 7, for any thread (callable 1), for thread
4, for any thread (coroutine 2). -/
def sampleScheduler : Scheduler :=
  { m_tasks := [{ cb := some 5, thread := 7 }, { cb := some 1 }, { fiber := some 3, thread := 4 },
      { fiber := some 2 }]
    m_activeThreadCount := 1 }

/-- Between the states `tm` and `tm1` the callback `onTimerInsertedAtFront` was
called at most once, and only if `m_tickled` was clear in `tm`; the flag was
not cleared. -/
def SingleFlight (tm tm1 : TimerManager) : Prop :=
  tm.frontCalls ≤ tm1.frontCalls ∧
  tm1.frontCalls + (if tm1.m_tickled = true then 0 else 1)
    ≤ tm.frontCalls + (if tm.m_tickled = true then 0 else 1) ∧
  (tm.m_tickled = true → tm1.m_tickled = true)

/-- The call is `getNextTimer`. -/
def TimerOp.isGetNextTimer : TimerOp → Bool
  | .getNextTimer _ => true
  | _ => false

/-! ## Vocabulary for the invariants of the event table -/

/-- The `EventContext` holds a callable or a coroutine. -/
def Populated (ctx : EventContext) : Prop := ctx.cb.isSome = true ∨ ctx.fiber.isSome = true

instance (ctx : EventContext) : Decidable (Populated ctx) := by
  unfold Populated; infer_instance

/-- In the context `c` the `EventContext` of every registered direction is
populated and that of every other direction is reset (all three members
null). -/
def PopOk (c : FdContext) : Prop :=
  ∀ event, (c.events &&& event.toNat ≠ 0 → Populated (c.getEventContext event)) ∧
    (c.events &&& event.toNat = 0 → c.getEventContext event = {})

/-- The entry of the kernel's interest list that mirrors the mask `m`: none for
the empty mask, `EPOLLET | m` otherwise. -/
def kernelOf (m : Nat) : Option Nat := if m = 0 then none else some (EPOLLET ||| m)

/-- The directions the kernel has `fd` subscribed for: the word of the interest
list without `EPOLLET`, empty when `fd` is not in the list. -/
def subscribed (s : IOManager) (fd : Nat) : Nat :=
  match s.interest fd with
  | none => 0
  | some e => andNot e EPOLLET

/-- Every context of the table satisfies `PopOk`, and for every fd other than
the self-pipe's read end `tickleFd` the interest list mirrors the registered
mask. -/
def Good (tickleFd : Nat) (s : IOManager) : Prop :=
  (∀ (i : Nat) (c : FdContext), s.m_fdContexts[i]? = some (some c) → PopOk c) ∧
  (∀ fd, fd ≠ tickleFd → s.interest fd = kernelOf (ctxOf s fd).events)

/-- A manager with one one-shot timer (5 ms, callable 1, added at clock value
0) after a `getNextTimer()`, which has cleared `m_tickled`. -/
def polledTimers : TimerManager := (getNextTimer (addTimer {} 5 (some 1) false 0).2 0).2

/-! ## Arithmetic facts -/

theorem toInt_of_lt {n : Nat} (h : n < 2 ^ 31) : toInt n = (n : Int) := by
  unfold toInt
  have h1 : n % 2 ^ 32 = n := Nat.mod_eq_of_lt (by omega)
  rw [h1, if_pos h]

theorem incr_of_lt {n : Nat} (h : n + 1 < 2 ^ 64) : incr n = n + 1 := by
  unfold incr; exact Nat.mod_eq_of_lt h

theorem decr_of_pos {n : Nat} (h0 : 0 < n) (h : n < 2 ^ 64) : decr n = n - 1 := by
  unfold decr
  have : n + (2 ^ 64 - 1) = (n - 1) + 2 ^ 64 := by omega
  rw [this, Nat.add_mod_right]
  exact Nat.mod_eq_of_lt (by omega)

theorem popcount_le_two (m : Nat) : popcount m ≤ 2 := by
  unfold popcount; split <;> split <;> omega

theorem validMask_cases {m : Nat} (h : ValidMask m) (event : Event) :
    (m &&& event.toNat = 0 ∧ popcount (m ||| event.toNat) = popcount m + 1 ∧
        ValidMask (m ||| event.toNat) ∧ andNot m event.toNat = m) ∨
    (m &&& event.toNat ≠ 0 ∧ popcount m = popcount (andNot m event.toNat) + 1 ∧
        ValidMask (andNot m event.toNat) ∧ andNot m event.toNat &&& event.toNat = 0) := by
  rcases h with h | h | h | h <;> subst h <;> cases event <;> decide

/-! ## Facts about the table -/

theorem pendingSum_le (tbl : List (Option FdContext)) : pendingSum tbl ≤ 2 * tbl.length := by
  induction tbl with
  | nil => simp [pendingSum]
  | cons o tl ih =>
    have h1 : slotCount o ≤ 2 := by
      cases o with
      | none => simp [slotCount]
      | some c => exact popcount_le_two _
    simp only [pendingSum, List.map_cons, List.sum_cons, List.length_cons] at ih ⊢
    omega

theorem pendingSum_set {tbl : List (Option FdContext)} {i : Nat} {c : FdContext}
    (h : tbl[i]? = some (some c)) (c1 : FdContext) :
    pendingSum (tbl.set i (some c1)) + popcount c.events
      = pendingSum tbl + popcount c1.events := by
  induction tbl generalizing i with
  | nil => simp at h
  | cons o tl ih =>
    cases i with
    | zero =>
      simp only [List.getElem?_cons_zero, Option.some.injEq] at h
      subst h
      simp only [pendingSum, List.set_cons_zero, List.map_cons, List.sum_cons, slotCount]
      omega
    | succ j =>
      simp only [List.getElem?_cons_succ] at h
      have := ih h
      simp only [pendingSum, List.set_cons_succ, List.map_cons, List.sum_cons] at this ⊢
      omega

theorem popcount_le_pendingSum {tbl : List (Option FdContext)} {i : Nat} {c : FdContext}
    (h : tbl[i]? = some (some c)) : popcount c.events ≤ pendingSum tbl := by
  induction tbl generalizing i with
  | nil => simp at h
  | cons o tl ih =>
    cases i with
    | zero =>
      simp only [List.getElem?_cons_zero, Option.some.injEq] at h
      subst h
      simp only [pendingSum, List.map_cons, List.sum_cons, slotCount]
      omega
    | succ j =>
      simp only [List.getElem?_cons_succ] at h
      have := ih h
      simp only [pendingSum, List.map_cons, List.sum_cons] at this ⊢
      omega

theorem slot_of_inv {s : IOManager} (h : Inv s) {i : Nat} (hi : i < s.m_fdContexts.length) :
    ∃ c, s.m_fdContexts[i]? = some (some c) ∧ c.fd = (i : Int) ∧ ValidMask c.events := by
  have h3 := h.2.2.1 i hi
  revert h3
  cases hx : s.m_fdContexts[i]? with
  | none => simp [SlotOk]
  | some o =>
    cases o with
    | none => simp [SlotOk]
    | some c => intro h3; exact ⟨c, rfl, h3⟩

theorem fdCtxAt_of_slot {tbl : List (Option FdContext)} {i : Nat} {c : FdContext}
    (h : tbl[i]? = some (some c)) : fdCtxAt tbl i = some c := by
  simp [fdCtxAt, h]

theorem length_contextResize (tbl : List (Option FdContext)) (size : Nat) :
    (contextResize tbl size).length = size := by
  simp only [contextResize, List.length_map, List.enum_length, List.length_append,
    List.length_take, List.length_replicate]
  omega

theorem pendingSum_append (a b : List (Option FdContext)) :
    pendingSum (a ++ b) = pendingSum a + pendingSum b := by
  simp [pendingSum]

theorem pendingSum_fresh (l : List Nat) (f : Nat → Int) :
    pendingSum (l.map fun k => some ({ fd := f k } : FdContext)) = 0 := by
  induction l with
  | nil => rfl
  | cons a tl ih =>
    simp only [pendingSum, List.map_cons, List.sum_cons] at ih ⊢
    rw [ih]
    simp [slotCount, popcount, NONE]

theorem contextResize_grow {tbl : List (Option FdContext)} {size : Nat}
    (hall : ∀ i, i < tbl.length → ∃ c, tbl[i]? = some (some c)) (hle : tbl.length ≤ size) :
    contextResize tbl size
      = tbl ++ (List.range (size - tbl.length)).map
          fun k => some ({ fd := ((tbl.length + k : Nat) : Int) } : FdContext) := by
  apply List.ext_getElem?
  intro n
  simp only [contextResize, List.getElem?_map, List.getElem?_enum, List.take_of_length_le hle]
  by_cases hn : n < tbl.length
  · obtain ⟨c, hc⟩ := hall n hn
    rw [List.getElem?_append_left hn, List.getElem?_append_left hn, hc]
    rfl
  · have hn1 : tbl.length ≤ n := Nat.le_of_not_lt hn
    rw [List.getElem?_append_right hn1, List.getElem?_append_right hn1,
      List.getElem?_replicate, List.getElem?_map]
    by_cases hk : n - tbl.length < size - tbl.length
    · rw [if_pos hk, List.getElem?_range hk]
      have : tbl.length + (n - tbl.length) = n := by omega
      simp only [this, Option.map_some']
    · rw [if_neg hk, List.getElem?_eq_none (by simpa using hk)]
      rfl

theorem grown_of_lt {s : IOManager} (h : Inv s) {fd : Nat} (hfd : fd < s.m_fdContexts.length) :
    grown s fd = s.m_fdContexts := by
  unfold grown
  rw [toInt_of_lt h.2.1, if_pos (by exact_mod_cast hfd)]

theorem grown_of_ge {s : IOManager} (h : Inv s) {fd : Nat} (hfd : s.m_fdContexts.length ≤ fd) :
    grown s fd = s.m_fdContexts ++ (List.range (fd * 3 / 2 - s.m_fdContexts.length)).map
      fun k => some ({ fd := ((s.m_fdContexts.length + k : Nat) : Int) } : FdContext) := by
  unfold grown
  rw [toInt_of_lt h.2.1, if_neg (by exact_mod_cast Nat.not_lt.mpr hfd)]
  apply contextResize_grow
  · intro i hi
    obtain ⟨c, hc, _⟩ := slot_of_inv h hi
    exact ⟨c, hc⟩
  · have := h.1
    omega

theorem getElem?_grown_old {s : IOManager} (h : Inv s) (fd : Nat) {i : Nat}
    (hi : i < s.m_fdContexts.length) : (grown s fd)[i]? = s.m_fdContexts[i]? := by
  by_cases hfd : fd < s.m_fdContexts.length
  · rw [grown_of_lt h hfd]
  · rw [grown_of_ge h (Nat.le_of_not_lt hfd), List.getElem?_append_left hi]

theorem getElem?_grown_new {s : IOManager} (h : Inv s) {fd i : Nat}
    (hfd : s.m_fdContexts.length ≤ fd) (hi : s.m_fdContexts.length ≤ i) (hi2 : i < fd * 3 / 2) :
    (grown s fd)[i]? = some (some { fd := (i : Int) }) := by
  rw [grown_of_ge h hfd, List.getElem?_append_right hi, List.getElem?_map,
    List.getElem?_range (by omega)]
  have : s.m_fdContexts.length + (i - s.m_fdContexts.length) = i := by omega
  simp only [this, Option.map_some']

theorem length_grown {s : IOManager} (h : Inv s) (fd : Nat) :
    (grown s fd).length = if fd < s.m_fdContexts.length then s.m_fdContexts.length
      else fd * 3 / 2 := by
  by_cases hfd : fd < s.m_fdContexts.length
  · rw [grown_of_lt h hfd, if_pos hfd]
  · rw [if_neg hfd]
    unfold grown
    rw [toInt_of_lt h.2.1, if_neg (by exact_mod_cast hfd), length_contextResize]

/-- Growing the table for `fd` keeps the invariant and puts `fd` in range. -/
theorem inv_grown {s : IOManager} (h : Inv s) {fd : Nat} (hfd : fd * 3 / 2 < 2 ^ 31)
    (s1 : IOManager) (htbl : s1.m_fdContexts = grown s fd)
    (hp : s1.m_pendingEventCount = s.m_pendingEventCount) :
    Inv s1 ∧ fd < s1.m_fdContexts.length := by
  have hlen := length_grown h fd
  by_cases hlt : fd < s.m_fdContexts.length
  · have hg := grown_of_lt h hlt
    rw [hg] at htbl
    refine ⟨?_, by rw [htbl]; exact hlt⟩
    unfold Inv
    rw [htbl, hp]
    exact h
  · have hge : s.m_fdContexts.length ≤ fd := Nat.le_of_not_lt hlt
    rw [if_neg hlt] at hlen
    have h2 := h.1
    refine ⟨⟨?_, ?_, ?_, ?_⟩, ?_⟩
    · rw [htbl, hlen]; omega
    · rw [htbl, hlen]; exact hfd
    · intro i hi
      rw [htbl, hlen] at hi
      rw [htbl]
      by_cases hi1 : i < s.m_fdContexts.length
      · rw [getElem?_grown_old h fd hi1]
        exact h.2.2.1 i hi1
      · rw [getElem?_grown_new h hge (Nat.le_of_not_lt hi1) hi]
        exact ⟨rfl, Or.inl rfl⟩
    · rw [hp, htbl, grown_of_ge h hge, pendingSum_append, pendingSum_fresh, Nat.add_zero]
      exact h.2.2.2
    · rw [htbl, hlen]; omega

/-- Replacing the context in slot `i` by one with the same fd and a valid mask
keeps the invariant when the counter moves with the mask. -/
theorem inv_set {s : IOManager} (h : Inv s) {i : Nat} {c : FdContext}
    (hc : s.m_fdContexts[i]? = some (some c)) (c1 : FdContext) (hfd : c1.fd = c.fd)
    (hm : ValidMask c1.events) (s1 : IOManager)
    (htbl : s1.m_fdContexts = s.m_fdContexts.set i (some c1))
    (hp : s1.m_pendingEventCount + popcount c.events
      = s.m_pendingEventCount + popcount c1.events) : Inv s1 := by
  have hi : i < s.m_fdContexts.length := (List.getElem?_eq_some.mp hc).1
  obtain ⟨c0, hc0, hfd0, _⟩ := slot_of_inv h hi
  rw [hc] at hc0
  have hcc : c0 = c := by simpa using hc0.symm
  subst hcc
  refine ⟨?_, ?_, ?_, ?_⟩
  · rw [htbl, List.length_set]; exact h.1
  · rw [htbl, List.length_set]; exact h.2.1
  · intro j hj
    rw [htbl, List.length_set] at hj
    rw [htbl, List.getElem?_set]
    by_cases hij : i = j
    · subst hij
      rw [if_pos rfl, if_pos hi]
      exact ⟨hfd.trans hfd0, hm⟩
    · rw [if_neg hij]
      exact h.2.2.1 j hj
  · have h1 := pendingSum_set hc c1
    have h2 := h.2.2.2
    rw [htbl]
    omega

/-! ## Facts about `triggerEvent` -/

theorem triggerEvent_eq {c : FdContext} {event : Event} {sch : Nat}
    (hbit : c.events &&& event.toNat ≠ 0) (hs : (c.getEventContext event).scheduler = some sch) :
    c.triggerEvent event = some
      (({ c with events := andNot c.events event.toNat } : FdContext).setEventContext event {},
       { scheduler := sch, task := taskOf (c.getEventContext event), fd := c.fd, event := event }) := by
  unfold FdContext.triggerEvent
  rw [if_neg hbit]
  cases event <;> simp_all [FdContext.getEventContext, resetEventContext]

theorem triggerEvent_some {c c1 : FdContext} {event : Event} {t : Scheduled}
    (h : c.triggerEvent event = some (c1, t)) :
    c.events &&& event.toNat ≠ 0 ∧ (c.getEventContext event).scheduler = some t.scheduler ∧
    c1 = ({ c with events := andNot c.events event.toNat } : FdContext).setEventContext event {} ∧
    t = { scheduler := t.scheduler, task := taskOf (c.getEventContext event), fd := c.fd,
          event := event } := by
  by_cases hbit : c.events &&& event.toNat = 0
  · simp [FdContext.triggerEvent, hbit] at h
  · cases hs : (c.getEventContext event).scheduler with
    | none =>
      unfold FdContext.triggerEvent at h
      rw [if_neg hbit] at h
      cases event <;> simp_all [FdContext.getEventContext]
    | some sch =>
      rw [triggerEvent_eq hbit hs] at h
      simp only [Option.some.injEq, Prod.mk.injEq] at h
      obtain ⟨h1, h2⟩ := h
      subst h1 h2
      exact ⟨hbit, rfl, rfl, rfl⟩

theorem setEventContext_events (c : FdContext) (event : Event) (ctx : EventContext) :
    (c.setEventContext event ctx).events = c.events := by
  cases event <;> rfl

theorem setEventContext_fd (c : FdContext) (event : Event) (ctx : EventContext) :
    (c.setEventContext event ctx).fd = c.fd := by
  cases event <;> rfl

theorem getEventContext_set_same (c : FdContext) (event : Event) (ctx : EventContext) :
    (c.setEventContext event ctx).getEventContext event = ctx := by
  cases event <;> rfl

theorem getEventContext_set_other (c : FdContext) (event : Event) (ctx : EventContext) :
    (c.setEventContext event ctx).getEventContext event.other = c.getEventContext event.other := by
  cases event <;> rfl

/-! ## The invariant is kept by every call -/

theorem epoll_ctl_fail (k : Nat → Option Nat) (op fd events : Nat) :
    epoll_ctl k op fd events false = (-1, k) := rfl

theorem epoll_ctl_ok (k : Nat → Option Nat) (op fd events : Nat) :
    (epoll_ctl k op fd events true).1 = 0 := rfl

theorem inv_addEvent {s s1 : IOManager} {fd : Nat} {event : Event} {cb cur : Option Nat}
    {curFiber : Nat} {ok : Bool} {r : Int} (h : Inv s) (hfd : fd * 3 / 2 < 2 ^ 31)
    (hr : addEvent s fd event cb cur curFiber ok = some (r, s1)) : Inv s1 := by
  obtain ⟨hg, hlt⟩ := inv_grown h hfd { s with m_fdContexts := grown s fd } rfl rfl
  obtain ⟨c, hc, hcfd, hcm⟩ := slot_of_inv hg hlt
  have hc1 : (grown s fd)[fd]? = some (some c) := hc
  unfold addEvent at hr
  simp only [fdCtxAt_of_slot hc1] at hr
  by_cases hbit : c.events &&& event.toNat ≠ 0
  · rw [if_pos hbit] at hr
    simp only [Option.some.injEq, Prod.mk.injEq] at hr
    rw [← hr.2]; exact hg
  · rw [if_neg hbit] at hr
    cases ok
    · simp only [epoll_ctl_fail, ne_eq, Int.reduceNeg, neg_eq_zero, one_ne_zero,
        not_false_eq_true, ↓reduceIte, Option.some.injEq, Prod.mk.injEq] at hr
      rw [← hr.2]
      apply And.left
      exact inv_grown h hfd _ rfl rfl
    · simp only [epoll_ctl_ok, ne_eq, not_true_eq_false, ↓reduceIte] at hr
      split at hr
      · simp at hr
      · simp only [Option.some.injEq, Prod.mk.injEq] at hr
        rw [← hr.2]
        have hbit0 : c.events &&& event.toNat = 0 := by simpa using hbit
        rcases validMask_cases hcm event with hv | hv
        · refine inv_set hg hc _ ?_ ?_ _ rfl ?_
          · rw [setEventContext_fd]
          · rw [setEventContext_events]; exact hv.2.2.1
          · rw [setEventContext_events]
            have hle := pendingSum_le s.m_fdContexts
            have hcnt := h.2.2.2
            have hlen := h.2.1
            have hinc : incr s.m_pendingEventCount = s.m_pendingEventCount + 1 :=
              incr_of_lt (by omega)
            show incr s.m_pendingEventCount + popcount c.events
              = s.m_pendingEventCount + popcount (c.events ||| event.toNat)
            rw [hinc, hv.2.1]
            omega
        · exact absurd hbit0 hv.1

theorem lookup_lt {s : IOManager} (h : Inv s) (fd : Nat) :
    toInt s.m_fdContexts.length > (fd : Int) ↔ fd < s.m_fdContexts.length := by
  rw [toInt_of_lt h.2.1]
  exact ⟨fun hh => by exact_mod_cast hh, fun hh => by exact_mod_cast hh⟩

theorem pending_lt {s : IOManager} (h : Inv s) : s.m_pendingEventCount < 2 ^ 32 := by
  have hle := pendingSum_le s.m_fdContexts
  have hcnt := h.2.2.2
  have hlen := h.2.1
  omega

/-- Clearing a registered direction and decrementing the counter keep the
counter in step with the masks. -/
theorem decr_step {s : IOManager} (h : Inv s) {i : Nat} {c : FdContext}
    (hc : s.m_fdContexts[i]? = some (some c)) {event : Event}
    (hbit : c.events &&& event.toNat ≠ 0) (hm : ValidMask c.events) :
    decr s.m_pendingEventCount + popcount c.events
      = s.m_pendingEventCount + popcount (andNot c.events event.toNat) := by
  have h1 := popcount_le_pendingSum hc
  have h2 := pending_lt h
  have hcnt := h.2.2.2
  rcases validMask_cases hm event with hv | hv
  · exact absurd hv.1 hbit
  · rw [decr_of_pos (by omega) (by omega)]
    omega

theorem fireIf_some {mask : Nat} {event : Event} {c c1 : FdContext} {p p1 : Nat}
    {l l1 : List Scheduled} (hm : ValidMask c.events) (hle : popcount c.events ≤ p)
    (hp : p < 2 ^ 64) (h : fireIf mask event (c, p, l) = some (c1, p1, l1)) :
    ValidMask c1.events ∧ c1.fd = c.fd ∧ p1 + popcount c.events = p + popcount c1.events ∧
      popcount c1.events ≤ p1 ∧ p1 < 2 ^ 64 := by
  unfold fireIf at h
  by_cases hmask : mask &&& event.toNat ≠ 0
  · rw [if_pos hmask] at h
    cases ht : c.triggerEvent event with
    | none => simp [ht] at h
    | some ct =>
      obtain ⟨c2, t⟩ := ct
      simp only [ht, Option.some.injEq, Prod.mk.injEq] at h
      obtain ⟨hbit, _, hc2, _⟩ := triggerEvent_some ht
      obtain ⟨h1, h2, _⟩ := h
      subst h1 h2
      rw [hc2, setEventContext_events, setEventContext_fd]
      rcases validMask_cases hm event with hv | hv
      · exact absurd hv.1 hbit
      · have hd : decr p = p - 1 := decr_of_pos (by omega) hp
        refine ⟨hv.2.2.1, rfl, ?_, ?_, ?_⟩
        · show decr p + popcount c.events = p + popcount (andNot c.events event.toNat)
          omega
        · show popcount (andNot c.events event.toNat) ≤ decr p
          omega
        · show decr p < 2 ^ 64
          omega
  · rw [if_neg hmask] at h
    simp only [Option.some.injEq, Prod.mk.injEq] at h
    obtain ⟨h1, h2, _⟩ := h
    subst h1 h2
    exact ⟨hm, rfl, rfl, hle, hp⟩

theorem inv_delEvent {s s1 : IOManager} {fd : Nat} {event : Event} {ok r : Bool} (h : Inv s)
    (hr : delEvent s fd event ok = some (r, s1)) : Inv s1 := by
  unfold delEvent at hr
  by_cases hlt : fd < s.m_fdContexts.length
  · rw [if_pos ((lookup_lt h fd).mpr hlt)] at hr
    obtain ⟨c, hc, hcfd, hcm⟩ := slot_of_inv h hlt
    simp only [fdCtxAt_of_slot hc] at hr
    by_cases hbit : c.events &&& event.toNat = 0
    · rw [if_pos hbit] at hr
      simp only [Option.some.injEq, Prod.mk.injEq] at hr
      rw [← hr.2]; exact h
    · rw [if_neg hbit] at hr
      cases ok
      · simp only [epoll_ctl_fail, ne_eq, Int.reduceNeg, neg_eq_zero, one_ne_zero,
          not_false_eq_true, ↓reduceIte, Option.some.injEq, Prod.mk.injEq] at hr
        rw [← hr.2]; exact h
      · simp only [epoll_ctl_ok, ne_eq, not_true_eq_false, ↓reduceIte, Option.some.injEq,
          Prod.mk.injEq] at hr
        rw [← hr.2]
        have hv := validMask_cases hcm event
        refine inv_set h hc _ ?_ ?_ _ rfl ?_
        · rw [setEventContext_fd]
        · rw [setEventContext_events]
          rcases hv with hv | hv
          · exact absurd hv.1 hbit
          · exact hv.2.2.1
        · rw [setEventContext_events]
          exact decr_step h hc hbit hcm
  · rw [if_neg (fun hh => hlt ((lookup_lt h fd).mp hh))] at hr
    simp only [Option.some.injEq, Prod.mk.injEq] at hr
    rw [← hr.2]; exact h

theorem inv_cancelEvent {s s1 : IOManager} {fd : Nat} {event : Event} {ok r : Bool} (h : Inv s)
    (hr : cancelEvent s fd event ok = some (r, s1)) : Inv s1 := by
  unfold cancelEvent at hr
  by_cases hlt : fd < s.m_fdContexts.length
  · rw [if_pos ((lookup_lt h fd).mpr hlt)] at hr
    obtain ⟨c, hc, hcfd, hcm⟩ := slot_of_inv h hlt
    simp only [fdCtxAt_of_slot hc] at hr
    by_cases hbit : c.events &&& event.toNat = 0
    · rw [if_pos hbit] at hr
      simp only [Option.some.injEq, Prod.mk.injEq] at hr
      rw [← hr.2]; exact h
    · rw [if_neg hbit] at hr
      cases ok
      · simp only [epoll_ctl_fail, ne_eq, Int.reduceNeg, neg_eq_zero, one_ne_zero,
          not_false_eq_true, ↓reduceIte, Option.some.injEq, Prod.mk.injEq] at hr
        rw [← hr.2]; exact h
      · simp only [epoll_ctl_ok, ne_eq, not_true_eq_false, ↓reduceIte] at hr
        cases ht : c.triggerEvent event with
        | none => simp [ht] at hr
        | some ct =>
          obtain ⟨c2, t⟩ := ct
          simp only [ht, Option.some.injEq, Prod.mk.injEq] at hr
          rw [← hr.2]
          obtain ⟨_, _, hc2, _⟩ := triggerEvent_some ht
          have hv := validMask_cases hcm event
          refine inv_set h hc c2 ?_ ?_ _ rfl ?_
          · rw [hc2, setEventContext_fd]
          · rw [hc2, setEventContext_events]
            rcases hv with hv | hv
            · exact absurd hv.1 hbit
            · exact hv.2.2.1
          · rw [hc2, setEventContext_events]
            exact decr_step h hc hbit hcm
  · rw [if_neg (fun hh => hlt ((lookup_lt h fd).mp hh))] at hr
    simp only [Option.some.injEq, Prod.mk.injEq] at hr
    rw [← hr.2]; exact h

/-- Two conditional firings in a row on the context of slot `i` keep the
invariant once the result is stored back. -/
theorem inv_fire_twice {s s1 : IOManager} (h : Inv s) {i : Nat} {c : FdContext}
    (hc : s.m_fdContexts[i]? = some (some c)) (hcm : ValidMask c.events)
    {m1 m2 : Nat} {st1 st2 : FdContext × Nat × List Scheduled}
    (h1 : fireIf m1 .READ (c, s.m_pendingEventCount, s.scheduled) = some st1)
    (h2 : fireIf m2 .WRITE st1 = some st2)
    (htbl : s1.m_fdContexts = s.m_fdContexts.set i (some st2.1))
    (hp : s1.m_pendingEventCount = st2.2.1) : Inv s1 := by
  obtain ⟨c1, p1, l1⟩ := st1
  obtain ⟨c2, p2, l2⟩ := st2
  have hle := popcount_le_pendingSum hc
  have hlt := pending_lt h
  have hcnt := h.2.2.2
  obtain ⟨a1, a2, a3, a4, a5⟩ := fireIf_some hcm (by omega) (by omega) h1
  obtain ⟨b1, b2, b3, _, _⟩ := fireIf_some a1 a4 a5 h2
  refine inv_set h hc c2 (b2.trans a2) b1 s1 htbl ?_
  rw [hp]
  show p2 + popcount c.events = s.m_pendingEventCount + popcount c2.events
  omega

theorem inv_cancelAll {s s1 : IOManager} {fd : Nat} {ok r : Bool} (h : Inv s)
    (hr : cancelAll s fd ok = some (r, s1)) : Inv s1 := by
  unfold cancelAll at hr
  by_cases hlt : fd < s.m_fdContexts.length
  · rw [if_pos ((lookup_lt h fd).mpr hlt)] at hr
    obtain ⟨c, hc, hcfd, hcm⟩ := slot_of_inv h hlt
    simp only [fdCtxAt_of_slot hc] at hr
    by_cases hz : c.events = 0
    · rw [if_pos hz] at hr
      simp only [Option.some.injEq, Prod.mk.injEq] at hr
      rw [← hr.2]; exact h
    · rw [if_neg hz] at hr
      cases ok
      · simp only [epoll_ctl_fail, ne_eq, Int.reduceNeg, neg_eq_zero, one_ne_zero,
          not_false_eq_true, ↓reduceIte, Option.some.injEq, Prod.mk.injEq] at hr
        rw [← hr.2]; exact h
      · simp only [epoll_ctl_ok, ne_eq, not_true_eq_false, ↓reduceIte] at hr
        cases h1 : fireIf c.events .READ (c, s.m_pendingEventCount, s.scheduled) with
        | none => simp [h1] at hr
        | some st1 =>
          simp only [h1] at hr
          cases h2 : fireIf st1.1.events .WRITE st1 with
          | none => simp [h2] at hr
          | some st2 =>
            simp only [h2] at hr
            split at hr
            · simp at hr
            · simp only [Option.some.injEq, Prod.mk.injEq] at hr
              rw [← hr.2]
              exact inv_fire_twice h hc hcm h1 h2 rfl rfl
  · rw [if_neg (fun hh => hlt ((lookup_lt h fd).mp hh))] at hr
    simp only [Option.some.injEq, Prod.mk.injEq] at hr
    rw [← hr.2]; exact h

theorem slot_of_fdCtxAt {tbl : List (Option FdContext)} {i : Nat} {c : FdContext}
    (hx : fdCtxAt tbl i = some c) : tbl[i]? = some (some c) := by
  unfold fdCtxAt at hx
  cases hy : tbl[i]? with
  | none => simp [hy] at hx
  | some o => simp [hy] at hx; rw [hx]

theorem inv_idleDispatch {s s1 : IOManager} {idx ready : Nat} {ok : Bool} (h : Inv s)
    (hr : idleDispatch s idx ready ok = some s1) : Inv s1 := by
  unfold idleDispatch at hr
  cases hx : fdCtxAt s.m_fdContexts idx with
  | none => simp [hx] at hr
  | some c =>
    have hc : s.m_fdContexts[idx]? = some (some c) := slot_of_fdCtxAt hx
    have hlt : idx < s.m_fdContexts.length := (List.getElem?_eq_some.mp hc).1
    obtain ⟨c0, hc0, _, hcm⟩ := slot_of_inv h hlt
    rw [hc] at hc0
    have hcc : c0 = c := by simpa using hc0.symm
    subst hcc
    simp only [hx] at hr
    by_cases hnone : c0.events &&& realEvents ready c0.events = NONE
    · rw [if_pos hnone] at hr
      simp only [Option.some.injEq] at hr
      rw [← hr]; exact h
    · rw [if_neg hnone] at hr
      cases ok
      · simp only [epoll_ctl_fail, ne_eq, Int.reduceNeg, neg_eq_zero, one_ne_zero,
          not_false_eq_true, ↓reduceIte, Option.some.injEq] at hr
        rw [← hr]; exact h
      · simp only [epoll_ctl_ok, ne_eq, not_true_eq_false, ↓reduceIte] at hr
        cases h1 : fireIf (realEvents ready c0.events) .READ
            (c0, s.m_pendingEventCount, s.scheduled) with
        | none => simp [h1] at hr
        | some st1 =>
          simp only [h1] at hr
          cases h2 : fireIf (realEvents ready c0.events) .WRITE st1 with
          | none => simp [h2] at hr
          | some st2 =>
            simp only [h2, Option.some.injEq] at hr
            rw [← hr]
            exact inv_fire_twice h hc hcm h1 h2 rfl rfl

theorem inv_init (tickleFd : Nat) : Inv (IOManager.init tickleFd) := by
  unfold Inv
  rw [show (IOManager.init tickleFd).m_fdContexts = contextResize [] 32 from rfl,
    show (IOManager.init tickleFd).m_pendingEventCount = 0 from rfl]
  decide

theorem inv_step {s s1 : IOManager} {op : Op} (h : Inv s) (hop : op.inRange)
    (hs : step s op = some s1) : Inv s1 := by
  cases op with
  | addEvent fd event cb cur curFiber ok =>
    simp only [step, Option.map_eq_some', Prod.exists, exists_eq_right] at hs
    obtain ⟨r, hr⟩ := hs
    exact inv_addEvent h hop hr
  | delEvent fd event ok =>
    simp only [step, Option.map_eq_some', Prod.exists, exists_eq_right] at hs
    obtain ⟨r, hr⟩ := hs
    exact inv_delEvent h hr
  | cancelEvent fd event ok =>
    simp only [step, Option.map_eq_some', Prod.exists, exists_eq_right] at hs
    obtain ⟨r, hr⟩ := hs
    exact inv_cancelEvent h hr
  | cancelAll fd ok =>
    simp only [step, Option.map_eq_some', Prod.exists, exists_eq_right] at hs
    obtain ⟨r, hr⟩ := hs
    exact inv_cancelAll h hr
  | idleDispatch idx ready ok =>
    exact inv_idleDispatch h hs

theorem inv_of_reachable {tickleFd : Nat} {s : IOManager} (h : Reachable tickleFd s) : Inv s := by
  induction h with
  | init => exact inv_init tickleFd
  | step s s1 op _ hop hs ih => exact inv_step ih hop hs

/-! ## Lookups -/

theorem ctxOf_of_slot {s : IOManager} {fd : Nat} {c : FdContext}
    (hc : s.m_fdContexts[fd]? = some (some c)) : ctxOf s fd = c := by
  simp [ctxOf, fdCtxAt, hc]

theorem ctxOf_of_ge {s : IOManager} {fd : Nat} (h : s.m_fdContexts.length ≤ fd) :
    ctxOf s fd = { fd := (fd : Int) } := by
  simp [ctxOf, fdCtxAt, List.getElem?_eq_none h]

theorem not_registered_of_ge {s : IOManager} {fd : Nat} (h : s.m_fdContexts.length ≤ fd)
    (event : Event) : ¬ registered s fd event := by
  unfold registered
  rw [ctxOf_of_ge h]
  cases event <;> simp [Event.toNat, NONE]

theorem slot_ctxOf {s : IOManager} (h : Inv s) {fd : Nat} (hlt : fd < s.m_fdContexts.length) :
    s.m_fdContexts[fd]? = some (some (ctxOf s fd)) ∧ (ctxOf s fd).fd = (fd : Int) ∧
      ValidMask (ctxOf s fd).events := by
  obtain ⟨c, hc, hfd, hm⟩ := slot_of_inv h hlt
  rw [ctxOf_of_slot hc]
  exact ⟨hc, hfd, hm⟩

/-- After the lookup of `addEvent` the slot of `fd` holds the context of `fd`. -/
theorem slot_grown {s : IOManager} (h : Inv s) {fd : Nat} (hfd : fd * 3 / 2 < 2 ^ 31) :
    (grown s fd)[fd]? = some (some (ctxOf s fd)) ∧ ValidMask (ctxOf s fd).events := by
  by_cases hlt : fd < s.m_fdContexts.length
  · rw [grown_of_lt h hlt]
    exact ⟨(slot_ctxOf h hlt).1, (slot_ctxOf h hlt).2.2⟩
  · have hge : s.m_fdContexts.length ≤ fd := Nat.le_of_not_lt hlt
    have h2 := h.1
    rw [getElem?_grown_new h hge hge (by omega), ctxOf_of_ge hge]
    exact ⟨rfl, Or.inl rfl⟩

theorem ctxOf_set {s1 : IOManager} {fd : Nat} {tbl : List (Option FdContext)} {c : FdContext}
    (hlt : fd < tbl.length) (htbl : s1.m_fdContexts = tbl.set fd (some c)) : ctxOf s1 fd = c := by
  apply ctxOf_of_slot
  rw [htbl, List.getElem?_set, if_pos rfl, if_pos hlt]

theorem ctxOf_mk_set (p : Nat) (tbl : List (Option FdContext)) (k : Nat → Option Nat)
    (calls : List EpollCtl) (l : List Scheduled) (fd : Nat) (c : FdContext)
    (hlt : fd < tbl.length) :
    ctxOf { m_pendingEventCount := p, m_fdContexts := tbl.set fd (some c), interest := k,
            ctl_calls := calls, scheduled := l } fd = c :=
  ctxOf_set hlt rfl

theorem ctxOf_set_ne {s s1 : IOManager} {fd i : Nat} {c : FdContext} (hne : fd ≠ i)
    (htbl : s1.m_fdContexts = s.m_fdContexts.set fd (some c)) : ctxOf s1 i = ctxOf s i := by
  unfold ctxOf fdCtxAt
  rw [htbl, List.getElem?_set_ne hne]

/-! ## The claims about the I/O manager -/

/-- The effect of `addEvent`, in its failure and success cases. -/
theorem addEvent_spec (s : IOManager) (fd : Nat) (event : Event) (cb cur : Option Nat)
    (curFiber : Nat) (ok : Bool) (h : Inv s) (hfd : fd * 3 / 2 < 2 ^ 31)
    (hctx : ¬ registered s fd event → (ctxOf s fd).getEventContext event = {}) :
    ∃ r s1, addEvent s fd event cb cur curFiber ok = some (r, s1) ∧
      (r = -1 ↔ (registered s fd event ∨ ok = false)) ∧
      (r = -1 → ctxOf s1 fd = ctxOf s fd ∧ s1.m_pendingEventCount = s.m_pendingEventCount ∧
        s1.interest = s.interest ∧ s1.scheduled = s.scheduled) ∧
      (r ≠ -1 → r = 0 ∧ (ctxOf s1 fd).events = (ctxOf s fd).events ||| event.toNat ∧
        (ctxOf s1 fd).getEventContext event
          = (if cb.isSome then { scheduler := cur, cb := cb }
             else { scheduler := cur, fiber := some curFiber }) ∧
        (ctxOf s1 fd).getEventContext event.other = (ctxOf s fd).getEventContext event.other ∧
        s1.m_pendingEventCount = s.m_pendingEventCount + 1) := by
  obtain ⟨hslot, hvm⟩ := slot_grown h hfd
  obtain ⟨hg, hlt⟩ := inv_grown h hfd { s with m_fdContexts := grown s fd } rfl rfl
  have hlt1 : fd < (grown s fd).length := hlt
  unfold addEvent
  simp only [fdCtxAt_of_slot hslot]
  by_cases hbit : (ctxOf s fd).events &&& event.toNat ≠ 0
  · rw [if_pos hbit]
    refine ⟨-1, _, rfl, ?_, ?_, ?_⟩
    · simp only [true_iff]; exact Or.inl hbit
    · intro _
      exact ⟨ctxOf_of_slot hslot, rfl, rfl, rfl⟩
    · intro hne; exact absurd rfl hne
  · rw [if_neg hbit]
    have hempty := hctx hbit
    cases ok
    · simp only [epoll_ctl_fail, ne_eq, Int.reduceNeg, neg_eq_zero, one_ne_zero,
        not_false_eq_true, ↓reduceIte]
      refine ⟨-1, _, rfl, ?_, ?_, ?_⟩
      · simp
      · intro _
        exact ⟨ctxOf_of_slot hslot, rfl, rfl, rfl⟩
      · intro hne; exact absurd rfl hne
    · simp only [epoll_ctl_ok, ne_eq, not_true_eq_false, ↓reduceIte]
      have hnoassert : ¬ ((({ (ctxOf s fd) with
          events := (ctxOf s fd).events ||| event.toNat } : FdContext).getEventContext
            event).scheduler.isSome ∨
          (({ (ctxOf s fd) with
          events := (ctxOf s fd).events ||| event.toNat } : FdContext).getEventContext
            event).fiber.isSome ∨
          (({ (ctxOf s fd) with
          events := (ctxOf s fd).events ||| event.toNat } : FdContext).getEventContext
            event).cb.isSome) := by
        have : ({ (ctxOf s fd) with
          events := (ctxOf s fd).events ||| event.toNat } : FdContext).getEventContext event
            = (ctxOf s fd).getEventContext event := by cases event <;> rfl
        rw [this, hempty]
        simp
      rw [if_neg hnoassert]
      refine ⟨0, _, rfl, ?_, ?_, ?_⟩
      · constructor
        · intro hh; exact absurd hh (by decide)
        · intro hh
          rcases hh with hh | hh
          · exact absurd hh hbit
          · exact absurd hh (by decide)
      · intro hh; exact absurd hh (by decide)
      · intro _
        have hctxeq : (({ (ctxOf s fd) with
            events := (ctxOf s fd).events ||| event.toNat } : FdContext).getEventContext event)
            = {} := by
          rw [← hempty]; cases event <;> rfl
        have hlen := pending_lt h
        simp only [hctxeq]
        rw [ctxOf_mk_set _ _ _ _ _ _ _ hlt1]
        refine ⟨trivial, ?_, ?_, ?_, ?_⟩
        · rw [setEventContext_events]
        · rw [getEventContext_set_same]
        · rw [getEventContext_set_other]; cases event <;> rfl
        · exact incr_of_lt (by omega)

/-- C2: with a failing kernel control call `delEvent`, `cancelEvent` and
`cancelAll` leave the counter, the table and the scheduled tasks as they were,
but each returns `true` (the `return -1;` of a `bool` function), not `false`.
Evaluated in `sampleArmed`, where fd 5 has both directions registered. -/
theorem kernel_failure_returns_true :
    sampleArmed.m_pendingEventCount = 2 ∧ (ctxOf sampleArmed 5).events = 5 ∧
    sampleArmed.scheduled = [] ∧
    (delEvent sampleArmed 5 .READ false).map
        (fun r => (r.1, r.2.m_pendingEventCount, r.2.m_fdContexts, r.2.scheduled))
      = some (true, 2, sampleArmed.m_fdContexts, []) ∧
    (cancelEvent sampleArmed 5 .READ false).map
        (fun r => (r.1, r.2.m_pendingEventCount, r.2.m_fdContexts, r.2.scheduled))
      = some (true, 2, sampleArmed.m_fdContexts, []) ∧
    (cancelAll sampleArmed 5 false).map
        (fun r => (r.1, r.2.m_pendingEventCount, r.2.m_fdContexts, r.2.scheduled))
      = some (true, 2, sampleArmed.m_fdContexts, []) := by
  refine ⟨?_, ?_, ?_, ?_, ?_, ?_⟩ <;> decide

/-- C3: in every state reachable from the constructor by calls of `addEvent`,
`delEvent`, `cancelEvent`, `cancelAll` and readiness dispatches of `idle`, with
any outcome of each kernel control call, the pending-event counter is the sum
over the table of the number of direction bits set in each registered mask. -/
theorem pending_count_eq_sum (tickleFd : Nat) (s : IOManager) (h : Reachable tickleFd s) :
    s.m_pendingEventCount = pendingSum s.m_fdContexts :=
  (inv_of_reachable h).2.2.2

theorem reachable_run {tickleFd : Nat} {s s1 : IOManager} (ops : List Op)
    (h : Reachable tickleFd s) (hops : ∀ op ∈ ops, op.inRange) (hr : run s ops = some s1) :
    Reachable tickleFd s1 := by
  induction ops generalizing s with
  | nil =>
    simp only [run, Option.some.injEq] at hr
    rw [← hr]; exact h
  | cons op ops ih =>
    cases hs : step s op with
    | none => simp [run, hs] at hr
    | some s2 =>
      simp only [run, hs, Option.some_bind] at hr
      exact ih (Reachable.step s s2 op h (hops op (List.mem_cons_self _ _)) hs)
        (fun o ho => hops o (List.mem_cons_of_mem _ ho)) hr

theorem sampleReached_reachable : Reachable 3 sampleReached :=
  reachable_run sampleOps Reachable.init (by decide) rfl

/-- C3 at `sampleReached`: one direction is left registered and the counter is 1. -/
theorem pending_count_eq_sum_witness :
    Reachable 3 sampleReached ∧
      sampleReached.m_pendingEventCount = pendingSum sampleReached.m_fdContexts :=
  ⟨sampleReached_reachable, pending_count_eq_sum 3 sampleReached sampleReached_reachable⟩

/-- C1: `addEvent` returns `-1` exactly when the direction is already registered
on `fd` or the kernel control call fails, and then the context of `fd` (its mask
and both event contexts), the pending-event counter, the kernel subscription and
the scheduled tasks are what they were; otherwise it returns `0`, the mask
becomes `old | dir`, the direction's context records the current scheduler with
the callable (or else the running coroutine), and the counter grows by one. -/
theorem addEvent_result (s : IOManager) (fd : Nat) (event : Event) (cb cur : Option Nat)
    (curFiber : Nat) (ok : Bool) (h : Inv s) (hfd : fd * 3 / 2 < 2 ^ 31)
    (hctx : ¬ registered s fd event → (ctxOf s fd).getEventContext event = {}) :
    ∃ r s1, addEvent s fd event cb cur curFiber ok = some (r, s1) ∧
      (r = -1 ↔ (registered s fd event ∨ ok = false)) ∧
      (r = -1 → ctxOf s1 fd = ctxOf s fd ∧ s1.m_pendingEventCount = s.m_pendingEventCount ∧
        s1.interest = s.interest ∧ s1.scheduled = s.scheduled) ∧
      (r ≠ -1 → r = 0 ∧ (ctxOf s1 fd).events = (ctxOf s fd).events ||| event.toNat ∧
        (ctxOf s1 fd).getEventContext event
          = (if cb.isSome then { scheduler := cur, cb := cb }
             else { scheduler := cur, fiber := some curFiber }) ∧
        (ctxOf s1 fd).getEventContext event.other = (ctxOf s fd).getEventContext event.other ∧
        s1.m_pendingEventCount = s.m_pendingEventCount + 1) :=
  addEvent_spec s fd event cb cur curFiber ok h hfd hctx

/-- C1 at `sampleIOManager`: registering `READ` on the idle fd 0. -/
theorem addEvent_result_witness :
    Inv sampleIOManager ∧ 0 * 3 / 2 < 2 ^ 31 ∧
    (¬ registered sampleIOManager 0 .READ →
      (ctxOf sampleIOManager 0).getEventContext .READ = {}) ∧
    ∃ r s1, addEvent sampleIOManager 0 .READ (some 5) (some 3) 9 true = some (r, s1) ∧
      (r = -1 ↔ (registered sampleIOManager 0 .READ ∨ true = false)) ∧
      (r = -1 → ctxOf s1 0 = ctxOf sampleIOManager 0 ∧
        s1.m_pendingEventCount = sampleIOManager.m_pendingEventCount ∧
        s1.interest = sampleIOManager.interest ∧ s1.scheduled = sampleIOManager.scheduled) ∧
      (r ≠ -1 → r = 0 ∧
        (ctxOf s1 0).events = (ctxOf sampleIOManager 0).events ||| Event.READ.toNat ∧
        (ctxOf s1 0).getEventContext .READ
          = (if (some 5 : Option Nat).isSome then { scheduler := some 3, cb := some 5 }
             else { scheduler := some 3, fiber := some 9 }) ∧
        (ctxOf s1 0).getEventContext Event.READ.other
          = (ctxOf sampleIOManager 0).getEventContext Event.READ.other ∧
        s1.m_pendingEventCount = sampleIOManager.m_pendingEventCount + 1) :=
  ⟨by decide, by decide, by decide,
    addEvent_result sampleIOManager 0 .READ (some 5) (some 3) 9 true (by decide) (by decide)
      (by decide)⟩

theorem validMask_other {m : Nat} (h : ValidMask m) (event : Event) :
    andNot m event.toNat &&& event.other.toNat = m &&& event.other.toNat := by
  rcases h with h | h | h | h <;> subst h <;> cases event <;> decide

theorem lt_of_registered {s : IOManager} {fd : Nat} {event : Event}
    (h : registered s fd event) : fd < s.m_fdContexts.length := by
  by_contra hge
  exact not_registered_of_ge (Nat.le_of_not_lt hge) event h

theorem taskOf_cb {ctx : EventContext} {f : Nat} (h : ctx.cb = some f) :
    taskOf ctx = { cb := some f } := by
  simp [taskOf, h]

theorem taskOf_fiber {ctx : EventContext} (h : ctx.cb = none) :
    taskOf ctx = { fiber := ctx.fiber } := by
  simp [taskOf, h]

/-- The effect of `cancelEvent`, in both of its cases. -/
theorem cancelEvent_spec (s : IOManager) (fd : Nat) (event : Event) (h : Inv s) :
    (∀ sch, registered s fd event →
      ((ctxOf s fd).getEventContext event).scheduler = some sch →
      ∃ s1, cancelEvent s fd event true = some (true, s1) ∧
        s1.scheduled = s.scheduled ++
          [⟨sch, taskOf ((ctxOf s fd).getEventContext event), (fd : Int), event⟩] ∧
        (∀ f, ((ctxOf s fd).getEventContext event).cb = some f →
          taskOf ((ctxOf s fd).getEventContext event) = { cb := some f }) ∧
        (((ctxOf s fd).getEventContext event).cb = none →
          taskOf ((ctxOf s fd).getEventContext event)
            = { fiber := ((ctxOf s fd).getEventContext event).fiber }) ∧
        ¬ registered s1 fd event ∧
        (ctxOf s1 fd).getEventContext event = {} ∧
        s1.m_pendingEventCount + 1 = s.m_pendingEventCount ∧
        (registered s1 fd event.other ↔ registered s fd event.other) ∧
        (ctxOf s1 fd).getEventContext event.other = (ctxOf s fd).getEventContext event.other) ∧
    ((¬ registered s fd event ∨ s.m_fdContexts.length ≤ fd) →
      ∀ ok, cancelEvent s fd event ok = some (false, s)) := by
  constructor
  · intro sch hreg hsch
    have hlt := lt_of_registered hreg
    obtain ⟨hslot, hfdeq, hvm⟩ := slot_ctxOf h hlt
    have hreg1 : ¬ ((ctxOf s fd).events &&& event.toNat = 0) := hreg
    have hcnt := decr_step h hslot hreg hvm
    have hv := validMask_cases hvm event
    have hplt := pending_lt h
    unfold cancelEvent
    rw [if_pos ((lookup_lt h fd).mpr hlt)]
    simp only [fdCtxAt_of_slot hslot]
    rw [if_neg hreg1]
    simp only [epoll_ctl_ok, ne_eq, not_true_eq_false, ↓reduceIte, triggerEvent_eq hreg hsch]
    refine ⟨_, rfl, ?_, fun f hf => taskOf_cb hf, fun hf => taskOf_fiber hf, ?_, ?_, ?_, ?_, ?_⟩
    · rw [hfdeq]
    · unfold registered
      rw [ctxOf_mk_set _ _ _ _ _ _ _ hlt, setEventContext_events]
      rcases hv with hv | hv
      · exact absurd hv.1 hreg
      · simp [hv.2.2.2]
    · rw [ctxOf_mk_set _ _ _ _ _ _ _ hlt, getEventContext_set_same]
    · rcases hv with hv | hv
      · exact absurd hv.1 hreg
      · show decr s.m_pendingEventCount + 1 = s.m_pendingEventCount
        omega
    · unfold registered
      rw [ctxOf_mk_set _ _ _ _ _ _ _ hlt, setEventContext_events]
      show andNot (ctxOf s fd).events event.toNat &&& event.other.toNat ≠ 0 ↔ _
      rw [validMask_other hvm]
    · rw [ctxOf_mk_set _ _ _ _ _ _ _ hlt, getEventContext_set_other]
      cases event <;> rfl
  · intro hno ok
    unfold cancelEvent
    by_cases hlt : fd < s.m_fdContexts.length
    · rcases hno with hno | hno
      · obtain ⟨hslot, _, _⟩ := slot_ctxOf h hlt
        rw [if_pos ((lookup_lt h fd).mpr hlt)]
        simp only [fdCtxAt_of_slot hslot]
        have : (ctxOf s fd).events &&& event.toNat = 0 := by
          unfold registered at hno; simpa using hno
        rw [if_pos this]
      · omega
    · rw [if_neg (fun hh => hlt ((lookup_lt h fd).mp hh))]

/-- C5: on an fd on which `event` is registered (so in range), with a successful
kernel call, `cancelEvent` returns `true`, schedules exactly one task on the
recorded scheduler (the stored callable if there is one, else the stored
coroutine), clears `event` from the mask, resets its context, decrements the
counter by one and leaves the other direction's bit and context as they were;
when `event` is not registered or `fd` is beyond the table it returns `false`
and changes nothing. -/
theorem cancelEvent_result (s : IOManager) (fd : Nat) (event : Event) (h : Inv s) :
    (∀ sch, registered s fd event →
      ((ctxOf s fd).getEventContext event).scheduler = some sch →
      ∃ s1, cancelEvent s fd event true = some (true, s1) ∧
        s1.scheduled = s.scheduled ++
          [⟨sch, taskOf ((ctxOf s fd).getEventContext event), (fd : Int), event⟩] ∧
        (∀ f, ((ctxOf s fd).getEventContext event).cb = some f →
          taskOf ((ctxOf s fd).getEventContext event) = { cb := some f }) ∧
        (((ctxOf s fd).getEventContext event).cb = none →
          taskOf ((ctxOf s fd).getEventContext event)
            = { fiber := ((ctxOf s fd).getEventContext event).fiber }) ∧
        ¬ registered s1 fd event ∧
        (ctxOf s1 fd).getEventContext event = {} ∧
        s1.m_pendingEventCount + 1 = s.m_pendingEventCount ∧
        (registered s1 fd event.other ↔ registered s fd event.other) ∧
        (ctxOf s1 fd).getEventContext event.other = (ctxOf s fd).getEventContext event.other) ∧
    ((¬ registered s fd event ∨ s.m_fdContexts.length ≤ fd) →
      ∀ ok, cancelEvent s fd event ok = some (false, s)) :=
  cancelEvent_spec s fd event h

/-- C5 at `sampleIOManager`: cancelling the registered `READ` of fd 1, and
cancelling on fd 0 where nothing is registered. -/
theorem cancelEvent_result_witness :
    Inv sampleIOManager ∧ registered sampleIOManager 1 .READ ∧
    ((ctxOf sampleIOManager 1).getEventContext .READ).scheduler = some 3 ∧
    (∃ s1, cancelEvent sampleIOManager 1 .READ true = some (true, s1) ∧
      s1.scheduled = sampleIOManager.scheduled ++
        [⟨3, taskOf ((ctxOf sampleIOManager 1).getEventContext .READ), ((1 : Nat) : Int), .READ⟩] ∧
      s1.m_pendingEventCount + 1 = sampleIOManager.m_pendingEventCount) ∧
    cancelEvent sampleIOManager 0 .READ true = some (false, sampleIOManager) := by
  obtain ⟨s1, h1, h2, _, _, _, _, h3, _⟩ :=
    (cancelEvent_result sampleIOManager 1 .READ (by decide)).1 3 (by decide) (by decide)
  exact ⟨by decide, by decide, by decide, ⟨s1, h1, h2, h3⟩,
    (cancelEvent_result sampleIOManager 0 .READ (by decide)).2 (Or.inl (by decide)) true⟩

/-- The effect of one conditional firing `if (mask & event) { triggerEvent(event);
--m_pendingEventCount; }` when the direction, if selected by `mask`, is
registered and has a recorded scheduler. -/
theorem fireIf_spec {c : FdContext} {p : Nat} {l : List Scheduled} (m : Nat) (event : Event)
    (sch : Nat) (hvm : ValidMask c.events)
    (hf : m &&& event.toNat ≠ 0 →
      c.events &&& event.toNat ≠ 0 ∧ (c.getEventContext event).scheduler = some sch)
    (hp : popcount c.events ≤ p) (hp2 : p < 2 ^ 64) :
    ∃ c1 p1, fireIf m event (c, p, l) = some (c1, p1,
        l ++ (if m &&& event.toNat ≠ 0
              then [⟨sch, taskOf (c.getEventContext event), c.fd, event⟩] else [])) ∧
      c1.fd = c.fd ∧
      c1.events = (if m &&& event.toNat ≠ 0 then andNot c.events event.toNat else c.events) ∧
      c1.getEventContext event
        = (if m &&& event.toNat ≠ 0 then {} else c.getEventContext event) ∧
      c1.getEventContext event.other = c.getEventContext event.other ∧
      p1 + (if m &&& event.toNat ≠ 0 then 1 else 0) = p ∧
      ValidMask c1.events ∧ popcount c1.events ≤ p1 ∧ p1 < 2 ^ 64 := by
  by_cases hm : m &&& event.toNat ≠ 0
  · obtain ⟨hbit, hs⟩ := hf hm
    simp only [if_pos hm]
    unfold fireIf
    rw [if_pos hm]
    simp only [triggerEvent_eq hbit hs]
    rcases validMask_cases hvm event with hv | hv
    · exact absurd hv.1 hbit
    · have hd : decr p = p - 1 := decr_of_pos (by omega) hp2
      refine ⟨_, _, rfl, ?_, ?_, ?_, ?_, ?_, ?_, ?_, ?_⟩
      · rw [setEventContext_fd]
      · rw [setEventContext_events]
      · rw [getEventContext_set_same]
      · rw [getEventContext_set_other]; cases event <;> rfl
      · omega
      · rw [setEventContext_events]; exact hv.2.2.1
      · rw [setEventContext_events]
        show popcount (andNot c.events event.toNat) ≤ decr p
        omega
      · omega
  · simp only [if_neg hm]
    unfold fireIf
    rw [if_neg hm]
    exact ⟨c, p, by simp, rfl, rfl, rfl, rfl, rfl, hvm, hp, hp2⟩

/-- The effect of `cancelAll`, in both of its cases. -/
theorem cancelAll_spec (s : IOManager) (fd : Nat) (schR schW : Nat) (h : Inv s)
    (hR : registered s fd .READ → (ctxOf s fd).read.scheduler = some schR)
    (hW : registered s fd .WRITE → (ctxOf s fd).write.scheduler = some schW) :
    ((ctxOf s fd).events ≠ 0 →
      ∃ s1, cancelAll s fd true = some (true, s1) ∧
        s1.scheduled = s.scheduled ++
          (if registered s fd .READ
            then [⟨schR, taskOf (ctxOf s fd).read, (fd : Int), .READ⟩] else []) ++
          (if registered s fd .WRITE
            then [⟨schW, taskOf (ctxOf s fd).write, (fd : Int), .WRITE⟩] else []) ∧
        s1.m_pendingEventCount + popcount (ctxOf s fd).events = s.m_pendingEventCount ∧
        (ctxOf s1 fd).events = 0 ∧
        (∀ event, (ctxOf s1 fd).getEventContext event
          = (if registered s fd event then {} else (ctxOf s fd).getEventContext event)) ∧
        s1.ctl_calls = s.ctl_calls ++ [{ op := EPOLL_CTL_DEL, fd := fd, events := 0 }] ∧
        s1.interest fd = none) ∧
    ((ctxOf s fd).events = 0 → ∀ ok, cancelAll s fd ok = some (false, s)) := by
  constructor
  · intro hne
    have hlt : fd < s.m_fdContexts.length := by
      by_contra hge
      rw [ctxOf_of_ge (Nat.le_of_not_lt hge)] at hne
      exact hne rfl
    obtain ⟨hslot, hfdeq, hvm⟩ := slot_ctxOf h hlt
    have hple := popcount_le_pendingSum hslot
    have hplt := pending_lt h
    have hcnt := h.2.2.2
    obtain ⟨c1, p1, e1, a1, a2, a3, a4, a5, a6, a7, a8⟩ :=
      fireIf_spec (c := ctxOf s fd) (p := s.m_pendingEventCount) (l := s.scheduled)
        (ctxOf s fd).events .READ schR hvm (fun hh => ⟨hh, hR hh⟩) (by omega) (by omega)
    have hw1 : c1.events &&& Event.WRITE.toNat = (ctxOf s fd).events &&& Event.WRITE.toNat := by
      rw [a2]
      split
      · exact validMask_other hvm .READ
      · rfl
    obtain ⟨c2, p2, e2, b1, b2, b3, b4, b5, b6, b7, b8⟩ :=
      fireIf_spec (c := c1) (p := p1) (l := s.scheduled ++
          (if (ctxOf s fd).events &&& Event.READ.toNat ≠ 0
           then [⟨schR, taskOf ((ctxOf s fd).getEventContext .READ), (ctxOf s fd).fd, .READ⟩]
           else []))
        c1.events .WRITE schW a6
        (fun hh => ⟨hh, by
          have : (ctxOf s fd).events &&& Event.WRITE.toNat ≠ 0 := by rw [← hw1]; exact hh
          have h4 : c1.write = (ctxOf s fd).write := a4
          show c1.write.scheduler = some schW
          rw [h4]; exact hW this⟩) a7 a8
    have hz : c2.events = 0 := by
      rw [b2, a2]
      rcases hvm with hv | hv | hv | hv <;> rw [hv] <;> decide
    unfold cancelAll
    rw [if_pos ((lookup_lt h fd).mpr hlt)]
    simp only [fdCtxAt_of_slot hslot]
    rw [if_neg hne]
    simp only [epoll_ctl_ok, ne_eq, not_true_eq_false, ↓reduceIte]
    rw [e1]
    simp only [e2, hz, not_true_eq_false, ↓reduceIte]
    refine ⟨_, rfl, ?_, ?_, ?_, ?_, rfl, ?_⟩
    · show s.scheduled ++ _ ++ _ = _
      have hb : (c1.events &&& Event.WRITE.toNat ≠ 0) ↔ registered s fd .WRITE := by
        unfold registered; rw [hw1]
      have hwr : c1.getEventContext .WRITE = (ctxOf s fd).write := a4
      simp only [hwr, b1, a1, hfdeq, hb]
      rfl
    · show p2 + popcount (ctxOf s fd).events = s.m_pendingEventCount
      have hb : (c1.events &&& Event.WRITE.toNat ≠ 0) ↔
          ((ctxOf s fd).events &&& Event.WRITE.toNat ≠ 0) := by rw [hw1]
      simp only [hb] at b5
      rcases hvm with hv | hv | hv | hv <;> rw [hv] at a5 b5 ⊢ <;>
        simp [popcount, Event.toNat] at a5 b5 ⊢ <;> omega
    · rw [ctxOf_mk_set _ _ _ _ _ _ _ hlt]; exact hz
    · rw [ctxOf_mk_set _ _ _ _ _ _ _ hlt]
      have hb : (c1.events &&& Event.WRITE.toNat ≠ 0) ↔ registered s fd .WRITE := by
        unfold registered; rw [hw1]
      intro event
      cases event with
      | READ =>
        have hrd : c2.getEventContext .READ = c1.getEventContext .READ := b4
        rw [hrd, a3]
        rfl
      | WRITE =>
        have hwr : c1.getEventContext .WRITE = (ctxOf s fd).getEventContext .WRITE := a4
        rw [b3, hwr]
        simp only [hb]
    · simp [epoll_ctl]
  · intro hz ok
    unfold cancelAll
    by_cases hlt : fd < s.m_fdContexts.length
    · obtain ⟨hslot, _, _⟩ := slot_ctxOf h hlt
      rw [if_pos ((lookup_lt h fd).mpr hlt)]
      simp only [fdCtxAt_of_slot hslot]
      rw [if_pos hz]
    · rw [if_neg (fun hh => hlt ((lookup_lt h fd).mp hh))]

/-- C6: on an fd with a non-empty registered mask, with a successful kernel
`DEL`, `cancelAll` returns `true` (its final assertion holds), schedules exactly
one task per registered direction, `READ` before `WRITE`, decrements the counter
by the number of registered directions and leaves the mask empty and both
fired contexts reset; with an empty mask it returns `false` and changes nothing. -/
theorem cancelAll_result (s : IOManager) (fd : Nat) (schR schW : Nat) (h : Inv s)
    (hR : registered s fd .READ → (ctxOf s fd).read.scheduler = some schR)
    (hW : registered s fd .WRITE → (ctxOf s fd).write.scheduler = some schW) :
    ((ctxOf s fd).events ≠ 0 →
      ∃ s1, cancelAll s fd true = some (true, s1) ∧
        s1.scheduled = s.scheduled ++
          (if registered s fd .READ
            then [⟨schR, taskOf (ctxOf s fd).read, (fd : Int), .READ⟩] else []) ++
          (if registered s fd .WRITE
            then [⟨schW, taskOf (ctxOf s fd).write, (fd : Int), .WRITE⟩] else []) ∧
        s1.m_pendingEventCount + popcount (ctxOf s fd).events = s.m_pendingEventCount ∧
        (ctxOf s1 fd).events = 0 ∧
        (∀ event, (ctxOf s1 fd).getEventContext event
          = (if registered s fd event then {} else (ctxOf s fd).getEventContext event)) ∧
        s1.ctl_calls = s.ctl_calls ++ [{ op := EPOLL_CTL_DEL, fd := fd, events := 0 }] ∧
        s1.interest fd = none) ∧
    ((ctxOf s fd).events = 0 → ∀ ok, cancelAll s fd ok = some (false, s)) :=
  cancelAll_spec s fd schR schW h hR hW

/-- C6 at `sampleIOManager`: `cancelAll` on fd 1 (both directions registered)
and on fd 0 (nothing registered). -/
theorem cancelAll_result_witness :
    Inv sampleIOManager ∧
    (registered sampleIOManager 1 .READ → (ctxOf sampleIOManager 1).read.scheduler = some 3) ∧
    (registered sampleIOManager 1 .WRITE → (ctxOf sampleIOManager 1).write.scheduler = some 3) ∧
    (ctxOf sampleIOManager 1).events ≠ 0 ∧
    (∃ s1, cancelAll sampleIOManager 1 true = some (true, s1) ∧
      s1.scheduled = [⟨3, { cb := some 7 }, 1, .READ⟩, ⟨3, { fiber := some 9 }, 1, .WRITE⟩] ∧
      s1.m_pendingEventCount = 0 ∧ (ctxOf s1 1).events = 0) ∧
    cancelAll sampleIOManager 0 true = some (false, sampleIOManager) := by
  obtain ⟨s1, h1, h2, h3, h4, _⟩ :=
    (cancelAll_result sampleIOManager 1 3 3 (by decide) (by decide) (by decide)).1 (by decide)
  refine ⟨by decide, by decide, by decide, by decide, ⟨s1, h1, ?_, ?_, h4⟩,
    (cancelAll_result sampleIOManager 0 3 3 (by decide) (by decide) (by decide)).2
      (by decide) true⟩
  · rw [h2]; decide
  · have : popcount (ctxOf sampleIOManager 1).events = 2 := by decide
    have h5 : sampleIOManager.m_pendingEventCount = 2 := rfl
    omega

/-- C7: on an fd on which `event` is registered (so in range), with a successful
kernel call, `delEvent` returns `true`, schedules nothing, clears only `event`
from the mask, resets only its context, decrements the counter by one, issues
`EPOLL_CTL_MOD` with the remaining direction when one remains and
`EPOLL_CTL_DEL` otherwise, and leaves the other direction's bit and context and
every other fd's context as they were. -/
theorem delEvent_result (s : IOManager) (fd : Nat) (event : Event) (h : Inv s)
    (hreg : registered s fd event) :
    ∃ s1, delEvent s fd event true = some (true, s1) ∧
      s1.scheduled = s.scheduled ∧
      (ctxOf s1 fd).events = andNot (ctxOf s fd).events event.toNat ∧
      ¬ registered s1 fd event ∧
      (registered s1 fd event.other ↔ registered s fd event.other) ∧
      (ctxOf s1 fd).getEventContext event = {} ∧
      (ctxOf s1 fd).getEventContext event.other = (ctxOf s fd).getEventContext event.other ∧
      s1.m_pendingEventCount + 1 = s.m_pendingEventCount ∧
      s1.ctl_calls = s.ctl_calls ++
        [{ op := if registered s fd event.other then EPOLL_CTL_MOD else EPOLL_CTL_DEL,
           fd := fd, events := EPOLLET ||| andNot (ctxOf s fd).events event.toNat }] ∧
      s1.interest fd = (if registered s fd event.other
        then some (EPOLLET ||| event.other.toNat) else none) ∧
      (∀ i, i ≠ fd → ctxOf s1 i = ctxOf s i ∧ s1.interest i = s.interest i) := by
  have hlt := lt_of_registered hreg
  obtain ⟨hslot, hfdeq, hvm⟩ := slot_ctxOf h hlt
  have hreg1 : ¬ ((ctxOf s fd).events &&& event.toNat = 0) := hreg
  have hcnt := decr_step h hslot hreg hvm
  have hplt := pending_lt h
  have hrem : andNot (ctxOf s fd).events event.toNat ≠ 0 ↔ registered s fd event.other := by
    unfold registered
    rcases hvm with hv | hv | hv | hv <;> rw [hv] at hreg1 ⊢ <;> revert hreg1 <;>
      cases event <;> decide
  have hremv : registered s fd event.other →
      andNot (ctxOf s fd).events event.toNat = event.other.toNat := by
    unfold registered
    rcases hvm with hv | hv | hv | hv <;> rw [hv] at hreg1 ⊢ <;> revert hreg1 <;>
      cases event <;> decide
  unfold delEvent
  rw [if_pos ((lookup_lt h fd).mpr hlt)]
  simp only [fdCtxAt_of_slot hslot]
  rw [if_neg hreg1]
  simp only [epoll_ctl_ok, ne_eq, not_true_eq_false, ↓reduceIte]
  refine ⟨_, rfl, rfl, ?_, ?_, ?_, ?_, ?_, ?_, ?_, ?_, ?_⟩
  · rw [ctxOf_mk_set _ _ _ _ _ _ _ hlt, setEventContext_events]
  · unfold registered
    rw [ctxOf_mk_set _ _ _ _ _ _ _ hlt, setEventContext_events]
    rcases validMask_cases hvm event with hv | hv
    · exact absurd hv.1 hreg
    · simp [hv.2.2.2]
  · unfold registered
    rw [ctxOf_mk_set _ _ _ _ _ _ _ hlt, setEventContext_events]
    show andNot (ctxOf s fd).events event.toNat &&& event.other.toNat ≠ 0 ↔ _
    rw [validMask_other hvm]
  · rw [ctxOf_mk_set _ _ _ _ _ _ _ hlt, getEventContext_set_same]
    rfl
  · rw [ctxOf_mk_set _ _ _ _ _ _ _ hlt, getEventContext_set_other]
    cases event <;> rfl
  · rcases validMask_cases hvm event with hv | hv
    · exact absurd hv.1 hreg
    · show decr s.m_pendingEventCount + 1 = s.m_pendingEventCount
      omega
  · by_cases ho : registered s fd event.other
    · have := hrem.mpr ho
      simp [ho, this]
    · have : andNot (ctxOf s fd).events event.toNat = 0 := by
        by_contra hh; exact ho (hrem.mp hh)
      simp [ho, this]
  · by_cases ho : registered s fd event.other
    · have h1 := hrem.mpr ho
      have h2 := hremv ho
      have h3 : ¬ event.other.toNat = 0 := by rw [← h2]; exact h1
      simp [epoll_ctl, ho, h2, h3, EPOLL_CTL_MOD, EPOLL_CTL_DEL]
    · have : andNot (ctxOf s fd).events event.toNat = 0 := by
        by_contra hh; exact ho (hrem.mp hh)
      simp [epoll_ctl, ho, this]
  · intro i hi
    constructor
    · exact ctxOf_set_ne (s := s) (Ne.symm hi) rfl
    · simp [epoll_ctl, hi]

/-- C7 at `sampleIOManager`: deleting the registered `READ` of fd 1 leaves
`WRITE` subscribed through `EPOLL_CTL_MOD`. -/
theorem delEvent_result_witness :
    Inv sampleIOManager ∧ registered sampleIOManager 1 .READ ∧
    ∃ s1, delEvent sampleIOManager 1 .READ true = some (true, s1) ∧
      s1.scheduled = sampleIOManager.scheduled ∧
      s1.m_pendingEventCount + 1 = sampleIOManager.m_pendingEventCount ∧
      s1.interest 1 = some (EPOLLET ||| Event.WRITE.toNat) := by
  obtain ⟨s1, h1, h2, _, _, _, _, _, h3, _, h4, _⟩ :=
    delEvent_result sampleIOManager 1 .READ (by decide) (by decide)
  refine ⟨by decide, by decide, s1, h1, h2, h3, ?_⟩
  rw [h4, if_pos (by decide)]
  rfl

/-! ## A direction that is not registered stays quiet -/

theorem ctxOf_grown {s s1 : IOManager} (h : Inv s) {fd : Nat}
    (htbl : s1.m_fdContexts = grown s fd) (i : Nat) : ctxOf s1 i = ctxOf s i := by
  unfold ctxOf fdCtxAt
  rw [htbl]
  by_cases hi : i < s.m_fdContexts.length
  · rw [getElem?_grown_old h fd hi]
  · have hige : s.m_fdContexts.length ≤ i := Nat.le_of_not_lt hi
    by_cases hlt : fd < s.m_fdContexts.length
    · rw [grown_of_lt h hlt]
    · have hge : s.m_fdContexts.length ≤ fd := Nat.le_of_not_lt hlt
      by_cases hi2 : i < fd * 3 / 2
      · rw [getElem?_grown_new h hge hige hi2, List.getElem?_eq_none hige]
        rfl
      · have hlen := length_grown h fd
        rw [if_neg hlt] at hlen
        rw [List.getElem?_eq_none (by rw [hlen]; omega), List.getElem?_eq_none hige]

theorem mask_quiet {m : Nat} (h : ValidMask m) {event : Event} (h0 : m &&& event.toNat = 0)
    (e : Event) :
    andNot m e.toNat &&& event.toNat = 0 ∧
      (e ≠ event → (m ||| e.toNat) &&& event.toNat = 0) := by
  rcases h with h | h | h | h <;> subst h <;> revert h0 <;> cases event <;> cases e <;> decide

/-- Storing into slot `i` a context in which `event` is clear whenever `i = fd`
keeps `event` unregistered on `fd`. -/
theorem quiet_set {s s1 : IOManager} {fd i : Nat} {event : Event} {c1 : FdContext}
    (hlt : i < s.m_fdContexts.length)
    (htbl : s1.m_fdContexts = s.m_fdContexts.set i (some c1))
    (hc1 : i = fd → c1.events &&& event.toNat = 0) (hq : ¬ registered s fd event) :
    ¬ registered s1 fd event := by
  by_cases hi : i = fd
  · subst hi
    unfold registered
    rw [ctxOf_set hlt htbl]
    simp [hc1 rfl]
  · unfold registered
    rw [ctxOf_set_ne (s := s) hi htbl]
    exact hq

theorem firedBy_congr {s s1 : IOManager} (fd : Nat) (event : Event)
    (hs : s1.scheduled = s.scheduled) : firedBy s1 fd event = firedBy s fd event := by
  unfold firedBy
  rw [hs]

theorem firedBy_append_ne {s s1 : IOManager} {fd : Nat} {event : Event} {t : Scheduled}
    (hs : s1.scheduled = s.scheduled ++ [t]) (hne : ¬ (t.fd = (fd : Int) ∧ t.event = event)) :
    firedBy s1 fd event = firedBy s fd event := by
  unfold firedBy
  rw [hs, List.filter_append]
  simp [hne]

/-- What one conditional firing does to a context and to the scheduled tasks. -/
theorem fireIf_cases {m : Nat} {e : Event} {c c1 : FdContext} {p p1 : Nat}
    {l l1 : List Scheduled} (h : fireIf m e (c, p, l) = some (c1, p1, l1)) :
    (c1 = c ∧ l1 = l) ∨
    (c.events &&& e.toNat ≠ 0 ∧ c1.events = andNot c.events e.toNat ∧ c1.fd = c.fd ∧
      ∃ t, l1 = l ++ [t] ∧ t.fd = c.fd ∧ t.event = e) := by
  unfold fireIf at h
  by_cases hm : m &&& e.toNat ≠ 0
  · rw [if_pos hm] at h
    cases ht : c.triggerEvent e with
    | none => simp [ht] at h
    | some ct =>
      obtain ⟨c2, t⟩ := ct
      simp only [ht, Option.some.injEq, Prod.mk.injEq] at h
      obtain ⟨hbit, _, hc2, ht2⟩ := triggerEvent_some ht
      obtain ⟨h1, _, h3⟩ := h
      subst h1
      right
      refine ⟨hbit, ?_, ?_, t, h3.symm, ?_, ?_⟩
      · rw [hc2, setEventContext_events]
      · rw [hc2, setEventContext_fd]
      · rw [ht2]
      · rw [ht2]
  · rw [if_neg hm] at h
    simp only [Option.some.injEq, Prod.mk.injEq] at h
    left
    exact ⟨h.1.symm, h.2.2.symm⟩

/-- Conditional firings on the context of slot `i` keep `event` quiet on `fd`:
the filter of the scheduled tasks and the cleared bit are kept. -/
theorem fireIf_quiet {fd : Nat} {event : Event} {m : Nat} {e : Event} {c c1 : FdContext}
    {p p1 : Nat} {l l1 : List Scheduled} (hvm : ValidMask c.events)
    (hq : c.fd = (fd : Int) → c.events &&& event.toNat = 0)
    (h : fireIf m e (c, p, l) = some (c1, p1, l1)) :
    ValidMask c1.events ∧ c1.fd = c.fd ∧
    (c1.fd = (fd : Int) → c1.events &&& event.toNat = 0) ∧
    l1.filter (fun t => decide (t.fd = (fd : Int) ∧ t.event = event))
      = l.filter (fun t => decide (t.fd = (fd : Int) ∧ t.event = event)) := by
  rcases fireIf_cases h with ⟨h1, h2⟩ | ⟨hbit, hev, hfd, t, hl, htfd, htev⟩
  · subst h1 h2
    exact ⟨hvm, rfl, hq, rfl⟩
  · have hvm1 : ValidMask c1.events := by
      rw [hev]
      rcases validMask_cases hvm e with hv | hv
      · exact absurd hv.1 hbit
      · exact hv.2.2.1
    refine ⟨hvm1, hfd, ?_, ?_⟩
    · intro hcfd
      rw [hfd] at hcfd
      rw [hev]
      exact (mask_quiet hvm (hq hcfd) e).1
    · rw [hl, List.filter_append]
      have hne : ¬ (t.fd = (fd : Int) ∧ t.event = event) := by
        rintro ⟨h1, h2⟩
        rw [htfd] at h1
        rw [htev] at h2
        subst h2
        exact hbit (hq h1)
      simp [hne]

theorem quiet_addEvent {s s1 : IOManager} {fd fd1 : Nat} {event event1 : Event}
    {cb cur : Option Nat} {curFiber : Nat} {ok : Bool} {r : Int} (h : Inv s)
    (hfd : fd1 * 3 / 2 < 2 ^ 31) (hq : ¬ registered s fd event)
    (hnr : (Op.addEvent fd1 event1 cb cur curFiber ok).registers fd event = false)
    (hr : addEvent s fd1 event1 cb cur curFiber ok = some (r, s1)) :
    ¬ registered s1 fd event ∧ firedBy s1 fd event = firedBy s fd event := by
  obtain ⟨hg, hlt⟩ := inv_grown h hfd { s with m_fdContexts := grown s fd1 } rfl rfl
  have hqg : ¬ registered { s with m_fdContexts := grown s fd1 } fd event := by
    unfold registered
    rw [ctxOf_grown h rfl]
    exact hq
  obtain ⟨hslot, hvm⟩ := slot_grown h hfd
  unfold addEvent at hr
  simp only [fdCtxAt_of_slot hslot] at hr
  by_cases hbit : (ctxOf s fd1).events &&& event1.toNat ≠ 0
  · rw [if_pos hbit] at hr
    simp only [Option.some.injEq, Prod.mk.injEq] at hr
    rw [← hr.2]
    exact ⟨hqg, rfl⟩
  · rw [if_neg hbit] at hr
    cases ok
    · simp only [epoll_ctl_fail, ne_eq, Int.reduceNeg, neg_eq_zero, one_ne_zero,
        not_false_eq_true, ↓reduceIte, Option.some.injEq, Prod.mk.injEq] at hr
      rw [← hr.2]
      exact ⟨hqg, rfl⟩
    · simp only [epoll_ctl_ok, ne_eq, not_true_eq_false, ↓reduceIte] at hr
      split at hr
      · simp at hr
      · simp only [Option.some.injEq, Prod.mk.injEq] at hr
        rw [← hr.2]
        refine ⟨?_, firedBy_congr fd event rfl⟩
        refine quiet_set (s := { s with m_fdContexts := grown s fd1 }) hlt rfl ?_ hqg
        intro hi
        subst hi
        rw [setEventContext_events]
        have hne : event1 ≠ event := by
          intro he
          subst he
          simp [Op.registers] at hnr
        have h0 : (ctxOf s fd1).events &&& event.toNat = 0 := by
          unfold registered at hq; simpa using hq
        exact (mask_quiet hvm h0 event1).2 hne

theorem quiet_delEvent {s s1 : IOManager} {fd fd1 : Nat} {event event1 : Event} {ok r : Bool}
    (h : Inv s) (hq : ¬ registered s fd event)
    (hr : delEvent s fd1 event1 ok = some (r, s1)) :
    ¬ registered s1 fd event ∧ firedBy s1 fd event = firedBy s fd event := by
  unfold delEvent at hr
  by_cases hlt : fd1 < s.m_fdContexts.length
  · rw [if_pos ((lookup_lt h fd1).mpr hlt)] at hr
    obtain ⟨hslot, hcfd, hcm⟩ := slot_ctxOf h hlt
    simp only [fdCtxAt_of_slot hslot] at hr
    by_cases hbit : (ctxOf s fd1).events &&& event1.toNat = 0
    · rw [if_pos hbit] at hr
      simp only [Option.some.injEq, Prod.mk.injEq] at hr
      rw [← hr.2]; exact ⟨hq, rfl⟩
    · rw [if_neg hbit] at hr
      cases ok
      · simp only [epoll_ctl_fail, ne_eq, Int.reduceNeg, neg_eq_zero, one_ne_zero,
          not_false_eq_true, ↓reduceIte, Option.some.injEq, Prod.mk.injEq] at hr
        rw [← hr.2]; exact ⟨hq, rfl⟩
      · simp only [epoll_ctl_ok, ne_eq, not_true_eq_false, ↓reduceIte, Option.some.injEq,
          Prod.mk.injEq] at hr
        rw [← hr.2]
        refine ⟨?_, firedBy_congr fd event rfl⟩
        refine quiet_set (s := s) hlt rfl ?_ hq
        intro hi
        subst hi
        rw [setEventContext_events]
        have h0 : (ctxOf s fd1).events &&& event.toNat = 0 := by
          unfold registered at hq; simpa using hq
        exact (mask_quiet hcm h0 event1).1
  · rw [if_neg (fun hh => hlt ((lookup_lt h fd1).mp hh))] at hr
    simp only [Option.some.injEq, Prod.mk.injEq] at hr
    rw [← hr.2]; exact ⟨hq, rfl⟩

theorem quiet_cancelEvent {s s1 : IOManager} {fd fd1 : Nat} {event event1 : Event}
    {ok r : Bool} (h : Inv s) (hq : ¬ registered s fd event)
    (hr : cancelEvent s fd1 event1 ok = some (r, s1)) :
    ¬ registered s1 fd event ∧ firedBy s1 fd event = firedBy s fd event := by
  unfold cancelEvent at hr
  by_cases hlt : fd1 < s.m_fdContexts.length
  · rw [if_pos ((lookup_lt h fd1).mpr hlt)] at hr
    obtain ⟨hslot, hcfd, hcm⟩ := slot_ctxOf h hlt
    simp only [fdCtxAt_of_slot hslot] at hr
    by_cases hbit : (ctxOf s fd1).events &&& event1.toNat = 0
    · rw [if_pos hbit] at hr
      simp only [Option.some.injEq, Prod.mk.injEq] at hr
      rw [← hr.2]; exact ⟨hq, rfl⟩
    · rw [if_neg hbit] at hr
      cases ok
      · simp only [epoll_ctl_fail, ne_eq, Int.reduceNeg, neg_eq_zero, one_ne_zero,
          not_false_eq_true, ↓reduceIte, Option.some.injEq, Prod.mk.injEq] at hr
        rw [← hr.2]; exact ⟨hq, rfl⟩
      · simp only [epoll_ctl_ok, ne_eq, not_true_eq_false, ↓reduceIte] at hr
        cases ht : (ctxOf s fd1).triggerEvent event1 with
        | none => simp [ht] at hr
        | some ct =>
          obtain ⟨c2, t⟩ := ct
          simp only [ht, Option.some.injEq, Prod.mk.injEq] at hr
          rw [← hr.2]
          obtain ⟨_, _, hc2, ht2⟩ := triggerEvent_some ht
          have hq0 : ∀ (_ : fd1 = fd), (ctxOf s fd1).events &&& event.toNat = 0 := by
            intro hi; subst hi
            unfold registered at hq; simpa using hq
          constructor
          · refine quiet_set hlt rfl ?_ hq
            intro hi
            rw [hc2, setEventContext_events]
            exact (mask_quiet hcm (hq0 hi) event1).1
          · refine firedBy_append_ne (s := s) rfl ?_
            rintro ⟨h1, h2⟩
            rw [ht2] at h1 h2
            have h3 : ((fd1 : Nat) : Int) = (fd : Int) := hcfd.symm.trans h1
            have h4 : fd1 = fd := by exact_mod_cast h3
            have h5 : event1 = event := h2
            subst h5
            exact hbit (hq0 h4)
  · rw [if_neg (fun hh => hlt ((lookup_lt h fd1).mp hh))] at hr
    simp only [Option.some.injEq, Prod.mk.injEq] at hr
    rw [← hr.2]; exact ⟨hq, rfl⟩

/-- Two conditional firings on the context of slot `i`, stored back, keep
`event` quiet on `fd`. -/
theorem quiet_fire_twice {s s1 : IOManager} {fd i : Nat} {event : Event} (h : Inv s)
    (hlt : i < s.m_fdContexts.length) (hq : ¬ registered s fd event) {m1 m2 : Nat}
    {st1 st2 : FdContext × Nat × List Scheduled}
    (h1 : fireIf m1 .READ (ctxOf s i, s.m_pendingEventCount, s.scheduled) = some st1)
    (h2 : fireIf m2 .WRITE st1 = some st2)
    (htbl : s1.m_fdContexts = s.m_fdContexts.set i (some st2.1))
    (hsch : s1.scheduled = st2.2.2) :
    ¬ registered s1 fd event ∧ firedBy s1 fd event = firedBy s fd event := by
  obtain ⟨c1, p1, l1⟩ := st1
  obtain ⟨c2, p2, l2⟩ := st2
  obtain ⟨_, hcfd, hcm⟩ := slot_ctxOf h hlt
  have hq0 : (ctxOf s i).fd = (fd : Int) → (ctxOf s i).events &&& event.toNat = 0 := by
    intro hi
    have h3 : ((i : Nat) : Int) = (fd : Int) := hcfd.symm.trans hi
    have h4 : i = fd := by exact_mod_cast h3
    subst h4
    unfold registered at hq; simpa using hq
  obtain ⟨a1, a2, a3, a4⟩ := fireIf_quiet hcm hq0 h1
  obtain ⟨_, b2, b3, b4⟩ := fireIf_quiet a1 a3 h2
  constructor
  · refine quiet_set hlt htbl ?_ hq
    intro hi
    apply b3
    show c2.fd = (fd : Int)
    rw [b2, a2, hcfd, hi]
  · unfold firedBy
    rw [hsch]
    exact b4.trans a4

theorem quiet_cancelAll {s s1 : IOManager} {fd fd1 : Nat} {event : Event} {ok r : Bool}
    (h : Inv s) (hq : ¬ registered s fd event) (hr : cancelAll s fd1 ok = some (r, s1)) :
    ¬ registered s1 fd event ∧ firedBy s1 fd event = firedBy s fd event := by
  unfold cancelAll at hr
  by_cases hlt : fd1 < s.m_fdContexts.length
  · rw [if_pos ((lookup_lt h fd1).mpr hlt)] at hr
    obtain ⟨hslot, hcfd, hcm⟩ := slot_ctxOf h hlt
    simp only [fdCtxAt_of_slot hslot] at hr
    by_cases hz : (ctxOf s fd1).events = 0
    · rw [if_pos hz] at hr
      simp only [Option.some.injEq, Prod.mk.injEq] at hr
      rw [← hr.2]; exact ⟨hq, rfl⟩
    · rw [if_neg hz] at hr
      cases ok
      · simp only [epoll_ctl_fail, ne_eq, Int.reduceNeg, neg_eq_zero, one_ne_zero,
          not_false_eq_true, ↓reduceIte, Option.some.injEq, Prod.mk.injEq] at hr
        rw [← hr.2]; exact ⟨hq, rfl⟩
      · simp only [epoll_ctl_ok, ne_eq, not_true_eq_false, ↓reduceIte] at hr
        cases h1 : fireIf (ctxOf s fd1).events .READ
            (ctxOf s fd1, s.m_pendingEventCount, s.scheduled) with
        | none => simp [h1] at hr
        | some st1 =>
          simp only [h1] at hr
          cases h2 : fireIf st1.1.events .WRITE st1 with
          | none => simp [h2] at hr
          | some st2 =>
            simp only [h2] at hr
            split at hr
            · simp at hr
            · simp only [Option.some.injEq, Prod.mk.injEq] at hr
              rw [← hr.2]
              exact quiet_fire_twice h hlt hq h1 h2 rfl rfl
  · rw [if_neg (fun hh => hlt ((lookup_lt h fd1).mp hh))] at hr
    simp only [Option.some.injEq, Prod.mk.injEq] at hr
    rw [← hr.2]; exact ⟨hq, rfl⟩

theorem quiet_idleDispatch {s s1 : IOManager} {fd idx ready : Nat} {event : Event} {ok : Bool}
    (h : Inv s) (hq : ¬ registered s fd event) (hr : idleDispatch s idx ready ok = some s1) :
    ¬ registered s1 fd event ∧ firedBy s1 fd event = firedBy s fd event := by
  unfold idleDispatch at hr
  cases hx : fdCtxAt s.m_fdContexts idx with
  | none => simp [hx] at hr
  | some c =>
    have hc : s.m_fdContexts[idx]? = some (some c) := slot_of_fdCtxAt hx
    have hlt : idx < s.m_fdContexts.length := (List.getElem?_eq_some.mp hc).1
    have hcc : ctxOf s idx = c := ctxOf_of_slot hc
    subst hcc
    simp only [hx] at hr
    by_cases hnone : (ctxOf s idx).events &&& realEvents ready (ctxOf s idx).events = NONE
    · rw [if_pos hnone] at hr
      simp only [Option.some.injEq] at hr
      rw [← hr]; exact ⟨hq, rfl⟩
    · rw [if_neg hnone] at hr
      cases ok
      · simp only [epoll_ctl_fail, ne_eq, Int.reduceNeg, neg_eq_zero, one_ne_zero,
          not_false_eq_true, ↓reduceIte, Option.some.injEq] at hr
        rw [← hr]; exact ⟨hq, rfl⟩
      · simp only [epoll_ctl_ok, ne_eq, not_true_eq_false, ↓reduceIte] at hr
        cases h1 : fireIf (realEvents ready (ctxOf s idx).events) .READ
            (ctxOf s idx, s.m_pendingEventCount, s.scheduled) with
        | none => simp [h1] at hr
        | some st1 =>
          simp only [h1] at hr
          cases h2 : fireIf (realEvents ready (ctxOf s idx).events) .WRITE st1 with
          | none => simp [h2] at hr
          | some st2 =>
            simp only [h2, Option.some.injEq] at hr
            rw [← hr]
            exact quiet_fire_twice h hlt hq h1 h2 rfl rfl

/-- A call other than a successful `addEvent(fd, event)` keeps `event`
unregistered on `fd` and schedules no task for it. -/
theorem quiet_step {s s1 : IOManager} {op : Op} {fd : Nat} {event : Event} (h : Inv s)
    (hop : op.inRange) (hq : ¬ registered s fd event) (hnr : op.registers fd event = false)
    (hs : step s op = some s1) :
    ¬ registered s1 fd event ∧ firedBy s1 fd event = firedBy s fd event := by
  cases op with
  | addEvent fd1 event1 cb cur curFiber ok =>
    simp only [step, Option.map_eq_some', Prod.exists, exists_eq_right] at hs
    obtain ⟨r, hr⟩ := hs
    exact quiet_addEvent h hop hq hnr hr
  | delEvent fd1 event1 ok =>
    simp only [step, Option.map_eq_some', Prod.exists, exists_eq_right] at hs
    obtain ⟨r, hr⟩ := hs
    exact quiet_delEvent h hq hr
  | cancelEvent fd1 event1 ok =>
    simp only [step, Option.map_eq_some', Prod.exists, exists_eq_right] at hs
    obtain ⟨r, hr⟩ := hs
    exact quiet_cancelEvent h hq hr
  | cancelAll fd1 ok =>
    simp only [step, Option.map_eq_some', Prod.exists, exists_eq_right] at hs
    obtain ⟨r, hr⟩ := hs
    exact quiet_cancelAll h hq hr
  | idleDispatch idx ready ok =>
    exact quiet_idleDispatch h hq hs

theorem quiet_run {s s1 : IOManager} {fd : Nat} {event : Event} (ops : List Op) (h : Inv s)
    (hops : ∀ op ∈ ops, op.inRange ∧ op.registers fd event = false)
    (hq : ¬ registered s fd event) (hr : run s ops = some s1) :
    ¬ registered s1 fd event ∧ firedBy s1 fd event = firedBy s fd event := by
  induction ops generalizing s with
  | nil =>
    simp only [run, Option.some.injEq] at hr
    rw [← hr]; exact ⟨hq, rfl⟩
  | cons op ops ih =>
    cases hs : step s op with
    | none => simp [run, hs] at hr
    | some s2 =>
      simp only [run, hs, Option.some_bind] at hr
      have hop := hops op (List.mem_cons_self _ _)
      obtain ⟨q1, q2⟩ := quiet_step h hop.1 hq hop.2 hs
      obtain ⟨q3, q4⟩ := ih (inv_step h hop.1 hs)
        (fun o ho => hops o (List.mem_cons_of_mem _ ho)) q1 hr
      exact ⟨q3, q4.trans q2⟩

/-! ## The effect of a readiness dispatch -/

theorem realEvents_valid (ready events : Nat) : ValidMask (realEvents ready events) := by
  unfold realEvents
  simp only []
  split_ifs <;> decide

theorem mask_subset {r m : Nat} (hr : ValidMask r) (hm : ValidMask m) (hsub : andNot r m = 0)
    (event : Event) (h : r &&& event.toNat ≠ 0) : m &&& event.toNat ≠ 0 := by
  rcases hr with hr | hr | hr | hr <;> rcases hm with hm | hm | hm | hm <;> subst hr hm <;>
    revert hsub h <;> cases event <;> decide

theorem mask_inter {r m : Nat} (hr : ValidMask r) (hm : ValidMask m) (hsub : andNot r m = 0)
    (event : Event) (h : r &&& event.toNat ≠ 0) : m &&& r ≠ 0 := by
  rcases hr with hr | hr | hr | hr <;> rcases hm with hm | hm | hm | hm <;> subst hr hm <;>
    revert hsub h <;> cases event <;> decide

theorem mask_fired {r m : Nat} (hr : ValidMask r) (hm : ValidMask m) :
    (if r &&& Event.WRITE.toNat ≠ 0
      then andNot (if r &&& Event.READ.toNat ≠ 0 then andNot m Event.READ.toNat else m)
        Event.WRITE.toNat
      else (if r &&& Event.READ.toNat ≠ 0 then andNot m Event.READ.toNat else m))
      = andNot m r ∧
    (if r &&& Event.READ.toNat ≠ 0 then 1 else 0) + (if r &&& Event.WRITE.toNat ≠ 0 then 1 else 0)
      = popcount r := by
  rcases hr with hr | hr | hr | hr <;> rcases hm with hm | hm | hm | hm <;> subst hr hm <;>
    decide

/-- The effect of the dispatch of one ready event whose directions are all
registered and have a recorded scheduler. -/
theorem idleDispatch_spec (s : IOManager) (idx ready : Nat) (schR schW : Nat) (h : Inv s)
    (hlt : idx < s.m_fdContexts.length)
    (hsub : andNot (realEvents ready (ctxOf s idx).events) (ctxOf s idx).events = 0)
    (hne : (ctxOf s idx).events &&& realEvents ready (ctxOf s idx).events ≠ 0)
    (hR : registered s idx .READ → (ctxOf s idx).read.scheduler = some schR)
    (hW : registered s idx .WRITE → (ctxOf s idx).write.scheduler = some schW) :
    ∃ s1, idleDispatch s idx ready true = some s1 ∧
      s1.scheduled = s.scheduled ++
        (if realEvents ready (ctxOf s idx).events &&& Event.READ.toNat ≠ 0
          then [⟨schR, taskOf (ctxOf s idx).read, (idx : Int), .READ⟩] else []) ++
        (if realEvents ready (ctxOf s idx).events &&& Event.WRITE.toNat ≠ 0
          then [⟨schW, taskOf (ctxOf s idx).write, (idx : Int), .WRITE⟩] else []) ∧
      (ctxOf s1 idx).events
        = andNot (ctxOf s idx).events (realEvents ready (ctxOf s idx).events) ∧
      (∀ event, (ctxOf s1 idx).getEventContext event
        = (if realEvents ready (ctxOf s idx).events &&& event.toNat ≠ 0 then {}
           else (ctxOf s idx).getEventContext event)) ∧
      s1.m_pendingEventCount + popcount (realEvents ready (ctxOf s idx).events)
        = s.m_pendingEventCount ∧
      s1.ctl_calls = s.ctl_calls ++
        [{ op := if andNot (ctxOf s idx).events (realEvents ready (ctxOf s idx).events) ≠ 0
                 then EPOLL_CTL_MOD else EPOLL_CTL_DEL
           fd := idx
           events := EPOLLET |||
             andNot (ctxOf s idx).events (realEvents ready (ctxOf s idx).events) }] := by
  obtain ⟨hslot, hfdeq, hvm⟩ := slot_ctxOf h hlt
  have hrv := realEvents_valid ready (ctxOf s idx).events
  have hple := popcount_le_pendingSum hslot
  have hplt := pending_lt h
  have hcnt := h.2.2.2
  generalize hreal : realEvents ready (ctxOf s idx).events = real at *
  obtain ⟨c1, p1, e1, a1, a2, a3, a4, a5, a6, a7, a8⟩ :=
    fireIf_spec (c := ctxOf s idx) (p := s.m_pendingEventCount) (l := s.scheduled)
      real .READ schR hvm
      (fun hh => ⟨mask_subset hrv hvm hsub .READ hh, hR (mask_subset hrv hvm hsub .READ hh)⟩)
      (by omega) (by omega)
  have hw1 : c1.events &&& Event.WRITE.toNat = (ctxOf s idx).events &&& Event.WRITE.toNat := by
    rw [a2]
    split
    · exact validMask_other hvm .READ
    · rfl
  obtain ⟨c2, p2, e2, b1, b2, b3, b4, b5, b6, b7, b8⟩ :=
    fireIf_spec (c := c1) (p := p1) (l := s.scheduled ++
        (if real &&& Event.READ.toNat ≠ 0
         then [⟨schR, taskOf ((ctxOf s idx).getEventContext .READ), (ctxOf s idx).fd, .READ⟩]
         else []))
      real .WRITE schW a6
      (fun hh => ⟨by rw [hw1]; exact mask_subset hrv hvm hsub .WRITE hh, by
        have h4 : c1.write = (ctxOf s idx).write := a4
        show c1.write.scheduler = some schW
        rw [h4]; exact hW (mask_subset hrv hvm hsub .WRITE hh)⟩) a7 a8
  have hfdnat : (ctxOf s idx).fd.toNat = idx := by rw [hfdeq]; rfl
  unfold idleDispatch
  simp only [fdCtxAt_of_slot hslot, hreal]
  have hne1 : ¬ ((ctxOf s idx).events &&& real = NONE) := hne
  rw [if_neg hne1]
  simp only [epoll_ctl_ok, ne_eq, not_true_eq_false, ↓reduceIte]
  rw [e1]
  simp only [e2]
  refine ⟨_, rfl, ?_, ?_, ?_, ?_, ?_⟩
  · show s.scheduled ++ _ ++ _ = _
    have hwr : c1.getEventContext .WRITE = (ctxOf s idx).write := a4
    simp only [hwr, b1, a1, hfdeq]
    rfl
  · rw [ctxOf_mk_set _ _ _ _ _ _ _ hlt, b2, a2]
    exact (mask_fired hrv hvm).1
  · rw [ctxOf_mk_set _ _ _ _ _ _ _ hlt]
    intro event
    cases event with
    | READ =>
      have hrd : c2.getEventContext .READ = c1.getEventContext .READ := b4
      rw [hrd, a3]
    | WRITE =>
      have hwr : c1.getEventContext .WRITE = (ctxOf s idx).getEventContext .WRITE := a4
      rw [b3, hwr]
  · show p2 + popcount real = s.m_pendingEventCount
    have := (mask_fired hrv hvm).2
    omega
  · simp only [hfdnat]

/-! ## A registration is consumed once -/

theorem firedBy_fire {s s1 : IOManager} {fd : Nat} (bR bW : Prop) [Decidable bR] [Decidable bW]
    (tR tW : ScheduleTask) (schR schW : Nat)
    (hs : s1.scheduled = s.scheduled ++
      (if bR then [⟨schR, tR, (fd : Int), .READ⟩] else []) ++
      (if bW then [⟨schW, tW, (fd : Int), .WRITE⟩] else [])) :
    firedBy s1 fd .READ
      = firedBy s fd .READ ++ (if bR then [⟨schR, tR, (fd : Int), .READ⟩] else []) ∧
    firedBy s1 fd .WRITE
      = firedBy s fd .WRITE ++ (if bW then [⟨schW, tW, (fd : Int), .WRITE⟩] else []) := by
  unfold firedBy
  rw [hs]
  by_cases hR : bR <;> by_cases hW : bW <;> simp [hR, hW, List.filter_append]

theorem consumedOnce_of {s s1 : IOManager} {fd : Nat} {event : Event} {sch : Nat}
    (h1 : Inv s1)
    (hf : firedBy s1 fd event = firedBy s fd event ++
      [⟨sch, taskOf ((ctxOf s fd).getEventContext event), (fd : Int), event⟩])
    (hq : ¬ registered s1 fd event) : ConsumedOnce s fd event sch s1 :=
  ⟨hf, hq, fun ops hops _ hr =>
    ⟨(quiet_run ops h1 hops hq hr).2, (quiet_run ops h1 hops hq hr).1⟩⟩

theorem not_registered_of_events {s1 : IOManager} {fd : Nat} {event : Event} {m r : Nat}
    (hm : ValidMask m) (hr : ValidMask r) (hbit : r &&& event.toNat ≠ 0)
    (he : (ctxOf s1 fd).events = andNot m r) : ¬ registered s1 fd event := by
  unfold registered
  rw [he]
  rcases hm with hm | hm | hm | hm <;> rcases hr with hr | hr | hr | hr <;> subst hm hr <;>
    revert hbit <;> cases event <;> decide

/-- A registered direction whose scheduler is recorded is consumed by whichever
of `cancelEvent`, `cancelAll` and a readiness dispatch reporting it runs first. -/
theorem consumed_of_registered (s : IOManager) (fd : Nat) (event : Event) (sch schO : Nat)
    (h : Inv s) (hreg : registered s fd event)
    (hsch : ((ctxOf s fd).getEventContext event).scheduler = some sch)
    (hschO : registered s fd event.other →
      ((ctxOf s fd).getEventContext event.other).scheduler = some schO) :
    (∃ s1, cancelEvent s fd event true = some (true, s1) ∧ ConsumedOnce s fd event sch s1) ∧
    (∃ s1, cancelAll s fd true = some (true, s1) ∧ ConsumedOnce s fd event sch s1) ∧
    (∀ ready, realEvents ready (ctxOf s fd).events &&& event.toNat ≠ 0 →
      andNot (realEvents ready (ctxOf s fd).events) (ctxOf s fd).events = 0 →
      ∃ s1, idleDispatch s fd ready true = some s1 ∧ ConsumedOnce s fd event sch s1) := by
  have hlt := lt_of_registered hreg
  obtain ⟨hslot, hfdeq, hvm⟩ := slot_ctxOf h hlt
  have hne : (ctxOf s fd).events ≠ 0 := by
    intro hz
    unfold registered at hreg
    rw [hz] at hreg
    exact hreg (by cases event <;> decide)
  refine ⟨?_, ?_, ?_⟩
  · obtain ⟨s1, e1, e2, _, _, e3, _⟩ := (cancelEvent_spec s fd event h).1 sch hreg hsch
    refine ⟨s1, e1, consumedOnce_of (inv_cancelEvent h e1) ?_ e3⟩
    unfold firedBy
    rw [e2, List.filter_append]
    simp
  · cases event with
    | READ =>
      obtain ⟨s1, e1, e2, _, e3, _⟩ := (cancelAll_spec s fd sch schO h (fun _ => hsch) hschO).1 hne
      refine ⟨s1, e1, consumedOnce_of (inv_cancelAll h e1) ?_ ?_⟩
      · rw [(firedBy_fire _ _ _ _ _ _ e2).1, if_pos hreg]
        rfl
      · unfold registered; rw [e3]; decide
    | WRITE =>
      obtain ⟨s1, e1, e2, _, e3, _⟩ := (cancelAll_spec s fd schO sch h hschO (fun _ => hsch)).1 hne
      refine ⟨s1, e1, consumedOnce_of (inv_cancelAll h e1) ?_ ?_⟩
      · rw [(firedBy_fire _ _ _ _ _ _ e2).2, if_pos hreg]
        rfl
      · unfold registered; rw [e3]; decide
  · intro ready hbit hsub
    have hrv := realEvents_valid ready (ctxOf s fd).events
    have hne1 : (ctxOf s fd).events &&& realEvents ready (ctxOf s fd).events ≠ 0 :=
      mask_inter hrv hvm hsub event hbit
    cases event with
    | READ =>
      obtain ⟨s1, e1, e2, e3, _⟩ :=
        idleDispatch_spec s fd ready sch schO h hlt hsub hne1 (fun _ => hsch) hschO
      refine ⟨s1, e1, consumedOnce_of (inv_idleDispatch h e1) ?_
        (not_registered_of_events hvm hrv hbit e3)⟩
      rw [(firedBy_fire _ _ _ _ _ _ e2).1, if_pos hbit]
      rfl
    | WRITE =>
      obtain ⟨s1, e1, e2, e3, _⟩ :=
        idleDispatch_spec s fd ready schO sch h hlt hsub hne1 hschO (fun _ => hsch)
      refine ⟨s1, e1, consumedOnce_of (inv_idleDispatch h e1) ?_
        (not_registered_of_events hvm hrv hbit e3)⟩
      rw [(firedBy_fire _ _ _ _ _ _ e2).2, if_pos hbit]
      rfl

theorem or_bit_registered {m : Nat} (h : ValidMask m) (event : Event) :
    (m ||| event.toNat) &&& event.toNat ≠ 0 ∧
    ((m ||| event.toNat) &&& event.other.toNat ≠ 0 ↔ m &&& event.other.toNat ≠ 0) := by
  rcases h with h | h | h | h <;> subst h <;> cases event <;> decide

/-- After a successful `addEvent(fd, event, cb)` on scheduler `sch`, the
registration is consumed by whichever of `cancelEvent`, `cancelAll` and a
readiness dispatch that reports the direction and only registered directions
runs first: that call schedules the stored task (the callable `cb` if given,
else the registering coroutine) exactly once on `sch` and clears the direction,
and afterwards no sequence of calls without a successful `addEvent` for the
same fd and direction schedules a task for it (`ConsumedOnce`). -/
theorem registration_consumed_once (s0 s : IOManager) (fd : Nat) (event : Event)
    (cb : Option Nat) (sch curFiber schO : Nat) (h0 : Inv s0) (hfd : fd * 3 / 2 < 2 ^ 31)
    (hctx : ¬ registered s0 fd event → (ctxOf s0 fd).getEventContext event = {})
    (hadd : addEvent s0 fd event cb (some sch) curFiber true = some (0, s))
    (hschO : registered s fd event.other →
      ((ctxOf s fd).getEventContext event.other).scheduler = some schO) :
    taskOf ((ctxOf s fd).getEventContext event)
      = (if cb.isSome then { cb := cb } else { fiber := some curFiber }) ∧
    (∃ s1, cancelEvent s fd event true = some (true, s1) ∧ ConsumedOnce s fd event sch s1) ∧
    (∃ s1, cancelAll s fd true = some (true, s1) ∧ ConsumedOnce s fd event sch s1) ∧
    (∀ ready, realEvents ready (ctxOf s fd).events &&& event.toNat ≠ 0 →
      andNot (realEvents ready (ctxOf s fd).events) (ctxOf s fd).events = 0 →
      ∃ s1, idleDispatch s fd ready true = some s1 ∧ ConsumedOnce s fd event sch s1) := by
  have h := inv_addEvent h0 hfd hadd
  obtain ⟨r, s1, e, _, _, hok⟩ := addEvent_spec s0 fd event cb (some sch) curFiber true h0 hfd hctx
  rw [hadd] at e
  simp only [Option.some.injEq, Prod.mk.injEq] at e
  obtain ⟨e1, e2⟩ := e
  subst e1 e2
  obtain ⟨_, hev, hcx, _, _⟩ := hok (by decide)
  have hvm := (slot_grown h0 hfd).2
  have hreg : registered s fd event := by
    unfold registered
    rw [hev]
    exact (or_bit_registered hvm event).1
  have hsch : ((ctxOf s fd).getEventContext event).scheduler = some sch := by
    rw [hcx]; split <;> rfl
  refine ⟨?_, consumed_of_registered s fd event sch schO h hreg hsch hschO⟩
  rw [hcx]
  cases cb <;> rfl

/-- The state after `addEvent(0, READ, cb 5)` on scheduler 3 in `sampleIOManager`. -/
theorem sampleAdded_eq :
    addEvent sampleIOManager 0 .READ (some 5) (some 3) 9 true = some (0, sampleAdded) := rfl

/-- The consumption of a registration at `sampleIOManager`: `READ` is registered
on fd 0 with callable 5. -/
theorem registration_consumed_once_witness :
    Inv sampleIOManager ∧ 0 * 3 / 2 < 2 ^ 31 ∧
    (¬ registered sampleIOManager 0 .READ →
      (ctxOf sampleIOManager 0).getEventContext .READ = {}) ∧
    addEvent sampleIOManager 0 .READ (some 5) (some 3) 9 true = some (0, sampleAdded) ∧
    (registered sampleAdded 0 Event.READ.other →
      ((ctxOf sampleAdded 0).getEventContext Event.READ.other).scheduler = some 3) ∧
    (taskOf ((ctxOf sampleAdded 0).getEventContext .READ)
      = (if (some 5 : Option Nat).isSome then { cb := some 5 } else { fiber := some 9 }) ∧
     (∃ s1, cancelEvent sampleAdded 0 .READ true = some (true, s1) ∧
        ConsumedOnce sampleAdded 0 .READ 3 s1) ∧
     (∃ s1, cancelAll sampleAdded 0 true = some (true, s1) ∧
        ConsumedOnce sampleAdded 0 .READ 3 s1) ∧
     (∀ ready, realEvents ready (ctxOf sampleAdded 0).events &&& Event.READ.toNat ≠ 0 →
        andNot (realEvents ready (ctxOf sampleAdded 0).events)
          (ctxOf sampleAdded 0).events = 0 →
        ∃ s1, idleDispatch sampleAdded 0 ready true = some s1 ∧
          ConsumedOnce sampleAdded 0 .READ 3 s1)) :=
  ⟨by decide, by decide, by decide, sampleAdded_eq, by decide,
    registration_consumed_once sampleIOManager sampleAdded 0 .READ (some 5) 3 9 3 (by decide)
      (by decide) (by decide) sampleAdded_eq (by decide)⟩

/-! ## A registration whose readiness dispatch aborts -/

theorem timerAt_set (heap : List Timer) (t x : Nat) (v : Timer) :
    timerAt (heap.set t v) x = if x = t ∧ t < heap.length then v else timerAt heap x := by
  unfold timerAt
  rw [List.getD_eq_getElem?_getD, List.getD_eq_getElem?_getD, List.getElem?_set]
  by_cases hx : t = x
  · subst hx
    by_cases hl : t < heap.length
    · simp [hl]
    · simp [hl, List.getElem?_eq_none (Nat.le_of_not_lt hl)]
  · have hx1 : ¬ x = t := fun hh => hx hh.symm
    simp [hx, hx1]

theorem timerAt_of_getElem? {heap : List Timer} {t : Nat} {self : Timer}
    (h : heap[t]? = some self) : timerAt heap t = self := by
  unfold timerAt
  rw [List.getD_eq_getElem?_getD, h]
  rfl

theorem lt_of_getElem? {heap : List Timer} {t : Nat} {self : Timer}
    (h : heap[t]? = some self) : t < heap.length :=
  (List.getElem?_eq_some.mp h).1

theorem timerAt_append_left {heap : List Timer} {x : Nat} (obj : Timer) (h : x < heap.length) :
    timerAt (heap ++ [obj]) x = timerAt heap x := by
  unfold timerAt
  rw [List.getD_eq_getElem?_getD, List.getD_eq_getElem?_getD, List.getElem?_append_left h]

theorem mem_setInsert {heap : List Timer} {l : List Nat} {t y : Nat}
    (h : y ∈ (setInsert heap l t).1) : y = t ∨ y ∈ l := by
  induction l with
  | nil =>
    simp only [setInsert, List.mem_singleton] at h
    exact Or.inl h
  | cons x xs ih =>
    unfold setInsert at h
    split at h
    · simp only [List.mem_cons] at h ⊢
      exact h
    · split at h
      · simp only [List.mem_cons] at h ⊢
        rcases h with h | h
        · exact Or.inr (Or.inl h)
        · rcases ih h with h1 | h1
          · exact Or.inl h1
          · exact Or.inr (Or.inr h1)
      · exact Or.inr h

theorem setFind_mem {heap : List Timer} {l : List Nat} {t x : Nat}
    (h : setFind heap l t = some x) :
    x ∈ l ∧ (timerAt heap x).m_next = (timerAt heap t).m_next := by
  induction l with
  | nil => simp [setFind] at h
  | cons y ys ih =>
    unfold setFind at h
    split at h
    · obtain ⟨h1, h2⟩ := ih h
      exact ⟨List.mem_cons_of_mem _ h1, h2⟩
    · rename_i hyt
      split at h
      · simp at h
      · rename_i hty
        simp only [Option.some.injEq] at h
        subst h
        simp only [Comparator, decide_eq_true_eq, not_lt] at hyt hty
        exact ⟨List.mem_cons_self _ _, le_antisymm hty hyt⟩

theorem setFind_self {heap : List Timer} {l : List Nat} {t : Nat}
    (hs : l.Pairwise fun a b => (timerAt heap a).m_next < (timerAt heap b).m_next)
    (ht : t ∈ l) : setFind heap l t = some t := by
  induction l with
  | nil => simp at ht
  | cons y ys ih =>
    rw [List.pairwise_cons] at hs
    unfold setFind
    rcases List.mem_cons.mp ht with h1 | h1
    · subst h1
      simp [Comparator]
    · have hlt := hs.1 t h1
      have : Comparator heap y t = true := by simp [Comparator, hlt]
      rw [if_pos this]
      exact ih hs.2 h1

theorem nodup_of_sorted {heap : List Timer} {l : List Nat}
    (hs : l.Pairwise fun a b => (timerAt heap a).m_next < (timerAt heap b).m_next) :
    l.Nodup := by
  unfold List.Nodup
  refine hs.imp ?_
  intro a b hab heq
  subst heq
  exact lt_irrefl _ hab

theorem getElem?_of_lt {heap : List Timer} {t : Nat} (h : t < heap.length) :
    heap[t]? = some (timerAt heap t) := by
  unfold timerAt
  rw [List.getD_eq_getElem?_getD, List.getElem?_eq_getElem h]
  rfl

/-- Changing a timer that is not `t` (or nulling a callable) keeps `t`'s
callable null. -/
theorem dead_heap_set {heap : List Timer} {t x : Nat} {v : Timer}
    (hd : (timerAt heap t).m_cb = none) (hv : x = t → v.m_cb = none) :
    (timerAt (heap.set x v) t).m_cb = none := by
  rw [timerAt_set]
  split
  · rename_i hh; exact hv hh.1.symm
  · exact hd

theorem dead_cancel {tm tm1 : TimerManager} {t x : Nat} {r : Bool} (hd : Dead tm t)
    (hc : Timer.cancel tm x = some (r, tm1)) : Dead tm1 t := by
  unfold Timer.cancel at hc
  cases hx : tm.heap[x]? with
  | none => simp [hx] at hc
  | some self =>
    simp only [hx] at hc
    split at hc
    · simp only [Option.some.injEq, Prod.mk.injEq] at hc
      rw [← hc.2]; exact hd
    · have hdh : (timerAt (tm.heap.set x { self with m_cb := none }) t).m_cb = none :=
        dead_heap_set hd.2.1 (fun _ => rfl)
      split at hc
      · simp only [Option.some.injEq, Prod.mk.injEq] at hc
        rw [← hc.2]
        exact ⟨by simpa using hd.1, hdh, fun hm => hd.2.2 (List.mem_of_mem_erase hm)⟩
      · simp only [Option.some.injEq, Prod.mk.injEq] at hc
        rw [← hc.2]
        exact ⟨by simpa using hd.1, hdh, hd.2.2⟩

theorem dead_refresh {tm tm1 : TimerManager} {t x : Nat} {now : Int} {r : Bool}
    (hd : Dead tm t) (hc : Timer.refresh tm x now = some (r, tm1)) : Dead tm1 t := by
  unfold Timer.refresh at hc
  cases hx : tm.heap[x]? with
  | none => simp [hx] at hc
  | some self =>
    simp only [hx] at hc
    split at hc
    · simp only [Option.some.injEq, Prod.mk.injEq] at hc
      rw [← hc.2]; exact hd
    · rename_i hcb
      have hne : x ≠ t := by
        intro hh
        subst hh
        have h2 := hd.2.1
        rw [timerAt_of_getElem? hx] at h2
        exact hcb h2
      split at hc
      · simp only [Option.some.injEq, Prod.mk.injEq] at hc
        rw [← hc.2]; exact hd
      · simp only [Option.some.injEq, Prod.mk.injEq] at hc
        rw [← hc.2]
        refine ⟨by simpa using hd.1, dead_heap_set hd.2.1 (fun hh => absurd hh hne), ?_⟩
        intro hm
        rcases mem_setInsert hm with h1 | h1
        · exact hne h1.symm
        · exact hd.2.2 (List.mem_of_mem_erase h1)

theorem not_mem_addTimerPtr (tm : TimerManager) {t x : Nat} (hne : x ≠ t)
    (hm : t ∉ tm.m_timers) :
    t ∉ (addTimerPtr tm x).m_timers ∧ (addTimerPtr tm x).heap = tm.heap := by
  have key : t ∉ (setInsert tm.heap tm.m_timers x).1 := by
    intro hh
    rcases mem_setInsert hh with h1 | h1
    · exact hne h1.symm
    · exact hm h1
  unfold addTimerPtr
  simp only []
  split <;> exact ⟨key, rfl⟩

theorem dead_reset {tm tm1 : TimerManager} {t x ms : Nat} {from_now : Bool} {now : Int}
    {r : Bool} (hd : Dead tm t) (hc : Timer.reset tm x ms from_now now = some (r, tm1)) :
    Dead tm1 t := by
  unfold Timer.reset at hc
  cases hx : tm.heap[x]? with
  | none => simp [hx] at hc
  | some self =>
    simp only [hx] at hc
    split at hc
    · simp only [Option.some.injEq, Prod.mk.injEq] at hc
      rw [← hc.2]; exact hd
    · split at hc
      · simp only [Option.some.injEq, Prod.mk.injEq] at hc
        rw [← hc.2]; exact hd
      · rename_i hcb
        have hne : x ≠ t := by
          intro hh
          subst hh
          have h2 := hd.2.1
          rw [timerAt_of_getElem? hx] at h2
          exact hcb h2
        split at hc
        · simp only [Option.some.injEq, Prod.mk.injEq] at hc
          rw [← hc.2]; exact hd
        · simp only [Option.some.injEq, Prod.mk.injEq] at hc
          rw [← hc.2]
          rename_i it _
          have h1 := not_mem_addTimerPtr
            { tm with
              heap := tm.heap.set x { self with
                m_ms := ms
                m_next := (if from_now = true then now else self.m_next - msToTicks self.m_ms)
                  + msToTicks ms }
              m_timers := tm.m_timers.erase it }
            hne (fun hm => hd.2.2 (List.mem_of_mem_erase hm))
          refine ⟨?_, ?_, h1.1⟩
          · rw [h1.2]; simpa using hd.1
          · rw [h1.2]; exact dead_heap_set hd.2.1 (fun hh => absurd hh hne)

theorem dead_addTimer {tm : TimerManager} {t ms : Nat} {cb : Option Nat} {recurring : Bool}
    {now : Int} (hd : Dead tm t) : Dead (addTimer tm ms cb recurring now).2 t := by
  unfold addTimer
  simp only []
  generalize ({ m_recurring := recurring, m_ms := ms, m_next := now + msToTicks ms,
                m_cb := cb } : Timer) = obj
  have hne : tm.heap.length ≠ t := by have := hd.1; omega
  have h1 := not_mem_addTimerPtr { tm with heap := tm.heap ++ [obj] } hne hd.2.2
  refine ⟨?_, ?_, h1.1⟩
  · rw [h1.2]
    simp only [List.length_append, List.length_singleton]
    have := hd.1
    omega
  · rw [h1.2, timerAt_append_left _ hd.1]
    exact hd.2.1

theorem dead_getNextTimer {tm : TimerManager} {t : Nat} {now : Int} (hd : Dead tm t) :
    Dead (getNextTimer tm now).2 t := by
  unfold getNextTimer
  simp only []
  split
  · exact hd
  · split <;> exact hd

theorem dead_expireStep {now : Int} {rollover : Bool} {d d1 : Drain} {t : Nat}
    (hd : Dead d.tm t) (hf : t ∉ d.fired) (h : expireStep now rollover d = some d1) :
    Dead d1.tm t ∧ t ∉ d1.fired := by
  unfold expireStep at h
  split at h
  · simp at h
  · rename_i head rest hl
    have hne : head ≠ t := by
      intro hh
      subst hh
      exact hd.2.2 (by rw [hl]; exact List.mem_cons_self _ _)
    have hrest : t ∉ rest := fun hm => hd.2.2 (by rw [hl]; exact List.mem_cons_of_mem _ hm)
    have hfired : t ∉ d.fired ++ [head] := by
      simp only [List.mem_append, List.mem_singleton, not_or]
      exact ⟨hf, fun hh => hne hh.symm⟩
    split at h
    · simp only [] at h
      split at h
      · simp only [Option.some.injEq] at h
        rw [← h]
        refine ⟨⟨by simpa using hd.1, dead_heap_set hd.2.1 (fun hh => absurd hh hne), ?_⟩,
          hfired⟩
        intro hm
        rcases mem_setInsert hm with h1 | h1
        · exact hne h1.symm
        · exact hrest h1
      · simp only [Option.some.injEq] at h
        rw [← h]
        exact ⟨⟨by simpa using hd.1, dead_heap_set hd.2.1 (fun _ => rfl), hrest⟩, hfired⟩
    · simp at h

theorem dead_expireIter {now : Int} {rollover : Bool} (n : Nat) {d : Drain} {t : Nat}
    (hd : Dead d.tm t) (hf : t ∉ d.fired) :
    Dead (expireIter now rollover n d).tm t ∧ t ∉ (expireIter now rollover n d).fired := by
  induction n generalizing d with
  | zero => exact ⟨hd, hf⟩
  | succ n ih =>
    unfold expireIter
    cases hs : expireStep now rollover d with
    | none => exact ⟨hd, hf⟩
    | some d1 =>
      obtain ⟨h1, h2⟩ := dead_expireStep hd hf hs
      exact ih h1 h2

theorem dead_timerStep {tm tm1 : TimerManager} {t : Nat} {op : TimerOp} {f : List Nat}
    (hd : Dead tm t) (h : timerStep tm op = some (tm1, f)) : Dead tm1 t ∧ t ∉ f := by
  cases op with
  | addTimer ms cb recurring now =>
    simp only [timerStep, Option.some.injEq, Prod.mk.injEq] at h
    rw [← h.1, ← h.2]
    exact ⟨dead_addTimer hd, List.not_mem_nil _⟩
  | cancel x =>
    simp only [timerStep, Option.map_eq_some', Prod.mk.injEq] at h
    obtain ⟨r, hr, h1, h2⟩ := h
    rw [← h1, ← h2]
    exact ⟨dead_cancel hd (r := r.1) hr, List.not_mem_nil _⟩
  | refresh x now =>
    simp only [timerStep, Option.map_eq_some', Prod.mk.injEq] at h
    obtain ⟨r, hr, h1, h2⟩ := h
    rw [← h1, ← h2]
    exact ⟨dead_refresh hd (r := r.1) hr, List.not_mem_nil _⟩
  | reset x ms from_now now =>
    simp only [timerStep, Option.map_eq_some', Prod.mk.injEq] at h
    obtain ⟨r, hr, h1, h2⟩ := h
    rw [← h1, ← h2]
    exact ⟨dead_reset hd (r := r.1) hr, List.not_mem_nil _⟩
  | getNextTimer now =>
    simp only [timerStep, Option.some.injEq, Prod.mk.injEq] at h
    rw [← h.1, ← h.2]
    exact ⟨dead_getNextTimer hd, List.not_mem_nil _⟩
  | listExpiredCb now now1 n =>
    simp only [timerStep, Option.some.injEq, Prod.mk.injEq] at h
    rw [← h.1, ← h.2]
    exact dead_expireIter n (d := drainStart tm [] now1) hd (List.not_mem_nil _)

theorem dead_timerRun {tm tm1 : TimerManager} {t : Nat} (ops : List TimerOp) {f : List Nat}
    (hd : Dead tm t) (h : timerRun tm ops = some (tm1, f)) : Dead tm1 t ∧ t ∉ f := by
  induction ops generalizing tm tm1 f with
  | nil =>
    simp only [timerRun, Option.some.injEq, Prod.mk.injEq] at h
    rw [← h.1, ← h.2]
    exact ⟨hd, List.not_mem_nil _⟩
  | cons op ops ih =>
    unfold timerRun at h
    cases hs : timerStep tm op with
    | none => simp [hs] at h
    | some r1 =>
      obtain ⟨tm2, f1⟩ := r1
      simp only [hs] at h
      cases hr : timerRun tm2 ops with
      | none => simp [hr] at h
      | some r2 =>
        obtain ⟨tm3, f2⟩ := r2
        simp only [hr, Option.some.injEq, Prod.mk.injEq] at h
        obtain ⟨a1, a2⟩ := dead_timerStep hd hs
        obtain ⟨b1, b2⟩ := ih a1 hr
        rw [← h.1, ← h.2]
        refine ⟨b1, ?_⟩
        simp only [List.mem_append, not_or]
        exact ⟨a2, b2⟩

theorem sorted_heap_congr {heap heap1 : List Timer} {l : List Nat}
    (hn : ∀ x, (timerAt heap1 x).m_next = (timerAt heap x).m_next)
    (hs : l.Pairwise fun a b => (timerAt heap a).m_next < (timerAt heap b).m_next) :
    l.Pairwise fun a b => (timerAt heap1 a).m_next < (timerAt heap1 b).m_next := by
  refine hs.imp ?_
  intro a b hab
  rw [hn a, hn b]
  exact hab

/-- After a `cancel()` that returned `true` on a sorted timer set the timer is
out of the set and its callable is null. -/
theorem dead_of_cancel {tm tm1 : TimerManager} {t : Nat} (hs : tm.Sorted)
    (hc : Timer.cancel tm t = some (true, tm1)) : Dead tm1 t := by
  unfold Timer.cancel at hc
  cases hx : tm.heap[t]? with
  | none => simp [hx] at hc
  | some self =>
    simp only [hx] at hc
    have hlt := lt_of_getElem? hx
    split at hc
    · simp at hc
    · have hn : ∀ x, (timerAt (tm.heap.set t { self with m_cb := none }) x).m_next
          = (timerAt tm.heap x).m_next := by
        intro x
        rw [timerAt_set]
        split
        · rename_i hh
          rw [hh.1, timerAt_of_getElem? hx]
        · rfl
      have hs1 := sorted_heap_congr hn hs
      have hcb : (timerAt (tm.heap.set t { self with m_cb := none }) t).m_cb = none := by
        rw [timerAt_set, if_pos ⟨rfl, hlt⟩]
      split at hc
      · rename_i it hfind
        simp only [Option.some.injEq, Prod.mk.injEq, true_and] at hc
        rw [← hc]
        refine ⟨by simpa using hlt, hcb, ?_⟩
        intro hm
        have hmem : t ∈ tm.m_timers := List.mem_of_mem_erase hm
        have hself := setFind_self hs1 hmem
        rw [hself] at hfind
        simp only [Option.some.injEq] at hfind
        subst hfind
        exact ((nodup_of_sorted hs).mem_erase_iff.mp hm).1 rfl
      · rename_i hfind
        simp only [Option.some.injEq, Prod.mk.injEq, true_and] at hc
        rw [← hc]
        refine ⟨by simpa using hlt, hcb, ?_⟩
        intro hmem
        have hself := setFind_self hs1 hmem
        rw [hself] at hfind
        simp at hfind

theorem cancel_of_dead {tm : TimerManager} {t : Nat} (hd : Dead tm t) :
    Timer.cancel tm t = some (false, tm) := by
  unfold Timer.cancel
  rw [getElem?_of_lt hd.1]
  simp only [hd.2.1, ↓reduceIte]

/-- C8: after `cancel()` has returned `true` for timer `t` of a sorted timer
set, `t` is out of the set and its callable is null, and after every later
sequence of calls (`addTimer`, `cancel`, `refresh`, `reset`, `getNextTimer`,
and `listExpiredCb` at any clock values and cut after any number of loop
iterations) no call has appended `t`'s callable, `t` is still out of the set
with a null callable, and another `cancel()` on `t` returns `false`. -/
theorem cancelled_timer_never_fires (tm tm1 : TimerManager) (t : Nat) (hs : tm.Sorted)
    (hc : Timer.cancel tm t = some (true, tm1)) :
    t ∉ tm1.m_timers ∧ (timerAt tm1.heap t).m_cb = none ∧
    ∀ ops tm2 fired, timerRun tm1 ops = some (tm2, fired) →
      t ∉ fired ∧ t ∉ tm2.m_timers ∧ (timerAt tm2.heap t).m_cb = none ∧
      Timer.cancel tm2 t = some (false, tm2) := by
  have hd := dead_of_cancel hs hc
  refine ⟨hd.2.2, hd.2.1, ?_⟩
  intro ops tm2 fired hr
  obtain ⟨h1, h2⟩ := dead_timerRun ops hd hr
  exact ⟨h2, h1.2.2, h1.2.1, cancel_of_dead h1⟩

/-- C8 at `sampleTimers`: timer 0 is cancelled, then refreshed, reset, another
timer is added and the set is drained twice, the second time under a clock
rollback. -/
theorem cancelled_timer_never_fires_witness :
    sampleTimers.Sorted ∧ Timer.cancel sampleTimers 0 = some (true, sampleCancelled) ∧
    (0 ∉ sampleCancelled.m_timers ∧ (timerAt sampleCancelled.heap 0).m_cb = none ∧
      ∀ ops tm2 fired, timerRun sampleCancelled ops = some (tm2, fired) →
        0 ∉ fired ∧ 0 ∉ tm2.m_timers ∧ (timerAt tm2.heap 0).m_cb = none ∧
        Timer.cancel tm2 0 = some (false, tm2)) ∧
    (timerRun sampleCancelled sampleTimerOps).map Prod.snd = some [2, 1, 1, 1, 1, 1] :=
  ⟨by decide, by decide,
    cancelled_timer_never_fires sampleTimers sampleCancelled 0 (by decide) (by decide),
    by decide⟩

/-- C9: `Timer::Comparator` compares deadlines only, so the `std::set` treats
two timers with the same deadline as one key. The second of two one-shot timers
added with the same deadline is not in the set and its callable is not
delivered once due; and of two recurring timers of equal period that expire in
the same `listExpiredCb` call (both reinserted at `now + period`) only the
first is back in the set. -/
theorem equal_deadline_timer_dropped :
    (timerAt tiedOneShot.heap 0).m_next = (timerAt tiedOneShot.heap 1).m_next ∧
    tiedOneShot.m_timers = [0] ∧
    (listExpiredCb tiedOneShot [] 10000000 10000000 5).map (fun d => (d.cbs, d.tm.m_timers))
      = some ([some 1], []) ∧
    tiedRecurring.m_timers = [0, 1] ∧
    (listExpiredCb tiedRecurring [] 20000000 20000000 5).map (fun d => (d.cbs, d.tm.m_timers))
      = some ([some 1, some 2], [0]) := by
  refine ⟨?_, ?_, ?_, ?_, ?_⟩ <;> decide

/-- The head of a sorted timer set has the earliest deadline. -/
theorem head_earliest {tm : TimerManager} (hs : tm.Sorted) {head : Nat} {rest : List Nat}
    (hl : tm.m_timers = head :: rest) :
    ∀ t ∈ tm.m_timers, (timerAt tm.heap head).m_next ≤ (timerAt tm.heap t).m_next := by
  unfold TimerManager.Sorted at hs
  rw [hl] at hs ⊢
  rw [List.pairwise_cons] at hs
  intro t ht
  rcases List.mem_cons.mp ht with h1 | h1
  · rw [h1]
  · exact le_of_lt (hs.1 t h1)

/-- C10: on a sorted timer set, with 64-bit tick counts, `getNextTimer` returns
`~0ull = 2^64 - 1` when the set is empty, `0` when the earliest deadline is not
after `now`, and otherwise the earliest deadline minus `now` in whole
milliseconds, rounded down. -/
theorem getNextTimer_result (tm : TimerManager) (now : Int) (hs : tm.Sorted)
    (hnow : -(2 : Int) ^ 63 ≤ now)
    (hticks : ∀ t ∈ tm.m_timers, (timerAt tm.heap t).m_next < (2 : Int) ^ 63) :
    (tm.m_timers = [] → (getNextTimer tm now).1 = 2 ^ 64 - 1) ∧
    (∀ e ∈ tm.m_timers,
      (∀ t ∈ tm.m_timers, (timerAt tm.heap e).m_next ≤ (timerAt tm.heap t).m_next) →
      ((timerAt tm.heap e).m_next ≤ now → (getNextTimer tm now).1 = 0) ∧
      (now < (timerAt tm.heap e).m_next →
        (((getNextTimer tm now).1 : Nat) : Int)
          = ((timerAt tm.heap e).m_next - now) / 1000000)) := by
  constructor
  · intro he
    simp [getNextTimer, he]
  · intro e he hmin
    cases hl : tm.m_timers with
    | nil => rw [hl] at he; simp at he
    | cons head rest =>
      have hhead : head ∈ tm.m_timers := by rw [hl]; exact List.mem_cons_self _ _
      have heq : (timerAt tm.heap e).m_next = (timerAt tm.heap head).m_next :=
        le_antisymm (hmin head hhead) (head_earliest hs hl e he)
      have hlt63 := hticks head hhead
      rw [heq]
      unfold getNextTimer
      simp only [hl]
      constructor
      · intro hdue
        rw [if_pos hdue]
      · intro hfut
        rw [if_neg (not_le.mpr hfut)]
        have hpos : 0 ≤ (timerAt tm.heap head).m_next - now := by omega
        have hq : ((timerAt tm.heap head).m_next - now).tdiv 1000000
            = ((timerAt tm.heap head).m_next - now) / 1000000 :=
          Int.tdiv_eq_ediv hpos (by decide)
        have hq0 : 0 ≤ ((timerAt tm.heap head).m_next - now) / 1000000 :=
          Int.ediv_nonneg hpos (by decide)
        have hq1 : ((timerAt tm.heap head).m_next - now) / 1000000 < 2 ^ 64 := by
          apply Int.ediv_lt_of_lt_mul (by decide)
          omega
        simp only [hq]
        have h3 : (((timerAt tm.heap head).m_next - now) / 1000000).toNat < 2 ^ 64 := by
          rw [Int.toNat_lt hq0]
          exact_mod_cast hq1
        rw [Nat.mod_eq_of_lt h3, Int.toNat_of_nonneg hq0]

/-- C10 at `sampleTimers`, whose deadlines are 5 ms (timer 1) and 7 ms (timer 0),
at the clock value 1.5 ms: the result is 3. -/
theorem getNextTimer_result_witness :
    sampleTimers.Sorted ∧ -(2 : Int) ^ 63 ≤ 1500000 ∧
    (∀ t ∈ sampleTimers.m_timers, (timerAt sampleTimers.heap t).m_next < (2 : Int) ^ 63) ∧
    ((sampleTimers.m_timers = [] → (getNextTimer sampleTimers 1500000).1 = 2 ^ 64 - 1) ∧
     (∀ e ∈ sampleTimers.m_timers,
      (∀ t ∈ sampleTimers.m_timers,
        (timerAt sampleTimers.heap e).m_next ≤ (timerAt sampleTimers.heap t).m_next) →
      ((timerAt sampleTimers.heap e).m_next ≤ 1500000 →
        (getNextTimer sampleTimers 1500000).1 = 0) ∧
      (1500000 < (timerAt sampleTimers.heap e).m_next →
        (((getNextTimer sampleTimers 1500000).1 : Nat) : Int)
          = ((timerAt sampleTimers.heap e).m_next - 1500000) / 1000000))) ∧
    (getNextTimer sampleTimers 1500000).1 = 3 ∧
    (getNextTimer sampleTimers 5000000).1 = 0 ∧
    (getNextTimer {} 5000000).1 = 18446744073709551615 :=
  ⟨by decide, by decide, by decide,
    getNextTimer_result sampleTimers 1500000 (by decide) (by decide) (by decide),
    by decide, by decide, by decide⟩

/-! ## The timer set stays sorted -/

theorem sorted_heap_congr_mem {heap heap1 : List Timer} {l : List Nat}
    (hn : ∀ x ∈ l, (timerAt heap1 x).m_next = (timerAt heap x).m_next)
    (hs : l.Pairwise fun a b => (timerAt heap a).m_next < (timerAt heap b).m_next) :
    l.Pairwise fun a b => (timerAt heap1 a).m_next < (timerAt heap1 b).m_next := by
  refine hs.imp_of_mem ?_
  intro a b ha hb hab
  rw [hn a ha, hn b hb]
  exact hab

theorem setInsert_sorted {heap : List Timer} {l : List Nat} (t : Nat)
    (hs : l.Pairwise fun a b => (timerAt heap a).m_next < (timerAt heap b).m_next) :
    (setInsert heap l t).1.Pairwise
      fun a b => (timerAt heap a).m_next < (timerAt heap b).m_next := by
  induction l with
  | nil => simp [setInsert]
  | cons x xs ih =>
    rw [List.pairwise_cons] at hs
    unfold setInsert
    split
    · rename_i htx
      simp only [Comparator, decide_eq_true_eq] at htx
      rw [List.pairwise_cons]
      refine ⟨?_, List.pairwise_cons.mpr hs⟩
      intro a ha
      rcases List.mem_cons.mp ha with h1 | h1
      · rw [h1]; exact htx
      · exact lt_trans htx (hs.1 a h1)
    · split
      · rename_i hxt
        simp only [Comparator, decide_eq_true_eq] at hxt
        simp only []
        rw [List.pairwise_cons]
        refine ⟨?_, ih hs.2⟩
        intro a ha
        rcases mem_setInsert ha with h1 | h1
        · rw [h1]; exact hxt
        · exact hs.1 a h1
      · exact List.pairwise_cons.mpr hs

theorem wf_insert {heap1 : List Timer} {l : List Nat} {t : Nat}
    (hl : l.Pairwise fun a b => (timerAt heap1 a).m_next < (timerAt heap1 b).m_next)
    (hv : ∀ x ∈ l, x < heap1.length) (ht : t < heap1.length) (tm1 : TimerManager)
    (h1 : tm1.heap = heap1) (h2 : tm1.m_timers = (setInsert heap1 l t).1) :
    tm1.WellFormed := by
  unfold TimerManager.WellFormed TimerManager.Sorted
  rw [h1, h2]
  refine ⟨setInsert_sorted t hl, ?_⟩
  intro x hx
  rcases mem_setInsert hx with h3 | h3
  · rw [h3]; exact ht
  · exact hv x h3

theorem wf_addTimerPtr {tm : TimerManager} {t : Nat} (h : tm.WellFormed)
    (ht : t < tm.heap.length) : (addTimerPtr tm t).WellFormed := by
  unfold addTimerPtr
  simp only []
  split <;> exact wf_insert h.1 h.2 ht _ rfl rfl

/-- Erasing the element `find` returned and then changing the deadline of `t`
leaves a sorted set that does not hold `t`. -/
theorem sorted_erase_set {tm : TimerManager} {t it : Nat} {v : Timer} (h : tm.WellFormed)
    (hfind : setFind tm.heap tm.m_timers t = some it) :
    ((tm.m_timers.erase it).Pairwise fun a b =>
      (timerAt (tm.heap.set t v) a).m_next < (timerAt (tm.heap.set t v) b).m_next) ∧
    ∀ x ∈ tm.m_timers.erase it, x < (tm.heap.set t v).length := by
  have hnot : t ∉ tm.m_timers.erase it := by
    intro hm
    have hmem : t ∈ tm.m_timers := List.mem_of_mem_erase hm
    have hself := setFind_self h.1 hmem
    rw [hself] at hfind
    simp only [Option.some.injEq] at hfind
    subst hfind
    exact ((nodup_of_sorted h.1).mem_erase_iff.mp hm).1 rfl
  constructor
  · refine sorted_heap_congr_mem ?_ (List.Pairwise.erase it h.1)
    intro x hx
    rw [timerAt_set, if_neg]
    rintro ⟨hh, _⟩
    subst hh
    exact hnot hx
  · intro x hx
    rw [List.length_set]
    exact h.2 x (List.mem_of_mem_erase hx)

theorem wf_cancel {tm tm1 : TimerManager} {t : Nat} {r : Bool} (h : tm.WellFormed)
    (hc : Timer.cancel tm t = some (r, tm1)) : tm1.WellFormed := by
  unfold Timer.cancel at hc
  cases hx : tm.heap[t]? with
  | none => simp [hx] at hc
  | some self =>
    simp only [hx] at hc
    split at hc
    · simp only [Option.some.injEq, Prod.mk.injEq] at hc
      rw [← hc.2]; exact h
    · have hn : ∀ x, (timerAt (tm.heap.set t { self with m_cb := none }) x).m_next
          = (timerAt tm.heap x).m_next := by
        intro x
        rw [timerAt_set]
        split
        · rename_i hh
          rw [hh.1, timerAt_of_getElem? hx]
        · rfl
      have hs1 := sorted_heap_congr hn h.1
      split at hc
      · simp only [Option.some.injEq, Prod.mk.injEq] at hc
        rw [← hc.2]
        refine ⟨List.Pairwise.erase _ hs1, ?_⟩
        intro x hm
        simp only [List.length_set]
        exact h.2 x (List.mem_of_mem_erase hm)
      · simp only [Option.some.injEq, Prod.mk.injEq] at hc
        rw [← hc.2]
        refine ⟨hs1, ?_⟩
        intro x hm
        simp only [List.length_set]
        exact h.2 x hm

theorem wf_refresh {tm tm1 : TimerManager} {t : Nat} {now : Int} {r : Bool}
    (h : tm.WellFormed) (hc : Timer.refresh tm t now = some (r, tm1)) : tm1.WellFormed := by
  unfold Timer.refresh at hc
  cases hx : tm.heap[t]? with
  | none => simp [hx] at hc
  | some self =>
    simp only [hx] at hc
    have hlt := lt_of_getElem? hx
    split at hc
    · simp only [Option.some.injEq, Prod.mk.injEq] at hc
      rw [← hc.2]; exact h
    · split at hc
      · simp only [Option.some.injEq, Prod.mk.injEq] at hc
        rw [← hc.2]; exact h
      · rename_i it hfind
        simp only [Option.some.injEq, Prod.mk.injEq] at hc
        rw [← hc.2]
        obtain ⟨a1, a2⟩ := sorted_erase_set
          (v := { self with m_next := now + msToTicks self.m_ms }) h hfind
        exact wf_insert a1 a2 (by rw [List.length_set]; exact hlt) _ rfl rfl

theorem wf_reset {tm tm1 : TimerManager} {t ms : Nat} {from_now : Bool} {now : Int} {r : Bool}
    (h : tm.WellFormed) (hc : Timer.reset tm t ms from_now now = some (r, tm1)) :
    tm1.WellFormed := by
  unfold Timer.reset at hc
  cases hx : tm.heap[t]? with
  | none => simp [hx] at hc
  | some self =>
    simp only [hx] at hc
    have hlt := lt_of_getElem? hx
    split at hc
    · simp only [Option.some.injEq, Prod.mk.injEq] at hc
      rw [← hc.2]; exact h
    · split at hc
      · simp only [Option.some.injEq, Prod.mk.injEq] at hc
        rw [← hc.2]; exact h
      · split at hc
        · simp only [Option.some.injEq, Prod.mk.injEq] at hc
          rw [← hc.2]; exact h
        · rename_i it hfind
          simp only [Option.some.injEq, Prod.mk.injEq] at hc
          rw [← hc.2]
          obtain ⟨a1, a2⟩ := sorted_erase_set
            (v := { self with
              m_ms := ms
              m_next := (if from_now = true then now else self.m_next - msToTicks self.m_ms)
                + msToTicks ms }) h hfind
          apply wf_addTimerPtr
          · exact ⟨a1, a2⟩
          · show t < (tm.heap.set t _).length
            rw [List.length_set]; exact hlt

theorem wf_addTimer {tm : TimerManager} {ms : Nat} {cb : Option Nat} {recurring : Bool}
    {now : Int} (h : tm.WellFormed) : (addTimer tm ms cb recurring now).2.WellFormed := by
  unfold addTimer
  simp only []
  generalize ({ m_recurring := recurring, m_ms := ms, m_next := now + msToTicks ms,
                m_cb := cb } : Timer) = obj
  apply wf_addTimerPtr
  · constructor
    · refine sorted_heap_congr_mem ?_ h.1
      intro x hx
      show (timerAt (tm.heap ++ [obj]) x).m_next = _
      rw [timerAt_append_left _ (h.2 x hx)]
    · intro x hx
      show x < (tm.heap ++ [obj]).length
      have := h.2 x hx
      simp only [List.length_append, List.length_singleton]
      omega
  · show tm.heap.length < (tm.heap ++ [obj]).length
    simp

theorem wf_getNextTimer {tm : TimerManager} {now : Int} (h : tm.WellFormed) :
    (getNextTimer tm now).2.WellFormed := by
  unfold getNextTimer
  simp only []
  split
  · exact h
  · split <;> exact h

theorem wf_expireStep {now : Int} {rollover : Bool} {d d1 : Drain} (h : d.tm.WellFormed)
    (hs : expireStep now rollover d = some d1) : d1.tm.WellFormed := by
  unfold expireStep at hs
  split at hs
  · simp at hs
  · rename_i head rest hl
    have hsorted := h.1
    unfold TimerManager.Sorted at hsorted
    rw [hl, List.pairwise_cons] at hsorted
    have hnot : head ∉ rest := fun hm => lt_irrefl _ (hsorted.1 head hm)
    have hvalid : ∀ x ∈ rest, x < d.tm.heap.length :=
      fun x hx => h.2 x (by rw [hl]; exact List.mem_cons_of_mem _ hx)
    have hhead : head < d.tm.heap.length := h.2 head (by rw [hl]; exact List.mem_cons_self _ _)
    have hrest : ∀ v : Timer, rest.Pairwise fun a b =>
        (timerAt (d.tm.heap.set head v) a).m_next < (timerAt (d.tm.heap.set head v) b).m_next := by
      intro v
      refine sorted_heap_congr_mem ?_ hsorted.2
      intro x hx
      rw [timerAt_set, if_neg]
      rintro ⟨hh, _⟩
      subst hh
      exact hnot hx
    split at hs
    · simp only [] at hs
      split at hs
      · simp only [Option.some.injEq] at hs
        rw [← hs]
        exact wf_insert (hrest _)
          (fun x hx => by rw [List.length_set]; exact hvalid x hx)
          (by rw [List.length_set]; exact hhead) _ rfl rfl
      · simp only [Option.some.injEq] at hs
        rw [← hs]
        exact ⟨hrest _, fun x hx => by
          show x < (d.tm.heap.set head _).length
          rw [List.length_set]; exact hvalid x hx⟩
    · simp at hs

theorem wf_expireIter {now : Int} {rollover : Bool} (n : Nat) {d : Drain}
    (h : d.tm.WellFormed) : (expireIter now rollover n d).tm.WellFormed := by
  induction n generalizing d with
  | zero => exact h
  | succ n ih =>
    unfold expireIter
    cases hs : expireStep now rollover d with
    | none => exact h
    | some d1 => exact ih (wf_expireStep h hs)

theorem wf_timerStep {tm tm1 : TimerManager} {op : TimerOp} {f : List Nat}
    (hw : tm.WellFormed) (h : timerStep tm op = some (tm1, f)) : tm1.WellFormed := by
  cases op with
  | addTimer ms cb recurring now =>
    simp only [timerStep, Option.some.injEq, Prod.mk.injEq] at h
    rw [← h.1]
    exact wf_addTimer hw
  | cancel x =>
    simp only [timerStep, Option.map_eq_some', Prod.mk.injEq] at h
    obtain ⟨r, hr, h1, _⟩ := h
    rw [← h1]
    exact wf_cancel hw (r := r.1) hr
  | refresh x now =>
    simp only [timerStep, Option.map_eq_some', Prod.mk.injEq] at h
    obtain ⟨r, hr, h1, _⟩ := h
    rw [← h1]
    exact wf_refresh hw (r := r.1) hr
  | reset x ms from_now now =>
    simp only [timerStep, Option.map_eq_some', Prod.mk.injEq] at h
    obtain ⟨r, hr, h1, _⟩ := h
    rw [← h1]
    exact wf_reset hw (r := r.1) hr
  | getNextTimer now =>
    simp only [timerStep, Option.some.injEq, Prod.mk.injEq] at h
    rw [← h.1]
    exact wf_getNextTimer hw
  | listExpiredCb now now1 n =>
    simp only [timerStep, Option.some.injEq, Prod.mk.injEq] at h
    rw [← h.1]
    exact wf_expireIter n (d := drainStart tm [] now1) hw

/-- Every timer set reached from a well-formed one (for instance the empty one
of the constructor) is sorted and holds only constructed timers. -/
theorem wf_timerRun {tm tm1 : TimerManager} (ops : List TimerOp) {f : List Nat}
    (hw : tm.WellFormed) (h : timerRun tm ops = some (tm1, f)) : tm1.WellFormed := by
  induction ops generalizing tm tm1 f with
  | nil =>
    simp only [timerRun, Option.some.injEq, Prod.mk.injEq] at h
    rw [← h.1]; exact hw
  | cons op ops ih =>
    unfold timerRun at h
    cases hs : timerStep tm op with
    | none => simp [hs] at h
    | some r1 =>
      obtain ⟨tm2, f1⟩ := r1
      simp only [hs] at h
      cases hr : timerRun tm2 ops with
      | none => simp [hr] at h
      | some r2 =>
        obtain ⟨tm3, f2⟩ := r2
        simp only [hr, Option.some.injEq, Prod.mk.injEq] at h
        rw [← h.1]
        exact ih (wf_timerStep hw hs) hr

theorem wf_empty (t0 : Int) : ({ m_previouseTime := t0 } : TimerManager).WellFormed :=
  ⟨List.Pairwise.nil, fun _ hx => absurd hx (List.not_mem_nil _)⟩

/-! ## The next timeout as the clock advances -/

theorem getNextTimer_cons {tm : TimerManager} {head : Nat} {rest : List Nat} (now : Int)
    (hl : tm.m_timers = head :: rest) :
    (getNextTimer tm now).1
      = if now ≥ (timerAt tm.heap head).m_next then 0
        else (((timerAt tm.heap head).m_next - now).tdiv 1000000).toNat % 2 ^ 64 := by
  unfold getNextTimer
  simp only [hl]
  split <;> rfl

/-- The value `getNextTimer` returns while the head is not yet due, for 64-bit
tick counts. -/
theorem getNextTimer_future {tm : TimerManager} {head : Nat} {rest : List Nat} {now : Int}
    (hl : tm.m_timers = head :: rest) (hnow : -(2 : Int) ^ 63 ≤ now)
    (hhead : (timerAt tm.heap head).m_next < (2 : Int) ^ 63)
    (hfut : now < (timerAt tm.heap head).m_next) :
    (((getNextTimer tm now).1 : Nat) : Int) = ((timerAt tm.heap head).m_next - now) / 1000000 ∧
    (getNextTimer tm now).1 < 2 ^ 64 - 1 := by
  rw [getNextTimer_cons now hl, if_neg (not_le.mpr hfut)]
  have hpos : 0 ≤ (timerAt tm.heap head).m_next - now := by omega
  have hq : ((timerAt tm.heap head).m_next - now).tdiv 1000000
      = ((timerAt tm.heap head).m_next - now) / 1000000 :=
    Int.tdiv_eq_ediv hpos (by decide)
  have hq0 : 0 ≤ ((timerAt tm.heap head).m_next - now) / 1000000 :=
    Int.ediv_nonneg hpos (by decide)
  have hq1 : ((timerAt tm.heap head).m_next - now) / 1000000 < 2 ^ 64 - 1 := by
    apply Int.ediv_lt_of_lt_mul (by decide)
    omega
  rw [hq]
  have h3 : (((timerAt tm.heap head).m_next - now) / 1000000).toNat < 2 ^ 64 - 1 := by
    rw [Int.toNat_lt hq0]
    exact_mod_cast hq1
  rw [Nat.mod_eq_of_lt (by omega), Int.toNat_of_nonneg hq0]
  exact ⟨rfl, h3⟩

/-- C11: with the timer set held fixed and 64-bit tick counts, `getNextTimer`
does not increase as the clock advances, and it is `0` whenever the head
timer's deadline is not after the clock value. -/
theorem getNextTimer_antitone (tm : TimerManager) (now1 now2 : Int) (h12 : now1 ≤ now2)
    (hnow : -(2 : Int) ^ 63 ≤ now1)
    (hticks : ∀ t ∈ tm.m_timers, (timerAt tm.heap t).m_next < (2 : Int) ^ 63) :
    (getNextTimer tm now2).1 ≤ (getNextTimer tm now1).1 ∧
    (∀ now head rest, tm.m_timers = head :: rest → (timerAt tm.heap head).m_next ≤ now →
      (getNextTimer tm now).1 = 0) := by
  constructor
  · cases hl : tm.m_timers with
    | nil => simp [getNextTimer, hl]
    | cons head rest =>
      have hhead := hticks head (by rw [hl]; exact List.mem_cons_self _ _)
      by_cases hdue : (timerAt tm.heap head).m_next ≤ now2
      · rw [getNextTimer_cons now2 hl, if_pos hdue]
        exact Nat.zero_le _
      · have hf2 : now2 < (timerAt tm.heap head).m_next := not_le.mp hdue
        have hf1 : now1 < (timerAt tm.heap head).m_next := lt_of_le_of_lt h12 hf2
        have e1 := (getNextTimer_future hl hnow hhead hf1).1
        have e2 := (getNextTimer_future hl (le_trans hnow h12) hhead hf2).1
        have hle : ((timerAt tm.heap head).m_next - now2) / 1000000
            ≤ ((timerAt tm.heap head).m_next - now1) / 1000000 :=
          Int.ediv_le_ediv (by decide) (by omega)
        have : (((getNextTimer tm now2).1 : Nat) : Int) ≤ (((getNextTimer tm now1).1 : Nat) : Int) := by
          rw [e1, e2]; exact hle
        exact_mod_cast this
  · intro now head rest hl hdue
    rw [getNextTimer_cons now hl, if_pos hdue]

/-- C11 at `sampleTimers` (head deadline 5 ms): the values at 1.5 ms and 4.2 ms. -/
theorem getNextTimer_antitone_witness :
    (1500000 : Int) ≤ 4200000 ∧ -(2 : Int) ^ 63 ≤ 1500000 ∧
    (∀ t ∈ sampleTimers.m_timers, (timerAt sampleTimers.heap t).m_next < (2 : Int) ^ 63) ∧
    ((getNextTimer sampleTimers 4200000).1 ≤ (getNextTimer sampleTimers 1500000).1 ∧
     (∀ now head rest, sampleTimers.m_timers = head :: rest →
       (timerAt sampleTimers.heap head).m_next ≤ now → (getNextTimer sampleTimers now).1 = 0)) ∧
    (getNextTimer sampleTimers 4200000).1 = 0 ∧ (getNextTimer sampleTimers 1500000).1 = 3 :=
  ⟨by decide, by decide, by decide,
    getNextTimer_antitone sampleTimers 1500000 4200000 (by decide) (by decide) (by decide),
    by decide, by decide⟩

/-! ## A rollover flush with a recurring timer -/

theorem mixedTimers_step (d : Drain) (hd : d.tm = mixedTimersFlushing) :
    expireStep rolledBackNow true d
      = some { tm := mixedTimersFlushing, cbs := d.cbs ++ [some 1], fired := d.fired ++ [0] } := by
  have h1 : d.tm.m_timers = [0, 1] := by rw [hd]; rfl
  have h2 : timerAt d.tm.heap 0
      = { m_recurring := true, m_ms := 5, m_next := -3999995000000, m_cb := some 1 } := by
    rw [hd]; decide
  have h3 : d.tm.heap.set 0
      { m_recurring := true, m_ms := 5, m_next := rolledBackNow + msToTicks 5, m_cb := some 1 }
      = mixedTimersFlushing.heap := by
    rw [hd]; decide
  have h4 : (setInsert mixedTimersFlushing.heap [1] 0).1 = [0, 1] := by decide
  have h5 : ({ d.tm with heap := mixedTimersFlushing.heap, m_timers := [0, 1] } : TimerManager)
      = mixedTimersFlushing := by
    rw [hd]; decide
  unfold expireStep
  simp only [h1, h2, true_or, ↓reduceIte, h3, h4, h5]

theorem mixedTimers_iter (n : Nat) (d : Drain) (hd : d.tm = mixedTimersFlushing) :
    (expireIter rolledBackNow true n d).tm = mixedTimersFlushing ∧
    (expireIter rolledBackNow true n d).fired = d.fired ++ List.replicate n 0 := by
  induction n generalizing d with
  | zero => exact ⟨hd, by simp [expireIter]⟩
  | succ n ih =>
    unfold expireIter
    rw [mixedTimers_step d hd]
    obtain ⟨h1, h2⟩ := ih { tm := mixedTimersFlushing, cbs := d.cbs ++ [some 1],
                            fired := d.fired ++ [0] } rfl
    refine ⟨h1, ?_⟩
    rw [h2]
    simp [List.replicate_succ]

set_option maxRecDepth 8000 in
theorem mixedTimers_first :
    expireStep rolledBackNow true (drainStart mixedTimers [] rolledBackNow)
      = some { tm := mixedTimersFlushing, cbs := [some 1], fired := [0] } := by
  decide

/-- C12: the rollover is detected at `rolledBackNow` and recorded, but with the
recurring timer 0 in the set the loop of `listExpiredCb` pops and reinserts
timer 0 in every iteration: after any number of iterations only timer 0 has
been appended, the one-shot timer 1 never is, and `listExpiredCb` returns for
no amount of fuel. -/
theorem rollover_flush_never_ends :
    (detectClockRollover mixedTimers rolledBackNow).1 = true ∧
    (detectClockRollover mixedTimers rolledBackNow).2.m_previouseTime = rolledBackNow ∧
    mixedTimers.m_timers = [0, 1] ∧
    (∀ n, (expireIter rolledBackNow true n (drainStart mixedTimers [] rolledBackNow)).fired
      = List.replicate n 0) ∧
    (∀ fuel, listExpiredCb mixedTimers [] rolledBackNow rolledBackNow fuel = none) := by
  have hiter : ∀ n, (expireIter rolledBackNow true n
      (drainStart mixedTimers [] rolledBackNow)).fired = List.replicate n 0 ∧
      (expireStep rolledBackNow true (expireIter rolledBackNow true n
        (drainStart mixedTimers [] rolledBackNow))).isNone = false := by
    intro n
    cases n with
    | zero =>
      refine ⟨rfl, ?_⟩
      show (expireStep rolledBackNow true (drainStart mixedTimers [] rolledBackNow)).isNone = false
      rw [mixedTimers_first]
      rfl
    | succ n =>
      have hunf : expireIter rolledBackNow true (n + 1) (drainStart mixedTimers [] rolledBackNow)
          = expireIter rolledBackNow true n
              { tm := mixedTimersFlushing, cbs := [some 1], fired := [0] } := by
        rw [expireIter, mixedTimers_first]
      rw [hunf]
      obtain ⟨h1, h2⟩ := mixedTimers_iter n
        { tm := mixedTimersFlushing, cbs := [some 1], fired := [0] } rfl
      refine ⟨?_, ?_⟩
      · rw [h2]
        simp [List.replicate_succ]
      · rw [mixedTimers_step _ h1]
        rfl
  refine ⟨by decide, by decide, by decide, fun n => (hiter n).1, ?_⟩
  intro fuel
  unfold listExpiredCb
  have hroll : (detectClockRollover mixedTimers rolledBackNow).1 = true := by decide
  simp only [hroll]
  rw [(hiter fuel).2]
  rfl

/-- With a rollover and no recurring timer in the set, the loop of
`listExpiredCb` appends the callable of every timer, in set order, whatever the
deadlines, and empties the set. -/
theorem flush_oneshot (now : Int) (l : List Nat) :
    ∀ d : Drain, d.tm.m_timers = l → l.Nodup →
      (∀ t ∈ l, (timerAt d.tm.heap t).m_recurring = false) →
      (expireIter now true l.length d).tm.m_timers = [] ∧
      (expireIter now true l.length d).cbs
        = d.cbs ++ l.map (fun t => (timerAt d.tm.heap t).m_cb) ∧
      (expireIter now true l.length d).tm.m_previouseTime = d.tm.m_previouseTime := by
  induction l with
  | nil =>
    intro d hl _ _
    simp [expireIter, hl]
  | cons head rest ih =>
    intro d hl hnd hone
    have hrec : (timerAt d.tm.heap head).m_recurring = false :=
      hone head (List.mem_cons_self _ _)
    obtain ⟨d1, hd1⟩ : ∃ d1 : Drain, d1 =
        { tm := { d.tm with
            heap := d.tm.heap.set head { timerAt d.tm.heap head with m_cb := none },
            m_timers := rest },
          cbs := d.cbs ++ [(timerAt d.tm.heap head).m_cb],
          fired := d.fired ++ [head] } := ⟨_, rfl⟩
    have hstep : expireStep now true d = some d1 := by
      unfold expireStep
      simp only [hl, true_or, ↓reduceIte, hrec, Bool.false_eq_true]
      rw [hd1]
      simp only [hrec]
    have hl1 : d1.tm.m_timers = rest := by rw [hd1]
    have hheap1 : d1.tm.heap
        = d.tm.heap.set head { timerAt d.tm.heap head with m_cb := none } := by rw [hd1]
    have hcbs1 : d1.cbs = d.cbs ++ [(timerAt d.tm.heap head).m_cb] := by rw [hd1]
    have hprev1 : d1.tm.m_previouseTime = d.tm.m_previouseTime := by rw [hd1]
    have hne : ∀ t ∈ rest, t ≠ head := by
      intro t ht h
      rw [h] at ht
      exact (List.nodup_cons.mp hnd).1 ht
    have hsame : ∀ t ∈ rest, timerAt d1.tm.heap t = timerAt d.tm.heap t := by
      intro t ht
      rw [hheap1, timerAt_set, if_neg (fun h => hne t ht h.1)]
    have h1 := ih d1 hl1 (List.nodup_cons.mp hnd).2 (by
      intro t ht
      rw [hsame t ht]
      exact hone t (List.mem_cons_of_mem _ ht))
    simp only [List.length_cons, expireIter, hstep]
    refine ⟨h1.1, ?_, by rw [h1.2.2, hprev1]⟩
    rw [h1.2.1, hcbs1]
    simp only [List.map_cons, List.append_assoc, List.singleton_append, List.append_cancel_left_eq,
      List.cons.injEq, true_and]
    apply List.map_congr_left
    intro t ht
    rw [hsame t ht]

/-- A rollover flush of a set without recurring timers: `listExpiredCb` returns
after one iteration per timer, with every callable appended and the new clock
value recorded. -/
theorem rollover_flush_oneshot (tm : TimerManager) (cbs : List (Option Nat)) (now now1 : Int)
    (hroll : (detectClockRollover tm now1).1 = true) (hnd : tm.m_timers.Nodup)
    (hone : ∀ t ∈ tm.m_timers, (timerAt tm.heap t).m_recurring = false) :
    ∃ d, listExpiredCb tm cbs now now1 tm.m_timers.length = some d ∧
      d.cbs = cbs ++ tm.m_timers.map (fun t => (timerAt tm.heap t).m_cb) ∧
      d.tm.m_timers = [] ∧ d.tm.m_previouseTime = now1 := by
  obtain ⟨h1, h2, h3⟩ := flush_oneshot now tm.m_timers (drainStart tm cbs now1) rfl hnd hone
  refine ⟨expireIter now true tm.m_timers.length (drainStart tm cbs now1), ?_, h2, h1, h3⟩
  unfold listExpiredCb
  simp only [hroll]
  have hnone : expireStep now true
      (expireIter now true tm.m_timers.length (drainStart tm cbs now1)) = none := by
    unfold expireStep
    rw [h1]
  rw [hnone]
  rfl

/-! ## `reset` and `refresh` at an equal deadline -/

/-- C13: in `sampleTimers` the live recurring timer 1 (period 5 ms, deadline
5 ms) is in the set, and timer 0 has the deadline 7 ms. `reset(7, false)` on
timer 1 returns `true`, sets its period to 7 and its deadline to
`5 ms - 5 ms + 7 ms = 7 ms`, but `addTimer` does not insert it next to the
equal deadline of timer 0: timer 1 is out of the set, its callable still set. -/
theorem reset_drops_timer_at_equal_deadline :
    sampleTimers.m_timers = [1, 0] ∧
    (timerAt sampleTimers.heap 1).m_cb = some 2 ∧
    (timerAt sampleTimers.heap 1).m_next = 5000000 ∧
    (timerAt sampleTimers.heap 0).m_next = 7000000 ∧
    (Timer.reset sampleTimers 1 7 false 100).map
        (fun r => (r.1, r.2.m_timers, timerAt r.2.heap 1))
      = some (true, [0],
          { m_recurring := true, m_ms := 7, m_next := 7000000, m_cb := some 2 }) := by
  refine ⟨?_, ?_, ?_, ?_, ?_⟩ <;> decide

/-- C14: in `tiedOneShot` timer 1 is not in the set (it was never inserted
next to the equal deadline of timer 0) and its callable is set. `refresh()` on
timer 1 does not return `false`: `find` returns timer 0, which is erased from
the set, and timer 1 is inserted with the deadline `now + 5 ms`. -/
theorem refresh_of_absent_timer_erases_other :
    tiedOneShot.m_timers = [0] ∧
    (timerAt tiedOneShot.heap 1).m_cb = some 2 ∧
    (Timer.refresh tiedOneShot 1 1000000).map
        (fun r => (r.1, r.2.m_timers, (timerAt r.2.heap 1).m_next))
      = some (true, [1], 6000000) := by
  refine ⟨?_, ?_, ?_⟩ <;> decide

/-! ## What `reset` and `refresh` do to the timer itself -/

/-- On a live timer of a well-formed set, `refresh` returns `true` and sets the
deadline to `now + period`; the period is unchanged. With a clock that is not
before `deadline - period`, the deadline does not move back. -/
theorem refresh_live (tm : TimerManager) (t : Nat) (now : Int) (h : tm.WellFormed)
    (ht : t ∈ tm.m_timers) (hcb : (timerAt tm.heap t).m_cb ≠ none) :
    ∃ tm1, Timer.refresh tm t now = some (true, tm1) ∧
      (timerAt tm1.heap t).m_next = now + msToTicks (timerAt tm.heap t).m_ms ∧
      (timerAt tm1.heap t).m_ms = (timerAt tm.heap t).m_ms ∧
      ((timerAt tm.heap t).m_next - msToTicks (timerAt tm.heap t).m_ms ≤ now →
        (timerAt tm.heap t).m_next ≤ (timerAt tm1.heap t).m_next) := by
  have hlt : t < tm.heap.length := h.2 t ht
  have hfind := setFind_self h.1 ht
  unfold Timer.refresh
  rw [getElem?_of_lt hlt]
  simp only [if_neg hcb, hfind]
  refine ⟨_, rfl, ?_, ?_, ?_⟩
  · simp [timerAt_set, hlt]
  · simp [timerAt_set, hlt]
  · intro hle
    simp only [timerAt_set, hlt, and_self, ↓reduceIte]
    omega

/-- A timer whose callable is null is not refreshed: `refresh` returns `false`
and changes nothing. -/
theorem refresh_null (tm : TimerManager) (t : Nat) (now : Int) (hlt : t < tm.heap.length)
    (hcb : (timerAt tm.heap t).m_cb = none) : Timer.refresh tm t now = some (false, tm) := by
  unfold Timer.refresh
  rw [getElem?_of_lt hlt]
  simp only [if_pos hcb]

/-- On a live timer of a well-formed set, `reset` returns `true`, sets the
period to `ms`, and sets the deadline to `now + ms` (with `from_now`) or to
`deadline - old period + ms` (without). -/
theorem reset_live (tm : TimerManager) (t ms : Nat) (from_now : Bool) (now : Int)
    (h : tm.WellFormed) (ht : t ∈ tm.m_timers) (hcb : (timerAt tm.heap t).m_cb ≠ none) :
    ∃ tm1, Timer.reset tm t ms from_now now = some (true, tm1) ∧
      (timerAt tm1.heap t).m_ms = ms ∧
      (timerAt tm1.heap t).m_next =
        (if from_now = true then now + msToTicks ms
         else (timerAt tm.heap t).m_next - msToTicks (timerAt tm.heap t).m_ms + msToTicks ms) := by
  have hlt : t < tm.heap.length := h.2 t ht
  have hfind := setFind_self h.1 ht
  unfold Timer.reset
  rw [getElem?_of_lt hlt]
  by_cases hsame : ms = (timerAt tm.heap t).m_ms ∧ from_now = false
  · simp only [if_pos hsame]
    refine ⟨tm, rfl, hsame.1.symm, ?_⟩
    rw [hsame.2, hsame.1]
    simp
  · simp only [if_neg hsame, if_neg hcb, hfind]
    have hheap : ∀ (tm0 : TimerManager), (addTimerPtr tm0 t).heap = tm0.heap := by
      intro tm0
      unfold addTimerPtr
      simp only
      split <;> rfl
    refine ⟨_, rfl, ?_, ?_⟩
    · rw [hheap]
      simp [timerAt_set, hlt]
    · rw [hheap]
      cases from_now <;> simp [timerAt_set, hlt]

/-! ## When the I/O manager may stop -/

/-- C15: for 64-bit tick counts, `IOManager::stopping()` is true if and only if
stop was requested (`m_stopping`), the task queue is empty, no worker is active,
the pending-event counter is 0, and the timer set is empty. -/
theorem stopping_iff (sc : Scheduler) (io : IOManager) (tm : TimerManager) (now : Int)
    (hnow : -(2 : Int) ^ 63 ≤ now)
    (hticks : ∀ t ∈ tm.m_timers, (timerAt tm.heap t).m_next < (2 : Int) ^ 63) :
    (IOManager.stopping sc io tm now).1 = true ↔
      (sc.m_stopping = true ∧ sc.m_tasks = [] ∧ sc.m_activeThreadCount = 0 ∧
        io.m_pendingEventCount = 0 ∧ tm.m_timers = []) := by
  have hto : (getNextTimer tm now).1 = 2 ^ 64 - 1 ↔ tm.m_timers = [] := by
    constructor
    · intro h
      cases hl : tm.m_timers with
      | nil => rfl
      | cons head rest =>
        exfalso
        by_cases hdue : (timerAt tm.heap head).m_next ≤ now
        · rw [getNextTimer_cons now hl, if_pos hdue] at h
          exact absurd h (by decide)
        · have hf := (getNextTimer_future hl hnow
            (hticks head (by rw [hl]; exact List.mem_cons_self _ _)) (not_le.mp hdue)).2
          omega
    · intro hl
      simp [getNextTimer, hl]
  simp only [IOManager.stopping, Scheduler.stopping, Bool.and_eq_true, beq_iff_eq,
    List.isEmpty_iff, hto]
  tauto

/-- C15 at a scheduler asked to stop with nothing queued, no event pending and
no timer: `stopping()` is true. -/
theorem stopping_iff_witness :
    -(2 : Int) ^ 63 ≤ 0 ∧
    ((IOManager.stopping { m_stopping := true } (IOManager.init 3) {} 0).1 = true ↔
      ((({ m_stopping := true } : Scheduler).m_stopping = true) ∧
        ({ m_stopping := true } : Scheduler).m_tasks = [] ∧
        ({ m_stopping := true } : Scheduler).m_activeThreadCount = 0 ∧
        (IOManager.init 3).m_pendingEventCount = 0 ∧ ({} : TimerManager).m_timers = [])) :=
  ⟨by decide, stopping_iff { m_stopping := true } (IOManager.init 3) {} 0 (by decide)
    (by intro t ht; cases ht)⟩

/-! ## The fd table -/

theorem toSizeT_of_nonneg {fd : Int} (h : 0 ≤ fd) (h2 : fd < (2 : Int) ^ 31) :
    toSizeT fd = fd.toNat := by
  unfold toSizeT
  have : fd % 2 ^ 64 = fd := Int.emod_eq_of_lt h (by omega)
  rw [this]

theorem toSizeT_inj {a b : Int} (ha : -(2 : Int) ^ 31 ≤ a) (ha2 : a < (2 : Int) ^ 31)
    (hb : -(2 : Int) ^ 31 ≤ b) (hb2 : b < (2 : Int) ^ 31) (h : toSizeT a = toSizeT b) :
    a = b := by
  unfold toSizeT at h
  omega

theorem fdInv_init : FdInv FdManager.init := by
  simp [FdInv, FdManager.init]

theorem lookup_of_le {m : FdManager} {fd : Int} (h : m.m_datas.length ≤ toSizeT fd) :
    m.lookup fd = none := by
  unfold FdManager.lookup
  rw [List.getD_eq_getElem?_getD, List.getElem?_eq_none h]
  rfl

/-- A `get` without `auto_create` returns the stored pointer and leaves the
manager as it is. -/
theorem get_false_eq (m : FdManager) {fd : Int} (hfd : fd ≠ -1) (p : Probe) :
    m.get fd false p = some (m.lookup fd, m) := by
  unfold FdManager.get
  rw [if_neg hfd]
  by_cases hle : m.m_datas.length ≤ toSizeT fd
  · rw [if_pos ⟨hle, rfl⟩, lookup_of_le hle]
  · rw [if_neg (fun h => hle h.1), if_pos ⟨not_le.mp hle, Or.inr rfl⟩]
    rfl

theorem get_minus_one (m : FdManager) (ac : Bool) (p : Probe) :
    m.get (-1) ac p = some (none, m) := by
  unfold FdManager.get
  rw [if_pos rfl]

theorem lookup_set_self {d : List (Option Nat)} {h : List FdCtx} {i : Int}
    {v : Option Nat} (hi : toSizeT i < d.length) :
    ({ heap := h, m_datas := d.set (toSizeT i) v } : FdManager).lookup i = v := by
  unfold FdManager.lookup
  simp [List.getD_eq_getElem?_getD, List.getElem?_set, hi]

theorem lookup_set_other {d : List (Option Nat)} {h : List FdCtx} {i j : Int}
    {v : Option Nat} (hij : toSizeT j ≠ toSizeT i) :
    ({ heap := h, m_datas := d.set (toSizeT i) v } : FdManager).lookup j
      = d.getD (toSizeT j) none := by
  unfold FdManager.lookup
  simp [List.getD_eq_getElem?_getD, List.getElem?_set, Ne.symm hij]

theorem getD_resize {l : List (Option Nat)} {n : Nat} (h : l.length ≤ n) (j : Nat) :
    (resize l n).getD j none = l.getD j none := by
  unfold resize
  rw [List.take_of_length_le h]
  simp only [List.getD_eq_getElem?_getD]
  by_cases hj : j < l.length
  · rw [List.getElem?_append_left hj]
  · rw [List.getElem?_append_right (not_lt.mp hj), List.getElem?_eq_none (not_lt.mp hj)]
    rw [List.getElem?_replicate]
    split <;> rfl

theorem length_resize {l : List (Option Nat)} {n : Nat} (h : l.length ≤ n) :
    (resize l n).length = n := by
  simp only [resize, List.length_append, List.length_take, List.length_replicate]
  omega

/-- A creating `get` on a non-negative fd: it returns a record, which is the
stored one if there is one (the manager is then unchanged) and otherwise a new
object stored for `fd`; no other slot and no existing object changes. -/
theorem get_true_spec (m : FdManager) (hinv : FdInv m) {fd : Int} (h0 : 0 ≤ fd)
    (h31 : fd < (2 : Int) ^ 31) (p : Probe) :
    ∃ r m1, m.get fd true p = some (some r, m1) ∧ m1.lookup fd = some r ∧ FdInv m1 ∧
      (∀ r0, m.lookup fd = some r0 → r = r0 ∧ m1 = m) ∧
      (m.lookup fd = none → r = m.heap.length ∧ fdCtxOf m1 r = FdCtx.create fd p) ∧
      (∀ fd1, toSizeT fd1 ≠ toSizeT fd → m1.lookup fd1 = m.lookup fd1) ∧
      (∀ i, i < m.heap.length → fdCtxOf m1 i = fdCtxOf m i) := by
  have hne : fd ≠ -1 := by omega
  have hsz : toSizeT fd = fd.toNat := toSizeT_of_nonneg h0 h31
  unfold FdManager.get
  rw [if_neg hne, if_neg (fun h => Bool.noConfusion h.2)]
  by_cases hA : toSizeT fd < m.m_datas.length ∧
      ((m.m_datas.getD (toSizeT fd) none).isSome ∨ true = false)
  · rw [if_pos hA]
    have hs : (m.lookup fd).isSome := by
      rcases hA.2 with h | h
      · exact h
      · exact Bool.noConfusion h
    obtain ⟨r, hr⟩ := Option.isSome_iff_exists.mp hs
    refine ⟨r, m, ?_, hr, hinv, ?_, ?_, fun _ _ => rfl, fun _ _ => rfl⟩
    · show some (m.lookup fd, m) = _
      rw [hr]
    · intro r0 h
      rw [hr] at h
      exact ⟨Option.some.inj h, rfl⟩
    · intro h
      rw [hr] at h
      exact Option.noConfusion h
  · rw [if_neg hA]
    by_cases hle : m.m_datas.length ≤ toSizeT fd
    · have hnone : m.lookup fd = none := lookup_of_le hle
      have hlen : m.m_datas.length ≤ fd.toNat * 3 / 2 := by
        rw [hsz] at hle
        omega
      have hin : toSizeT fd < (resize m.m_datas (fd.toNat * 3 / 2)).length := by
        rw [length_resize hlen, hsz]
        have : 64 ≤ m.m_datas.length := hinv
        rw [hsz] at hle
        omega
      simp only [if_pos hle, if_neg (not_lt.mpr h0), if_pos hin]
      refine ⟨m.heap.length, _, rfl, lookup_set_self hin, ?_, ?_, ?_, ?_, ?_⟩
      · show 64 ≤ ((resize m.m_datas (fd.toNat * 3 / 2)).set _ _).length
        rw [List.length_set, length_resize hlen]
        have : 64 ≤ m.m_datas.length := hinv
        omega
      · intro r0 h
        rw [hnone] at h
        exact Option.noConfusion h
      · intro _
        refine ⟨rfl, ?_⟩
        simp [fdCtxOf]
      · intro fd1 h1
        rw [lookup_set_other h1, getD_resize hlen]
        rfl
      · intro i hi
        simp [fdCtxOf, List.getD_eq_getElem?_getD, List.getElem?_append_left hi]
    · have hlt : toSizeT fd < m.m_datas.length := not_le.mp hle
      have hnone : m.lookup fd = none := by
        cases h : m.lookup fd with
        | none => rfl
        | some v =>
          exfalso
          apply hA
          refine ⟨hlt, Or.inl ?_⟩
          show (m.lookup fd).isSome = true
          rw [h]
          rfl
      simp only [if_neg hle, if_pos hlt]
      refine ⟨m.heap.length, _, rfl, lookup_set_self hlt, ?_, ?_, ?_, ?_, ?_⟩
      · show 64 ≤ (m.m_datas.set _ _).length
        rw [List.length_set]
        exact hinv
      · intro r0 h
        rw [hnone] at h
        exact Option.noConfusion h
      · intro _
        refine ⟨rfl, ?_⟩
        simp [fdCtxOf]
      · intro fd1 h1
        rw [lookup_set_other h1]
        rfl
      · intro i hi
        simp [fdCtxOf, List.getD_eq_getElem?_getD, List.getElem?_append_left hi]

/-- The call `del(fd)` clears the slot of `fd` and nothing else. -/
theorem del_spec (m : FdManager) (hinv : FdInv m) (fd : Int) :
    (m.del fd).lookup fd = none ∧ FdInv (m.del fd) ∧
      (∀ fd1, toSizeT fd1 ≠ toSizeT fd → (m.del fd).lookup fd1 = m.lookup fd1) ∧
      (m.del fd).heap = m.heap := by
  unfold FdManager.del
  by_cases hle : m.m_datas.length ≤ toSizeT fd
  · rw [if_pos hle]
    exact ⟨lookup_of_le hle, hinv, fun _ _ => rfl, rfl⟩
  · rw [if_neg hle]
    refine ⟨lookup_set_self (not_le.mp hle), ?_, ?_, rfl⟩
    · show 64 ≤ (m.m_datas.set _ _).length
      rw [List.length_set]
      exact hinv
    · intro fd1 h1
      rw [lookup_set_other h1]
      rfl

/-- One call in range on a table with the invariant: it returns, keeps the
invariant, leaves the slot of every other fd and every existing object as it
is. -/
theorem fdStep_spec (m : FdManager) (hinv : FdInv m) (op : FdOp) (hop : op.InRange) :
    ∃ m1, fdStep m op = some m1 ∧ FdInv m1 ∧
      (∀ fd1, -(2 : Int) ^ 31 ≤ fd1 → fd1 < (2 : Int) ^ 31 → fd1 ≠ op.fd →
        m1.lookup fd1 = m.lookup fd1) ∧
      (∀ i, i < m.heap.length → fdCtxOf m1 i = fdCtxOf m i) := by
  obtain ⟨hlo, hhi, hcr⟩ := hop
  cases op with
  | get fd ac p =>
    by_cases hm : fd = -1
    · subst hm
      refine ⟨m, ?_, hinv, fun _ _ _ _ => rfl, fun _ _ => rfl⟩
      simp [fdStep, get_minus_one]
    · cases ac with
      | false =>
        refine ⟨m, ?_, hinv, fun _ _ _ _ => rfl, fun _ _ => rfl⟩
        simp [fdStep, get_false_eq m hm]
      | true =>
        have h0 : 0 ≤ fd := by
          have : -1 ≤ fd := hcr rfl
          omega
        obtain ⟨r, m1, hget, _, hinv1, _, _, hframe, hheap⟩ := get_true_spec m hinv h0 hhi p
        refine ⟨m1, ?_, hinv1, ?_, hheap⟩
        · simp [fdStep, hget]
        · intro fd1 h1 h2 hne
          exact hframe fd1 (fun h => hne (toSizeT_inj h1 h2 hlo hhi h))
  | del fd =>
    obtain ⟨_, hinv1, hframe, hheap⟩ := del_spec m hinv fd
    refine ⟨m.del fd, rfl, hinv1, ?_, ?_⟩
    · intro fd1 h1 h2 hne
      exact hframe fd1 (fun h => hne (toSizeT_inj h1 h2 hlo hhi h))
    · intro i _
      simp [fdCtxOf, hheap]

theorem fdRun_append (m : FdManager) (a b : List FdOp) :
    fdRun m (a ++ b) = (fdRun m a).bind fun m1 => fdRun m1 b := by
  induction a generalizing m with
  | nil => rfl
  | cons op a ih =>
    simp only [List.cons_append, fdRun]
    cases fdStep m op with
    | none => rfl
    | some m1 => exact ih m1

/-- Every sequence of calls in range returns, and the invariant holds after
it. -/
theorem fdRun_total (m : FdManager) (hinv : FdInv m) (ops : List FdOp)
    (hops : ∀ op ∈ ops, op.InRange) : ∃ m1, fdRun m ops = some m1 ∧ FdInv m1 := by
  induction ops generalizing m with
  | nil => exact ⟨m, rfl, hinv⟩
  | cons op ops ih =>
    obtain ⟨m1, hstep, hinv1, _, _⟩ := fdStep_spec m hinv op (hops op (List.mem_cons_self _ _))
    obtain ⟨m2, hrun, hinv2⟩ := ih m1 hinv1 (fun o ho => hops o (List.mem_cons_of_mem _ ho))
    exact ⟨m2, by simp [fdRun, hstep, hrun], hinv2⟩

/-- A stored record stays the stored record while no `del(fd)` is called. -/
theorem lookup_kept {fd : Int} (hlo : 0 ≤ fd) (hhi : fd < (2 : Int) ^ 31) {r : Nat}
    (post : List FdOp) (hops : ∀ op ∈ post, op.InRange) (hdel : FdOp.del fd ∉ post)
    (m : FdManager) (hinv : FdInv m) (hr : m.lookup fd = some r) {m1 : FdManager}
    (hrun : fdRun m post = some m1) : m1.lookup fd = some r := by
  induction post generalizing m with
  | nil =>
    simp only [fdRun, Option.some.injEq] at hrun
    rw [← hrun]
    exact hr
  | cons op post ih =>
    have hop := hops op (List.mem_cons_self _ _)
    obtain ⟨m2, hstep, hinv2, hframe, _⟩ := fdStep_spec m hinv op hop
    simp only [fdRun, hstep, Option.some_bind] at hrun
    refine ih (fun o ho => hops o (List.mem_cons_of_mem _ ho))
      (fun h => hdel (List.mem_cons_of_mem _ h)) m2 hinv2 ?_ hrun
    by_cases hfd : op.fd = fd
    · cases op with
      | del fd1 =>
        exfalso
        apply hdel
        have : fd1 = fd := hfd
        rw [this]
        exact List.mem_cons_self _ _
      | get fd1 ac p =>
        have h1 : fd1 = fd := hfd
        subst h1
        have hm : fd1 ≠ -1 := by omega
        cases ac with
        | false =>
          simp only [fdStep, get_false_eq m hm, Option.map_some', Option.some.injEq] at hstep
          rw [← hstep]
          exact hr
        | true =>
          obtain ⟨r1, m3, hget, _, _, hsame, _⟩ := get_true_spec m hinv hlo hhi p
          simp only [fdStep, hget, Option.map_some', Option.some.injEq] at hstep
          rw [← hstep, (hsame r hr).2]
          exact hr
    · rw [hframe fd (by omega) hhi (fun h => hfd h.symm)]
      exact hr

theorem split_snoc {l pre post : List FdOp} {a g : FdOp} (h : l ++ [a] = pre ++ g :: post) :
    (post = [] ∧ l = pre ∧ a = g) ∨ (∃ post1, post = post1 ++ [a] ∧ l = pre ++ g :: post1) := by
  rcases List.eq_nil_or_concat post with hp | ⟨post1, b, hp⟩
  · subst hp
    have h1 : l ++ [a] = pre ++ [g] := h
    have h2 := List.append_inj_left' h1 rfl
    have h3 := List.append_inj_right' h1 rfl
    exact Or.inl ⟨rfl, h2, (List.cons.inj h3).1⟩
  · subst hp
    have h1 : l ++ [a] = (pre ++ g :: post1) ++ [b] := by
      rw [h]
      simp
    have h2 := List.append_inj_left' h1 rfl
    have h3 := List.append_inj_right' h1 rfl
    have h4 : a = b := (List.cons.inj h3).1
    subst h4
    exact Or.inr ⟨post1, by simp, h2⟩

theorem lookup_init (fd : Int) : FdManager.init.lookup fd = none := by
  unfold FdManager.lookup FdManager.init
  simp only [List.getD_eq_getElem?_getD, List.getElem?_replicate]
  split <;> rfl

/-- After a sequence of calls from the constructor, a record is stored for `fd`
exactly when some `get(fd, true)` of the sequence has no `del(fd)` after it. -/
theorem lookup_run_iff {fd : Int} (hlo : 0 ≤ fd) (hhi : fd < (2 : Int) ^ 31)
    (ops : List FdOp) (hops : ∀ op ∈ ops, op.InRange) {m : FdManager}
    (hrun : fdRun FdManager.init ops = some m) :
    (m.lookup fd).isSome = true ↔
      ∃ pre q post, ops = pre ++ FdOp.get fd true q :: post ∧ FdOp.del fd ∉ post := by
  induction ops using List.reverseRecOn generalizing m with
  | nil =>
    simp only [fdRun, Option.some.injEq] at hrun
    rw [← hrun, lookup_init]
    constructor
    · intro h
      exact Bool.noConfusion h
    · rintro ⟨pre, q, post, h, _⟩
      cases pre <;> cases h
  | append_singleton l a ih =>
    have hl : ∀ op ∈ l, op.InRange := fun o ho => hops o (List.mem_append_left _ ho)
    have ha : a.InRange := hops a (List.mem_append_right _ (List.mem_singleton_self _))
    obtain ⟨m0, hrun0, hinv0⟩ := fdRun_total FdManager.init fdInv_init l hl
    obtain ⟨m1, hstep, _, hframe, _⟩ := fdStep_spec m0 hinv0 a ha
    have hm : m = m1 := by
      rw [fdRun_append, hrun0] at hrun
      simp only [Option.some_bind, fdRun, hstep, Option.some.injEq] at hrun
      exact hrun.symm
    subst hm
    have ih0 := ih hl hrun0
    -- the three kinds of last call
    by_cases hcreate : ∃ q, a = FdOp.get fd true q
    · obtain ⟨q, hq⟩ := hcreate
      subst hq
      obtain ⟨r, m2, hget, hlook, _⟩ := get_true_spec m0 hinv0 hlo hhi q
      simp only [fdStep, hget, Option.map_some', Option.some.injEq] at hstep
      subst hstep
      constructor
      · intro _
        exact ⟨l, q, [], rfl, List.not_mem_nil _⟩
      · intro _
        rw [hlook]
        rfl
    · by_cases hdel : a = FdOp.del fd
      · subst hdel
        simp only [fdStep, Option.some.injEq] at hstep
        rw [← hstep, (del_spec m0 hinv0 fd).1]
        constructor
        · intro h
          exact Bool.noConfusion h
        · rintro ⟨pre, q, post, h, hnd⟩
          exfalso
          rcases split_snoc h with ⟨_, _, h3⟩ | ⟨post1, h2, _⟩
          · cases h3
          · apply hnd
            rw [h2]
            exact List.mem_append_right _ (List.mem_singleton_self _)
      · have hsame : m.lookup fd = m0.lookup fd := by
          by_cases hfd : a.fd = fd
          · cases a with
            | del fd1 =>
              exfalso
              apply hdel
              have : fd1 = fd := hfd
              rw [this]
            | get fd1 ac p =>
              have h1 : fd1 = fd := hfd
              subst h1
              cases ac with
              | true => exact absurd ⟨p, rfl⟩ hcreate
              | false =>
                have hne : fd1 ≠ -1 := by omega
                simp only [fdStep, get_false_eq m0 hne, Option.map_some',
                  Option.some.injEq] at hstep
                rw [← hstep]
          · exact hframe fd (by omega) hhi (fun h => hfd h.symm)
        rw [hsame, ih0]
        constructor
        · rintro ⟨pre, q, post, h, hnd⟩
          refine ⟨pre, q, post ++ [a], by rw [h]; simp, ?_⟩
          intro hmem
          rcases List.mem_append.mp hmem with h1 | h1
          · exact hnd h1
          · exact hdel (List.mem_singleton.mp h1).symm
        · rintro ⟨pre, q, post, h, hnd⟩
          rcases split_snoc h with ⟨_, _, h3⟩ | ⟨post1, h2, h3⟩
          · exact absurd ⟨q, h3⟩ hcreate
          · refine ⟨pre, q, post1, h3, ?_⟩
            intro hmem
            apply hnd
            rw [h2]
            exact List.mem_append_left _ hmem

/-- C17: after every sequence of calls in range on the fd table of the
constructor, and for every `fd ≥ 0`: `get(fd, false)` returns and leaves the
manager as it is; it returns a record exactly when some earlier `get(fd, true)`
has no `del(fd)` after it; it is the record that this `get(fd, true)` returned;
a call on another fd changes neither what `get(fd, false)` returns nor any
existing record; and `get(-1, _)` returns null. -/
theorem fd_table_get (ops : List FdOp) (hops : ∀ op ∈ ops, op.InRange) (fd : Int)
    (hlo : 0 ≤ fd) (hhi : fd < (2 : Int) ^ 31) (p : Probe) :
    ∃ m r, fdRun FdManager.init ops = some m ∧
      m.get fd false p = some (r, m) ∧
      (r.isSome = true ↔
        ∃ pre q post, ops = pre ++ FdOp.get fd true q :: post ∧ FdOp.del fd ∉ post) ∧
      (∀ pre q post, ops = pre ++ FdOp.get fd true q :: post → FdOp.del fd ∉ post →
        ∃ m0 m1, fdRun FdManager.init pre = some m0 ∧ m0.get fd true q = some (r, m1)) ∧
      (∀ op, op.InRange → op.fd ≠ fd →
        ∃ m1, fdStep m op = some m1 ∧ m1.get fd false p = some (r, m1) ∧
          ∀ ptr, ptr < m.heap.length → fdCtxOf m1 ptr = fdCtxOf m ptr) ∧
      (∀ ac, m.get (-1) ac p = some (none, m)) := by
  obtain ⟨m, hrun, hinv⟩ := fdRun_total FdManager.init fdInv_init ops hops
  have hne : fd ≠ -1 := by omega
  refine ⟨m, m.lookup fd, hrun, get_false_eq m hne p, lookup_run_iff hlo hhi ops hops hrun,
    ?_, ?_, fun ac => get_minus_one m ac p⟩
  · intro pre q post hsplit hnd
    have hpre : ∀ op ∈ pre, op.InRange := fun o ho =>
      hops o (by rw [hsplit]; exact List.mem_append_left _ ho)
    have hpost : ∀ op ∈ post, op.InRange := fun o ho =>
      hops o (by rw [hsplit]; exact List.mem_append_right _ (List.mem_cons_of_mem _ ho))
    obtain ⟨m0, hrun0, hinv0⟩ := fdRun_total FdManager.init fdInv_init pre hpre
    obtain ⟨r1, m1, hget, hlook, hinv1, _⟩ := get_true_spec m0 hinv0 hlo hhi q
    refine ⟨m0, m1, hrun0, ?_⟩
    rw [hsplit, fdRun_append, hrun0] at hrun
    simp only [Option.some_bind, fdRun, fdStep, hget, Option.map_some'] at hrun
    rw [lookup_kept hlo hhi post hpost hnd m1 hinv1 hlook hrun, hget]
  · intro op hop hfd
    obtain ⟨m1, hstep, _, hframe, hheap⟩ := fdStep_spec m hinv op hop
    refine ⟨m1, hstep, ?_, hheap⟩
    rw [get_false_eq m1 hne p, hframe fd (by omega) hhi (fun h => hfd h.symm)]

/-- C17 at `get(3, true)`, `get(70, true)`, `del(3)`, `get(3, true)` and
`fd = 3`. -/
theorem fd_table_get_witness :
    (∀ op ∈ sampleFdOps, op.InRange) ∧ (0 : Int) ≤ 3 ∧ (3 : Int) < (2 : Int) ^ 31 ∧
    ∃ m r, fdRun FdManager.init sampleFdOps = some m ∧
      m.get 3 false {} = some (r, m) ∧
      (r.isSome = true ↔
        ∃ pre q post, sampleFdOps = pre ++ FdOp.get 3 true q :: post ∧ FdOp.del 3 ∉ post) ∧
      (∀ pre q post, sampleFdOps = pre ++ FdOp.get 3 true q :: post → FdOp.del 3 ∉ post →
        ∃ m0 m1, fdRun FdManager.init pre = some m0 ∧ m0.get 3 true q = some (r, m1)) ∧
      (∀ op, op.InRange → op.fd ≠ 3 →
        ∃ m1, fdStep m op = some m1 ∧ m1.get 3 false {} = some (r, m1) ∧
          ∀ ptr, ptr < m.heap.length → fdCtxOf m1 ptr = fdCtxOf m ptr) ∧
      (∀ ac, m.get (-1) ac {} = some (none, m)) :=
  ⟨by decide, by decide, by decide, fd_table_get sampleFdOps (by decide) 3 (by decide)
    (by decide) {}⟩

/-! ## `fcntl` and the non-blocking flag -/

theorem sampleFdManager_eq :
    (FdManager.init.get 3 true { flags := 2 }).map Prod.snd = some sampleFdManager := by
  decide

theorem sampleFdOps_run :
    (fdRun FdManager.init sampleFdOps).map
        (fun m => (m.lookup 3, m.lookup 70, m.m_datas.length, m.heap.length))
      = some (some 2, some 1, 105, 3) := by
  decide

theorem and_O_NONBLOCK (a : Nat) : ((a &&& O_NONBLOCK) != 0) = a.testBit 11 := by
  have h : O_NONBLOCK = 2 ^ 11 := by decide
  rw [h, Nat.and_two_pow]
  cases a.testBit 11 <;> simp

theorem testBit_or_O_NONBLOCK (a i : Nat) :
    (a ||| O_NONBLOCK).testBit i = (a.testBit i || decide (i = 11)) := by
  have h : O_NONBLOCK = 2 ^ 11 := by decide
  rw [h, Nat.testBit_or, Nat.testBit_two_pow]
  congr 1
  simp [eq_comm]

theorem testBit_andNot_O_NONBLOCK (a i : Nat) (hi : i < 32) :
    (andNot a O_NONBLOCK).testBit i = (a.testBit i && !decide (i = 11)) := by
  have h : O_NONBLOCK = 2 ^ 11 := by decide
  have h2 : (0xFFFFFFFF : Nat) = 2 ^ 32 - 1 := by decide
  unfold andNot
  rw [h, h2, Nat.testBit_and, Nat.testBit_xor, Nat.testBit_two_pow, Nat.testBit_two_pow_sub_one]
  by_cases h11 : i = 11
  · simp [h11]
  · simp [h11, hi, Ne.symm h11]

/-- The word `a | O_NONBLOCK` or `a & ~O_NONBLOCK`: bit 11 is `b`, the other
bits are those of `a`. -/
theorem force_O_NONBLOCK (b : Bool) (a : Nat) :
    (if b = true then a ||| O_NONBLOCK else andNot a O_NONBLOCK).testBit 11 = b ∧
    ∀ i, i ≠ 11 → i < 32 →
      (if b = true then a ||| O_NONBLOCK else andNot a O_NONBLOCK).testBit i = a.testBit i := by
  cases b
  · refine ⟨?_, ?_⟩
    · rw [if_neg (by decide), testBit_andNot_O_NONBLOCK a 11 (by decide)]
      simp
    · intro i hi h32
      rw [if_neg (by decide), testBit_andNot_O_NONBLOCK a i h32]
      simp [hi]
  · refine ⟨?_, ?_⟩
    · rw [if_pos rfl, testBit_or_O_NONBLOCK]
      simp
    · intro i hi _
      rw [if_pos rfl, testBit_or_O_NONBLOCK]
      simp [hi]

/-- C16: for a managed socket fd (its record `ptr` is stored, is a socket and
is not closed) and every flag word `arg`, `fcntl(fd, F_SETFL, arg)` returns what
`fcntl_f` returns, records `m_userNonblock = (arg has O_NONBLOCK)` (bit 11)
and nothing else, and passes to `fcntl_f` the word `arg` with bit 11 equal to
`m_sysNonblock`; a following `fcntl(fd, F_GETFL)` returns the kernel word
`kflags` with bit 11 replaced by the bit 11 of `arg`. -/
theorem fcntl_nonblock (m : FdManager) (fd : Int) (ptr arg kret kflags : Nat)
    (hget : m.get fd false {} = some (some ptr, m)) (hptr : ptr < m.heap.length)
    (hsock : (fdCtxOf m ptr).m_isSocket = true)
    (hopen : (fdCtxOf m ptr).m_isClosed = false) :
    ∃ passed m1, fcntl_SETFL m fd arg kret = some (kret, passed, m1) ∧
      fdCtxOf m1 ptr = (fdCtxOf m ptr).setUserNonblock (arg.testBit 11) ∧
      m1.m_datas = m.m_datas ∧
      passed.testBit 11 = (fdCtxOf m ptr).m_sysNonblock ∧
      (∀ i, i ≠ 11 → i < 32 → passed.testBit i = arg.testBit i) ∧
      ∃ g, fcntl_GETFL m1 fd kflags = some (g, m1) ∧
        g.testBit 11 = arg.testBit 11 ∧
        (∀ i, i ≠ 11 → i < 32 → g.testBit i = kflags.testBit i) := by
  have hne : fd ≠ -1 := by
    intro h
    rw [h, get_minus_one] at hget
    cases hget
  have hlook : m.lookup fd = some ptr := by
    rw [get_false_eq m hne] at hget
    exact (Prod.mk.inj (Option.some.inj hget)).1
  have hctx : fdCtxOf (m.store ptr ((fdCtxOf m ptr).setUserNonblock (arg.testBit 11))) ptr
      = (fdCtxOf m ptr).setUserNonblock (arg.testBit 11) := by
    simp [fdCtxOf, FdManager.store, List.getD_eq_getElem?_getD, List.getElem?_set, hptr]
  have hget1 : (m.store ptr ((fdCtxOf m ptr).setUserNonblock (arg.testBit 11))).get fd false {}
      = some (some ptr, (m.store ptr ((fdCtxOf m ptr).setUserNonblock (arg.testBit 11)))) := by
    rw [get_false_eq _ hne]
    show some (m.lookup fd, _) = _
    rw [hlook]
  refine ⟨if (fdCtxOf m ptr).m_sysNonblock = true then arg ||| O_NONBLOCK
      else andNot arg O_NONBLOCK,
    (m.store ptr ((fdCtxOf m ptr).setUserNonblock (arg.testBit 11))),
    ?_, hctx, rfl, (force_O_NONBLOCK _ arg).1, (force_O_NONBLOCK _ arg).2, ?_⟩
  · unfold fcntl_SETFL
    rw [hget]
    simp only [hsock, hopen, and_O_NONBLOCK]
    rfl
  · refine ⟨if arg.testBit 11 = true then kflags ||| O_NONBLOCK else andNot kflags O_NONBLOCK,
      ?_, (force_O_NONBLOCK _ kflags).1, (force_O_NONBLOCK _ kflags).2⟩
    unfold fcntl_GETFL
    rw [hget1]
    have h1 : ((fdCtxOf m ptr).setUserNonblock (arg.testBit 11)).m_isClosed = false := hopen
    have h2 : ((fdCtxOf m ptr).setUserNonblock (arg.testBit 11)).m_isSocket = true := hsock
    have h3 : ((fdCtxOf m ptr).setUserNonblock (arg.testBit 11)).m_userNonblock
        = arg.testBit 11 := rfl
    simp only [hctx, h1, h2, h3]
    cases arg.testBit 11 <;> rfl

/-- C16 at the table holding a socket record for fd 3, `arg = O_RDWR` (the
user asks for a blocking socket), and a kernel answering `O_RDWR | O_NONBLOCK`
to `F_GETFL`. -/
theorem fcntl_nonblock_witness :
    sampleFdManager.get 3 false {} = some (some 0, sampleFdManager) ∧
    0 < sampleFdManager.heap.length ∧
    (fdCtxOf sampleFdManager 0).m_isSocket = true ∧
    (fdCtxOf sampleFdManager 0).m_isClosed = false ∧
    ∃ passed m1, fcntl_SETFL sampleFdManager 3 2 0 = some (0, passed, m1) ∧
      fdCtxOf m1 0 = (fdCtxOf sampleFdManager 0).setUserNonblock (Nat.testBit 2 11) ∧
      m1.m_datas = sampleFdManager.m_datas ∧
      passed.testBit 11 = (fdCtxOf sampleFdManager 0).m_sysNonblock ∧
      (∀ i, i ≠ 11 → i < 32 → passed.testBit i = Nat.testBit 2 i) ∧
      ∃ g, fcntl_GETFL m1 3 2050 = some (g, m1) ∧
        g.testBit 11 = Nat.testBit 2 11 ∧
        (∀ i, i ≠ 11 → i < 32 → g.testBit i = Nat.testBit 2050 i) :=
  ⟨by decide, by decide, by decide, by decide,
    fcntl_nonblock sampleFdManager 3 0 2 0 2050 (by decide) (by decide) (by decide)
      (by decide)⟩

/-! ## `do_io`: the cases that only call the original function -/

/-- No call on the fd table sets `m_isClosed`: every record made by calls from
the constructor has it `false`. -/
theorem closed_never_set (ops : List FdOp) (m : FdManager)
    (hrun : fdRun FdManager.init ops = some m) : ∀ c ∈ m.heap, c.m_isClosed = false := by
  have hcreate : ∀ (fd : Int) (p : Probe), (FdCtx.create fd p).m_isClosed = false := by
    intro fd p
    unfold FdCtx.create FdCtx.init
    simp only [Bool.false_eq_true, ↓reduceIte]
    split <;> split <;> rfl
  have hstep : ∀ (m m1 : FdManager) (op : FdOp), (∀ c ∈ m.heap, c.m_isClosed = false) →
      fdStep m op = some m1 → ∀ c ∈ m1.heap, c.m_isClosed = false := by
    intro m m1 op hm hs
    cases op with
    | del fd =>
      simp only [fdStep, Option.some.injEq] at hs
      rw [← hs]
      unfold FdManager.del
      split
      · exact hm
      · exact hm
    | get fd ac p =>
      simp only [fdStep, Option.map_eq_some', Prod.exists, exists_eq_right] at hs
      obtain ⟨r, hs⟩ := hs
      have hnew : ∀ (d : List (Option Nat)) (x : Option Nat × FdManager),
          (if toSizeT fd < d.length then
            some (some m.heap.length,
              ({ heap := m.heap ++ [FdCtx.create fd p],
                 m_datas := d.set (toSizeT fd) (some m.heap.length) } : FdManager))
          else none) = some x → ∀ c ∈ x.2.heap, c.m_isClosed = false := by
        intro d x hx
        split at hx
        · cases hx
          intro c hc
          rcases List.mem_append.mp hc with h | h
          · exact hm c h
          · rw [List.mem_singleton.mp h]
            exact hcreate fd p
        · cases hx
      unfold FdManager.get at hs
      split at hs
      · cases hs; exact hm
      · split at hs
        · cases hs; exact hm
        · split at hs
          · cases hs; exact hm
          · by_cases hle : m.m_datas.length ≤ toSizeT fd
            · by_cases hneg : fd < 0
              · simp [hle, hneg] at hs
              · simp only [if_pos hle, if_neg hneg] at hs
                exact hnew _ _ hs
            · simp only [if_neg hle] at hs
              exact hnew _ _ hs
  have hgen : ∀ (ops : List FdOp) (m0 m : FdManager), (∀ c ∈ m0.heap, c.m_isClosed = false) →
      fdRun m0 ops = some m → ∀ c ∈ m.heap, c.m_isClosed = false := by
    intro ops
    induction ops with
    | nil =>
      intro m0 m h0 hr
      simp only [fdRun, Option.some.injEq] at hr
      rw [← hr]
      exact h0
    | cons op ops ih =>
      intro m0 m h0 hr
      cases hs : fdStep m0 op with
      | none => simp [fdRun, hs] at hr
      | some m1 =>
        simp only [fdRun, hs, Option.some_bind] at hr
        exact ih m1 m (hstep m0 m1 op h0 hs) hr
  exact hgen ops FdManager.init m (by intro c hc; cases hc) hrun

/-- C18: when `t_hook_enable` is false, or `fd` has no record, or its record
(not closed; no code sets `m_isClosed`) is not a socket or has the user's
non-blocking flag, `do_io` is one call of the original function: it returns
that call's result and changes nothing but `errno` as that call set it; no
event is registered and no timer added. -/
theorem do_io_passthrough (w : World) (fd : Int) (event : Event) (timeout_so : Nat) (env : Env)
    (script : List RawResult)
    (h : w.t_hook_enable = false ∨ w.fdm.get fd false {} = some (none, w.fdm) ∨
      ∃ ptr, w.fdm.get fd false {} = some (some ptr, w.fdm) ∧
        (fdCtxOf w.fdm ptr).m_isClosed = false ∧
        ((fdCtxOf w.fdm ptr).m_isSocket = false ∨ (fdCtxOf w.fdm ptr).m_userNonblock = true)) :
    do_io w fd event timeout_so env script = rawReturn w script ∧
    ∀ r rest, script = r :: rest →
      ∃ w1, do_io w fd event timeout_so env script = some (.returned r.n, w1, rest) ∧
        w1.raw_calls = w.raw_calls + 1 ∧
        w1.errno = (if r.n = -1 then r.err else w.errno) ∧
        w1.iom = w.iom ∧ w1.tm = w.tm ∧ w1.closures = w.closures ∧ w1.tinfos = w.tinfos ∧
        w1.fdm = w.fdm := by
  have heq : do_io w fd event timeout_so env script = rawReturn w script := by
    by_cases hh : w.t_hook_enable = false
    · unfold do_io
      rw [if_pos hh]
    · rcases h with h | h | ⟨ptr, hget, hopen, hns⟩
      · exact absurd h hh
      · unfold do_io
        rw [if_neg hh, h]
      · unfold do_io
        rw [if_neg hh, hget]
        simp only [hopen, Bool.false_eq_true, ↓reduceIte]
        rcases hns with hns | hns
        · simp [hns]
        · simp [hns]
  refine ⟨heq, ?_⟩
  intro r rest hs
  subst hs
  rw [heq]
  exact ⟨_, rfl, rfl, rfl, rfl, rfl, rfl, rfl, rfl⟩

/-- C18 at `sampleWorld` with the hook flag cleared and a call returning 7. -/
theorem do_io_passthrough_witness :
    (({ sampleWorld with t_hook_enable := false } : World).t_hook_enable = false ∨
      ({ sampleWorld with t_hook_enable := false } : World).fdm.get 3 false {}
        = some (none, ({ sampleWorld with t_hook_enable := false } : World).fdm) ∨
      ∃ ptr, ({ sampleWorld with t_hook_enable := false } : World).fdm.get 3 false {}
          = some (some ptr, ({ sampleWorld with t_hook_enable := false } : World).fdm) ∧
        (fdCtxOf ({ sampleWorld with t_hook_enable := false } : World).fdm ptr).m_isClosed
          = false ∧
        ((fdCtxOf ({ sampleWorld with t_hook_enable := false } : World).fdm ptr).m_isSocket
            = false ∨
          (fdCtxOf ({ sampleWorld with t_hook_enable := false } : World).fdm ptr).m_userNonblock
            = true)) ∧
    (do_io { sampleWorld with t_hook_enable := false } 3 .READ SO_RCVTIMEO {} [⟨7, 0⟩]
        = rawReturn { sampleWorld with t_hook_enable := false } [⟨7, 0⟩] ∧
      ∀ r rest, [(⟨7, 0⟩ : RawResult)] = r :: rest →
        ∃ w1, do_io { sampleWorld with t_hook_enable := false } 3 .READ SO_RCVTIMEO {}
            [⟨7, 0⟩] = some (.returned r.n, w1, rest) ∧
          w1.raw_calls = ({ sampleWorld with t_hook_enable := false } : World).raw_calls + 1 ∧
          w1.errno = (if r.n = -1 then r.err
            else ({ sampleWorld with t_hook_enable := false } : World).errno) ∧
          w1.iom = ({ sampleWorld with t_hook_enable := false } : World).iom ∧
          w1.tm = ({ sampleWorld with t_hook_enable := false } : World).tm ∧
          w1.closures = ({ sampleWorld with t_hook_enable := false } : World).closures ∧
          w1.tinfos = ({ sampleWorld with t_hook_enable := false } : World).tinfos ∧
          w1.fdm = ({ sampleWorld with t_hook_enable := false } : World).fdm) :=
  ⟨Or.inl rfl, do_io_passthrough { sampleWorld with t_hook_enable := false } 3 .READ SO_RCVTIMEO
    {} [⟨7, 0⟩] (Or.inl rfl)⟩

/-! ## `do_io`: the timeout path -/

theorem addTimer_heap (tm : TimerManager) (ms : Nat) (cb : Option Nat) (recurring : Bool)
    (now : Int) :
    (addTimer tm ms cb recurring now).1 = tm.heap.length ∧
    (addTimer tm ms cb recurring now).2.heap = tm.heap ++
      [{ m_recurring := recurring, m_ms := ms, m_next := now + msToTicks ms, m_cb := cb }] := by
  refine ⟨rfl, ?_⟩
  unfold addTimer addTimerPtr
  simp only
  split <;> rfl

/-- On a table with the invariant whose registered directions record a
scheduler, `cancelEvent` returns, whatever `epoll_ctl` answers. -/
theorem cancelEvent_total (s : IOManager) (fd : Nat) (event : Event) (ok : Bool) (h : Inv s)
    (hs : registered s fd event → ((ctxOf s fd).getEventContext event).scheduler.isSome = true) :
    ∃ b s1, cancelEvent s fd event ok = some (b, s1) := by
  by_cases hreg : registered s fd event
  · cases ok
    · have hlt := lt_of_registered hreg
      obtain ⟨hslot, _, _⟩ := slot_ctxOf h hlt
      have hbit : ¬ ((ctxOf s fd).events &&& event.toNat = 0) := hreg
      unfold cancelEvent
      rw [if_pos ((lookup_lt h fd).mpr hlt)]
      simp only [fdCtxAt_of_slot hslot]
      rw [if_neg hbit]
      simp only [epoll_ctl_fail, ne_eq, Int.reduceNeg, neg_eq_zero, one_ne_zero,
        not_false_eq_true, ↓reduceIte]
      exact ⟨_, _, rfl⟩
    · obtain ⟨sch, hsch⟩ := Option.isSome_iff_exists.mp (hs hreg)
      obtain ⟨s1, h1, _⟩ := (cancelEvent_spec s fd event h).1 sch hreg hsch
      exact ⟨true, s1, h1⟩
  · exact ⟨false, s, (cancelEvent_spec s fd event h).2 (Or.inl hreg) ok⟩

/-- The statement `if (timer) timer->cancel();` on a timer object: it returns
and touches only the timer manager. -/
theorem cancelTimer_some (w : World) {t : Nat} (ht : t < w.tm.heap.length) :
    ∃ tm1, cancelTimer w (some t) = some { w with tm := tm1 } := by
  have hsome : ∃ r, Timer.cancel w.tm t = some r := by
    unfold Timer.cancel
    rw [getElem?_of_lt ht]
    simp only
    split
    · exact ⟨_, rfl⟩
    · split
      · exact ⟨_, rfl⟩
      · exact ⟨_, rfl⟩
  obtain ⟨r, hr⟩ := hsome
  exact ⟨r.2, by simp [cancelTimer, hr]⟩

/-- A failing original call with `EAGAIN` leads `do_io` into its wait. -/
theorem do_io_retry_eagain (fd : Int) (event : Event) (timeout tinfo : Nat) (env : Env)
    (w : World) (rest : List RawResult) :
    do_io_retry fd event timeout tinfo env w (⟨-1, EAGAIN⟩ :: rest)
      = do_io_wait { w with errno := EAGAIN, raw_calls := w.raw_calls + 1 } fd event timeout
          tinfo env rest := by
  simp [do_io_retry, EAGAIN, EINTR]

/-- An original call that neither fails with `EINTR` nor with `EAGAIN` ends
`do_io` with its result. -/
theorem do_io_retry_done (fd : Int) (event : Event) (timeout tinfo : Nat) (env : Env)
    (w : World) (r : RawResult) (rest : List RawResult)
    (hr : ¬ (r.n = -1 ∧ (r.err = EINTR ∨ r.err = EAGAIN))) :
    do_io_retry fd event timeout tinfo env w (r :: rest)
      = some (.returned r.n,
          World.release { w with errno := if r.n = -1 then r.err else w.errno,
                                 raw_calls := w.raw_calls + 1 } tinfo, rest) := by
  unfold do_io_retry
  by_cases hn : r.n = -1
  · have h1 : r.err ≠ EINTR := fun h => hr ⟨hn, Or.inl h⟩
    have h2 : r.err ≠ EAGAIN := fun h => hr ⟨hn, Or.inr h⟩
    simp [hn, h1, h2]
  · simp [hn]

theorem or_and_self_ne_zero (m : Nat) (event : Event) :
    (m ||| event.toNat) &&& event.toNat ≠ 0 := by
  have h : (m ||| event.toNat) &&& event.toNat = event.toNat := by
    apply Nat.eq_of_testBit_eq
    intro i
    rw [Nat.testBit_and, Nat.testBit_or]
    cases m.testBit i <;> cases event.toNat.testBit i <;> rfl
  rw [h]
  cases event <;> decide

/-- The wait of `do_io` with a configured timeout, on a direction that is not
registered: the timer is added with the timeout callable, the direction is
registered for the running coroutine, and `do_io` yields. -/
theorem do_io_wait_yield (w : World) (fd : Int) (event : Event) (timeout tinfo : Nat)
    (env : Env) (rest : List RawResult) (x : Nat) (hto : timeout ≠ 2 ^ 64 - 1)
    (hinv : Inv w.iom) (hfd : fd.toNat * 3 / 2 < 2 ^ 31)
    (hfree : ¬ registered w.iom fd.toNat event)
    (hctx : (ctxOf w.iom fd.toNat).getEventContext event = {})
    (hcur : env.cur = some x) (hok : env.ok = true) :
    ∃ iom1, do_io_wait w fd event timeout tinfo env rest
        = some (.yielded ⟨fd, event, timeout, tinfo, some w.tm.heap.length⟩,
            { w with
              closures := w.closures ++ [⟨tinfo, fd, event⟩],
              tm := (addTimer w.tm timeout (some w.closures.length) false env.now).2,
              iom := iom1 }, rest) ∧
      Inv iom1 ∧ registered iom1 fd.toNat event ∧
      ((ctxOf iom1 fd.toNat).getEventContext event).scheduler = some x := by
  obtain ⟨r, s1, hadd, hiff, _, hpos⟩ := addEvent_spec w.iom fd.toNat event none env.cur
    env.curFiber env.ok hinv hfd (fun _ => hctx)
  have hr : r ≠ -1 := by
    intro h
    rcases hiff.mp h with h1 | h1
    · exact hfree h1
    · rw [hok] at h1
      cases h1
  obtain ⟨hr0, hev, hectx, _, _⟩ := hpos hr
  subst hr0
  refine ⟨s1, ?_, inv_addEvent hinv hfd hadd, ?_, ?_⟩
  · unfold do_io_wait
    rw [hcur] at hadd ⊢
    simp only [if_pos hto, addConditionTimer, hadd]
    rfl
  · unfold registered
    rw [hev]
    exact or_and_self_ne_zero _ _
  · rw [hectx, hcur]
    rfl

/-- The timeout callable on a live `timer_info` whose `cancelled` is unset:
it sets `cancelled = ETIMEDOUT` and calls `cancelEvent` once; called again it
changes nothing. -/
theorem runTimeout_once (w : World) (c : Nat) (cl : TimeoutClosure) (ok : Bool)
    (hcl : w.closures[c]? = some cl) (hlt : cl.winfo < w.tinfos.length)
    (hti : w.tinfos.getD cl.winfo none = some {})
    (b : Bool) (io2 : IOManager) (hce : cancelEvent w.iom cl.fd.toNat cl.event ok = some (b, io2)) :
    ∃ w2, runTimeout w c ok = some w2 ∧ w2.iom = io2 ∧
      w2.tinfos.getD cl.winfo none = some ⟨ETIMEDOUT⟩ ∧
      w2.cancelEvent_calls = w.cancelEvent_calls ++ [(cl.fd, cl.event)] ∧
      w2.closures = w.closures ∧ w2.tm = w.tm ∧ w2.raw_calls = w.raw_calls ∧
      w2.tinfos.length = w.tinfos.length ∧
      (∀ ok2, runTimeout w2 c ok2 = some w2) := by
  have h0 : ¬ (({} : timer_info).cancelled ≠ 0) := by decide
  refine ⟨{ w with
      tinfos := w.tinfos.set cl.winfo (some { cancelled := ETIMEDOUT }),
      iom := io2,
      cancelEvent_calls := w.cancelEvent_calls ++ [(cl.fd, cl.event)] }, ?_, rfl, ?_, rfl, rfl,
    rfl, rfl, ?_, ?_⟩
  · unfold runTimeout
    simp only [hcl, hti, hce, if_neg h0]
  · simp [List.getD_eq_getElem?_getD, List.getElem?_set, hlt]
  · simp
  · intro ok2
    have h1 : (({ cancelled := ETIMEDOUT } : timer_info).cancelled ≠ 0) := by decide
    have h2 : (w.tinfos.set cl.winfo (some { cancelled := ETIMEDOUT })).getD cl.winfo none
        = some { cancelled := ETIMEDOUT } := by
      simp [List.getD_eq_getElem?_getD, List.getElem?_set, hlt]
    unfold runTimeout
    simp only [hcl, h2, if_pos h1]

/-- Resumed after the timeout callable ran, `do_io` returns `-1` with `errno =
ETIMEDOUT` and does not call the original function. -/
theorem do_io_resume_timedout (w : World) (frame : IoFrame) (env : Env)
    (script : List RawResult) (t : Nat) (hframe : frame.timer = some t)
    (ht : t < w.tm.heap.length)
    (hti : w.tinfos.getD frame.tinfo none = some ⟨ETIMEDOUT⟩) :
    ∃ w3, do_io_resume w frame env script = some (.returned (-1), w3, script) ∧
      w3.errno = ETIMEDOUT ∧ w3.raw_calls = w.raw_calls ∧ w3.iom = w.iom := by
  obtain ⟨tm1, hc⟩ := cancelTimer_some w ht
  have hti1 : ({ w with tm := tm1 } : World).tinfos.getD frame.tinfo none = some ⟨ETIMEDOUT⟩ := hti
  unfold do_io_resume
  rw [hframe, hc]
  simp only [hti1, ↓reduceIte]
  exact ⟨_, rfl, rfl, rfl, rfl⟩

/-- Resumed with `cancelled` unset, `do_io` cancels the timer and goes back to
`retry:`. -/
theorem do_io_resume_retry (w : World) (frame : IoFrame) (env : Env) (t : Nat)
    (hframe : frame.timer = some t) (ht : t < w.tm.heap.length)
    (hti : w.tinfos.getD frame.tinfo none = some {}) :
    ∃ tm1, ∀ script, do_io_resume w frame env script
      = do_io_retry frame.fd frame.event frame.timeout frame.tinfo env { w with tm := tm1 }
          script := by
  obtain ⟨tm1, hc⟩ := cancelTimer_some w ht
  have hti1 : ({ w with tm := tm1 } : World).tinfos.getD frame.tinfo none = some {} := hti
  have h0 : ¬ (({} : timer_info).cancelled = ETIMEDOUT) := by decide
  refine ⟨tm1, fun script => ?_⟩
  unfold do_io_resume
  rw [hframe, hc]
  simp only [hti1, if_neg h0]

/-- C19: `do_io` on a managed blocking socket with a configured timeout, whose
original call fails with `EAGAIN` while the direction is free: it adds a timer
with the timeout callable, registers the direction and yields. That callable
sets `cancelled = ETIMEDOUT` and calls `cancelEvent(fd, event)` exactly once,
and a second call of it changes nothing; resumed after it, `do_io` returns
`-1` with `errno = ETIMEDOUT` without calling the original function. Resumed
with `cancelled` unset, `do_io` goes back to `retry:` and calls the original
function again. -/
theorem do_io_timeout (w : World) (fd : Int) (ptr : Nat) (event : Event) (timeout_so : Nat)
    (env : Env) (rest : List RawResult) (x : Nat)
    (hhook : w.t_hook_enable = true)
    (hget : w.fdm.get fd false {} = some (some ptr, w.fdm))
    (hopen : (fdCtxOf w.fdm ptr).m_isClosed = false)
    (hsock : (fdCtxOf w.fdm ptr).m_isSocket = true)
    (hblock : (fdCtxOf w.fdm ptr).m_userNonblock = false)
    (hto : (fdCtxOf w.fdm ptr).getTimeout timeout_so ≠ 2 ^ 64 - 1)
    (hinv : Inv w.iom) (hfd : fd.toNat * 3 / 2 < 2 ^ 31)
    (hfree : ¬ registered w.iom fd.toNat event)
    (hctx : (ctxOf w.iom fd.toNat).getEventContext event = {})
    (hcur : env.cur = some x) (hok : env.ok = true) :
    ∃ w1 frame t c,
      do_io w fd event timeout_so env (⟨-1, EAGAIN⟩ :: rest) = some (.yielded frame, w1, rest) ∧
      frame = ⟨fd, event, (fdCtxOf w.fdm ptr).getTimeout timeout_so, w.tinfos.length, some t⟩ ∧
      registered w1.iom fd.toNat event ∧
      (timerAt w1.tm.heap t).m_cb = some c ∧
      (timerAt w1.tm.heap t).m_ms = (fdCtxOf w.fdm ptr).getTimeout timeout_so ∧
      w1.closures[c]? = some ⟨w.tinfos.length, fd, event⟩ ∧
      (∀ ok, ∃ w2 b,
        runTimeout w1 c ok = some w2 ∧
        cancelEvent w1.iom fd.toNat event ok = some (b, w2.iom) ∧
        w2.tinfos.getD frame.tinfo none = some ⟨ETIMEDOUT⟩ ∧
        w2.cancelEvent_calls = w1.cancelEvent_calls ++ [(fd, event)] ∧
        (∀ ok2, runTimeout w2 c ok2 = some w2) ∧
        (∀ tm2 env2 script2, t < tm2.heap.length →
          ∃ w3, do_io_resume { w2 with tm := tm2 } frame env2 script2
              = some (.returned (-1), w3, script2) ∧
            w3.errno = ETIMEDOUT ∧ w3.raw_calls = w2.raw_calls)) ∧
      (∀ iom2 tm2 env2, t < tm2.heap.length →
        (∃ tm3, ∀ script2, do_io_resume { w1 with iom := iom2, tm := tm2 } frame env2 script2
          = do_io_retry fd event frame.timeout frame.tinfo env2
              { w1 with iom := iom2, tm := tm3 } script2) ∧
        (∀ r2 rest2, ¬ (r2.n = -1 ∧ (r2.err = EINTR ∨ r2.err = EAGAIN)) →
          ∃ w3, do_io_resume { w1 with iom := iom2, tm := tm2 } frame env2 (r2 :: rest2)
              = some (.returned r2.n, w3, rest2) ∧
            w3.raw_calls = w1.raw_calls + 1)) := by
  obtain ⟨w0, hw0⟩ : ∃ w0 : World, w0 = { w with
      tinfos := w.tinfos ++ [some {}],
      errno := EAGAIN,
      raw_calls := w.raw_calls + 1 } := ⟨_, rfl⟩
  have hdo : do_io w fd event timeout_so env (⟨-1, EAGAIN⟩ :: rest)
      = do_io_wait w0 fd event ((fdCtxOf w.fdm ptr).getTimeout timeout_so) w.tinfos.length env
          rest := by
    have hh : ¬ (w.t_hook_enable = false) := by rw [hhook]; decide
    unfold do_io
    rw [if_neg hh, hget]
    simp only [hopen, hsock, hblock, Bool.false_eq_true, ↓reduceIte, Bool.not_true,
      Bool.or_self]
    rw [do_io_retry_eagain, hw0]
  have hinv0 : Inv w0.iom := by rw [hw0]; exact hinv
  have hfree0 : ¬ registered w0.iom fd.toNat event := by rw [hw0]; exact hfree
  have hctx0 : (ctxOf w0.iom fd.toNat).getEventContext event = {} := by rw [hw0]; exact hctx
  obtain ⟨iom1, hwait, hinv1, hreg1, hsch1⟩ := do_io_wait_yield w0 fd event
    ((fdCtxOf w.fdm ptr).getTimeout timeout_so) w.tinfos.length env rest x hto hinv0 hfd hfree0
    hctx0 hcur hok
  obtain ⟨w1, hw1⟩ : ∃ w1 : World, w1 = { w0 with
      closures := w0.closures ++ [⟨w.tinfos.length, fd, event⟩],
      tm := (addTimer w0.tm ((fdCtxOf w.fdm ptr).getTimeout timeout_so)
        (some w0.closures.length) false env.now).2,
      iom := iom1 } := ⟨_, rfl⟩
  rw [← hw1] at hwait
  have htm0 : w0.tm = w.tm := by rw [hw0]
  rw [htm0] at hwait
  have hcl1 : w1.closures = w.closures ++ [⟨w.tinfos.length, fd, event⟩] := by rw [hw1, hw0]
  have htm1 : w1.tm = (addTimer w.tm ((fdCtxOf w.fdm ptr).getTimeout timeout_so)
      (some w.closures.length) false env.now).2 := by rw [hw1, hw0]
  have hti1 : w1.tinfos = w.tinfos ++ [some ({} : timer_info)] := by rw [hw1, hw0]
  have hio1 : w1.iom = iom1 := by rw [hw1]
  have hheap := (addTimer_heap w.tm ((fdCtxOf w.fdm ptr).getTimeout timeout_so)
    (some w.closures.length) false env.now).2
  have hclosure : w1.closures[w.closures.length]? = some ⟨w.tinfos.length, fd, event⟩ := by
    rw [hcl1]
    simp
  have hinfo : w1.tinfos.getD w.tinfos.length none = some {} := by
    rw [hti1]
    simp [List.getD_eq_getElem?_getD]
  have hlen : w.tinfos.length < w1.tinfos.length := by
    rw [hti1]
    simp
  refine ⟨w1, _, w.tm.heap.length, w.closures.length, by rw [hdo]; exact hwait, rfl,
    by rw [hio1]; exact hreg1, ?_, ?_, hclosure, ?_, ?_⟩
  · rw [htm1, hheap]
    simp [timerAt, List.getD_eq_getElem?_getD]
  · rw [htm1, hheap]
    simp [timerAt, List.getD_eq_getElem?_getD]
  · intro ok
    obtain ⟨b, io2, hce⟩ := cancelEvent_total iom1 fd.toNat event ok hinv1
      (fun _ => by rw [hsch1]; rfl)
    rw [← hio1] at hce
    obtain ⟨w2, hrun, hio2, hti2, hcalls, _, htm2, _, _, hagain⟩ :=
      runTimeout_once w1 w.closures.length ⟨w.tinfos.length, fd, event⟩ ok hclosure hlen hinfo
        b io2 hce
    refine ⟨w2, b, hrun, by rw [hio2]; exact hce, hti2, hcalls, hagain, ?_⟩
    intro tm2 env2 script2 ht
    obtain ⟨w3, h3, he3, hr3, _⟩ := do_io_resume_timedout { w2 with tm := tm2 }
      ⟨fd, event, (fdCtxOf w.fdm ptr).getTimeout timeout_so, w.tinfos.length,
        some w.tm.heap.length⟩ env2 script2 w.tm.heap.length rfl ht hti2
    exact ⟨w3, h3, he3, hr3⟩
  · intro iom2 tm2 env2 ht
    obtain ⟨tm3, h3⟩ := do_io_resume_retry { w1 with iom := iom2, tm := tm2 }
      ⟨fd, event, (fdCtxOf w.fdm ptr).getTimeout timeout_so, w.tinfos.length,
        some w.tm.heap.length⟩ env2 w.tm.heap.length rfl ht hinfo
    refine ⟨⟨tm3, h3⟩, ?_⟩
    intro r2 rest2 hr2
    rw [h3, do_io_retry_done _ _ _ _ _ _ _ _ hr2]
    exact ⟨_, rfl, rfl⟩

/-- C19 at `sampleWorldTimeout`: `read` on the socket fd 3 with a receive
timeout of 50 ms, the original call failing with `EAGAIN`. -/
theorem do_io_timeout_witness :
    sampleWorldTimeout.t_hook_enable = true ∧
    sampleWorldTimeout.fdm.get 3 false {} = some (some 0, sampleWorldTimeout.fdm) ∧
    (fdCtxOf sampleWorldTimeout.fdm 0).getTimeout SO_RCVTIMEO = 50 ∧
    Inv sampleWorldTimeout.iom ∧
    ¬ registered sampleWorldTimeout.iom (3 : Int).toNat .READ ∧
    ∃ w1 frame t c,
      do_io sampleWorldTimeout 3 .READ SO_RCVTIMEO {} [⟨-1, EAGAIN⟩]
        = some (.yielded frame, w1, []) ∧
      (timerAt w1.tm.heap t).m_cb = some c ∧
      (∀ ok, ∃ w2 b,
        runTimeout w1 c ok = some w2 ∧
        cancelEvent w1.iom (3 : Int).toNat .READ ok = some (b, w2.iom) ∧
        w2.cancelEvent_calls = w1.cancelEvent_calls ++ [(3, .READ)] ∧
        (∀ ok2, runTimeout w2 c ok2 = some w2) ∧
        (∀ tm2 env2 script2, t < tm2.heap.length →
          ∃ w3, do_io_resume { w2 with tm := tm2 } frame env2 script2
              = some (.returned (-1), w3, script2) ∧
            w3.errno = ETIMEDOUT ∧ w3.raw_calls = w2.raw_calls)) := by
  refine ⟨by decide, by decide, by decide, by decide, by decide, ?_⟩
  obtain ⟨w1, frame, t, c, h1, _, _, h4, _, _, h7, _⟩ :=
    do_io_timeout sampleWorldTimeout 3 0 .READ SO_RCVTIMEO {} [] 1 (by decide) (by decide)
      (by decide) (by decide) (by decide) (by decide) (by decide) (by decide) (by decide)
      (by decide) rfl rfl
  refine ⟨w1, frame, t, c, h1, h4, ?_⟩
  intro ok
  obtain ⟨w2, b, ha, hb, _, hd, he, hf⟩ := h7 ok
  exact ⟨w2, b, ha, hb, hd, he, hf⟩

/-! ## `connect_with_timeout` after a failed `connect_f` -/

/-- C20: on the managed blocking socket fd 3 of `sampleWorld`, with a timeout
of 5000 ms, `connect_f` returns `-1` with `errno = ECONNREFUSED`. The test
`n != -1 && errno != EINPROGRESS` is false, so `connect_with_timeout` does not
return: it adds the timer, registers `WRITE` and yields; resumed with the
socket error `0` it returns `0`. -/
theorem connect_failure_waits :
    sampleWorld.t_hook_enable = true ∧
    sampleWorld.fdm.get 3 false {} = some (some 0, sampleWorld.fdm) ∧
    (fdCtxOf sampleWorld.fdm 0).m_isSocket = true ∧
    (fdCtxOf sampleWorld.fdm 0).m_isClosed = false ∧
    (fdCtxOf sampleWorld.fdm 0).m_userNonblock = false ∧
    ECONNREFUSED ≠ EINPROGRESS ∧
    (connect_with_timeout sampleWorld 3 5000 {} {} [⟨-1, ECONNREFUSED⟩]).map
        (fun x => (x.1, x.2.1.errno, x.2.1.tm.m_timers, (ctxOf x.2.1.iom 3).events,
          x.2.1.iom.m_pendingEventCount))
      = some (.yielded ⟨3, .WRITE, 5000, 0, some 0⟩, ECONNREFUSED, [0], Event.WRITE.toNat, 1) ∧
    ((connect_with_timeout sampleWorld 3 5000 {} {} [⟨-1, ECONNREFUSED⟩]).bind
        (fun x => connect_resume x.2.1 ⟨3, .WRITE, 5000, 0, some 0⟩ {})).map Prod.fst
      = some 0 := by
  refine ⟨?_, ?_, ?_, ?_, ?_, ?_, ?_, ?_⟩ <;> decide

/-- After the wait, with no timer and `cancelled` unset, `connect_with_timeout`
returns what the probe of the socket error says: `0` for the error `0`,
otherwise `-1` with `errno` set to the error. -/
theorem connect_resume_probe (w : World) (frame : IoFrame) (so : SockOpt)
    (hframe : frame.timer = none) (hti : w.tinfos.getD frame.tinfo none = some {})
    (hret : so.ret ≠ -1) :
    ∃ w1, connect_resume w frame so = some (if so.error = 0 then 0 else -1, w1) ∧
      w1.errno = (if so.error = 0 then w.errno else so.error) := by
  have h0 : ¬ (({} : timer_info).cancelled ≠ 0) := by decide
  unfold connect_resume
  rw [hframe]
  simp only [cancelTimer, hti, if_neg h0, connect_probe, if_neg hret]
  by_cases he : so.error = 0
  · simp only [if_pos he]
    exact ⟨_, rfl, rfl⟩
  · simp only [if_neg he]
    exact ⟨_, rfl, rfl⟩

/-! ## A ready direction that is not registered -/

/-- C21: in `sampleReadOnly` fd 5 has the registered mask `READ`. For the ready
word `EPOLLIN | EPOLLOUT` the directions computed by `idle` are `READ | WRITE`,
their intersection with the mask is `READ`, not empty, and the dispatch then
calls `triggerEvent(WRITE)` as well, whose `assert(events & event)` fails: the
dispatch aborts instead of firing `READ` alone. -/
theorem dispatch_fires_ready_not_registered :
    Inv sampleReadOnly ∧
    (ctxOf sampleReadOnly 5).events = Event.READ.toNat ∧
    realEvents (EPOLLIN ||| EPOLLOUT) (ctxOf sampleReadOnly 5).events
      = Event.READ.toNat ||| Event.WRITE.toNat ∧
    (ctxOf sampleReadOnly 5).events &&&
      realEvents (EPOLLIN ||| EPOLLOUT) (ctxOf sampleReadOnly 5).events = Event.READ.toNat ∧
    (idleDispatch sampleReadOnly 5 (EPOLLIN ||| EPOLLOUT) true).isNone = true ∧
    ((ctxOf sampleReadOnly 5).triggerEvent .READ).isSome = true ∧
    (((ctxOf sampleReadOnly 5).triggerEvent .READ).bind
      (fun r => r.1.triggerEvent .WRITE)).isNone = true := by
  refine ⟨?_, ?_, ?_, ?_, ?_, ?_, ?_⟩ <;> decide

/-! ## A drain with two recurring timers of equal period -/

/-- C24: in `tiedRecurring` both recurring timers have the positive period
10 ms and the deadlines 10 ms and 10 ms + 1 tick. At the clock value 20 ms no
rollover is detected, `listExpiredCb` appends both callables in deadline order,
and reinserts both at `20 ms + 10 ms`: the second `insert` finds an equivalent
element, so timer 1, expired and recurring with its callable still set, is not
back in the set. -/
theorem drain_loses_recurring_timer :
    (∀ t ∈ tiedRecurring.m_timers, (timerAt tiedRecurring.heap t).m_recurring = true ∧
      0 < (timerAt tiedRecurring.heap t).m_ms) ∧
    tiedRecurring.m_timers = [0, 1] ∧
    (timerAt tiedRecurring.heap 0).m_next = 10000000 ∧
    (timerAt tiedRecurring.heap 1).m_next = 10000001 ∧
    (detectClockRollover tiedRecurring 20000000).1 = false ∧
    (listExpiredCb tiedRecurring [some 9] 20000000 20000000 2).map
        (fun d => (d.cbs, d.tm.m_timers, timerAt d.tm.heap 0, timerAt d.tm.heap 1))
      = some ([some 9, some 1, some 2], [0],
          { m_recurring := true, m_ms := 10, m_next := 30000000, m_cb := some 1 },
          { m_recurring := true, m_ms := 10, m_next := 30000000, m_cb := some 2 }) := by
  refine ⟨?_, ?_, ?_, ?_, ?_, ?_⟩ <;> decide

/-! ## A drain that does not end -/

theorem zeroPeriod_step (d : Drain) (hd : d.tm = zeroPeriodTimers) :
    expireStep 0 false d
      = some { tm := zeroPeriodTimers, cbs := d.cbs ++ [some 1], fired := d.fired ++ [0] } := by
  have h1 : d.tm.m_timers = [0] := by rw [hd]; rfl
  have h2 : timerAt d.tm.heap 0
      = { m_recurring := true, m_ms := 0, m_next := 0, m_cb := some 1 } := by
    rw [hd]; decide
  have h3 : d.tm.heap.set 0
      { m_recurring := true, m_ms := 0, m_next := 0 + msToTicks 0, m_cb := some 1 }
      = zeroPeriodTimers.heap := by
    rw [hd]; decide
  have h4 : (setInsert zeroPeriodTimers.heap [] 0).1 = [0] := by decide
  have h5 : ({ d.tm with heap := zeroPeriodTimers.heap, m_timers := [0] } : TimerManager)
      = zeroPeriodTimers := by
    rw [hd]; decide
  have h6 : (0 : Int) ≤ 0 := le_refl _
  unfold expireStep
  simp only [h1, h2, h6, or_true, ↓reduceIte, h3, h4, h5]

theorem zeroPeriod_iter (n : Nat) (d : Drain) (hd : d.tm = zeroPeriodTimers) :
    (expireIter 0 false n d).tm = zeroPeriodTimers ∧
    (expireIter 0 false n d).fired = d.fired ++ List.replicate n 0 := by
  induction n generalizing d with
  | zero => exact ⟨hd, by simp [expireIter]⟩
  | succ n ih =>
    unfold expireIter
    rw [zeroPeriod_step d hd]
    obtain ⟨h1, h2⟩ := ih { tm := zeroPeriodTimers, cbs := d.cbs ++ [some 1],
                            fired := d.fired ++ [0] } rfl
    refine ⟨h1, ?_⟩
    rw [h2]
    simp [List.replicate_succ]

/-- C27: the set `zeroPeriodTimers` holds one recurring timer of period 0 with
deadline 0. At the clock value 0 no rollover is detected, and every iteration
of the loop of `listExpiredCb` pops the timer, appends its callable and
reinserts it with the deadline `0 + 0`, which is again not after the clock:
after `n` iterations the callable has been appended `n` times and the set is as
before, and `listExpiredCb` returns for no amount of fuel. -/
theorem drain_never_ends_zero_period :
    zeroPeriodTimers.m_timers = [0] ∧
    timerAt zeroPeriodTimers.heap 0
      = { m_recurring := true, m_ms := 0, m_next := 0, m_cb := some 1 } ∧
    (detectClockRollover zeroPeriodTimers 0).1 = false ∧
    (∀ n, (expireIter 0 false n (drainStart zeroPeriodTimers [] 0)).fired = List.replicate n 0 ∧
      (expireIter 0 false n (drainStart zeroPeriodTimers [] 0)).tm.m_timers = [0]) ∧
    (∀ fuel, listExpiredCb zeroPeriodTimers [] 0 0 fuel = none) := by
  have hstart : (drainStart zeroPeriodTimers [] 0).tm = zeroPeriodTimers := by decide
  have hroll : (detectClockRollover zeroPeriodTimers 0).1 = false := by decide
  refine ⟨by decide, by decide, hroll, ?_, ?_⟩
  · intro n
    obtain ⟨h1, h2⟩ := zeroPeriod_iter n (drainStart zeroPeriodTimers [] 0) hstart
    refine ⟨?_, ?_⟩
    · rw [h2]
      simp [drainStart]
    · rw [h1]
      rfl
  · intro fuel
    obtain ⟨h1, _⟩ := zeroPeriod_iter fuel (drainStart zeroPeriodTimers [] 0) hstart
    unfold listExpiredCb
    simp only [hroll]
    rw [zeroPeriod_step _ h1]
    rfl

/-! ## `cancel` on a timer that lost its place in the set -/

/-- C28: in `tiedOneShot` the set holds timer 0 only; timer 1 has the same
deadline, was not inserted, and its callable is set. `cancel()` on timer 1
returns `true`, and its `find` returns timer 0, which is erased: timer 0, in
the set before the call, is not in the set afterwards, its callable still
set. -/
theorem cancel_erases_other_timer :
    tiedOneShot.m_timers = [0] ∧
    (timerAt tiedOneShot.heap 0).m_next = (timerAt tiedOneShot.heap 1).m_next ∧
    (timerAt tiedOneShot.heap 1).m_cb = some 2 ∧
    (Timer.cancel tiedOneShot 1).map
        (fun r => (r.1, r.2.m_timers, (timerAt r.2.heap 0).m_cb, (timerAt r.2.heap 1).m_cb))
      = some (true, [], some 1, none) := by
  refine ⟨?_, ?_, ?_, ?_⟩ <;> decide

/-! ## The delays of `sleep`, `usleep` and `nanosleep` -/

/-- C29: `sleep(4294968)` registers a one-shot timer of 704 ms, not of
4294968000 ms: `seconds * 1000` is computed in 32 bits. `nanosleep` of 2147484
seconds registers `2^64 - 2147483296` ms: the `long` value 2147484000 does not
fit the `int timeout_ms`. -/
theorem sleep_delay_wraps :
    4294968 < 2 ^ 32 ∧
    (sleep true (some 1) {} 4294968 7 0).map
        (fun r => (r.1, (timerAt r.2.heap 0).m_ms, (timerAt r.2.heap 0).m_recurring))
      = some (some 0, 704, false) ∧
    4294968 * 1000 ≠ 704 ∧
    (nanosleep true (some 1) {} 2147484 0 7 0).map
        (fun r => (r.1, (timerAt r.2.heap 0).m_ms))
      = some (some 0, 2 ^ 64 - 2147483296) ∧
    2147484 * 1000 + 0 / 1000000 ≠ 2 ^ 64 - 2147483296 := by
  refine ⟨?_, ?_, ?_, ?_, ?_⟩ <;> decide

/-- What the three conversions do when nothing wraps: `sleep` registers
`seconds * 1000` below `2 ^ 32`, `usleep` always registers `usec / 1000`, and
`nanosleep` registers `tv_sec * 1000 + tv_nsec / 1000000` when that value is
non-negative and below `2 ^ 31`. -/
theorem sleep_delay_in_range (seconds usec : Nat) (tv_sec tv_nsec : Int) :
    (seconds * 1000 < 2 ^ 32 → sleep_ms seconds = seconds * 1000) ∧
    usleep_ms usec = usec / 1000 ∧
    (0 ≤ tv_sec → 0 ≤ tv_nsec → tv_sec * 1000 + tv_nsec / 1000000 < 2 ^ 31 →
      (nanosleep_ms tv_sec tv_nsec : Int) = tv_sec * 1000 + tv_nsec / 1000000) := by
  refine ⟨fun h => Nat.mod_eq_of_lt h, rfl, ?_⟩
  intro h1 h2 h3
  have hq : (tv_nsec.tdiv 1000).tdiv 1000 = tv_nsec / 1000000 := by
    rw [Int.tdiv_eq_ediv h2 (by decide), Int.tdiv_eq_ediv (Int.ediv_nonneg h2 (by decide))
      (by decide)]
    omega
  have hnn : 0 ≤ tv_nsec / 1000000 := Int.ediv_nonneg h2 (by decide)
  unfold nanosleep_ms intOfLong toInt toSizeT
  rw [hq]
  omega

/-! ## The task a worker takes -/

theorem scanTasks_none (thread_id : Int) (l : List ScheduleTask)
    (h : ∀ x ∈ l, ¬ (x.thread = -1 ∨ x.thread = thread_id)) :
    scanTasks thread_id l = some (none, l) := by
  induction l with
  | nil => rfl
  | cons t ts ih =>
    have ht := h t (List.mem_cons_self _ _)
    have hskip : t.thread ≠ -1 ∧ t.thread ≠ thread_id :=
      ⟨fun e => ht (Or.inl e), fun e => ht (Or.inr e)⟩
    unfold scanTasks
    rw [if_pos hskip, ih (fun x hx => h x (List.mem_cons_of_mem _ hx))]
    rfl

theorem scanTasks_first (thread_id : Int) (pre post : List ScheduleTask) (t : ScheduleTask)
    (hpre : ∀ x ∈ pre, ¬ (x.thread = -1 ∨ x.thread = thread_id))
    (ht : t.thread = -1 ∨ t.thread = thread_id) (htask : t.fiber.isSome ∨ t.cb.isSome) :
    scanTasks thread_id (pre ++ t :: post) = some (some t, pre ++ post) := by
  induction pre with
  | nil =>
    have hno : ¬ (t.thread ≠ -1 ∧ t.thread ≠ thread_id) := by
      rintro ⟨h1, h2⟩
      rcases ht with h | h
      · exact h1 h
      · exact h2 h
    simp only [List.nil_append]
    unfold scanTasks
    rw [if_neg hno, if_pos htask]
  | cons x xs ih =>
    have hx := hpre x (List.mem_cons_self _ _)
    have hskip : x.thread ≠ -1 ∧ x.thread ≠ thread_id :=
      ⟨fun e => hx (Or.inl e), fun e => hx (Or.inr e)⟩
    simp only [List.cons_append]
    unfold scanTasks
    rw [if_pos hskip, ih (fun y hy => hpre y (List.mem_cons_of_mem _ hy))]
    rfl

/-- C26: the worker `thread_id` takes the first task of the queue whose
affinity is `-1` or `thread_id` (it holds a coroutine or a callable, as the
`assert` demands): that task is removed, the tasks before and after it stay in
order, and `m_activeThreadCount` grows by exactly 1. If no task has such an
affinity, no task is taken and the scheduler is unchanged. -/
theorem takeTask_first_match (sc : Scheduler) (thread_id : Int) :
    (∀ pre t post, sc.m_tasks = pre ++ t :: post →
      (∀ x ∈ pre, ¬ (x.thread = -1 ∨ x.thread = thread_id)) →
      (t.thread = -1 ∨ t.thread = thread_id) →
      (t.fiber.isSome ∨ t.cb.isSome) →
      sc.m_activeThreadCount + 1 < 2 ^ 64 →
      sc.takeTask thread_id = some (some t,
        { sc with m_tasks := pre ++ post, m_activeThreadCount := sc.m_activeThreadCount + 1 })) ∧
    ((∀ x ∈ sc.m_tasks, ¬ (x.thread = -1 ∨ x.thread = thread_id)) →
      sc.takeTask thread_id = some (none, sc)) := by
  constructor
  · intro pre t post hq hpre ht htask hcnt
    unfold Scheduler.takeTask
    rw [hq, scanTasks_first thread_id pre post t hpre ht htask]
    simp only [incr, Nat.mod_eq_of_lt hcnt]
  · intro hnone
    unfold Scheduler.takeTask
    rw [scanTasks_none thread_id sc.m_tasks hnone]

/-- C26 on `sampleScheduler`: the worker 4 skips the task for thread 7 and
takes the callable 1; a worker 9 facing only tasks for threads 7 and 4 takes
none. -/
theorem takeTask_first_match_witness :
    sampleScheduler.takeTask 4 = some (some { cb := some 1 },
      { sampleScheduler with
        m_tasks := [{ cb := some 5, thread := 7 }, { fiber := some 3, thread := 4 },
          { fiber := some 2 }],
        m_activeThreadCount := 2 }) ∧
    ({ m_tasks := [{ cb := some 5, thread := 7 }, { fiber := some 3, thread := 4 }] } :
        Scheduler).takeTask 9
      = some (none, { m_tasks := [{ cb := some 5, thread := 7 }, { fiber := some 3, thread := 4 }] }) :=
  ⟨(takeTask_first_match sampleScheduler 4).1 [{ cb := some 5, thread := 7 }] { cb := some 1 }
      [{ fiber := some 3, thread := 4 }, { fiber := some 2 }] rfl (by decide) (by decide)
      (by decide) (by decide),
    (takeTask_first_match { m_tasks := [{ cb := some 5, thread := 7 },
      { fiber := some 3, thread := 4 }] } 9).2 (by decide)⟩

/-! ## The wake-up on an insertion at the front -/

/-- The iterator returned by `insert` is at `begin()` exactly when the first
element of the set is not before the timer. -/
theorem setInsert_front (heap : List Timer) (l : List Nat) (t : Nat) :
    (setInsert heap l t).2 = 0 ↔
      ∀ x, l.head? = some x → (timerAt heap t).m_next ≤ (timerAt heap x).m_next := by
  cases l with
  | nil => simp [setInsert]
  | cons y ys =>
    unfold setInsert
    by_cases h1 : (timerAt heap t).m_next < (timerAt heap y).m_next
    · simp only [Comparator, h1, decide_True, ↓reduceIte, List.head?_cons, Option.some.injEq,
        forall_eq', true_iff]
      exact le_of_lt h1
    · by_cases h2 : (timerAt heap y).m_next < (timerAt heap t).m_next
      · simp only [Comparator, h1, decide_False, Bool.false_eq_true, ↓reduceIte, h2, decide_True,
          List.head?_cons, Option.some.injEq, forall_eq']
        constructor
        · intro h
          omega
        · intro h
          omega
      · simp only [Comparator, h1, decide_False, Bool.false_eq_true, ↓reduceIte, h2,
          List.head?_cons, Option.some.injEq, forall_eq', true_iff]
        omega

/-- On a sorted set, no element is before the timer exactly when the first
element is not. -/
theorem head_le_iff {heap : List Timer} {l : List Nat} (t : Nat)
    (hs : l.Pairwise fun a b => (timerAt heap a).m_next < (timerAt heap b).m_next) :
    (∀ x, l.head? = some x → (timerAt heap t).m_next ≤ (timerAt heap x).m_next) ↔
      ∀ x ∈ l, (timerAt heap t).m_next ≤ (timerAt heap x).m_next := by
  cases l with
  | nil => simp
  | cons y ys =>
    rw [List.pairwise_cons] at hs
    constructor
    · intro h x hx
      have hy := h y rfl
      rcases List.mem_cons.mp hx with e | e
      · rw [e]; exact hy
      · exact le_trans hy (le_of_lt (hs.1 x e))
    · intro h x hx
      simp only [List.head?_cons, Option.some.injEq] at hx
      rw [← hx]
      exact h y (List.mem_cons_self _ _)

/-- The function `addTimer(shared_ptr<Timer>)`: `onTimerInsertedAtFront` is
called exactly when the iterator is at `begin()` and `m_tickled` is clear, and
then `m_tickled` is set; otherwise the flag is as before. -/
theorem addTimerPtr_flags (tm : TimerManager) (timer : Nat) :
    ((addTimerPtr tm timer).frontCalls = tm.frontCalls + 1 ↔
      ((setInsert tm.heap tm.m_timers timer).2 = 0 ∧ tm.m_tickled = false)) ∧
    ((addTimerPtr tm timer).frontCalls = tm.frontCalls + 1 →
      (addTimerPtr tm timer).m_tickled = true) ∧
    (¬ ((setInsert tm.heap tm.m_timers timer).2 = 0 ∧ tm.m_tickled = false) →
      (addTimerPtr tm timer).frontCalls = tm.frontCalls ∧
      (addTimerPtr tm timer).m_tickled = tm.m_tickled) ∧
    (addTimerPtr tm timer).heap = tm.heap := by
  by_cases h : (setInsert tm.heap tm.m_timers timer).2 = 0 ∧ tm.m_tickled = false
  · have hb : (decide ((setInsert tm.heap tm.m_timers timer).2 = 0) && !tm.m_tickled) = true := by
      simp [h.1, h.2]
    have heq : addTimerPtr tm timer = { tm with
        m_timers := (setInsert tm.heap tm.m_timers timer).1,
        m_tickled := true,
        frontCalls := tm.frontCalls + 1 } := by
      show (if (decide ((setInsert tm.heap tm.m_timers timer).2 = 0) && !tm.m_tickled) = true
        then _ else _) = _
      rw [if_pos hb]
    rw [heq]
    exact ⟨⟨fun _ => h, fun _ => rfl⟩, fun _ => rfl, fun hn => absurd h hn, rfl⟩
  · have hb : ¬ ((decide ((setInsert tm.heap tm.m_timers timer).2 = 0) && !tm.m_tickled)
        = true) := by
      cases ht : tm.m_tickled
      · have : ¬ (setInsert tm.heap tm.m_timers timer).2 = 0 := fun e => h ⟨e, ht⟩
        simp [this]
      · simp
    have heq : addTimerPtr tm timer = { tm with
        m_timers := (setInsert tm.heap tm.m_timers timer).1 } := by
      show (if (decide ((setInsert tm.heap tm.m_timers timer).2 = 0) && !tm.m_tickled) = true
        then _ else _) = _
      rw [if_neg hb]
    rw [heq]
    refine ⟨⟨fun e => ?_, fun e => absurd e h⟩, fun e => ?_, fun _ => ⟨rfl, rfl⟩, rfl⟩
    · exact absurd e (by simp)
    · exact absurd e (by simp)

theorem sf_of_eq {tm tm1 : TimerManager} (h1 : tm1.m_tickled = tm.m_tickled)
    (h2 : tm1.frontCalls = tm.frontCalls) : SingleFlight tm tm1 := by
  unfold SingleFlight
  rw [h1, h2]
  exact ⟨le_refl _, le_refl _, fun h => h⟩

theorem sf_trans {a b c : TimerManager} (h1 : SingleFlight a b) (h2 : SingleFlight b c) :
    SingleFlight a c :=
  ⟨le_trans h1.1 h2.1, le_trans h2.2.1 h1.2.1, fun h => h2.2.2 (h1.2.2 h)⟩

theorem sf_addTimerPtr (tm0 tm : TimerManager) (timer : Nat)
    (h1 : tm.m_tickled = tm0.m_tickled) (h2 : tm.frontCalls = tm0.frontCalls) :
    SingleFlight tm0 (addTimerPtr tm timer) := by
  apply sf_trans (sf_of_eq h1 h2)
  obtain ⟨hiff, hset, hkeep, _⟩ := addTimerPtr_flags tm timer
  by_cases h : (setInsert tm.heap tm.m_timers timer).2 = 0 ∧ tm.m_tickled = false
  · have hf := hiff.mpr h
    have ht := hset hf
    unfold SingleFlight
    rw [hf, ht, h.2]
    simp
  · obtain ⟨hf, ht⟩ := hkeep h
    exact sf_of_eq ht hf

theorem cancel_flags {tm tm1 : TimerManager} {t : Nat} {r : Bool}
    (h : Timer.cancel tm t = some (r, tm1)) :
    tm1.m_tickled = tm.m_tickled ∧ tm1.frontCalls = tm.frontCalls := by
  unfold Timer.cancel at h
  cases hx : tm.heap[t]? with
  | none => simp [hx] at h
  | some self =>
    simp only [hx] at h
    split at h
    · cases h; exact ⟨rfl, rfl⟩
    · split at h
      · cases h; exact ⟨rfl, rfl⟩
      · cases h; exact ⟨rfl, rfl⟩

theorem refresh_flags {tm tm1 : TimerManager} {t : Nat} {now : Int} {r : Bool}
    (h : Timer.refresh tm t now = some (r, tm1)) :
    tm1.m_tickled = tm.m_tickled ∧ tm1.frontCalls = tm.frontCalls := by
  unfold Timer.refresh at h
  cases hx : tm.heap[t]? with
  | none => simp [hx] at h
  | some self =>
    simp only [hx] at h
    split at h
    · cases h; exact ⟨rfl, rfl⟩
    · split at h
      · cases h; exact ⟨rfl, rfl⟩
      · cases h; exact ⟨rfl, rfl⟩

theorem sf_reset {tm tm1 : TimerManager} {t ms : Nat} {from_now : Bool} {now : Int} {r : Bool}
    (h : Timer.reset tm t ms from_now now = some (r, tm1)) : SingleFlight tm tm1 := by
  unfold Timer.reset at h
  cases hx : tm.heap[t]? with
  | none => simp [hx] at h
  | some self =>
    simp only [hx] at h
    split at h
    · cases h; exact sf_of_eq rfl rfl
    · split at h
      · cases h; exact sf_of_eq rfl rfl
      · split at h
        · cases h; exact sf_of_eq rfl rfl
        · cases h
          exact sf_addTimerPtr tm _ t rfl rfl

theorem expireStep_flags {now : Int} {rollover : Bool} {d d1 : Drain}
    (h : expireStep now rollover d = some d1) :
    d1.tm.m_tickled = d.tm.m_tickled ∧ d1.tm.frontCalls = d.tm.frontCalls := by
  unfold expireStep at h
  split at h
  · cases h
  · split at h
    · dsimp only at h
      split at h
      · cases h; exact ⟨rfl, rfl⟩
      · cases h; exact ⟨rfl, rfl⟩
    · cases h

theorem expireIter_flags (now : Int) (rollover : Bool) (n : Nat) (d : Drain) :
    (expireIter now rollover n d).tm.m_tickled = d.tm.m_tickled ∧
    (expireIter now rollover n d).tm.frontCalls = d.tm.frontCalls := by
  induction n generalizing d with
  | zero => exact ⟨rfl, rfl⟩
  | succ n ih =>
    unfold expireIter
    cases hs : expireStep now rollover d with
    | none => exact ⟨rfl, rfl⟩
    | some d1 =>
      simp only
      obtain ⟨h1, h2⟩ := expireStep_flags hs
      obtain ⟨h3, h4⟩ := ih d1
      exact ⟨h3.trans h1, h4.trans h2⟩

/-- No call other than `getNextTimer` clears `m_tickled`, and each calls
`onTimerInsertedAtFront` at most once and only with the flag clear. -/
theorem sf_timerStep {tm tm1 : TimerManager} {op : TimerOp} {f : List Nat}
    (hop : op.isGetNextTimer = false) (h : timerStep tm op = some (tm1, f)) :
    SingleFlight tm tm1 := by
  cases op with
  | addTimer ms cb recurring now =>
    simp only [timerStep, Option.some.injEq, Prod.mk.injEq] at h
    rw [← h.1]
    exact sf_addTimerPtr tm _ _ rfl rfl
  | cancel t =>
    simp only [timerStep, Option.map_eq_some', Prod.mk.injEq] at h
    obtain ⟨r, hr, h1, _⟩ := h
    obtain ⟨a, b⟩ := cancel_flags (show Timer.cancel tm t = some (r.1, r.2) from hr)
    rw [← h1]
    exact sf_of_eq a b
  | refresh t now =>
    simp only [timerStep, Option.map_eq_some', Prod.mk.injEq] at h
    obtain ⟨r, hr, h1, _⟩ := h
    obtain ⟨a, b⟩ := refresh_flags (show Timer.refresh tm t now = some (r.1, r.2) from hr)
    rw [← h1]
    exact sf_of_eq a b
  | reset t ms from_now now =>
    simp only [timerStep, Option.map_eq_some', Prod.mk.injEq] at h
    obtain ⟨r, hr, h1, _⟩ := h
    rw [← h1]
    exact sf_reset (show Timer.reset tm t ms from_now now = some (r.1, r.2) from hr)
  | getNextTimer now => cases hop
  | listExpiredCb now now1 n =>
    simp only [timerStep, Option.some.injEq, Prod.mk.injEq] at h
    rw [← h.1]
    obtain ⟨a, b⟩ := expireIter_flags now (detectClockRollover tm now1).1 n (drainStart tm [] now1)
    exact sf_of_eq a b

theorem sf_timerRun {tm tm1 : TimerManager} {ops : List TimerOp} {f : List Nat}
    (hops : ∀ op ∈ ops, op.isGetNextTimer = false) (h : timerRun tm ops = some (tm1, f)) :
    SingleFlight tm tm1 := by
  induction ops generalizing tm f with
  | nil =>
    simp only [timerRun, Option.some.injEq, Prod.mk.injEq] at h
    rw [← h.1]
    exact sf_of_eq rfl rfl
  | cons op ops ih =>
    unfold timerRun at h
    cases hs : timerStep tm op with
    | none => simp [hs] at h
    | some r =>
      obtain ⟨tm2, f2⟩ := r
      simp only [hs] at h
      cases hr : timerRun tm2 ops with
      | none => simp [hr] at h
      | some r2 =>
        obtain ⟨tm3, f3⟩ := r2
        simp only [hr, Option.some.injEq, Prod.mk.injEq] at h
        obtain ⟨h1, _⟩ := h
        subst h1
        exact sf_trans (sf_timerStep (hops op (List.mem_cons_self _ _)) hs)
          (ih (fun o ho => hops o (List.mem_cons_of_mem _ ho)) hr)

/-- The call `addTimer(ms, cb, recurring)` on a well-formed set calls
`onTimerInsertedAtFront` exactly when no timer of the set has a deadline before
the new one and `m_tickled` is clear. -/
theorem addTimer_front (tm : TimerManager) (hwf : tm.WellFormed) (ms : Nat) (cb : Option Nat)
    (recurring : Bool) (now : Int) :
    ((addTimer tm ms cb recurring now).2.frontCalls = tm.frontCalls + 1 ↔
      ((∀ x ∈ tm.m_timers, now + msToTicks ms ≤ (timerAt tm.heap x).m_next) ∧
        tm.m_tickled = false)) ∧
    ((addTimer tm ms cb recurring now).2.frontCalls = tm.frontCalls + 1 →
      (addTimer tm ms cb recurring now).2.m_tickled = true) ∧
    (¬ ((∀ x ∈ tm.m_timers, now + msToTicks ms ≤ (timerAt tm.heap x).m_next) ∧
        tm.m_tickled = false) →
      (addTimer tm ms cb recurring now).2.frontCalls = tm.frontCalls ∧
      (addTimer tm ms cb recurring now).2.m_tickled = tm.m_tickled) := by
  obtain ⟨obj, hobj⟩ : ∃ obj : Timer, obj =
      { m_recurring := recurring, m_ms := ms, m_next := now + msToTicks ms, m_cb := cb } :=
    ⟨_, rfl⟩
  obtain ⟨tm0, htm0⟩ : ∃ tm0 : TimerManager, tm0 = { tm with heap := tm.heap ++ [obj] } :=
    ⟨_, rfl⟩
  have hadd : (addTimer tm ms cb recurring now).2 = addTimerPtr tm0 tm.heap.length := by
    rw [htm0, hobj]
    rfl
  have hold : ∀ x ∈ tm.m_timers, timerAt tm0.heap x = timerAt tm.heap x := by
    intro x hx
    rw [htm0]
    exact timerAt_append_left _ (hwf.2 x hx)
  have hnew : (timerAt tm0.heap tm.heap.length).m_next = now + msToTicks ms := by
    rw [htm0, hobj]
    simp [timerAt, List.getD_eq_getElem?_getD]
  have hsorted : tm0.m_timers.Pairwise
      fun a b => (timerAt tm0.heap a).m_next < (timerAt tm0.heap b).m_next := by
    have h1 : tm0.m_timers = tm.m_timers := by rw [htm0]
    rw [h1]
    exact sorted_heap_congr_mem (fun x hx => by rw [hold x hx]) hwf.1
  have hfront : (setInsert tm0.heap tm0.m_timers tm.heap.length).2 = 0 ↔
      ∀ x ∈ tm.m_timers, now + msToTicks ms ≤ (timerAt tm.heap x).m_next := by
    rw [setInsert_front, head_le_iff _ hsorted, hnew]
    have h1 : tm0.m_timers = tm.m_timers := by rw [htm0]
    rw [h1]
    constructor
    · intro h x hx
      rw [← hold x hx]
      exact h x hx
    · intro h x hx
      rw [hold x hx]
      exact h x hx
  have ht0 : tm0.m_tickled = tm.m_tickled := by rw [htm0]
  have hf0 : tm0.frontCalls = tm.frontCalls := by rw [htm0]
  obtain ⟨hiff, hset, hkeep, _⟩ := addTimerPtr_flags tm0 tm.heap.length
  rw [hadd]
  rw [hfront, ht0, hf0] at hiff
  rw [hf0] at hset
  rw [hfront, ht0, hf0] at hkeep
  exact ⟨hiff, hset, hkeep⟩

/-- On a well-formed timer set, `addTimer` calls `onTimerInsertedAtFront` if
and only if no timer of the set has a deadline before the new timer's (the
iterator returned by `insert` is `begin()`, also when the new timer is dropped
at a deadline equal to the head's) and `m_tickled` is clear, and then sets the
flag; `getNextTimer` clears the flag and no other call does. Hence in any
sequence of calls without `getNextTimer`, in particular between two consecutive
`getNextTimer` calls, the callback is called at most once, and not at all while
the flag is set. -/
theorem front_call_single_flight (tm : TimerManager) (hwf : tm.WellFormed) :
    (∀ ms cb recurring now,
      ((addTimer tm ms cb recurring now).2.frontCalls = tm.frontCalls + 1 ↔
        ((∀ x ∈ tm.m_timers, now + msToTicks ms ≤ (timerAt tm.heap x).m_next) ∧
          tm.m_tickled = false)) ∧
      ((addTimer tm ms cb recurring now).2.frontCalls = tm.frontCalls + 1 →
        (addTimer tm ms cb recurring now).2.m_tickled = true) ∧
      (¬ ((∀ x ∈ tm.m_timers, now + msToTicks ms ≤ (timerAt tm.heap x).m_next) ∧
          tm.m_tickled = false) →
        (addTimer tm ms cb recurring now).2.frontCalls = tm.frontCalls ∧
        (addTimer tm ms cb recurring now).2.m_tickled = tm.m_tickled)) ∧
    (∀ now, (getNextTimer tm now).2.m_tickled = false ∧
      (getNextTimer tm now).2.frontCalls = tm.frontCalls) ∧
    (∀ ops tm1 f, (∀ op ∈ ops, op.isGetNextTimer = false) → timerRun tm ops = some (tm1, f) →
      (tm.m_tickled = true → tm1.m_tickled = true ∧ tm1.frontCalls = tm.frontCalls) ∧
      tm.frontCalls ≤ tm1.frontCalls ∧ tm1.frontCalls ≤ tm.frontCalls + 1) ∧
    (∀ now ops tm1 f, (∀ op ∈ ops, op.isGetNextTimer = false) →
      timerRun (getNextTimer tm now).2 ops = some (tm1, f) →
      tm.frontCalls ≤ tm1.frontCalls ∧ tm1.frontCalls ≤ tm.frontCalls + 1) := by
  have hget : ∀ now, (getNextTimer tm now).2.m_tickled = false ∧
      (getNextTimer tm now).2.frontCalls = tm.frontCalls := by
    intro now
    unfold getNextTimer
    split
    · exact ⟨rfl, rfl⟩
    · dsimp only
      split <;> exact ⟨rfl, rfl⟩
  have hrun : ∀ (tm0 : TimerManager) ops tm1 f, (∀ op ∈ ops, op.isGetNextTimer = false) →
      timerRun tm0 ops = some (tm1, f) →
      (tm0.m_tickled = true → tm1.m_tickled = true ∧ tm1.frontCalls = tm0.frontCalls) ∧
      tm0.frontCalls ≤ tm1.frontCalls ∧ tm1.frontCalls ≤ tm0.frontCalls + 1 := by
    intro tm0 ops tm1 f hops h
    obtain ⟨h1, h2, h3⟩ := sf_timerRun hops h
    refine ⟨?_, h1, ?_⟩
    · intro ht
      have ht1 := h3 ht
      rw [ht, ht1] at h2
      simp only [↓reduceIte, add_zero] at h2
      exact ⟨ht1, le_antisymm h2 h1⟩
    · have h4 : tm0.frontCalls + (if tm0.m_tickled = true then 0 else 1) ≤ tm0.frontCalls + 1 := by
        split <;> omega
      have h5 : tm1.frontCalls ≤ tm1.frontCalls + (if tm1.m_tickled = true then 0 else 1) := by
        omega
      omega
  refine ⟨fun ms cb recurring now => addTimer_front tm hwf ms cb recurring now, hget,
    hrun tm, ?_⟩
  intro now ops tm1 f hops h
  obtain ⟨_, h1, h2⟩ := hrun _ ops tm1 f hops h
  rw [(hget now).2] at h1 h2
  exact ⟨h1, h2⟩

/-- The single flight on `sampleTimers`, whose flag is set by the first
insertion. -/
theorem front_call_single_flight_witness :
    sampleTimers.WellFormed ∧
    (sampleTimers.m_tickled = true ∧ sampleTimers.frontCalls = 1) ∧
    (
    (∀ ms cb recurring now,
      ((addTimer sampleTimers ms cb recurring now).2.frontCalls = sampleTimers.frontCalls + 1 ↔
        ((∀ x ∈ sampleTimers.m_timers, now + msToTicks ms ≤ (timerAt sampleTimers.heap x).m_next) ∧
          sampleTimers.m_tickled = false)) ∧
      ((addTimer sampleTimers ms cb recurring now).2.frontCalls = sampleTimers.frontCalls + 1 →
        (addTimer sampleTimers ms cb recurring now).2.m_tickled = true) ∧
      (¬ ((∀ x ∈ sampleTimers.m_timers, now + msToTicks ms ≤ (timerAt sampleTimers.heap x).m_next) ∧
          sampleTimers.m_tickled = false) →
        (addTimer sampleTimers ms cb recurring now).2.frontCalls = sampleTimers.frontCalls ∧
        (addTimer sampleTimers ms cb recurring now).2.m_tickled = sampleTimers.m_tickled)) ∧
    (∀ now, (getNextTimer sampleTimers now).2.m_tickled = false ∧
      (getNextTimer sampleTimers now).2.frontCalls = sampleTimers.frontCalls) ∧
    (∀ ops tm1 f, (∀ op ∈ ops, op.isGetNextTimer = false) → timerRun sampleTimers ops = some (tm1, f) →
      (sampleTimers.m_tickled = true → tm1.m_tickled = true ∧ tm1.frontCalls = sampleTimers.frontCalls) ∧
      sampleTimers.frontCalls ≤ tm1.frontCalls ∧ tm1.frontCalls ≤ sampleTimers.frontCalls + 1) ∧
    (∀ now ops tm1 f, (∀ op ∈ ops, op.isGetNextTimer = false) →
      timerRun (getNextTimer sampleTimers now).2 ops = some (tm1, f) →
      sampleTimers.frontCalls ≤ tm1.frontCalls ∧ tm1.frontCalls ≤ sampleTimers.frontCalls + 1)) :=
  ⟨⟨by decide, by decide⟩, by decide,
    front_call_single_flight sampleTimers ⟨by decide, by decide⟩⟩

/-- C25: in `polledTimers` the set holds timer 0 and `m_tickled` is clear.
`addTimer(5, cb 2)` at the same clock value constructs timer 1 with the deadline
of timer 0; `insert` finds timer 0 equivalent, inserts nothing and returns
`begin()`, so `onTimerInsertedAtFront` is called and `m_tickled` is set although
timer 1 is not in the set, let alone the earliest in it. -/
theorem front_call_for_dropped_timer :
    polledTimers.m_timers = [0] ∧ polledTimers.m_tickled = false ∧
    polledTimers.frontCalls = 1 ∧
    (addTimer polledTimers 5 (some 2) false 0).1 = 1 ∧
    (timerAt (addTimer polledTimers 5 (some 2) false 0).2.heap 1).m_next
      = (timerAt (addTimer polledTimers 5 (some 2) false 0).2.heap 0).m_next ∧
    (addTimer polledTimers 5 (some 2) false 0).2.m_timers = [0] ∧
    1 ∉ (addTimer polledTimers 5 (some 2) false 0).2.m_timers ∧
    (addTimer polledTimers 5 (some 2) false 0).2.frontCalls = 2 ∧
    (addTimer polledTimers 5 (some 2) false 0).2.m_tickled = true := by
  refine ⟨?_, ?_, ?_, ?_, ?_, ?_, ?_, ?_, ?_⟩ <;> decide

/-! ## Populated contexts and the kernel's interest list -/

theorem event_eq_or_other (e event : Event) : event = e ∨ event = e.other := by
  cases e <;> cases event <;> simp [Event.other]

theorem popOk_fresh (i : Int) : PopOk { fd := i } := by
  intro event
  cases event <;> exact ⟨fun h => absurd (Nat.zero_and _) h, fun _ => rfl⟩

theorem or_other_bit {m : Nat} (h : ValidMask m) (e : Event) :
    (m ||| e.toNat) &&& e.other.toNat = m &&& e.other.toNat := by
  rcases h with h | h | h | h <;> subst h <;> cases e <;> decide

theorem andNot_self_bit {m : Nat} (h : ValidMask m) (e : Event) :
    andNot m e.toNat &&& e.toNat = 0 := by
  rcases h with h | h | h | h <;> subst h <;> cases e <;> decide

/-- Clearing a direction and resetting its `EventContext` keeps `PopOk`. -/
theorem popOk_clear {c : FdContext} (hv : ValidMask c.events) (hp : PopOk c) (e : Event) :
    PopOk (({ c with events := andNot c.events e.toNat } : FdContext).setEventContext e {}) := by
  intro event
  rcases event_eq_or_other e event with h | h
  · subst h
    rw [setEventContext_events, getEventContext_set_same]
    refine ⟨fun hb => absurd (andNot_self_bit hv event) hb, fun _ => rfl⟩
  · subst h
    rw [setEventContext_events, getEventContext_set_other]
    show (andNot c.events e.toNat &&& e.other.toNat ≠ 0 → _) ∧
      (andNot c.events e.toNat &&& e.other.toNat = 0 → _)
    rw [validMask_other hv e]
    cases e <;> exact hp _

/-- Setting a direction and storing a populated `EventContext` keeps `PopOk`. -/
theorem popOk_add {c : FdContext} (hv : ValidMask c.events) (hp : PopOk c) (e : Event)
    (ctx : EventContext) (hctx : Populated ctx) :
    PopOk (({ c with events := c.events ||| e.toNat } : FdContext).setEventContext e ctx) := by
  intro event
  rcases event_eq_or_other e event with h | h
  · subst h
    rw [setEventContext_events, getEventContext_set_same]
    exact ⟨fun _ => hctx, fun hb => absurd hb (or_and_self_ne_zero c.events event)⟩
  · subst h
    rw [setEventContext_events, getEventContext_set_other]
    show ((c.events ||| e.toNat) &&& e.other.toNat ≠ 0 → _) ∧
      ((c.events ||| e.toNat) &&& e.other.toNat = 0 → _)
    rw [or_other_bit hv e]
    cases e <;> exact hp _

/-- What one conditional firing does to the context. -/
theorem fireIf_effect {m : Nat} {e : Event} {c c1 : FdContext} {p p1 : Nat}
    {l l1 : List Scheduled} (h : fireIf m e (c, p, l) = some (c1, p1, l1)) :
    (m &&& e.toNat = 0 ∧ c1 = c) ∨
    (m &&& e.toNat ≠ 0 ∧
      c1 = ({ c with events := andNot c.events e.toNat } : FdContext).setEventContext e {}) := by
  unfold fireIf at h
  by_cases hm : m &&& e.toNat ≠ 0
  · rw [if_pos hm] at h
    cases ht : c.triggerEvent e with
    | none => simp [ht] at h
    | some ct =>
      obtain ⟨c2, t⟩ := ct
      simp only [ht, Option.some.injEq, Prod.mk.injEq] at h
      obtain ⟨_, _, hc2, _⟩ := triggerEvent_some ht
      right
      exact ⟨hm, by rw [← h.1, hc2]⟩
  · rw [if_neg hm] at h
    simp only [Option.some.injEq, Prod.mk.injEq] at h
    left
    exact ⟨not_not.mp hm, h.1.symm⟩

theorem clear_twice {r m : Nat} (hr : ValidMask r) (hm : ValidMask m) :
    (if m &&& Event.WRITE.toNat = 0 then (if m &&& Event.READ.toNat = 0 then r
        else andNot r Event.READ.toNat)
      else andNot (if m &&& Event.READ.toNat = 0 then r else andNot r Event.READ.toNat)
        Event.WRITE.toNat) = andNot r m := by
  rcases hr with hr | hr | hr | hr <;> rcases hm with hm | hm | hm | hm <;> subst hr hm <;>
    decide

/-- Two conditional firings in a row (`READ`, then `WRITE`) with the mask `m`:
`PopOk` is kept and the mask loses the directions of `m`. -/
theorem fire_twice_effect {m : Nat} {c : FdContext} {p : Nat} {l : List Scheduled}
    {st1 st2 : FdContext × Nat × List Scheduled} (hv : ValidMask c.events) (hm : ValidMask m)
    (hp : PopOk c) (h1 : fireIf m .READ (c, p, l) = some st1)
    (h2 : fireIf m .WRITE st1 = some st2) :
    PopOk st2.1 ∧ st2.1.events = andNot c.events m := by
  obtain ⟨c1, p1, l1⟩ := st1
  obtain ⟨c2, p2, l2⟩ := st2
  have e1 := fireIf_effect h1
  have e2 := fireIf_effect h2
  have hv1 : ValidMask c1.events ∧ PopOk c1 ∧
      c1.events = (if m &&& Event.READ.toNat = 0 then c.events
        else andNot c.events Event.READ.toNat) := by
    rcases e1 with ⟨a, b⟩ | ⟨a, b⟩
    · rw [b, if_pos a]
      exact ⟨hv, hp, rfl⟩
    · rw [b, if_neg a, setEventContext_events]
      refine ⟨?_, popOk_clear hv hp .READ, rfl⟩
      rcases validMask_cases hv .READ with hc | hc
      · show ValidMask (andNot c.events Event.READ.toNat)
        rw [hc.2.2.2]
        exact hv
      · exact hc.2.2.1
  obtain ⟨hv1a, hp1, he1⟩ := hv1
  have hfin : PopOk c2 ∧ c2.events = (if m &&& Event.WRITE.toNat = 0 then c1.events
      else andNot c1.events Event.WRITE.toNat) := by
    rcases e2 with ⟨a, b⟩ | ⟨a, b⟩
    · rw [b, if_pos a]
      exact ⟨hp1, rfl⟩
    · rw [b, if_neg a, setEventContext_events]
      exact ⟨popOk_clear hv1a hp1 .WRITE, rfl⟩
  refine ⟨hfin.1, ?_⟩
  show c2.events = _
  rw [hfin.2, he1]
  exact clear_twice hv hm

theorem epoll_ctl_clear (k : Nat → Option Nat) (fd new : Nat) :
    (epoll_ctl k (if new ≠ 0 then EPOLL_CTL_MOD else EPOLL_CTL_DEL) fd (EPOLLET ||| new) true).2
      = fun x => if x = fd then kernelOf new else k x := by
  funext x
  by_cases hx : x = fd
  · by_cases hn : new = 0
    · simp [epoll_ctl, kernelOf, hx, hn]
    · simp [epoll_ctl, kernelOf, hx, hn, EPOLL_CTL_MOD, EPOLL_CTL_DEL]
  · simp [epoll_ctl, hx]

theorem epoll_ctl_add (k : Nat → Option Nat) (fd old : Nat) (e : Event) :
    (epoll_ctl k (if old ≠ 0 then EPOLL_CTL_MOD else EPOLL_CTL_ADD) fd
        (EPOLLET ||| old ||| e.toNat) true).2
      = fun x => if x = fd then kernelOf (old ||| e.toNat) else k x := by
  have hne : old ||| e.toNat ≠ 0 := by
    intro h
    have h1 := or_and_self_ne_zero old e
    rw [h] at h1
    exact h1 (Nat.zero_and _)
  funext x
  by_cases hx : x = fd
  · by_cases hn : old = 0
    · simp [epoll_ctl, kernelOf, hx, hn, hne, EPOLL_CTL_ADD, EPOLL_CTL_DEL, Nat.lor_assoc]
      intro h
      rw [hn] at hne
      exact absurd (by simpa using h) (by simpa using hne)
    · simp [epoll_ctl, kernelOf, hx, hn, hne, EPOLL_CTL_MOD, EPOLL_CTL_DEL, Nat.lor_assoc]
  · simp [epoll_ctl, hx]

theorem epoll_ctl_del (k : Nat → Option Nat) (fd : Nat) :
    (epoll_ctl k EPOLL_CTL_DEL fd 0 true).2 = fun x => if x = fd then kernelOf 0 else k x := by
  funext x
  by_cases hx : x = fd
  · simp [epoll_ctl, kernelOf, hx]
  · simp [epoll_ctl, hx]

theorem good_same {tickleFd : Nat} {s s1 : IOManager} (hg : Good tickleFd s)
    (htbl : s1.m_fdContexts = s.m_fdContexts) (hint : s1.interest = s.interest) :
    Good tickleFd s1 := by
  refine ⟨?_, ?_⟩
  · intro i c hc
    rw [htbl] at hc
    exact hg.1 i c hc
  · intro fd hfd
    have : ctxOf s1 fd = ctxOf s fd := by
      unfold ctxOf
      rw [htbl]
    rw [hint, this]
    exact hg.2 fd hfd

theorem good_set {tickleFd : Nat} {s s1 : IOManager} (hg : Good tickleFd s) {i : Nat}
    (hi : i < s.m_fdContexts.length) {c1 : FdContext} (hp : PopOk c1)
    (htbl : s1.m_fdContexts = s.m_fdContexts.set i (some c1))
    (hint : s1.interest = fun x => if x = i then kernelOf c1.events else s.interest x) :
    Good tickleFd s1 := by
  refine ⟨?_, ?_⟩
  · intro j c hc
    rw [htbl, List.getElem?_set] at hc
    by_cases hij : i = j
    · rw [if_pos hij, if_pos hi] at hc
      have : c1 = c := by simpa using hc
      rw [← this]
      exact hp
    · rw [if_neg hij] at hc
      exact hg.1 j c hc
  · intro fd hfd
    rw [hint]
    by_cases hx : fd = i
    · subst hx
      rw [ctxOf_set hi htbl]
      simp
    · rw [ctxOf_set_ne (s := s) (fun e => hx e.symm) htbl]
      simp only [hx, ↓reduceIte]
      exact hg.2 fd hfd

theorem good_grown {tickleFd : Nat} {s s1 : IOManager} (h : Inv s) (hg : Good tickleFd s)
    (fd : Nat) (htbl : s1.m_fdContexts = grown s fd) (hint : s1.interest = s.interest) :
    Good tickleFd s1 := by
  refine ⟨?_, ?_⟩
  · intro i c hc
    rw [htbl] at hc
    by_cases hi : i < s.m_fdContexts.length
    · rw [getElem?_grown_old h fd hi] at hc
      exact hg.1 i c hc
    · have hige : s.m_fdContexts.length ≤ i := Nat.le_of_not_lt hi
      have hlt : i < (grown s fd).length := (List.getElem?_eq_some.mp hc).1
      rw [length_grown h fd] at hlt
      by_cases hfdlt : fd < s.m_fdContexts.length
      · rw [if_pos hfdlt] at hlt
        omega
      · rw [if_neg hfdlt] at hlt
        rw [getElem?_grown_new h (Nat.le_of_not_lt hfdlt) hige hlt] at hc
        have : ({ fd := (i : Int) } : FdContext) = c := by simpa using hc
        rw [← this]
        exact popOk_fresh _
  · intro x hx
    rw [hint, ctxOf_grown h htbl x]
    exact hg.2 x hx

theorem good_init (tickleFd : Nat) : Good tickleFd (IOManager.init tickleFd) := by
  have hpop : ∀ (i : Nat) (c : FdContext),
      (IOManager.init tickleFd).m_fdContexts[i]? = some (some c) → c = { fd := (i : Int) } := by
    intro i c hc
    have htbl : (IOManager.init tickleFd).m_fdContexts
        = ([] : List (Option FdContext)) ++ (List.range (32 - 0)).map
            fun k => some ({ fd := ((0 + k : Nat) : Int) } : FdContext) :=
      contextResize_grow (fun i hi => absurd hi (Nat.not_lt_zero _)) (Nat.zero_le _)
    rw [htbl] at hc
    simp only [List.nil_append, Nat.sub_zero, List.getElem?_map, Option.map_eq_some'] at hc
    obtain ⟨k, hk, hc⟩ := hc
    have hki : k = i := by
      have := (List.getElem?_eq_some.mp hk)
      obtain ⟨hlt, hget⟩ := this
      simpa using hget.symm
    subst hki
    simp only [zero_add, Option.some.injEq] at hc
    exact hc.symm
  refine ⟨?_, ?_⟩
  · intro i c hc
    rw [hpop i c hc]
    exact popOk_fresh _
  · intro fd hfd
    have hint : (IOManager.init tickleFd).interest fd = none := by
      simp [IOManager.init, epoll_ctl, hfd]
    have hev : (ctxOf (IOManager.init tickleFd) fd).events = 0 := by
      unfold ctxOf fdCtxAt
      cases hx : (IOManager.init tickleFd).m_fdContexts[fd]? with
      | none => rfl
      | some o =>
        cases o with
        | none => rfl
        | some c =>
          rw [hpop fd c hx]
          rfl
    rw [hint, hev]
    rfl

theorem good_addEvent {tickleFd : Nat} {s s1 : IOManager} {fd : Nat} {event : Event}
    {cb cur : Option Nat} {curFiber : Nat} {ok : Bool} {r : Int} (h : Inv s)
    (hgood : Good tickleFd s) (hfd : fd * 3 / 2 < 2 ^ 31)
    (hr : addEvent s fd event cb cur curFiber ok = some (r, s1)) : Good tickleFd s1 := by
  obtain ⟨hg, hlt⟩ := inv_grown h hfd { s with m_fdContexts := grown s fd } rfl rfl
  have hgood0 : Good tickleFd { s with m_fdContexts := grown s fd } :=
    good_grown h hgood fd rfl rfl
  obtain ⟨c, hc, hcfd, hcm⟩ := slot_of_inv hg hlt
  have hc1 : (grown s fd)[fd]? = some (some c) := hc
  have hpc : PopOk c := hgood0.1 fd c hc
  unfold addEvent at hr
  simp only [fdCtxAt_of_slot hc1] at hr
  by_cases hbit : c.events &&& event.toNat ≠ 0
  · rw [if_pos hbit] at hr
    simp only [Option.some.injEq, Prod.mk.injEq] at hr
    rw [← hr.2]; exact hgood0
  · rw [if_neg hbit] at hr
    cases ok
    · simp only [epoll_ctl_fail, ne_eq, Int.reduceNeg, neg_eq_zero, one_ne_zero,
        not_false_eq_true, ↓reduceIte, Option.some.injEq, Prod.mk.injEq] at hr
      rw [← hr.2]
      exact good_grown h hgood fd rfl rfl
    · simp only [epoll_ctl_ok, ne_eq, not_true_eq_false, ↓reduceIte] at hr
      split at hr
      · simp at hr
      · simp only [Option.some.injEq, Prod.mk.injEq] at hr
        rw [← hr.2]
        refine good_set hgood0 hlt (popOk_add hcm hpc event _ ?_) rfl ?_
        · unfold Populated
          cases cb with
          | none => right; rfl
          | some f => left; rfl
        · rw [setEventContext_events]
          exact epoll_ctl_add s.interest fd c.events event

theorem good_delEvent {tickleFd : Nat} {s s1 : IOManager} {fd : Nat} {event : Event}
    {ok r : Bool} (h : Inv s) (hgood : Good tickleFd s)
    (hr : delEvent s fd event ok = some (r, s1)) : Good tickleFd s1 := by
  unfold delEvent at hr
  by_cases hlt : fd < s.m_fdContexts.length
  · rw [if_pos ((lookup_lt h fd).mpr hlt)] at hr
    obtain ⟨c, hc, hcfd, hcm⟩ := slot_of_inv h hlt
    have hpc : PopOk c := hgood.1 fd c hc
    simp only [fdCtxAt_of_slot hc] at hr
    by_cases hbit : c.events &&& event.toNat = 0
    · rw [if_pos hbit] at hr
      simp only [Option.some.injEq, Prod.mk.injEq] at hr
      rw [← hr.2]; exact hgood
    · rw [if_neg hbit] at hr
      cases ok
      · simp only [epoll_ctl_fail, ne_eq, Int.reduceNeg, neg_eq_zero, one_ne_zero,
          not_false_eq_true, ↓reduceIte, Option.some.injEq, Prod.mk.injEq] at hr
        rw [← hr.2]
        exact good_same hgood rfl rfl
      · simp only [epoll_ctl_ok, ne_eq, not_true_eq_false, ↓reduceIte, Option.some.injEq,
          Prod.mk.injEq] at hr
        rw [← hr.2]
        refine good_set hgood hlt (popOk_clear hcm hpc event) rfl ?_
        rw [setEventContext_events]
        exact epoll_ctl_clear s.interest fd (andNot c.events event.toNat)
  · rw [if_neg (fun hh => hlt ((lookup_lt h fd).mp hh))] at hr
    simp only [Option.some.injEq, Prod.mk.injEq] at hr
    rw [← hr.2]; exact hgood

theorem good_cancelEvent {tickleFd : Nat} {s s1 : IOManager} {fd : Nat} {event : Event}
    {ok r : Bool} (h : Inv s) (hgood : Good tickleFd s)
    (hr : cancelEvent s fd event ok = some (r, s1)) : Good tickleFd s1 := by
  unfold cancelEvent at hr
  by_cases hlt : fd < s.m_fdContexts.length
  · rw [if_pos ((lookup_lt h fd).mpr hlt)] at hr
    obtain ⟨c, hc, hcfd, hcm⟩ := slot_of_inv h hlt
    have hpc : PopOk c := hgood.1 fd c hc
    simp only [fdCtxAt_of_slot hc] at hr
    by_cases hbit : c.events &&& event.toNat = 0
    · rw [if_pos hbit] at hr
      simp only [Option.some.injEq, Prod.mk.injEq] at hr
      rw [← hr.2]; exact hgood
    · rw [if_neg hbit] at hr
      cases ok
      · simp only [epoll_ctl_fail, ne_eq, Int.reduceNeg, neg_eq_zero, one_ne_zero,
          not_false_eq_true, ↓reduceIte, Option.some.injEq, Prod.mk.injEq] at hr
        rw [← hr.2]
        exact good_same hgood rfl rfl
      · simp only [epoll_ctl_ok, ne_eq, not_true_eq_false, ↓reduceIte] at hr
        cases ht : c.triggerEvent event with
        | none => simp [ht] at hr
        | some ct =>
          obtain ⟨c2, t⟩ := ct
          simp only [ht, Option.some.injEq, Prod.mk.injEq] at hr
          rw [← hr.2]
          obtain ⟨_, _, hc2, _⟩ := triggerEvent_some ht
          refine good_set hgood hlt (show PopOk c2 from ?_) rfl ?_
          · rw [hc2]
            exact popOk_clear hcm hpc event
          · rw [hc2, setEventContext_events]
            exact epoll_ctl_clear s.interest fd (andNot c.events event.toNat)
  · rw [if_neg (fun hh => hlt ((lookup_lt h fd).mp hh))] at hr
    simp only [Option.some.injEq, Prod.mk.injEq] at hr
    rw [← hr.2]; exact hgood

theorem good_cancelAll {tickleFd : Nat} {s s1 : IOManager} {fd : Nat} {ok r : Bool}
    (h : Inv s) (hgood : Good tickleFd s) (hr : cancelAll s fd ok = some (r, s1)) :
    Good tickleFd s1 := by
  unfold cancelAll at hr
  by_cases hlt : fd < s.m_fdContexts.length
  · rw [if_pos ((lookup_lt h fd).mpr hlt)] at hr
    obtain ⟨c, hc, hcfd, hcm⟩ := slot_of_inv h hlt
    have hpc : PopOk c := hgood.1 fd c hc
    simp only [fdCtxAt_of_slot hc] at hr
    by_cases hz : c.events = 0
    · rw [if_pos hz] at hr
      simp only [Option.some.injEq, Prod.mk.injEq] at hr
      rw [← hr.2]; exact hgood
    · rw [if_neg hz] at hr
      cases ok
      · simp only [epoll_ctl_fail, ne_eq, Int.reduceNeg, neg_eq_zero, one_ne_zero,
          not_false_eq_true, ↓reduceIte, Option.some.injEq, Prod.mk.injEq] at hr
        rw [← hr.2]
        exact good_same hgood rfl rfl
      · simp only [epoll_ctl_ok, ne_eq, not_true_eq_false, ↓reduceIte] at hr
        cases h1 : fireIf c.events .READ (c, s.m_pendingEventCount, s.scheduled) with
        | none => simp [h1] at hr
        | some st1 =>
          simp only [h1] at hr
          cases h2 : fireIf st1.1.events .WRITE st1 with
          | none => simp [h2] at hr
          | some st2 =>
            simp only [h2] at hr
            split at hr
            · simp at hr
            · rename_i hzero
              simp only [Option.some.injEq, Prod.mk.injEq] at hr
              rw [← hr.2]
              have hz2 : st2.1.events = 0 := by simpa using hzero
              have hp2 : PopOk st2.1 := by
                obtain ⟨c1, p1, l1⟩ := st1
                obtain ⟨c2, p2, l2⟩ := st2
                have hv1 : ValidMask c1.events ∧ PopOk c1 := by
                  rcases fireIf_effect h1 with ⟨_, b⟩ | ⟨_, b⟩
                  · rw [b]; exact ⟨hcm, hpc⟩
                  · rw [b, setEventContext_events]
                    refine ⟨?_, popOk_clear hcm hpc .READ⟩
                    rcases validMask_cases hcm .READ with hv | hv
                    · show ValidMask (andNot c.events Event.READ.toNat)
                      rw [hv.2.2.2]; exact hcm
                    · exact hv.2.2.1
                rcases fireIf_effect h2 with ⟨_, b⟩ | ⟨_, b⟩
                · show PopOk c2
                  rw [b]; exact hv1.2
                · show PopOk c2
                  rw [b]
                  exact popOk_clear hv1.1 hv1.2 .WRITE
              refine good_set hgood hlt hp2 rfl ?_
              rw [hz2]
              exact epoll_ctl_del s.interest fd
  · rw [if_neg (fun hh => hlt ((lookup_lt h fd).mp hh))] at hr
    simp only [Option.some.injEq, Prod.mk.injEq] at hr
    rw [← hr.2]; exact hgood

theorem good_idleDispatch {tickleFd : Nat} {s s1 : IOManager} {idx ready : Nat} {ok : Bool}
    (h : Inv s) (hgood : Good tickleFd s) (hr : idleDispatch s idx ready ok = some s1) :
    Good tickleFd s1 := by
  unfold idleDispatch at hr
  cases hx : fdCtxAt s.m_fdContexts idx with
  | none => simp [hx] at hr
  | some c =>
    have hc : s.m_fdContexts[idx]? = some (some c) := slot_of_fdCtxAt hx
    have hlt : idx < s.m_fdContexts.length := (List.getElem?_eq_some.mp hc).1
    obtain ⟨c0, hc0, hfd0, hcm⟩ := slot_of_inv h hlt
    rw [hc] at hc0
    have hcc : c0 = c := by simpa using hc0.symm
    subst hcc
    have hpc : PopOk c0 := hgood.1 idx c0 hc
    have hfdnat : c0.fd.toNat = idx := by rw [hfd0]; rfl
    simp only [hx] at hr
    by_cases hnone : c0.events &&& realEvents ready c0.events = NONE
    · rw [if_pos hnone] at hr
      simp only [Option.some.injEq] at hr
      rw [← hr]; exact hgood
    · rw [if_neg hnone] at hr
      cases ok
      · simp only [epoll_ctl_fail, ne_eq, Int.reduceNeg, neg_eq_zero, one_ne_zero,
          not_false_eq_true, ↓reduceIte, Option.some.injEq] at hr
        rw [← hr]
        exact good_same hgood rfl rfl
      · simp only [epoll_ctl_ok, ne_eq, not_true_eq_false, ↓reduceIte] at hr
        cases h1 : fireIf (realEvents ready c0.events) .READ
            (c0, s.m_pendingEventCount, s.scheduled) with
        | none => simp [h1] at hr
        | some st1 =>
          simp only [h1] at hr
          cases h2 : fireIf (realEvents ready c0.events) .WRITE st1 with
          | none => simp [h2] at hr
          | some st2 =>
            simp only [h2, Option.some.injEq] at hr
            rw [← hr]
            obtain ⟨hp2, hev2⟩ := fire_twice_effect hcm (realEvents_valid ready c0.events) hpc
              h1 h2
            refine good_set hgood hlt hp2 rfl ?_
            rw [hev2, hfdnat]
            exact epoll_ctl_clear s.interest idx (andNot c0.events (realEvents ready c0.events))

theorem good_step {tickleFd : Nat} {s s1 : IOManager} {op : Op} (h : Inv s)
    (hgood : Good tickleFd s) (hop : op.inRange) (hs : step s op = some s1) :
    Good tickleFd s1 := by
  cases op with
  | addEvent fd event cb cur curFiber ok =>
    simp only [step, Option.map_eq_some', Prod.exists, exists_eq_right] at hs
    obtain ⟨r, hr⟩ := hs
    exact good_addEvent h hgood hop hr
  | delEvent fd event ok =>
    simp only [step, Option.map_eq_some', Prod.exists, exists_eq_right] at hs
    obtain ⟨r, hr⟩ := hs
    exact good_delEvent h hgood hr
  | cancelEvent fd event ok =>
    simp only [step, Option.map_eq_some', Prod.exists, exists_eq_right] at hs
    obtain ⟨r, hr⟩ := hs
    exact good_cancelEvent h hgood hr
  | cancelAll fd ok =>
    simp only [step, Option.map_eq_some', Prod.exists, exists_eq_right] at hs
    obtain ⟨r, hr⟩ := hs
    exact good_cancelAll h hgood hr
  | idleDispatch idx ready ok => exact good_idleDispatch h hgood hs

theorem good_of_reachable {tickleFd : Nat} {s : IOManager} (h : Reachable tickleFd s) :
    Good tickleFd s := by
  induction h with
  | init => exact good_init tickleFd
  | step s s1 op hreach hop hs ih => exact good_step (inv_of_reachable hreach) ih hop hs

/-- In a reachable state the context of every fd satisfies `PopOk`. -/
theorem popOk_of_reachable {tickleFd : Nat} {s : IOManager} (h : Reachable tickleFd s)
    (fd : Nat) : PopOk (ctxOf s fd) := by
  by_cases hlt : fd < s.m_fdContexts.length
  · exact (good_of_reachable h).1 fd _ (slot_ctxOf (inv_of_reachable h) hlt).1
  · rw [ctxOf_of_ge (Nat.le_of_not_lt hlt)]
    exact popOk_fresh _

theorem not_populated_empty : ¬ Populated ({} : EventContext) := by
  unfold Populated
  simp

/-- C22: in every state reachable from the constructor, for every fd and each
direction, the `EventContext` holds a callable or a coroutine if and only if
the direction is set in the fd's registered mask, and the `EventContext` of a
direction that is not registered is reset; so after every call that clears a
registered direction (`delEvent`, `cancelEvent`, `cancelAll`, the dispatch of
`idle`) its `EventContext` is reset. -/
theorem populated_iff_registered (tickleFd : Nat) (s : IOManager) (h : Reachable tickleFd s)
    (fd : Nat) (event : Event) :
    (Populated ((ctxOf s fd).getEventContext event) ↔ registered s fd event) ∧
    (¬ registered s fd event → (ctxOf s fd).getEventContext event = {}) ∧
    (∀ op s1, op.inRange → step s op = some s1 → registered s fd event →
      ¬ registered s1 fd event → (ctxOf s1 fd).getEventContext event = {}) := by
  have hp := popOk_of_reachable h fd event
  refine ⟨⟨?_, fun hr => hp.1 hr⟩, fun hn => hp.2 (not_not.mp hn), ?_⟩
  · intro hpop
    by_contra hn
    have h0 : (ctxOf s fd).events &&& event.toNat = 0 := not_not.mp hn
    rw [hp.2 h0] at hpop
    exact not_populated_empty hpop
  · intro op s1 hop hs _ hn
    exact (popOk_of_reachable (Reachable.step s s1 op h hop hs) fd event).2 (not_not.mp hn)

/-- C22 at `sampleReached`, fd 40 and `WRITE`, the direction left registered. -/
theorem populated_iff_registered_witness :
    Reachable 3 sampleReached ∧ registered sampleReached 40 .WRITE ∧
    ((Populated ((ctxOf sampleReached 40).getEventContext .WRITE)
        ↔ registered sampleReached 40 .WRITE) ∧
      (¬ registered sampleReached 40 .WRITE
        → (ctxOf sampleReached 40).getEventContext .WRITE = {}) ∧
      (∀ op s1, op.inRange → step sampleReached op = some s1 →
        registered sampleReached 40 .WRITE →
        ¬ registered s1 40 .WRITE → (ctxOf s1 40).getEventContext .WRITE = {})) :=
  ⟨sampleReached_reachable, by decide,
    populated_iff_registered 3 sampleReached sampleReached_reachable 40 .WRITE⟩

/-! ## The registered mask and the kernel's interest list -/

theorem andNot_ET {m : Nat} (h : ValidMask m) : andNot (EPOLLET ||| m) EPOLLET = m := by
  rcases h with h | h | h | h <;> subst h <;> decide

theorem validMask_ctxOf {tickleFd : Nat} {s : IOManager} (h : Reachable tickleFd s) (fd : Nat) :
    ValidMask (ctxOf s fd).events := by
  by_cases hlt : fd < s.m_fdContexts.length
  · exact (slot_ctxOf (inv_of_reachable h) hlt).2.2
  · rw [ctxOf_of_ge (Nat.le_of_not_lt hlt)]
    exact Or.inl rfl

/-- The state after the constructor is reachable, the kernel has the self-pipe's
read end subscribed for `EPOLLIN`, and the registered mask of that fd is
empty: at this fd the mask does not equal the kernel's subscription. -/
theorem selfpipe_subscribed_without_mask :
    Reachable 3 (IOManager.init 3) ∧
    subscribed (IOManager.init 3) 3 = EPOLLIN ∧
    (ctxOf (IOManager.init 3) 3).events = 0 ∧
    subscribed (IOManager.init 3) 3 ≠ (ctxOf (IOManager.init 3) 3).events :=
  ⟨Reachable.init, by decide, by decide, by decide⟩

/-! ## The `epoll_ctl` call each operation issues -/

theorem addEvent_calls {s s1 : IOManager} {fd : Nat} {event : Event} {cb cur : Option Nat}
    {curFiber : Nat} {ok : Bool} {r : Int} (h : Inv s) (hfd : fd * 3 / 2 < 2 ^ 31)
    (hr : addEvent s fd event cb cur curFiber ok = some (r, s1)) :
    s1.ctl_calls = s.ctl_calls ++
      (if registered s fd event then []
       else [{ op := if (ctxOf s fd).events ≠ 0 then EPOLL_CTL_MOD else EPOLL_CTL_ADD,
               fd := fd, events := EPOLLET ||| (ctxOf s fd).events ||| event.toNat }]) := by
  unfold addEvent at hr
  simp only [fdCtxAt_of_slot (slot_grown h hfd).1] at hr
  by_cases hbit : (ctxOf s fd).events &&& event.toNat ≠ 0
  · rw [if_pos hbit] at hr
    simp only [Option.some.injEq, Prod.mk.injEq] at hr
    rw [← hr.2, if_pos (show registered s fd event from hbit)]
    simp
  · rw [if_neg hbit] at hr
    rw [if_neg (show ¬ registered s fd event from hbit)]
    cases ok
    · simp only [epoll_ctl_fail, ne_eq, Int.reduceNeg, neg_eq_zero, one_ne_zero,
        not_false_eq_true, ↓reduceIte, Option.some.injEq, Prod.mk.injEq] at hr
      rw [← hr.2]
    · simp only [epoll_ctl_ok, ne_eq, not_true_eq_false, ↓reduceIte] at hr
      split at hr
      · simp at hr
      · simp only [Option.some.injEq, Prod.mk.injEq] at hr
        rw [← hr.2]

theorem delEvent_calls {s s1 : IOManager} {fd : Nat} {event : Event} {ok r : Bool} (h : Inv s)
    (hr : delEvent s fd event ok = some (r, s1)) :
    s1.ctl_calls = s.ctl_calls ++
      (if registered s fd event then
        [{ op := if andNot (ctxOf s fd).events event.toNat ≠ 0 then EPOLL_CTL_MOD
                 else EPOLL_CTL_DEL,
           fd := fd, events := EPOLLET ||| andNot (ctxOf s fd).events event.toNat }]
       else []) := by
  unfold delEvent at hr
  by_cases hlt : fd < s.m_fdContexts.length
  · rw [if_pos ((lookup_lt h fd).mpr hlt)] at hr
    simp only [fdCtxAt_of_slot (slot_ctxOf h hlt).1] at hr
    by_cases hz : (ctxOf s fd).events &&& event.toNat = 0
    · rw [if_pos hz] at hr
      simp only [Option.some.injEq, Prod.mk.injEq] at hr
      rw [← hr.2, if_neg (fun hh : registered s fd event => hh hz)]
      simp
    · rw [if_neg hz] at hr
      rw [if_pos (show registered s fd event from hz)]
      cases ok
      · simp only [epoll_ctl_fail, ne_eq, Int.reduceNeg, neg_eq_zero, one_ne_zero,
          not_false_eq_true, ↓reduceIte, Option.some.injEq, Prod.mk.injEq] at hr
        rw [← hr.2]
      · simp only [epoll_ctl_ok, ne_eq, not_true_eq_false, ↓reduceIte, Option.some.injEq,
          Prod.mk.injEq] at hr
        rw [← hr.2]
  · rw [if_neg (fun hh => hlt ((lookup_lt h fd).mp hh))] at hr
    simp only [Option.some.injEq, Prod.mk.injEq] at hr
    rw [← hr.2, if_neg (not_registered_of_ge (Nat.le_of_not_lt hlt) event)]
    simp

theorem cancelEvent_calls {s s1 : IOManager} {fd : Nat} {event : Event} {ok r : Bool}
    (h : Inv s) (hr : cancelEvent s fd event ok = some (r, s1)) :
    s1.ctl_calls = s.ctl_calls ++
      (if registered s fd event then
        [{ op := if andNot (ctxOf s fd).events event.toNat ≠ 0 then EPOLL_CTL_MOD
                 else EPOLL_CTL_DEL,
           fd := fd, events := EPOLLET ||| andNot (ctxOf s fd).events event.toNat }]
       else []) := by
  unfold cancelEvent at hr
  by_cases hlt : fd < s.m_fdContexts.length
  · rw [if_pos ((lookup_lt h fd).mpr hlt)] at hr
    simp only [fdCtxAt_of_slot (slot_ctxOf h hlt).1] at hr
    by_cases hz : (ctxOf s fd).events &&& event.toNat = 0
    · rw [if_pos hz] at hr
      simp only [Option.some.injEq, Prod.mk.injEq] at hr
      rw [← hr.2, if_neg (fun hh : registered s fd event => hh hz)]
      simp
    · rw [if_neg hz] at hr
      rw [if_pos (show registered s fd event from hz)]
      cases ok
      · simp only [epoll_ctl_fail, ne_eq, Int.reduceNeg, neg_eq_zero, one_ne_zero,
          not_false_eq_true, ↓reduceIte, Option.some.injEq, Prod.mk.injEq] at hr
        rw [← hr.2]
      · simp only [epoll_ctl_ok, ne_eq, not_true_eq_false, ↓reduceIte] at hr
        cases h1 : (ctxOf s fd).triggerEvent event with
        | none => simp [h1] at hr
        | some p =>
          simp only [h1, Option.some.injEq, Prod.mk.injEq] at hr
          rw [← hr.2]
  · rw [if_neg (fun hh => hlt ((lookup_lt h fd).mp hh))] at hr
    simp only [Option.some.injEq, Prod.mk.injEq] at hr
    rw [← hr.2, if_neg (not_registered_of_ge (Nat.le_of_not_lt hlt) event)]
    simp

theorem cancelAll_calls {s s1 : IOManager} {fd : Nat} {ok r : Bool}
    (h : Inv s) (hr : cancelAll s fd ok = some (r, s1)) :
    s1.ctl_calls = s.ctl_calls ++
      (if (ctxOf s fd).events ≠ 0 then [{ op := EPOLL_CTL_DEL, fd := fd, events := 0 }]
       else []) := by
  unfold cancelAll at hr
  by_cases hlt : fd < s.m_fdContexts.length
  · rw [if_pos ((lookup_lt h fd).mpr hlt)] at hr
    simp only [fdCtxAt_of_slot (slot_ctxOf h hlt).1] at hr
    by_cases hz : (ctxOf s fd).events = 0
    · rw [if_pos hz] at hr
      simp only [Option.some.injEq, Prod.mk.injEq] at hr
      rw [← hr.2, if_neg (not_not.mpr hz)]
      simp
    · rw [if_neg hz] at hr
      rw [if_pos hz]
      cases ok
      · simp only [epoll_ctl_fail, ne_eq, Int.reduceNeg, neg_eq_zero, one_ne_zero,
          not_false_eq_true, ↓reduceIte, Option.some.injEq, Prod.mk.injEq] at hr
        rw [← hr.2]
      · simp only [epoll_ctl_ok, ne_eq, not_true_eq_false, ↓reduceIte] at hr
        cases h1 : fireIf (ctxOf s fd).events .READ
            (ctxOf s fd, s.m_pendingEventCount, s.scheduled) with
        | none => simp [h1] at hr
        | some st1 =>
          simp only [h1] at hr
          cases h2 : fireIf st1.1.events .WRITE st1 with
          | none => simp [h2] at hr
          | some st2 =>
            simp only [h2] at hr
            split at hr
            · simp at hr
            · simp only [Option.some.injEq, Prod.mk.injEq] at hr
              rw [← hr.2]
  · rw [if_neg (fun hh => hlt ((lookup_lt h fd).mp hh))] at hr
    simp only [Option.some.injEq, Prod.mk.injEq] at hr
    rw [← hr.2, ctxOf_of_ge (Nat.le_of_not_lt hlt)]
    simp [NONE]

theorem idleDispatch_calls {s s1 : IOManager} {idx ready : Nat} {ok : Bool}
    (h : Inv s) (hr : idleDispatch s idx ready ok = some s1) :
    s1.ctl_calls = s.ctl_calls ++
      (if (ctxOf s idx).events &&& realEvents ready (ctxOf s idx).events ≠ 0 then
        [{ op := if andNot (ctxOf s idx).events (realEvents ready (ctxOf s idx).events) ≠ 0
                 then EPOLL_CTL_MOD else EPOLL_CTL_DEL,
           fd := idx,
           events := EPOLLET |||
             andNot (ctxOf s idx).events (realEvents ready (ctxOf s idx).events) }]
       else []) := by
  unfold idleDispatch at hr
  cases hx : fdCtxAt s.m_fdContexts idx with
  | none => simp [hx] at hr
  | some c =>
    have hc : s.m_fdContexts[idx]? = some (some c) := slot_of_fdCtxAt hx
    have hlt : idx < s.m_fdContexts.length := (List.getElem?_eq_some.mp hc).1
    obtain ⟨hslot, hfd0, hcm⟩ := slot_ctxOf h hlt
    have hcc : ctxOf s idx = c := ctxOf_of_slot hc
    rw [hcc] at hfd0 ⊢
    have hfdnat : c.fd.toNat = idx := by rw [hfd0]; rfl
    simp only [hx] at hr
    by_cases hnone : c.events &&& realEvents ready c.events = NONE
    · rw [if_pos hnone] at hr
      simp only [Option.some.injEq] at hr
      rw [← hr, if_neg (not_not.mpr (show c.events &&& realEvents ready c.events = 0 from hnone))]
      simp
    · rw [if_neg hnone] at hr
      rw [if_pos (show c.events &&& realEvents ready c.events ≠ 0 from hnone)]
      cases ok
      · simp only [epoll_ctl_fail, ne_eq, Int.reduceNeg, neg_eq_zero, one_ne_zero,
          not_false_eq_true, ↓reduceIte, Option.some.injEq] at hr
        rw [← hr, hfdnat]
      · simp only [epoll_ctl_ok, ne_eq, not_true_eq_false, ↓reduceIte] at hr
        cases h1 : fireIf (realEvents ready c.events) .READ
            (c, s.m_pendingEventCount, s.scheduled) with
        | none => simp [h1] at hr
        | some st1 =>
          simp only [h1] at hr
          cases h2 : fireIf (realEvents ready c.events) .WRITE st1 with
          | none => simp [h2] at hr
          | some st2 =>
            simp only [h2, Option.some.injEq] at hr
            rw [← hr, hfdnat]

theorem some_getD_of_isSome {o : Option Nat} (h : o.isSome = true) : o = some (o.getD 0) := by
  cases o with
  | none => simp at h
  | some v => rfl

theorem delEvent_returns (s : IOManager) (fd : Nat) (event : Event) (ok : Bool) (h : Inv s) :
    ∃ r s1, delEvent s fd event ok = some (r, s1) := by
  unfold delEvent
  by_cases hlt : fd < s.m_fdContexts.length
  · rw [if_pos ((lookup_lt h fd).mpr hlt)]
    simp only [fdCtxAt_of_slot (slot_ctxOf h hlt).1]
    by_cases hz : (ctxOf s fd).events &&& event.toNat = 0
    · rw [if_pos hz]
      exact ⟨_, _, rfl⟩
    · rw [if_neg hz]
      cases ok with
      | true =>
        simp only [epoll_ctl_ok, ne_eq, not_true_eq_false, ↓reduceIte]
        exact ⟨_, _, rfl⟩
      | false =>
        simp only [epoll_ctl_fail, ne_eq, Int.reduceNeg, neg_eq_zero, one_ne_zero,
          not_false_eq_true, ↓reduceIte]
        exact ⟨_, _, rfl⟩
  · rw [if_neg (fun hh => hlt ((lookup_lt h fd).mp hh))]
    exact ⟨_, _, rfl⟩

theorem cancelEvent_returns (s : IOManager) (fd : Nat) (event : Event) (ok : Bool) (h : Inv s)
    (hsch : ok = true → registered s fd event →
      ((ctxOf s fd).getEventContext event).scheduler.isSome = true) :
    ∃ r s1, cancelEvent s fd event ok = some (r, s1) := by
  by_cases hreg : registered s fd event
  · cases ok with
    | true =>
      obtain ⟨s1, e, _⟩ := (cancelEvent_spec s fd event h).1 _ hreg
        (some_getD_of_isSome (hsch rfl hreg))
      exact ⟨_, _, e⟩
    | false =>
      have hlt := lt_of_registered hreg
      have hreg1 : ¬ ((ctxOf s fd).events &&& event.toNat = 0) := hreg
      unfold cancelEvent
      rw [if_pos ((lookup_lt h fd).mpr hlt)]
      simp only [fdCtxAt_of_slot (slot_ctxOf h hlt).1]
      rw [if_neg hreg1]
      simp only [epoll_ctl_fail, ne_eq, Int.reduceNeg, neg_eq_zero, one_ne_zero,
        not_false_eq_true, ↓reduceIte]
      exact ⟨_, _, rfl⟩
  · exact ⟨_, _, (cancelEvent_spec s fd event h).2 (Or.inl hreg) ok⟩

theorem cancelAll_returns (s : IOManager) (fd : Nat) (ok : Bool) (h : Inv s)
    (hsch : ok = true → ∀ event, registered s fd event →
      ((ctxOf s fd).getEventContext event).scheduler.isSome = true) :
    ∃ r s1, cancelAll s fd ok = some (r, s1) := by
  by_cases hz : (ctxOf s fd).events = 0
  · exact ⟨_, _, (cancelAll_spec s fd 0 0 h (fun hr => absurd hr (by
      unfold registered; rw [hz]; decide)) (fun hr => absurd hr (by
      unfold registered; rw [hz]; decide))).2 hz ok⟩
  · cases ok with
    | true =>
      obtain ⟨s1, e, _⟩ := (cancelAll_spec s fd _ _ h
        (fun hr => some_getD_of_isSome (hsch rfl .READ hr))
        (fun hr => some_getD_of_isSome (hsch rfl .WRITE hr))).1 hz
      exact ⟨_, _, e⟩
    | false =>
      have hlt : fd < s.m_fdContexts.length := by
        by_contra hge
        exact hz (by rw [ctxOf_of_ge (Nat.le_of_not_lt hge)]; rfl)
      unfold cancelAll
      rw [if_pos ((lookup_lt h fd).mpr hlt)]
      simp only [fdCtxAt_of_slot (slot_ctxOf h hlt).1]
      rw [if_neg hz]
      simp only [epoll_ctl_fail, ne_eq, Int.reduceNeg, neg_eq_zero, one_ne_zero,
        not_false_eq_true, ↓reduceIte]
      exact ⟨_, _, rfl⟩

theorem idleDispatch_returns (s : IOManager) (idx ready : Nat) (ok : Bool) (h : Inv s)
    (hlt : idx < s.m_fdContexts.length)
    (hsch : ok = true →
      andNot (realEvents ready (ctxOf s idx).events) (ctxOf s idx).events = 0 ∧
      ∀ event, registered s idx event →
        ((ctxOf s idx).getEventContext event).scheduler.isSome = true) :
    ∃ s1, idleDispatch s idx ready ok = some s1 := by
  by_cases hne : (ctxOf s idx).events &&& realEvents ready (ctxOf s idx).events = 0
  · unfold idleDispatch
    simp only [fdCtxAt_of_slot (slot_ctxOf h hlt).1]
    rw [if_pos (show _ = NONE from hne)]
    exact ⟨_, rfl⟩
  · cases ok with
    | true =>
      obtain ⟨hsub, hs⟩ := hsch rfl
      obtain ⟨s1, e, _⟩ := idleDispatch_spec s idx ready _ _ h hlt hsub hne
        (fun hr => some_getD_of_isSome (hs .READ hr))
        (fun hr => some_getD_of_isSome (hs .WRITE hr))
      exact ⟨_, e⟩
    | false =>
      unfold idleDispatch
      simp only [fdCtxAt_of_slot (slot_ctxOf h hlt).1]
      rw [if_neg (show ¬ (_ = NONE) from hne)]
      simp only [epoll_ctl_fail, ne_eq, Int.reduceNeg, neg_eq_zero, one_ne_zero,
        not_false_eq_true, ↓reduceIte]
      exact ⟨_, rfl⟩

theorem kernelOf_eq_none (m : Nat) : kernelOf m = none ↔ m = 0 := by
  unfold kernelOf
  by_cases hz : m = 0
  · simp [hz]
  · simp [hz]

/-- The constructor's state at the read end of the self-pipe: the kernel has it
subscribed for `EPOLLIN`, its registered mask is empty. -/
theorem selfpipe_init (tickleFd : Nat) :
    subscribed (IOManager.init tickleFd) tickleFd = EPOLLIN ∧
    (ctxOf (IOManager.init tickleFd) tickleFd).events = 0 := by
  constructor
  · simp only [subscribed, IOManager.init, epoll_ctl, if_true]
    decide
  · by_cases hlt : tickleFd < (IOManager.init tickleFd).m_fdContexts.length
    · obtain ⟨hslot, _, _⟩ := slot_ctxOf (inv_init tickleFd) hlt
      have htbl : (IOManager.init tickleFd).m_fdContexts
          = ([] : List (Option FdContext)) ++ (List.range (32 - 0)).map
              fun k => some ({ fd := ((0 + k : Nat) : Int) } : FdContext) :=
        contextResize_grow (fun i hi => absurd hi (Nat.not_lt_zero _)) (Nat.zero_le _)
      rw [htbl] at hslot
      simp only [List.nil_append, Nat.sub_zero, List.getElem?_map, Option.map_eq_some'] at hslot
      obtain ⟨k, _, hc⟩ := hslot
      simp only [Option.some.injEq] at hc
      rw [← hc]
      rfl
    · rw [ctxOf_of_ge (Nat.le_of_not_lt hlt)]
      rfl

/-- C23 (amended): in every state reachable from the constructor, for every fd
other than the read end of the self-pipe, the registered mask equals the
directions the kernel has the fd subscribed for, the kernel's map being updated
by each successful `epoll_ctl` and unchanged by a failed one: the interest list
holds `EPOLLET | mask` for a non-empty mask and no entry for the empty mask,
and every call keeps this, whatever its `epoll_ctl` answers. The calls that
return issue these `epoll_ctl` calls on the fd: `addEvent` none when the
direction is already registered, else `ADD` when the mask was empty and `MOD`
otherwise, with `EPOLLET | old | new`; `delEvent` and `cancelEvent` none when
the direction is not registered, else `MOD` with the remaining direction or
`DEL` when none remains; `cancelAll` none when the mask is empty, else `DEL`;
the dispatch of `idle` none when no ready direction is registered, else `MOD`
with the directions that are not ready or `DEL` when none remains. So `ADD` is
issued exactly when the kernel holds no subscription for the fd, `MOD` and
`DEL` only when it holds one. `addEvent` and `delEvent` always return; the
others return when the kernel call fails or every registered direction has a
recorded scheduler (and, for the dispatch, the ready directions are registered
ones). The read end of the self-pipe is the exception: the constructor leaves it
subscribed for `EPOLLIN` with an empty mask. -/
theorem mask_mirrors_kernel (tickleFd : Nat) (s : IOManager) (h : Reachable tickleFd s)
    (fd : Nat) (hfd : fd ≠ tickleFd) :
    subscribed s fd = (ctxOf s fd).events ∧
    s.interest fd = kernelOf (ctxOf s fd).events ∧
    (∀ op s1, op.inRange → step s op = some s1 →
      subscribed s1 fd = (ctxOf s1 fd).events) ∧
    (s.interest fd = none ↔ (ctxOf s fd).events = 0) ∧
    (∀ event cb cur curFiber ok, fd * 3 / 2 < 2 ^ 31 →
      ∃ r s1, addEvent s fd event cb cur curFiber ok = some (r, s1) ∧
        s1.ctl_calls = s.ctl_calls ++
          (if registered s fd event then []
           else [{ op := if (ctxOf s fd).events ≠ 0 then EPOLL_CTL_MOD else EPOLL_CTL_ADD,
                   fd := fd, events := EPOLLET ||| (ctxOf s fd).events ||| event.toNat }])) ∧
    (∀ event ok, ∃ r s1, delEvent s fd event ok = some (r, s1) ∧
      s1.ctl_calls = s.ctl_calls ++
        (if registered s fd event then
          [{ op := if andNot (ctxOf s fd).events event.toNat ≠ 0 then EPOLL_CTL_MOD
                   else EPOLL_CTL_DEL,
             fd := fd, events := EPOLLET ||| andNot (ctxOf s fd).events event.toNat }]
         else [])) ∧
    (∀ event ok,
      (ok = true → registered s fd event →
        ((ctxOf s fd).getEventContext event).scheduler.isSome = true) →
      ∃ r s1, cancelEvent s fd event ok = some (r, s1) ∧
        s1.ctl_calls = s.ctl_calls ++
          (if registered s fd event then
            [{ op := if andNot (ctxOf s fd).events event.toNat ≠ 0 then EPOLL_CTL_MOD
                     else EPOLL_CTL_DEL,
               fd := fd, events := EPOLLET ||| andNot (ctxOf s fd).events event.toNat }]
           else [])) ∧
    (∀ ok,
      (ok = true → ∀ event, registered s fd event →
        ((ctxOf s fd).getEventContext event).scheduler.isSome = true) →
      ∃ r s1, cancelAll s fd ok = some (r, s1) ∧
        s1.ctl_calls = s.ctl_calls ++
          (if (ctxOf s fd).events ≠ 0 then [{ op := EPOLL_CTL_DEL, fd := fd, events := 0 }]
           else [])) ∧
    (∀ ready ok, fd < s.m_fdContexts.length →
      (ok = true →
        andNot (realEvents ready (ctxOf s fd).events) (ctxOf s fd).events = 0 ∧
        ∀ event, registered s fd event →
          ((ctxOf s fd).getEventContext event).scheduler.isSome = true) →
      ∃ s1, idleDispatch s fd ready ok = some s1 ∧
        s1.ctl_calls = s.ctl_calls ++
          (if (ctxOf s fd).events &&& realEvents ready (ctxOf s fd).events ≠ 0 then
            [{ op := if andNot (ctxOf s fd).events (realEvents ready (ctxOf s fd).events) ≠ 0
                     then EPOLL_CTL_MOD else EPOLL_CTL_DEL,
               fd := fd,
               events := EPOLLET |||
                 andNot (ctxOf s fd).events (realEvents ready (ctxOf s fd).events) }]
           else [])) ∧
    (subscribed (IOManager.init tickleFd) tickleFd = EPOLLIN ∧
      (ctxOf (IOManager.init tickleFd) tickleFd).events = 0) := by
  have hinv := inv_of_reachable h
  have hsub : ∀ s0 : IOManager, Reachable tickleFd s0 →
      subscribed s0 fd = (ctxOf s0 fd).events := by
    intro s0 h0
    have hk := (good_of_reachable h0).2 fd hfd
    have hv := validMask_ctxOf h0 fd
    unfold subscribed
    rw [hk]
    unfold kernelOf
    by_cases hz : (ctxOf s0 fd).events = 0
    · rw [if_pos hz, hz]
    · rw [if_neg hz]
      exact andNot_ET hv
  have hk := (good_of_reachable h).2 fd hfd
  refine ⟨hsub s h, hk, fun op s1 hop hs => hsub s1 (Reachable.step s s1 op h hop hs),
    ?_, ?_, ?_, ?_, ?_, ?_, selfpipe_init tickleFd⟩
  · rw [hk]
    exact kernelOf_eq_none _
  · intro event cb cur curFiber ok hr
    obtain ⟨r, s1, e, _⟩ := addEvent_spec s fd event cb cur curFiber ok hinv hr
      (fun hn => (popOk_of_reachable h fd event).2 (not_not.mp hn))
    exact ⟨r, s1, e, addEvent_calls hinv hr e⟩
  · intro event ok
    obtain ⟨r, s1, e⟩ := delEvent_returns s fd event ok hinv
    exact ⟨r, s1, e, delEvent_calls hinv e⟩
  · intro event ok hs
    obtain ⟨r, s1, e⟩ := cancelEvent_returns s fd event ok hinv hs
    exact ⟨r, s1, e, cancelEvent_calls hinv e⟩
  · intro ok hs
    obtain ⟨r, s1, e⟩ := cancelAll_returns s fd ok hinv hs
    exact ⟨r, s1, e, cancelAll_calls hinv e⟩
  · intro ready ok hlt hs
    obtain ⟨s1, e⟩ := idleDispatch_returns s fd ready ok hinv hlt hs
    exact ⟨s1, e, idleDispatch_calls hinv e⟩

/-- C23 (amended) at `sampleReached` and fd 40, whose mask is `WRITE`: the
mirror, and the calls issued by `addEvent(40, READ)` (a `MOD` to both
directions) and by `cancelEvent(40, WRITE)` (a `DEL`). -/
theorem mask_mirrors_kernel_witness :
    Reachable 3 sampleReached ∧ (40 : Nat) ≠ 3 ∧ (ctxOf sampleReached 40).events = 4 ∧
    subscribed sampleReached 40 = (ctxOf sampleReached 40).events ∧
    sampleReached.interest 40 = kernelOf (ctxOf sampleReached 40).events ∧
    (sampleReached.interest 40 = none ↔ (ctxOf sampleReached 40).events = 0) ∧
    (∃ r s1, addEvent sampleReached 40 .READ (some 7) (some 1) 9 true = some (r, s1) ∧
      s1.ctl_calls = sampleReached.ctl_calls ++
        [{ op := EPOLL_CTL_MOD, fd := 40, events := EPOLLET ||| 4 ||| 1 }]) ∧
    (∃ r s1, cancelEvent sampleReached 40 .WRITE true = some (r, s1) ∧
      s1.ctl_calls = sampleReached.ctl_calls ++
        [{ op := EPOLL_CTL_DEL, fd := 40, events := EPOLLET ||| 0 }]) := by
  have hm := mask_mirrors_kernel 3 sampleReached sampleReached_reachable 40 (by decide)
  obtain ⟨r, s1, e, hc⟩ := hm.2.2.2.2.1 .READ (some 7) (some 1) 9 true (by decide)
  obtain ⟨r2, s2, e2, hc2⟩ := hm.2.2.2.2.2.2.1 .WRITE true (fun _ _ => by decide)
  refine ⟨sampleReached_reachable, by decide, by decide, hm.1, hm.2.1, hm.2.2.2.1,
    ⟨r, s1, e, ?_⟩, ⟨r2, s2, e2, ?_⟩⟩
  · rw [hc, if_neg (by decide), (by decide : (ctxOf sampleReached 40).events = 4)]
    rfl
  · rw [hc2, if_pos (by decide), (by decide : (ctxOf sampleReached 40).events = 4)]
    rfl

/-! ## Lookups stay in bounds -/

/-- The size of `m_datas` after a creating `get`: unchanged when `fd` is below
the size, `fd * 3 / 2` otherwise; `fd` is below it either way. -/
theorem get_true_len (m : FdManager) (hinv : FdInv m) {fd : Int} (h0 : 0 ≤ fd)
    (h31 : fd < (2 : Int) ^ 31) (p : Probe) {r : Option Nat} {m1 : FdManager}
    (hget : m.get fd true p = some (r, m1)) :
    m1.m_datas.length = (if toSizeT fd < m.m_datas.length then m.m_datas.length
      else fd.toNat * 3 / 2) ∧
    toSizeT fd < m1.m_datas.length ∧
    (m.m_datas.length ≤ toSizeT fd → fd.toNat < fd.toNat * 3 / 2) := by
  have hne : fd ≠ -1 := by omega
  have hsz : toSizeT fd = fd.toNat := toSizeT_of_nonneg h0 h31
  have h64 : 64 ≤ m.m_datas.length := hinv
  have hgrow : m.m_datas.length ≤ toSizeT fd → fd.toNat < fd.toNat * 3 / 2 := by
    intro hle
    rw [hsz] at hle
    omega
  unfold FdManager.get at hget
  rw [if_neg hne, if_neg (fun h => Bool.noConfusion h.2)] at hget
  by_cases hA : toSizeT fd < m.m_datas.length ∧
      ((m.m_datas.getD (toSizeT fd) none).isSome ∨ true = false)
  · rw [if_pos hA] at hget
    cases hget
    rw [if_pos hA.1]
    exact ⟨rfl, hA.1, hgrow⟩
  · rw [if_neg hA] at hget
    by_cases hle : m.m_datas.length ≤ toSizeT fd
    · have hlen : m.m_datas.length ≤ fd.toNat * 3 / 2 := by
        rw [hsz] at hle
        omega
      have hin : toSizeT fd < (resize m.m_datas (fd.toNat * 3 / 2)).length := by
        rw [length_resize hlen, hsz]
        exact hgrow hle
      simp only [if_pos hle, if_neg (not_lt.mpr h0), if_pos hin, Option.some.injEq,
        Prod.mk.injEq] at hget
      rw [← hget.2, if_neg (not_lt.mpr hle)]
      refine ⟨?_, ?_, hgrow⟩
      · show ((resize m.m_datas (fd.toNat * 3 / 2)).set _ _).length = _
        rw [List.length_set, length_resize hlen]
      · show toSizeT fd < ((resize m.m_datas (fd.toNat * 3 / 2)).set _ _).length
        rw [List.length_set]
        exact hin
    · have hlt : toSizeT fd < m.m_datas.length := not_le.mp hle
      simp only [if_neg hle, if_pos hlt, Option.some.injEq, Prod.mk.injEq] at hget
      rw [← hget.2, if_pos hlt]
      refine ⟨?_, ?_, hgrow⟩
      · show (m.m_datas.set _ _).length = _
        rw [List.length_set]
      · show toSizeT fd < (m.m_datas.set _ _).length
        rw [List.length_set]
        exact hlt

/-- C30: the tables start with 32 and 64 entries. In every reachable state of
the I/O manager, for every fd whose grown size `fd * 3 / 2` fits an `int`, the
table `addEvent` works on (grown to `fd * 3 / 2 > fd` entries when `fd` is not
below the size) has `fd` in range, keeps every existing entry, holds in every
slot `i` a context with `fd = i`, and `addEvent` returns. After every sequence
of calls on the fd table, `get(fd, true)` for an `int` `fd ≥ 0` returns a
record from a table that has `fd` in range (grown to `fd * 3 / 2 > fd` entries
when needed) and keeps the record of every other fd. -/
theorem table_lookups_in_bounds (tickleFd : Nat) (s : IOManager) (hs : Reachable tickleFd s)
    (fd : Nat) (hfd : fd * 3 / 2 < 2 ^ 31) (ops : List FdOp) (hops : ∀ op ∈ ops, op.InRange)
    (fdi : Int) (h0 : 0 ≤ fdi) (h31 : fdi < (2 : Int) ^ 31) (p : Probe) :
    ((IOManager.init tickleFd).m_fdContexts.length = 32 ∧ FdManager.init.m_datas.length = 64) ∧
    (fd < (grown s fd).length ∧
      (s.m_fdContexts.length ≤ fd → (grown s fd).length = fd * 3 / 2 ∧ fd < fd * 3 / 2) ∧
      (fd < s.m_fdContexts.length → grown s fd = s.m_fdContexts) ∧
      (∀ i, i < s.m_fdContexts.length → (grown s fd)[i]? = s.m_fdContexts[i]?) ∧
      (∀ i, i < (grown s fd).length →
        ∃ c, (grown s fd)[i]? = some (some c) ∧ c.fd = (i : Int)) ∧
      (∀ event cb cur curFiber ok,
        ∃ r s1, addEvent s fd event cb cur curFiber ok = some (r, s1))) ∧
    (∃ m, fdRun FdManager.init ops = some m ∧
      ∃ ptr m1, m.get fdi true p = some (some ptr, m1) ∧
        toSizeT fdi < m1.m_datas.length ∧
        (m.m_datas.length ≤ toSizeT fdi →
          m1.m_datas.length = fdi.toNat * 3 / 2 ∧ fdi.toNat < fdi.toNat * 3 / 2) ∧
        (toSizeT fdi < m.m_datas.length → m1.m_datas.length = m.m_datas.length) ∧
        (∀ fd1, toSizeT fd1 ≠ toSizeT fdi → m1.lookup fd1 = m.lookup fd1)) := by
  have hinv := inv_of_reachable hs
  obtain ⟨hg, hlt⟩ := inv_grown hinv hfd { s with m_fdContexts := grown s fd } rfl rfl
  refine ⟨⟨?_, ?_⟩, ⟨hlt, ?_, fun h => grown_of_lt hinv h,
    fun i hi => getElem?_grown_old hinv fd hi, ?_, ?_⟩, ?_⟩
  · show (contextResize [] 32).length = 32
    exact length_contextResize _ _
  · simp [FdManager.init]
  · intro hge
    have hlen := length_grown hinv fd
    rw [if_neg (Nat.not_lt.mpr hge)] at hlen
    refine ⟨hlen, ?_⟩
    have h2 := hinv.1
    omega
  · intro i hi
    obtain ⟨c, hc, hcfd, _⟩ := slot_of_inv hg hi
    exact ⟨c, hc, hcfd⟩
  · intro event cb cur curFiber ok
    obtain ⟨r, s1, hadd, _⟩ := addEvent_spec s fd event cb cur curFiber ok hinv hfd
      (fun hn => (popOk_of_reachable hs fd event).2 (not_not.mp hn))
    exact ⟨r, s1, hadd⟩
  · obtain ⟨m, hrun, hminv⟩ := fdRun_total FdManager.init fdInv_init ops hops
    obtain ⟨ptr, m1, hget, _, _, _, _, hframe, _⟩ := get_true_spec m hminv h0 h31 p
    obtain ⟨hlen, hin, hgrow⟩ := get_true_len m hminv h0 h31 p hget
    refine ⟨m, hrun, ptr, m1, hget, hin, ?_, ?_, hframe⟩
    · intro hle
      rw [if_neg (not_lt.mpr hle)] at hlen
      exact ⟨hlen, hgrow hle⟩
    · intro hl
      rw [if_pos hl] at hlen
      exact hlen

/-- C30 at `sampleReached` (60 slots) with fd 70, and at the fd table after
`sampleFdOps` (105 slots) with fd 100. -/
theorem table_lookups_in_bounds_witness :
    Reachable 3 sampleReached ∧ 70 * 3 / 2 < 2 ^ 31 ∧ (∀ op ∈ sampleFdOps, op.InRange) ∧
    sampleReached.m_fdContexts.length = 60 ∧
    (
    ((IOManager.init 3).m_fdContexts.length = 32 ∧ FdManager.init.m_datas.length = 64) ∧
    (70 < (grown sampleReached 70).length ∧
      (sampleReached.m_fdContexts.length ≤ 70 → (grown sampleReached 70).length = 70 * 3 / 2 ∧ 70 < 70 * 3 / 2) ∧
      (70 < sampleReached.m_fdContexts.length → grown sampleReached 70 = sampleReached.m_fdContexts) ∧
      (∀ i, i < sampleReached.m_fdContexts.length → (grown sampleReached 70)[i]? = sampleReached.m_fdContexts[i]?) ∧
      (∀ i, i < (grown sampleReached 70).length →
        ∃ c, (grown sampleReached 70)[i]? = some (some c) ∧ c.fd = (i : Int)) ∧
      (∀ event cb cur curFiber ok,
        ∃ r s1, addEvent sampleReached 70 event cb cur curFiber ok = some (r, s1))) ∧
    (∃ m, fdRun FdManager.init sampleFdOps = some m ∧
      ∃ ptr m1, m.get (100 : Int) true {} = some (some ptr, m1) ∧
        toSizeT (100 : Int) < m1.m_datas.length ∧
        (m.m_datas.length ≤ toSizeT (100 : Int) →
          m1.m_datas.length = (100 : Int).toNat * 3 / 2 ∧ (100 : Int).toNat < (100 : Int).toNat * 3 / 2) ∧
        (toSizeT (100 : Int) < m.m_datas.length → m1.m_datas.length = m.m_datas.length) ∧
        (∀ fd1, toSizeT fd1 ≠ toSizeT (100 : Int) → m1.lookup fd1 = m.lookup fd1))) :=
  ⟨sampleReached_reachable, by decide, by decide, by decide,
    table_lookups_in_bounds 3 sampleReached sampleReached_reachable 70 (by decide) sampleFdOps
      (by decide) 100 (by decide) (by decide) {}⟩

end corlib
